import Mathlib

/-!
# Staged move picker of godwhale_child (`source/move_picker.cpp`)

A shallow embedding of the move picker: the scratch buffer `moves[]` is a memory
`Nat → ExtMove`, the pointers `cur`, `endMoves`, `endBadCaptures` are indices into it
(`moves` itself is index 0), and the `switch` with fall-through of `next_move` is a chain
of functions, one per `case` label, each ending in a call of the next label.

The position, the move generators, the history tables and the constants of `types.h`
are collaborators that the two source files only use; they are fields of `Position` and
`Env`, so every theorem holds for all of them.

The order `RootMove::operator<` of `source/search.h` is embedded as `RootMove.lt`.

`next_move` is the driver without the wrapper of the MUST_CAPTURE_SHOGI_ENGINE build.
A constructor takes the object before construction as `raw`, because the constructors
leave some members uninitialised (the quiescence constructor in recapture mode leaves
`ttMove` so).
-/

namespace MovePick

/-! ## Data model -/

/-- A move is identified by its encoding; 0 is MOVE_NONE. -/
abbrev Move := Nat
abbrev Square := Nat
abbrev Piece := Nat
abbrev Color := Nat
/-- The scores: `Value` is an enum over `int`. Sums of scores are sums of integers; the
tables the picker reads hold values far from the ends of the 32-bit range. -/
abbrev Value := Int
abbrev Depth := Int

/-- The sentinel "no move". `ttm && ...` in the constructors tests a move against it. -/
abbrev MOVE_NONE : Move := 0

/-- Modelled from the spec: the declaration of `ExtMove` is in a header that is not part
of the sources. The spec describes it as "a Move paired with a signed heuristic value;
mutable, reordered in place". -/
structure ExtMove where
  move : Move
  value : Value
deriving DecidableEq, Repr, Inhabited

/-- Modelled from the spec: `operator<` on `ExtMove`, used by `pick_best` and
`partial_insertion_sort`, orders scored moves by their heuristic value ("swaps the
maximum-scored remaining element", "descending score order"). -/
def ExtMove.lt (a b : ExtMove) : Bool := decide (a.value < b.value)

/-- The scratch buffer `ExtMove moves[MAX_MOVES]`, as a memory indexed from `moves`. -/
abbrev Buffer := Nat → ExtMove

/-- The move-generation categories that `next_move` asks the generator for. -/
inductive MOVE_GEN_TYPE where
  | CAPTURES_PRO_PLUS
  | NON_CAPTURES_PRO_MINUS
  | EVASIONS
  | QUIET_CHECKS
  | RECAPTURES
deriving DecidableEq, Repr

/-- Global constants, tables and move decoders of the engine that the picker reads and
whose definitions are outside the sources. -/
structure Env where
  ONE_PLY : Int
  DEPTH_QS_NO_CHECKS : Depth
  DEPTH_QS_RECAPTURES : Depth
  CapturePieceValue : Piece → Value
  move_from : Move → Square
  to_sq : Move → Square
  from_to : Move → Nat
  type_of : Piece → Piece

/-- The services of `Position` and of `generateMoves<T>` that the picker calls.
`pseudo_legal_s` is `pseudo_legal_s<false>`; each generator field is the batch that
`generateMoves<T>(pos, ...)` writes for this position, in the order it writes it. -/
structure Position where
  in_check : Bool
  side_to_move : Color
  pseudo_legal : Move → Bool
  pseudo_legal_s : Move → Bool
  capture : Move → Bool
  capture_or_pawn_promotion : Move → Bool
  pawn_promotion : Move → Bool
  see_ge : Move → Value → Bool
  piece_on : Square → Piece
  moved_piece_before : Move → Piece
  moved_piece_after : Move → Piece
  genCAPTURES_PRO_PLUS : List Move
  genNON_CAPTURES_PRO_MINUS : List Move
  genEVASIONS : List Move
  genQUIET_CHECKS : List Move
  genRECAPTURES : Square → List Move

/-- The batch of one category; `recapSq` is only used by `RECAPTURES`. -/
def Position.generate (p : Position) (recapSq : Square) : MOVE_GEN_TYPE → List Move
  | .CAPTURES_PRO_PLUS => p.genCAPTURES_PRO_PLUS
  | .NON_CAPTURES_PRO_MINUS => p.genNON_CAPTURES_PRO_MINUS
  | .EVASIONS => p.genEVASIONS
  | .QUIET_CHECKS => p.genQUIET_CHECKS
  | .RECAPTURES => p.genRECAPTURES recapSq

/-! ## LVA -/

/-- Source: `LVATable[PIECE_WHITE]`, 16 entries. -/
def LVATable : List Value :=
  [0, 1, 2, 3, 4, 7, 8, 6, 10000, 5, 5, 5, 5, 9, 10, 11]

/-- Source: `inline Value LVA(const Piece pt) { return LVATable[pt]; }` -/
def LVA (pt : Piece) : Value := LVATable.getD pt 0

/-! ## Stages -/

abbrev MAIN_SEARCH : Nat := 0
abbrev CAPTURES_INIT : Nat := 1
abbrev GOOD_CAPTURES : Nat := 2
abbrev KILLER0 : Nat := 3
abbrev KILLER1 : Nat := 4
abbrev COUNTERMOVE : Nat := 5
abbrev QUIET_INIT : Nat := 6
abbrev QUIET : Nat := 7
abbrev BAD_CAPTURES : Nat := 8
abbrev EVASION : Nat := 9
abbrev EVASIONS_INIT : Nat := 10
abbrev ALL_EVASIONS : Nat := 11
abbrev PROBCUT : Nat := 12
abbrev PROBCUT_INIT : Nat := 13
abbrev PROBCUT_CAPTURES : Nat := 14
abbrev QSEARCH_WITH_CHECKS : Nat := 15
abbrev QCAPTURES_1_INIT : Nat := 16
abbrev QCAPTURES_1 : Nat := 17
abbrev QCHECKS : Nat := 18
abbrev QSEARCH_NO_CHECKS : Nat := 19
abbrev QCAPTURES_2_INIT : Nat := 20
abbrev QCAPTURES_2 : Nat := 21
abbrev QSEARCH_RECAPTURES : Nat := 22
abbrev QRECAPTURES : Nat := 23

/-! ## partial insertion sort and pick_best -/

/-- The inner loop of `partial_insertion_sort` and the store after it:
`for (q = sortedEnd; q != begin && *(q - 1) < tmp; --q) *q = *(q - 1); *q = tmp;`
The third argument is `q`. (`q = 0` with `begin ≠ 0` cannot occur: `q ≥ begin`.) -/
def insertLoop (begin : Nat) (tmp : ExtMove) : Nat → Buffer → Buffer
  | 0, buf => Function.update buf 0 tmp
  | q + 1, buf =>
    if q + 1 != begin && (buf q).lt tmp then
      insertLoop begin tmp q (Function.update buf (q + 1) (buf q))
    else
      Function.update buf (q + 1) tmp

/-- The outer loop of `partial_insertion_sort` from the state `(sortedEnd, p)`;
the first argument bounds the number of iterations left (`end - p`). -/
def sortLoop (begin end_ : Nat) (limit : Int) : Nat → Nat → Nat → Buffer → Buffer
  | 0, _, _, buf => buf
  | n + 1, sortedEnd, p, buf =>
    if p < end_ then
      if limit ≤ (buf p).value then
        let tmp := buf p
        let buf1 := Function.update buf p (buf (sortedEnd + 1))
        sortLoop begin end_ limit n (sortedEnd + 1) (p + 1)
          (insertLoop begin tmp (sortedEnd + 1) buf1)
      else
        sortLoop begin end_ limit n sortedEnd (p + 1) buf
    else buf

/-- Source: `void partial_insertion_sort(ExtMove* begin, ExtMove* end, int limit)` -/
def partial_insertion_sort (buf : Buffer) (begin end_ : Nat) (limit : Int) : Buffer :=
  sortLoop begin end_ limit (end_ - (begin + 1)) begin (begin + 1) buf

/-- The loop of `std::max_element`: `for (; first != last; ++first) if (*largest < *first)
largest = first;` with `last - first` iterations left. -/
def max_elementLoop (buf : Buffer) : Nat → Nat → Nat → Nat
  | 0, largest, _ => largest
  | n + 1, largest, first =>
    max_elementLoop buf n (if (buf largest).lt (buf first) then first else largest) (first + 1)

/-- Source: `std::max_element(first, last)`: the first greatest element of the range. -/
def max_element (buf : Buffer) (first last : Nat) : Nat :=
  if first = last then last else max_elementLoop buf (last - (first + 1)) first (first + 1)

/-- Source: `std::swap(*i, *j)` -/
def swap (buf : Buffer) (i j : Nat) : Buffer :=
  Function.update (Function.update buf i (buf j)) j (buf i)

/-- Source: `Move pick_best(ExtMove* begin, ExtMove* end)`: the move returned and the buffer. -/
def pick_best (buf : Buffer) (begin end_ : Nat) : Move × Buffer :=
  let buf1 := swap buf begin (max_element buf begin end_)
  ((buf1 begin).move, buf1)

/-- The range `[b, e)` of the buffer as a list. -/
def slice (buf : Buffer) (b e : Nat) : List ExtMove := (List.range' b (e - b)).map buf

/-! ## The picker -/

/-- The members of `MovePicker`. `generated` is not a member of the class: it logs the
categories handed to `generateMoves`, in order, so that theorems can speak about which
generators ran. -/
structure MovePicker where
  env : Env
  pos : Position
  mainHistory : Nat → Color → Value
  contHistory : Nat → Square → Piece → Value
  ttMove : Move
  countermove : Move
  killers0 : Move
  killers1 : Move
  depth : Depth
  threshold : Value
  recaptureSquare : Square
  stage : Nat
  moves : Buffer
  cur : Nat
  endMoves : Nat
  endBadCaptures : Nat
  generated : List MOVE_GEN_TYPE

/-- Source: `killers[i]` for the index computed in the killer phase. -/
def MovePicker.killers (mp : MovePicker) (i : Int) : Move :=
  if i = 0 then mp.killers0 else if i = 1 then mp.killers1 else MOVE_NONE

/-- The normal-search constructor. `raw` is the object before construction: members
that the constructor does not initialise keep the value they have there. -/
def MovePicker.normal (env : Env) (raw : MovePicker) (p : Position) (ttm : Move) (d : Depth)
    (mh : Nat → Color → Value) (ch : Nat → Square → Piece → Value) (cm : Move)
    (killers_p0 killers_p1 : Move) : MovePicker :=
  let ttMove := if ttm != MOVE_NONE && p.pseudo_legal_s ttm then ttm else MOVE_NONE
  { raw with
    env := env, pos := p, mainHistory := mh, contHistory := ch, countermove := cm,
    killers0 := killers_p0, killers1 := killers_p1, depth := d,
    ttMove := ttMove,
    stage := (if p.in_check then EVASION else MAIN_SEARCH)
              + (if ttMove == MOVE_NONE then 1 else 0),
    generated := [] }

/-- The two statements that end the constructors: the validation of the hash move and
`stage += (ttMove == MOVE_NONE)`. -/
def MovePicker.withHashMove (mp : MovePicker) (ttm : Move) : MovePicker :=
  let ttMove := if ttm != MOVE_NONE && mp.pos.pseudo_legal_s ttm then ttm else MOVE_NONE
  { mp with ttMove := ttMove, stage := mp.stage + (if ttMove == MOVE_NONE then 1 else 0) }

/-- The quiescence-search constructor. In the recapture branch it returns before the
hash move is looked at, so `ttMove` keeps the value of `raw`. -/
def MovePicker.quiescence (env : Env) (raw : MovePicker) (p : Position) (ttm : Move)
    (d : Depth) (mh : Nat → Color → Value) (recapSq : Square) : MovePicker :=
  let mp := { raw with env := env, pos := p, mainHistory := mh, generated := [] }
  if p.in_check then
    MovePicker.withHashMove { mp with stage := EVASION } ttm
  else if d > env.DEPTH_QS_NO_CHECKS then
    MovePicker.withHashMove { mp with stage := QSEARCH_WITH_CHECKS } ttm
  else if d > env.DEPTH_QS_RECAPTURES then
    MovePicker.withHashMove { mp with stage := QSEARCH_NO_CHECKS } ttm
  else
    { mp with stage := QSEARCH_RECAPTURES, recaptureSquare := recapSq }

/-- The ProbCut constructor. -/
def MovePicker.probcut (env : Env) (raw : MovePicker) (p : Position) (ttm : Move)
    (th : Value) : MovePicker :=
  let ttMove :=
    if ttm != MOVE_NONE && p.pseudo_legal_s ttm && p.capture ttm && p.see_ge ttm th
    then ttm else MOVE_NONE
  { raw with
    env := env, pos := p, threshold := th, ttMove := ttMove,
    stage := PROBCUT + (if ttMove == MOVE_NONE then 1 else 0),
    generated := [] }

/-- Source: `endMoves = generateMoves<T>(pos, start)`: the batch is stored from `start` on, each
store assigning the move of the slot; `endMoves` is the slot after the last one. -/
def MovePicker.generateMoves (mp : MovePicker) (T : MOVE_GEN_TYPE) (start : Nat) : MovePicker :=
  let batch := mp.pos.generate mp.recaptureSquare T
  { mp with
    moves := fun i =>
      if start ≤ i ∧ i < start + batch.length
      then { mp.moves i with move := batch.getD (i - start) MOVE_NONE } else mp.moves i,
    endMoves := start + batch.length,
    generated := mp.generated ++ [T] }

/-- The value `score<CAPTURES>` gives a move (MVV-LVA). -/
def MovePicker.captureValue (mp : MovePicker) (m : Move) : Value :=
  mp.env.CapturePieceValue (mp.pos.piece_on (mp.env.to_sq m))
    - LVA (mp.env.type_of (mp.pos.piece_on (mp.env.move_from m)))

/-- The value `score<QUIETS>` gives a move. -/
def MovePicker.quietValue (mp : MovePicker) (m : Move) : Value :=
  mp.mainHistory (mp.env.from_to m) mp.pos.side_to_move
    + mp.contHistory 0 (mp.env.to_sq m) (mp.pos.moved_piece_after m)
    + mp.contHistory 1 (mp.env.to_sq m) (mp.pos.moved_piece_after m)
    + mp.contHistory 3 (mp.env.to_sq m) (mp.pos.moved_piece_after m)

/-- The value `score<EVASIONS>` gives a move. -/
def MovePicker.evasionValue (mp : MovePicker) (m : Move) : Value :=
  if mp.pos.capture m then
    mp.env.CapturePieceValue (mp.pos.piece_on (mp.env.to_sq m))
      - LVA (mp.env.type_of (mp.pos.moved_piece_before m)) + 2 ^ 28
  else
    mp.mainHistory (mp.env.from_to m) mp.pos.side_to_move

/-- Source: `for (auto& m : *this) m.value = f(m)`: the range of the picker is `[cur, endMoves)`. -/
def MovePicker.scoreWith (mp : MovePicker) (f : Move → Value) : MovePicker :=
  { mp with
    moves := fun i =>
      if mp.cur ≤ i ∧ i < mp.endMoves
      then { mp.moves i with value := f (mp.moves i).move } else mp.moves i }

def MovePicker.score_CAPTURES (mp : MovePicker) : MovePicker := mp.scoreWith mp.captureValue
def MovePicker.score_QUIETS (mp : MovePicker) : MovePicker := mp.scoreWith mp.quietValue
def MovePicker.score_EVASIONS (mp : MovePicker) : MovePicker := mp.scoreWith mp.evasionValue

/-- The test of the killer phase: `move != MOVE_NONE && move != ttMove
&& pos.pseudo_legal(move) && !pos.capture(move)`. -/
def MovePicker.killerAccept (mp : MovePicker) (move : Move) : Bool :=
  move != MOVE_NONE && move != mp.ttMove && mp.pos.pseudo_legal move && !mp.pos.capture move

/-- The test of COUNTERMOVE: `move != MOVE_NONE && move != ttMove && move != killers[0]
&& move != killers[1] && pos.pseudo_legal_s<false>(move)
&& !pos.capture_or_pawn_promotion(move)`. -/
def MovePicker.countermoveAccept (mp : MovePicker) (move : Move) : Bool :=
  move != MOVE_NONE && move != mp.ttMove && move != mp.killers0 && move != mp.killers1
    && mp.pos.pseudo_legal_s move && !mp.pos.capture_or_pawn_promotion move

/-- The test of QUIET: `move != ttMove && move != killers[0] && move != killers[1]
&& move != countermove`. -/
def MovePicker.quietAccept (mp : MovePicker) (move : Move) : Bool :=
  move != mp.ttMove && move != mp.killers0 && move != mp.killers1 && move != mp.countermove

/-- The `return` statement of `next_move` that produced a move. -/
inductive ReturnSite where
  | ttMove
  | goodCapture
  | killer
  | countermove
  | quiet
  | badCapture
  | evasion
  | probcutCapture
  | qCapture
  | qCheck
  | recapture
  | exhausted
  | unreachable
deriving DecidableEq, Repr

/-- The loop `while (cur < endMoves) { move = pick_best(cur++, endMoves); if (accept(move))
return move; }` of ALL_EVASIONS, PROBCUT_CAPTURES, QCAPTURES_1/2 and QRECAPTURES.
`none` is the exit of the loop. The first argument bounds the iterations. -/
def pickLoop (accept : Move → Bool) : Nat → MovePicker → Option Move × MovePicker
  | 0, mp => (none, mp)
  | n + 1, mp =>
    if mp.cur < mp.endMoves then
      let r := pick_best mp.moves mp.cur mp.endMoves
      let mp1 := { mp with moves := r.2, cur := mp.cur + 1 }
      if accept r.1 then (some r.1, mp1) else pickLoop accept n mp1
    else (none, mp)

/-- The loop of GOOD_CAPTURES. -/
def goodCapturesLoop : Nat → MovePicker → Option Move × MovePicker
  | 0, mp => (none, mp)
  | n + 1, mp =>
    if mp.cur < mp.endMoves then
      let r := pick_best mp.moves mp.cur mp.endMoves
      let mp1 := { mp with moves := r.2, cur := mp.cur + 1 }
      if r.1 != mp1.ttMove then
        if mp1.pos.see_ge r.1 0 then (some r.1, mp1)
        else
          goodCapturesLoop n
            { mp1 with
              moves := fun i =>
                if i = mp1.endBadCaptures then { mp1.moves i with move := r.1 } else mp1.moves i,
              endBadCaptures := mp1.endBadCaptures + 1 }
      else goodCapturesLoop n mp1
    else (none, mp)

/-- The loop `while (cur < endMoves) { move = *cur++; if (accept(move)) return move; }`
of QUIET and QCHECKS. -/
def scanLoop (accept : Move → Bool) : Nat → MovePicker → Option Move × MovePicker
  | 0, mp => (none, mp)
  | n + 1, mp =>
    if mp.cur < mp.endMoves then
      let move := (mp.moves mp.cur).move
      let mp1 := { mp with cur := mp.cur + 1 }
      if accept move then (some move, mp1) else scanLoop accept n mp1
    else (none, mp)

/-- The `do { ... } while (stage <= KILLER1)` of KILLER0/KILLER1. -/
def killerLoop : Nat → MovePicker → Option Move × MovePicker
  | 0, mp => (none, mp)
  | n + 1, mp =>
    let mp1 := { mp with stage := mp.stage + 1 }
    let move := mp1.killers ((mp1.stage : Int) - (KILLER1 : Int))
    if mp1.killerAccept move then (some move, mp1)
    else if mp1.stage ≤ KILLER1 then killerLoop n mp1
    else (none, mp1)

/-- Source: `case BAD_CAPTURES:` -/
def case_BAD_CAPTURES (mp : MovePicker) : ReturnSite × Move × MovePicker :=
  if mp.cur < mp.endBadCaptures then
    (.badCapture, (mp.moves mp.cur).move, { mp with cur := mp.cur + 1 })
  else (.exhausted, MOVE_NONE, mp)

/-- Source: `case QUIET:` -/
def case_QUIET (mp : MovePicker) (skipQuiets : Bool) : ReturnSite × Move × MovePicker :=
  let r :=
    if !skipQuiets then
      scanLoop mp.quietAccept (mp.endMoves - mp.cur) mp
    else (none, mp)
  match r.1 with
  | some move => (.quiet, move, r.2)
  | none => case_BAD_CAPTURES { r.2 with stage := r.2.stage + 1, cur := 0 }

/-- Source: `case QUIET_INIT:` -/
def case_QUIET_INIT (mp : MovePicker) (skipQuiets : Bool) : ReturnSite × Move × MovePicker :=
  let mp1 := { mp with cur := mp.endBadCaptures }
  let mp2 := mp1.generateMoves .NON_CAPTURES_PRO_MINUS mp1.cur
  let mp3 := mp2.score_QUIETS
  let mp4 := { mp3 with
    moves := partial_insertion_sort mp3.moves mp3.cur mp3.endMoves
      (Int.tdiv (-4000 * mp3.depth) mp3.env.ONE_PLY) }
  case_QUIET { mp4 with stage := mp4.stage + 1 } skipQuiets

/-- Source: `case COUNTERMOVE:` -/
def case_COUNTERMOVE (mp : MovePicker) (skipQuiets : Bool) : ReturnSite × Move × MovePicker :=
  let mp1 := { mp with stage := mp.stage + 1 }
  let move := mp1.countermove
  if mp1.countermoveAccept move then (.countermove, move, mp1)
  else case_QUIET_INIT mp1 skipQuiets

/-- Source: `case KILLER0: case KILLER1:` -/
def case_KILLER (mp : MovePicker) (skipQuiets : Bool) : ReturnSite × Move × MovePicker :=
  let r := killerLoop (max 1 (COUNTERMOVE - mp.stage)) mp
  match r.1 with
  | some move => (.killer, move, r.2)
  | none => case_COUNTERMOVE r.2 skipQuiets

/-- Source: `case GOOD_CAPTURES:` -/
def case_GOOD_CAPTURES (mp : MovePicker) (skipQuiets : Bool) : ReturnSite × Move × MovePicker :=
  let r := goodCapturesLoop (mp.endMoves - mp.cur) mp
  match r.1 with
  | some move => (.goodCapture, move, r.2)
  | none => case_KILLER { r.2 with stage := r.2.stage + 1 } skipQuiets

/-- Source: `case CAPTURES_INIT:` -/
def case_CAPTURES_INIT (mp : MovePicker) (skipQuiets : Bool) : ReturnSite × Move × MovePicker :=
  let mp1 := { mp with endBadCaptures := 0, cur := 0 }
  let mp2 := mp1.generateMoves .CAPTURES_PRO_PLUS mp1.cur
  let mp3 := mp2.score_CAPTURES
  case_GOOD_CAPTURES { mp3 with stage := mp3.stage + 1 } skipQuiets

/-- Source: `case ALL_EVASIONS:` -/
def case_ALL_EVASIONS (mp : MovePicker) : ReturnSite × Move × MovePicker :=
  let r := pickLoop (fun move => move != mp.ttMove) (mp.endMoves - mp.cur) mp
  match r.1 with
  | some move => (.evasion, move, r.2)
  | none => (.exhausted, MOVE_NONE, r.2)

/-- Source: `case EVASIONS_INIT:` -/
def case_EVASIONS_INIT (mp : MovePicker) : ReturnSite × Move × MovePicker :=
  let mp1 := { mp with cur := 0 }
  let mp2 := mp1.generateMoves .EVASIONS mp1.cur
  let mp3 := mp2.score_EVASIONS
  case_ALL_EVASIONS { mp3 with stage := mp3.stage + 1 }

/-- Source: `case PROBCUT_CAPTURES:` -/
def case_PROBCUT_CAPTURES (mp : MovePicker) : ReturnSite × Move × MovePicker :=
  let r := pickLoop (fun move => move != mp.ttMove && mp.pos.see_ge move mp.threshold)
    (mp.endMoves - mp.cur) mp
  match r.1 with
  | some move => (.probcutCapture, move, r.2)
  | none => (.exhausted, MOVE_NONE, r.2)

/-- Source: `case PROBCUT_INIT:` -/
def case_PROBCUT_INIT (mp : MovePicker) : ReturnSite × Move × MovePicker :=
  let mp1 := { mp with cur := 0 }
  let mp2 := mp1.generateMoves .CAPTURES_PRO_PLUS mp1.cur
  let mp3 := mp2.score_CAPTURES
  case_PROBCUT_CAPTURES { mp3 with stage := mp3.stage + 1 }

/-- Source: `case QCHECKS:` -/
def case_QCHECKS (mp : MovePicker) : ReturnSite × Move × MovePicker :=
  let r := scanLoop (fun move => move != mp.ttMove && !mp.pos.pawn_promotion move)
    (mp.endMoves - mp.cur) mp
  match r.1 with
  | some move => (.qCheck, move, r.2)
  | none => (.exhausted, MOVE_NONE, r.2)

/-- Source: `case QCAPTURES_1: case QCAPTURES_2:` -/
def case_QCAPTURES (mp : MovePicker) : ReturnSite × Move × MovePicker :=
  let r := pickLoop (fun move => move != mp.ttMove) (mp.endMoves - mp.cur) mp
  match r.1 with
  | some move => (.qCapture, move, r.2)
  | none =>
    if r.2.stage = QCAPTURES_2 then (.exhausted, MOVE_NONE, r.2)
    else
      let mp1 := { r.2 with cur := 0 }
      let mp2 := mp1.generateMoves .QUIET_CHECKS mp1.cur
      case_QCHECKS { mp2 with stage := mp2.stage + 1 }

/-- Source: `case QCAPTURES_1_INIT: case QCAPTURES_2_INIT:` -/
def case_QCAPTURES_INIT (mp : MovePicker) : ReturnSite × Move × MovePicker :=
  let mp1 := { mp with cur := 0 }
  let mp2 := mp1.generateMoves .CAPTURES_PRO_PLUS mp1.cur
  let mp3 := mp2.score_CAPTURES
  case_QCAPTURES { mp3 with stage := mp3.stage + 1 }

/-- Source: `case QRECAPTURES:` -/
def case_QRECAPTURES (mp : MovePicker) : ReturnSite × Move × MovePicker :=
  let r := pickLoop (fun _ => true) (mp.endMoves - mp.cur) mp
  match r.1 with
  | some move => (.recapture, move, r.2)
  | none => (.exhausted, MOVE_NONE, r.2)

/-- Source: `case QSEARCH_RECAPTURES:` -/
def case_QSEARCH_RECAPTURES (mp : MovePicker) : ReturnSite × Move × MovePicker :=
  let mp1 := { mp with cur := 0 }
  let mp2 := mp1.generateMoves .RECAPTURES 0
  let mp3 := mp2.score_CAPTURES
  case_QRECAPTURES { mp3 with stage := mp3.stage + 1 }

/-- Source: `Move MovePicker::next_move(bool skipQuiets)` without the must-capture wrapper, with
the `return` statement that was taken. -/
def next_move_traced (mp : MovePicker) (skipQuiets : Bool) : ReturnSite × Move × MovePicker :=
  if mp.stage = MAIN_SEARCH ∨ mp.stage = EVASION ∨ mp.stage = QSEARCH_WITH_CHECKS
      ∨ mp.stage = QSEARCH_NO_CHECKS ∨ mp.stage = PROBCUT then
    (.ttMove, mp.ttMove, { mp with stage := mp.stage + 1 })
  else if mp.stage = CAPTURES_INIT then case_CAPTURES_INIT mp skipQuiets
  else if mp.stage = GOOD_CAPTURES then case_GOOD_CAPTURES mp skipQuiets
  else if mp.stage = KILLER0 ∨ mp.stage = KILLER1 then case_KILLER mp skipQuiets
  else if mp.stage = COUNTERMOVE then case_COUNTERMOVE mp skipQuiets
  else if mp.stage = QUIET_INIT then case_QUIET_INIT mp skipQuiets
  else if mp.stage = QUIET then case_QUIET mp skipQuiets
  else if mp.stage = BAD_CAPTURES then case_BAD_CAPTURES mp
  else if mp.stage = EVASIONS_INIT then case_EVASIONS_INIT mp
  else if mp.stage = ALL_EVASIONS then case_ALL_EVASIONS mp
  else if mp.stage = PROBCUT_INIT then case_PROBCUT_INIT mp
  else if mp.stage = PROBCUT_CAPTURES then case_PROBCUT_CAPTURES mp
  else if mp.stage = QCAPTURES_1_INIT ∨ mp.stage = QCAPTURES_2_INIT then case_QCAPTURES_INIT mp
  else if mp.stage = QCAPTURES_1 ∨ mp.stage = QCAPTURES_2 then case_QCAPTURES mp
  else if mp.stage = QCHECKS then case_QCHECKS mp
  else if mp.stage = QSEARCH_RECAPTURES then case_QSEARCH_RECAPTURES mp
  else if mp.stage = QRECAPTURES then case_QRECAPTURES mp
  else (.unreachable, MOVE_NONE, mp)

/-- Source: `Move MovePicker::next_move(bool skipQuiets)`: the move returned and the picker after
the call. -/
def next_move (mp : MovePicker) (skipQuiets : Bool) : Move × MovePicker :=
  (next_move_traced mp skipQuiets).2

/-! ## Sequences of calls -/

/-- The picker after successive calls of `next_move` with the given arguments. -/
def after : MovePicker → List Bool → MovePicker
  | mp, [] => mp
  | mp, skipQuiets :: rest => after (next_move mp skipQuiets).2 rest

/-- What successive calls of `next_move` with the given arguments return, with the
`return` statement taken by each call. -/
def run : MovePicker → List Bool → List (ReturnSite × Move)
  | _, [] => []
  | mp, skipQuiets :: rest =>
    ((next_move_traced mp skipQuiets).1, (next_move mp skipQuiets).1)
      :: run (next_move mp skipQuiets).2 rest

/-- A full consumption: `next_move(skipQuiets)` is called until it returns `MOVE_NONE`;
the result lists the moves returned before the sentinel, each with its `return`
statement. The first argument bounds the number of calls. -/
def consume : Nat → MovePicker → Bool → List (ReturnSite × Move)
  | 0, _, _ => []
  | n + 1, mp, skipQuiets =>
    if (next_move mp skipQuiets).1 = MOVE_NONE then []
    else ((next_move_traced mp skipQuiets).1, (next_move mp skipQuiets).1)
      :: consume n (next_move mp skipQuiets).2 skipQuiets

/-- The pickers that calls of `next_move`, with any arguments, lead to from `mp0`. -/
inductive Reachable (mp0 : MovePicker) : MovePicker → Prop
  | init : Reachable mp0 mp0
  | step (mp : MovePicker) (skipQuiets : Bool) :
      Reachable mp0 mp → Reachable mp0 (next_move mp skipQuiets).2

/-! ## Concrete inputs used by the witnesses -/

def exEnv : Env :=
  { ONE_PLY := 1, DEPTH_QS_NO_CHECKS := -1, DEPTH_QS_RECAPTURES := -5,
    CapturePieceValue := fun pc => ((pc % 32 : Nat) : Int) * 100,
    move_from := fun m => m / 100, to_sq := fun m => m % 100,
    from_to := fun m => m, type_of := fun pc => pc % 16 }

/-- A position not in check: captures 11 and 12 and the pawn promotion 13 form the
CAPTURES_PRO_PLUS batch (12 loses material), 21 and 22 are the quiet moves. -/
def exPos : Position :=
  { in_check := false, side_to_move := 0,
    pseudo_legal := fun m => decide (m ∈ [11, 12, 13, 21, 22]),
    pseudo_legal_s := fun m => decide (m ∈ [11, 12, 13, 21, 22]),
    capture := fun m => decide (m ∈ [11, 12]),
    capture_or_pawn_promotion := fun m => decide (m ∈ [11, 12, 13]),
    pawn_promotion := fun m => decide (m = 13),
    see_ge := fun m v => decide (m ≠ 12 ∧ v ≤ 0),
    piece_on := fun sq => sq % 7,
    moved_piece_before := fun _ => 1,
    moved_piece_after := fun _ => 1,
    genCAPTURES_PRO_PLUS := [11, 12, 13],
    genNON_CAPTURES_PRO_MINUS := [21, 22],
    genEVASIONS := [],
    genQUIET_CHECKS := [22],
    genRECAPTURES := fun _ => [11] }

/-- The same board seen as a position in check, with three evasions. -/
def exPosCheck : Position :=
  { exPos with in_check := true, genEVASIONS := [11, 21, 22] }

def exRaw : MovePicker :=
  { env := exEnv, pos := exPos, mainHistory := fun _ _ => 0, contHistory := fun _ _ _ => 0,
    ttMove := 0, countermove := 0, killers0 := 0, killers1 := 0, depth := 0, threshold := 0,
    recaptureSquare := 0, stage := 0, moves := fun _ => ⟨0, 0⟩, cur := 0, endMoves := 0,
    endBadCaptures := 0, generated := [] }

def exHistory : Nat → Color → Value := fun ft _ => ((ft % 1000 : Nat) : Int)
def exContHistory : Nat → Square → Piece → Value := fun _ _ _ => 0

/-- The example position in check, after EVASIONS_INIT has generated its evasions. -/
def exEvasionPicker : MovePicker :=
  ({ MovePicker.normal exEnv exRaw exPosCheck 0 3 exHistory exContHistory 0 0 0 with cur := 0 }
    ).generateMoves .EVASIONS 0

/-- A normal-search picker on the example position whose first killer is the pawn
promotion 13: a move of the CAPTURES_PRO_PLUS batch that captures nothing. -/
def exKillerPicker : MovePicker :=
  MovePicker.normal exEnv exRaw exPos 0 3 exHistory exContHistory 0 13 0

/-- What holds of a ProbCut picker between calls: it is at the hash-move stage with a
validated hash move, or at PROBCUT_INIT, or at PROBCUT_CAPTURES with a range that holds
moves of the CAPTURES_PRO_PLUS batch. -/
def ProbcutInv (p : Position) (th : Value) (tt : Move) (mp : MovePicker) : Prop :=
  mp.pos = p ∧ mp.threshold = th ∧ mp.ttMove = tt
  ∧ ((mp.stage = PROBCUT ∧ tt ≠ MOVE_NONE) ∨ mp.stage = PROBCUT_INIT
    ∨ (mp.stage = PROBCUT_CAPTURES
      ∧ ∀ i, mp.cur ≤ i → i < mp.endMoves → (mp.moves i).move ∈ p.genCAPTURES_PRO_PLUS))

/-- What holds between calls of a quiescence picker that generates no checks. -/
def QNoChecksInv (p : Position) (tt : Move) (mp : MovePicker) : Prop :=
  mp.pos = p ∧ mp.ttMove = tt ∧ MOVE_GEN_TYPE.QUIET_CHECKS ∉ mp.generated
  ∧ ((mp.stage = QSEARCH_NO_CHECKS ∧ tt ≠ MOVE_NONE) ∨ mp.stage = QCAPTURES_2_INIT
    ∨ (mp.stage = QCAPTURES_2
      ∧ ∀ i, mp.cur ≤ i → i < mp.endMoves → (mp.moves i).move ∈ p.genCAPTURES_PRO_PLUS))

/-- What a full consumption yields once a call has returned `r`. -/
def consumeFrom (n : Nat) (r : ReturnSite × Move × MovePicker) (skipQuiets : Bool) :
    List (ReturnSite × Move) :=
  if r.2.1 = MOVE_NONE then [] else (r.1, r.2.1) :: consume n r.2.2 skipQuiets

/-- Moves, each with the `return` statement `s`. -/
def tagged (s : ReturnSite) (ms : List Move) : List (ReturnSite × Move) :=
  ms.map (fun m => (s, m))

/-- The moves of a list of scored moves. -/
def movesOf (l : List ExtMove) : List Move := l.map ExtMove.move

/-- The test that sends a picked capture to the caller in GOOD_CAPTURES. -/
def MovePicker.goodAccept (mp : MovePicker) (move : Move) : Bool :=
  move != mp.ttMove && mp.pos.see_ge move 0

/-- The test that sets a picked capture aside in GOOD_CAPTURES. -/
def MovePicker.badAccept (mp : MovePicker) (move : Move) : Bool :=
  move != mp.ttMove && !mp.pos.see_ge move 0

/-- What a normal-search picker returns from the killer phase on: the accepted killers,
the accepted counter-move, the quiet moves `qs` that pass the test of QUIET unless
quiets are skipped, and the captures `bad` that were set aside. -/
def normalTail (mp : MovePicker) (skipQuiets : Bool) (qs bad : List Move) :
    List (ReturnSite × Move) :=
  tagged .killer ([mp.killers0].filter mp.killerAccept)
    ++ (tagged .killer ([mp.killers1].filter mp.killerAccept)
    ++ (tagged .countermove ([mp.countermove].filter mp.countermoveAccept)
    ++ ((if skipQuiets then [] else tagged .quiet (qs.filter mp.quietAccept))
    ++ tagged .badCapture bad)))

/-- The CAPTURES_PRO_PLUS batch with the values of `score<CAPTURES>`. -/
def scoredCaptures (mp : MovePicker) : List ExtMove :=
  mp.pos.genCAPTURES_PRO_PLUS.map (fun m => (⟨m, mp.captureValue m⟩ : ExtMove))

/-- The EVASIONS batch with the values of `score<EVASIONS>`. -/
def scoredEvasions (mp : MovePicker) : List ExtMove :=
  mp.pos.genEVASIONS.map (fun m => (⟨m, mp.evasionValue m⟩ : ExtMove))

/-- What a full consumption of a normal-search picker on a position not in check
returns, when `pick_best` picks the captures in the order `picks` and QUIET_INIT leaves
the quiet moves in the order `qs`. -/
def normalOutput (mp : MovePicker) (skipQuiets : Bool) (picks : List ExtMove) (qs : List Move) :
    List (ReturnSite × Move) :=
  tagged .ttMove ([mp.ttMove].filter (fun m => m != MOVE_NONE))
    ++ (tagged .goodCapture ((movesOf picks).filter mp.goodAccept)
    ++ normalTail mp skipQuiets qs ((movesOf picks).filter mp.badAccept))

/-- What a full consumption of a picker built in check returns, when `pick_best` picks
the evasions in the order `picks`. -/
def evasionOutput (mp : MovePicker) (picks : List ExtMove) : List (ReturnSite × Move) :=
  tagged .ttMove ([mp.ttMove].filter (fun m => m != MOVE_NONE))
    ++ tagged .evasion ((movesOf picks).filter (fun m => m != mp.ttMove))

/-- The hypothesis that the predicates of the position agree with its generators, as
far as a full consumption depends on it: the generators emit moves, never the sentinel
MOVE_NONE; a hash move that passes `pseudo_legal_s<false>` is a move of the batches of
the context; off check, a killer or counter-move that passes the test of its phase is a
move of the capture or of the quiet batch, and every move of the quiet batch passes the
pseudo-legality and non-capture tests of the killer and counter-move phases. -/
structure GeneratorsAgree (p : Position) (ttm k0 k1 cm : Move) : Prop where
  no_sentinel : MOVE_NONE ∉ p.genCAPTURES_PRO_PLUS ∧ MOVE_NONE ∉ p.genNON_CAPTURES_PRO_MINUS
    ∧ MOVE_NONE ∉ p.genEVASIONS
  hash_move : ttm ≠ MOVE_NONE → p.pseudo_legal_s ttm = true →
    if p.in_check then ttm ∈ p.genEVASIONS
    else ttm ∈ p.genCAPTURES_PRO_PLUS ∨ ttm ∈ p.genNON_CAPTURES_PRO_MINUS
  killer : p.in_check = false → ∀ k, k = k0 ∨ k = k1 → k ≠ MOVE_NONE →
    p.pseudo_legal k = true → p.capture k = false →
    k ∈ p.genCAPTURES_PRO_PLUS ∨ k ∈ p.genNON_CAPTURES_PRO_MINUS
  countermove : p.in_check = false → cm ≠ MOVE_NONE → p.pseudo_legal_s cm = true →
    p.capture_or_pawn_promotion cm = false →
    cm ∈ p.genCAPTURES_PRO_PLUS ∨ cm ∈ p.genNON_CAPTURES_PRO_MINUS
  quiet : p.in_check = false → ∀ m ∈ p.genNON_CAPTURES_PRO_MINUS,
    p.pseudo_legal m = true ∧ p.pseudo_legal_s m = true ∧ p.capture m = false
      ∧ p.capture_or_pawn_promotion m = false

/-- The pickers that differ from `mp` in the stage, the buffer, the cursors and the log
of generator runs only: what `next_move` may change. -/
def Frame (mp mp1 : MovePicker) : Prop :=
  ∃ st buf c e eb g,
    mp1 = { mp with stage := st, moves := buf, cur := c, endMoves := e,
                    endBadCaptures := eb, generated := g }

/-- The slots `[0, endBadCaptures)` hold captures that fail `see_ge(move, 0)` and are not
the hash move. -/
def BadOK (mp : MovePicker) : Prop :=
  ∀ i, i < mp.endBadCaptures →
    mp.pos.see_ge (mp.moves i).move 0 = false ∧ (mp.moves i).move ≠ mp.ttMove

/-- What a call of `next_move` with argument `sq` on a normal-search picker off check
says about the `return` statement `t` taken, the move `m` returned and the picker `mp1`
after the call. -/
def NormalSite (sq : Bool) (t : ReturnSite) (m : Move) (mp1 : MovePicker) : Prop :=
  match t with
  | .ttMove => m = mp1.ttMove ∧ mp1.stage = CAPTURES_INIT
  | .goodCapture =>
    m ≠ mp1.ttMove ∧ mp1.pos.see_ge m 0 = true ∧ mp1.stage = GOOD_CAPTURES
      ∧ mp1.endBadCaptures ≤ mp1.cur
  | .killer =>
    mp1.killerAccept m = true
      ∧ ((m = mp1.killers0 ∧ mp1.stage = KILLER1) ∨ (m = mp1.killers1 ∧ mp1.stage = COUNTERMOVE))
  | .countermove =>
    mp1.countermoveAccept m = true ∧ m = mp1.countermove ∧ mp1.stage = QUIET_INIT
  | .quiet => sq = false ∧ mp1.quietAccept m = true ∧ mp1.stage = QUIET
  | .badCapture =>
    m ≠ mp1.ttMove ∧ mp1.pos.see_ge m 0 = false ∧ mp1.stage = BAD_CAPTURES
  | .exhausted => m = MOVE_NONE ∧ mp1.stage = BAD_CAPTURES ∧ mp1.endBadCaptures ≤ mp1.cur
  | _ => False

/-- What one call that starts at `mp` and ends with `r` does on a normal-search picker
off check. -/
def NormalStep (mp : MovePicker) (sq : Bool) (r : ReturnSite × Move × MovePicker) : Prop :=
  Frame mp r.2.2 ∧ BadOK r.2.2 ∧ mp.stage ≤ r.2.2.stage ∧ NormalSite sq r.1 r.2.1 r.2.2

/-- What holds of a normal-search picker off check between calls. -/
def NormalInv (mp : MovePicker) : Prop :=
  mp.stage ≤ BAD_CAPTURES
  ∧ (mp.stage = MAIN_SEARCH → mp.ttMove ≠ MOVE_NONE)
  ∧ (GOOD_CAPTURES ≤ mp.stage → BadOK mp)
  ∧ (mp.stage = GOOD_CAPTURES → mp.endBadCaptures ≤ mp.cur)

/-- Four scored quiet moves in the first four slots of a buffer. -/
def exBuf : Buffer :=
  fun i => [(⟨21, 3⟩ : ExtMove), ⟨22, 10⟩, ⟨23, -1⟩, ⟨24, 5⟩].getD i ⟨0, 0⟩

/-! ## Root moves (`source/search.h`) -/

/-- The data members of `struct RootMove` of `search.h`. -/
structure RootMove where
  score : Value
  previousScore : Value
  selDepth : Int
  pv : List Move

/-- Source: `bool operator<(const RootMove& m) const { return m.score != score ?
m.score < score : m.previousScore < previousScore; }`; `self` is `*this`. -/
def RootMove.lt (self m : RootMove) : Bool :=
  if m.score != self.score then decide (m.score < self.score)
  else decide (m.previousScore < self.previousScore)

/-! ## The reads of `killers[]` -/

/-- The indices at which the loop of KILLER0/KILLER1 reads `killers[]`, in the order of
the reads: `killerLoop` with the value of `stage - KILLER1` of each iteration recorded. -/
def killerReads : Nat → MovePicker → List Int
  | 0, _ => []
  | n + 1, mp =>
    let mp1 := { mp with stage := mp.stage + 1 }
    let i := (mp1.stage : Int) - (KILLER1 : Int)
    let move := mp1.killers i
    if mp1.killerAccept move then [i]
    else if mp1.stage ≤ KILLER1 then i :: killerReads n mp1
    else [i]

/-! ## What holds between calls, for every protocol -/

/-- The stages at which a call returns the hash move. -/
def ttStage (s : Nat) : Prop :=
  s = MAIN_SEARCH ∨ s = EVASION ∨ s = QSEARCH_WITH_CHECKS ∨ s = QSEARCH_NO_CHECKS ∨ s = PROBCUT

/-- The stages whose `case` begins with a call of `generateMoves`. -/
def generatingStage (s : Nat) : Prop :=
  s = CAPTURES_INIT ∨ s = QUIET_INIT ∨ s = EVASIONS_INIT ∨ s = PROBCUT_INIT
    ∨ s = QCAPTURES_1_INIT ∨ s = QCAPTURES_2_INIT ∨ s = QSEARCH_RECAPTURES

/-- The stages whose loop runs over `[cur, endMoves)`. -/
def rangeStage (s : Nat) : Prop :=
  s = GOOD_CAPTURES ∨ s = QUIET ∨ s = ALL_EVASIONS ∨ s = PROBCUT_CAPTURES ∨ s = QCAPTURES_1
    ∨ s = QCHECKS ∨ s = QCAPTURES_2 ∨ s = QRECAPTURES

/-- The last stage of the protocol that the stage `s` belongs to. -/
def protocolEnd (s : Nat) : Nat :=
  if s ≤ BAD_CAPTURES then BAD_CAPTURES
  else if s ≤ ALL_EVASIONS then ALL_EVASIONS
  else if s ≤ PROBCUT_CAPTURES then PROBCUT_CAPTURES
  else if s ≤ QCHECKS then QCHECKS
  else if s ≤ QCAPTURES_2 then QCAPTURES_2
  else QRECAPTURES

/-- The first stage of the protocol that the stage `s` belongs to. -/
def protocolStart (s : Nat) : Nat :=
  if s ≤ BAD_CAPTURES then MAIN_SEARCH
  else if s ≤ ALL_EVASIONS then EVASION
  else if s ≤ PROBCUT_CAPTURES then PROBCUT
  else if s ≤ QCHECKS then QSEARCH_WITH_CHECKS
  else if s ≤ QCAPTURES_2 then QSEARCH_NO_CHECKS
  else QSEARCH_RECAPTURES

/-- The generator runs that a picker at stage `s` has behind it, in order. -/
def generatedAt (s : Nat) : List MOVE_GEN_TYPE :=
  if s = GOOD_CAPTURES ∨ s = KILLER0 ∨ s = KILLER1 ∨ s = COUNTERMOVE ∨ s = QUIET_INIT
      ∨ s = PROBCUT_CAPTURES ∨ s = QCAPTURES_1 ∨ s = QCAPTURES_2 then [.CAPTURES_PRO_PLUS]
  else if s = QUIET ∨ s = BAD_CAPTURES then [.CAPTURES_PRO_PLUS, .NON_CAPTURES_PRO_MINUS]
  else if s = ALL_EVASIONS then [.EVASIONS]
  else if s = QCHECKS then [.CAPTURES_PRO_PLUS, .QUIET_CHECKS]
  else if s = QRECAPTURES then [.RECAPTURES]
  else []

/-- Every slot of `[cur, endMoves)` holds a move with the property `S`. -/
def RangeOK (S : Move → Prop) (mp : MovePicker) : Prop :=
  ∀ i, mp.cur ≤ i → i < mp.endMoves → S (mp.moves i).move

/-- Every slot of `[moves, endBadCaptures)` holds a move with the property `S` that is
not the hash move. -/
def BadSlots (S : Move → Prop) (mp : MovePicker) : Prop :=
  ∀ i, i < mp.endBadCaptures → S (mp.moves i).move ∧ (mp.moves i).move ≠ mp.ttMove

/-- The picker is at the last stage of its protocol with nothing left to return. -/
def Exhausted (mp : MovePicker) : Prop :=
  (mp.stage = BAD_CAPTURES ∧ mp.endBadCaptures ≤ mp.cur)
  ∨ ((mp.stage = ALL_EVASIONS ∨ mp.stage = PROBCUT_CAPTURES ∨ mp.stage = QCHECKS
        ∨ mp.stage = QCAPTURES_2 ∨ mp.stage = QRECAPTURES)
      ∧ mp.endMoves ≤ mp.cur)

/-- What holds of the buffer and of the log of generator runs between two calls, `S`
being a property of every move that the generators emit. -/
def Between (S : Move → Prop) (mp : MovePicker) : Prop :=
  (rangeStage mp.stage → RangeOK S mp)
  ∧ (GOOD_CAPTURES ≤ mp.stage ∧ mp.stage ≤ BAD_CAPTURES → BadSlots S mp)
  ∧ (mp.stage = GOOD_CAPTURES → mp.endBadCaptures ≤ mp.cur)
  ∧ mp.generated = generatedAt mp.stage

/-- What the `return` statement `t` taken by a call says about the move `m` returned and
the picker `mp1` after the call, for the statements below the first `case` group. -/
def Site (S : Move → Prop) (t : ReturnSite) (m : Move) (mp1 : MovePicker) : Prop :=
  match t with
  | .ttMove => False
  | .goodCapture => S m ∧ m ≠ mp1.ttMove ∧ mp1.stage = GOOD_CAPTURES
  | .killer =>
    mp1.killerAccept m = true
      ∧ ((m = mp1.killers0 ∧ mp1.stage = KILLER1) ∨ (m = mp1.killers1 ∧ mp1.stage = COUNTERMOVE))
  | .countermove =>
    mp1.countermoveAccept m = true ∧ m = mp1.countermove ∧ mp1.stage = QUIET_INIT
  | .quiet => S m ∧ mp1.quietAccept m = true ∧ mp1.stage = QUIET
  | .badCapture => S m ∧ m ≠ mp1.ttMove ∧ mp1.stage = BAD_CAPTURES
  | .evasion => S m ∧ m ≠ mp1.ttMove ∧ mp1.stage = ALL_EVASIONS
  | .probcutCapture =>
    S m ∧ m ≠ mp1.ttMove ∧ mp1.pos.see_ge m mp1.threshold = true
      ∧ mp1.stage = PROBCUT_CAPTURES
  | .qCapture => S m ∧ m ≠ mp1.ttMove ∧ (mp1.stage = QCAPTURES_1 ∨ mp1.stage = QCAPTURES_2)
  | .qCheck => S m ∧ m ≠ mp1.ttMove ∧ mp1.pos.pawn_promotion m = false ∧ mp1.stage = QCHECKS
  | .recapture => S m ∧ mp1.stage = QRECAPTURES
  | .exhausted => m = MOVE_NONE ∧ Exhausted mp1
  | .unreachable => False

/-- What one call that starts at `mp` and ends with `r` does, when it does not return
the hash move: the stage after it is between `lo` and `hi`. -/
def Call (S : Move → Prop) (lo hi : Nat) (mp : MovePicker)
    (r : ReturnSite × Move × MovePicker) : Prop :=
  Frame mp r.2.2 ∧ lo ≤ r.2.2.stage ∧ r.2.2.stage ≤ hi ∧ Site S r.1 r.2.1 r.2.2
    ∧ Between S r.2.2

/-- What holds of a picker between two calls. -/
def PickerInv (S : Move → Prop) (mp : MovePicker) : Prop :=
  mp.stage ≤ QRECAPTURES ∧ (ttStage mp.stage → mp.ttMove ≠ MOVE_NONE) ∧ Between S mp

/-- The pickers that the three constructors build. -/
inductive Constructed : MovePicker → Prop
  | normal (env : Env) (raw : MovePicker) (p : Position) (ttm : Move) (d : Depth)
      (mh : Nat → Color → Value) (ch : Nat → Square → Piece → Value) (cm k0 k1 : Move) :
      Constructed (MovePicker.normal env raw p ttm d mh ch cm k0 k1)
  | quiescence (env : Env) (raw : MovePicker) (p : Position) (ttm : Move) (d : Depth)
      (mh : Nat → Color → Value) (recapSq : Square) :
      Constructed (MovePicker.quiescence env raw p ttm d mh recapSq)
  | probcut (env : Env) (raw : MovePicker) (p : Position) (ttm : Move) (th : Value) :
      Constructed (MovePicker.probcut env raw p ttm th)

/-- Every move that a generator of the position emits has the property `S`. -/
def Emits (S : Move → Prop) (mp : MovePicker) : Prop :=
  ∀ T, ∀ m ∈ mp.pos.generate mp.recaptureSquare T, S m

/-- The stage at the start of each of the calls of `after`. -/
def stagesOf : MovePicker → List Bool → List Nat
  | _, [] => []
  | mp, skipQuiets :: rest => mp.stage :: stagesOf (next_move mp skipQuiets).2 rest

/-! ## The moves picked by a best-selector phase -/

/-- Every value of the range `[cur, endMoves)` is at most `v`. -/
def Bounded (v : Value) (mp : MovePicker) : Prop :=
  ∀ i, mp.cur ≤ i → i < mp.endMoves → (mp.moves i).value ≤ v

/-- What a call that returns the move `m` from a best-selector phase leaves, when the
values of the range were at most `v` before it: the move is the one of the slot before
`cur`, its value is at most `v`, and the values of the range are at most its value. -/
def Picked (v : Value) (m : Move) (mp1 : MovePicker) : Prop :=
  1 ≤ mp1.cur ∧ mp1.cur ≤ mp1.endMoves
  ∧ m = (mp1.moves (mp1.cur - 1)).move
  ∧ (mp1.moves (mp1.cur - 1)).value ≤ v
  ∧ Bounded (mp1.moves (mp1.cur - 1)).value mp1

/-! ## The captures set aside -/

/-- The loop of GOOD_CAPTURES with each execution of `*endBadCaptures++ = move` recorded:
the index of the slot written (`endBadCaptures` before its increment), `cur` at the time
of the write (after `cur++`), and the move written. -/
def setAsideLog : Nat → MovePicker → List (Nat × Nat × Move)
  | 0, _ => []
  | n + 1, mp =>
    if mp.cur < mp.endMoves then
      let r := pick_best mp.moves mp.cur mp.endMoves
      let mp1 := { mp with moves := r.2, cur := mp.cur + 1 }
      if r.1 != mp1.ttMove then
        if mp1.pos.see_ge r.1 0 then []
        else
          (mp1.endBadCaptures, mp1.cur, r.1) ::
            setAsideLog n
              { mp1 with
                moves := fun i =>
                  if i = mp1.endBadCaptures then { mp1.moves i with move := r.1 }
                  else mp1.moves i,
                endBadCaptures := mp1.endBadCaptures + 1 }
      else setAsideLog n mp1
    else []

/-- The moves that one call of `next_move` sets aside, in the order of the writes: the
call runs the loop of GOOD_CAPTURES when it starts at GOOD_CAPTURES, or at CAPTURES_INIT
after the captures are generated and scored. -/
def setAsideCall (mp : MovePicker) : List Move :=
  if mp.stage = CAPTURES_INIT then
    let mp1 := { mp with endBadCaptures := 0, cur := 0 }
    let mp2 := mp1.generateMoves .CAPTURES_PRO_PLUS mp1.cur
    let mp3 := mp2.score_CAPTURES
    let mp4 := { mp3 with stage := mp3.stage + 1 }
    (setAsideLog (mp4.endMoves - mp4.cur) mp4).map (fun x => x.2.2)
  else if mp.stage = GOOD_CAPTURES then
    (setAsideLog (mp.endMoves - mp.cur) mp).map (fun x => x.2.2)
  else []

/-- The moves that the calls of `after` set aside, in order. -/
def setAsideRun : MovePicker → List Bool → List Move
  | _, [] => []
  | mp, skipQuiets :: rest => setAsideCall mp ++ setAsideRun (next_move mp skipQuiets).2 rest

/-- The moves that BAD_CAPTURES has still to return: none before the captures are
generated; the moves of `[moves, endBadCaptures)` until BAD_CAPTURES is reached; the moves
of `[cur, endBadCaptures)` in BAD_CAPTURES. -/
def pendingBad (mp : MovePicker) : List Move :=
  if mp.stage < GOOD_CAPTURES then []
  else movesOf (slice mp.moves (if mp.stage = BAD_CAPTURES then mp.cur else 0)
    mp.endBadCaptures)

/-- The moves of a trace that were returned by BAD_CAPTURES, in order. -/
def badMoves (l : List (ReturnSite × Move)) : List Move :=
  (l.filter (fun x => decide (x.1 = ReturnSite.badCapture))).map Prod.snd

/-- What a call that ends with `r` does to the moves `L` that BAD_CAPTURES had to return
before it: it returns the first of them, or leaves them. -/
def BadRel (L : List Move) (r : ReturnSite × Move × MovePicker) : Prop :=
  KILLER0 ≤ r.2.2.stage ∧ r.2.2.stage ≤ BAD_CAPTURES
  ∧ (if r.1 = .badCapture then L = r.2.1 :: pendingBad r.2.2 else pendingBad r.2.2 = L)

/-! ## The calls that still return a move -/

/-- A bound on the number of calls that a normal-search picker on a position not in check
still answers with a move: one call for each stage left that returns a single move, and
one for each move still to be generated, picked or gone through, a capture counting once
more because it may be set aside and returned by BAD_CAPTURES. -/
def callsLeft (mp : MovePicker) : Nat :=
  if mp.stage = MAIN_SEARCH then
    2 * mp.pos.genCAPTURES_PRO_PLUS.length + mp.pos.genNON_CAPTURES_PRO_MINUS.length + 5
  else if mp.stage = CAPTURES_INIT then
    2 * mp.pos.genCAPTURES_PRO_PLUS.length + mp.pos.genNON_CAPTURES_PRO_MINUS.length + 4
  else if mp.stage = GOOD_CAPTURES then
    (mp.endMoves - mp.cur) + mp.endMoves + mp.pos.genNON_CAPTURES_PRO_MINUS.length + 4
  else if mp.stage = KILLER0 then
    mp.endBadCaptures + mp.pos.genNON_CAPTURES_PRO_MINUS.length + 4
  else if mp.stage = KILLER1 then
    mp.endBadCaptures + mp.pos.genNON_CAPTURES_PRO_MINUS.length + 3
  else if mp.stage = COUNTERMOVE then
    mp.endBadCaptures + mp.pos.genNON_CAPTURES_PRO_MINUS.length + 2
  else if mp.stage = QUIET_INIT then
    mp.endBadCaptures + mp.pos.genNON_CAPTURES_PRO_MINUS.length + 1
  else if mp.stage = QUIET then
    mp.endBadCaptures + (mp.endMoves - mp.cur) + 1
  else mp.endBadCaptures - mp.cur

/-- What holds of the cursors of a normal-search picker off check between calls. -/
def CursorsOK (mp : MovePicker) : Prop :=
  mp.stage ≤ BAD_CAPTURES
  ∧ (mp.stage = GOOD_CAPTURES → mp.endBadCaptures ≤ mp.cur ∧ mp.cur ≤ mp.endMoves)

/-- What a call that starts at `mp` and ends with `r` does to the bound: the picker is
exhausted after it, or the bound is smaller. -/
def Progress (mp : MovePicker) (r : ReturnSite × Move × MovePicker) : Prop :=
  r.2.2.pos = mp.pos ∧ CursorsOK r.2.2 ∧ (Exhausted r.2.2 ∨ callsLeft r.2.2 < callsLeft mp)

/-! # Proofs -/

/-! ## The hash-move stages -/

theorem next_move_traced_ttStage (mp : MovePicker) (sq : Bool)
    (h : mp.stage = MAIN_SEARCH ∨ mp.stage = EVASION ∨ mp.stage = QSEARCH_WITH_CHECKS
      ∨ mp.stage = QSEARCH_NO_CHECKS ∨ mp.stage = PROBCUT) :
    next_move_traced mp sq = (.ttMove, mp.ttMove, { mp with stage := mp.stage + 1 }) := by
  unfold next_move_traced
  rw [if_pos h]

theorem withHashMove_accept (mp : MovePicker) (ttm : Move) (h1 : ttm ≠ MOVE_NONE)
    (h2 : mp.pos.pseudo_legal_s ttm = true) :
    (mp.withHashMove ttm).ttMove = ttm ∧ (mp.withHashMove ttm).stage = mp.stage := by
  simp [MovePicker.withHashMove, h1, h2]

theorem withHashMove_reject (mp : MovePicker) (ttm : Move)
    (h : ttm = MOVE_NONE ∨ mp.pos.pseudo_legal_s ttm = false) :
    mp.withHashMove ttm = mp.withHashMove MOVE_NONE := by
  rcases h with h | h <;> simp [MovePicker.withHashMove, h]

/-! ## Rejected hash moves -/

/-- C10: a hash move that fails validation is dropped silently. When
`pseudo_legal_s<false>(ttm)` is false the normal-search and the quiescence picker, and
when that or `capture(ttm)` or `see_ge(ttm, threshold)` is false the ProbCut picker, is
the very picker built with MOVE_NONE, so every sequence of calls returns the same moves;
it starts in the stage after the hash-move stage. -/
theorem invalid_hash_move_dropped (env : Env) (raw : MovePicker) (p : Position) (ttm : Move)
    (d : Depth) (mh : Nat → Color → Value) (ch : Nat → Square → Piece → Value)
    (cm k0 k1 : Move) (recapSq : Square) (th : Value) (flags : List Bool)
    (hbad : p.pseudo_legal_s ttm = false ∨ p.capture ttm = false ∨ p.see_ge ttm th = false) :
    (run (MovePicker.probcut env raw p ttm th) flags
        = run (MovePicker.probcut env raw p MOVE_NONE th) flags
      ∧ (MovePicker.probcut env raw p ttm th).stage = PROBCUT_INIT)
    ∧ (p.pseudo_legal_s ttm = false →
        (run (MovePicker.normal env raw p ttm d mh ch cm k0 k1) flags
          = run (MovePicker.normal env raw p MOVE_NONE d mh ch cm k0 k1) flags
        ∧ (MovePicker.normal env raw p ttm d mh ch cm k0 k1).stage
          = (if p.in_check then EVASIONS_INIT else CAPTURES_INIT))
        ∧ (run (MovePicker.quiescence env raw p ttm d mh recapSq) flags
          = run (MovePicker.quiescence env raw p MOVE_NONE d mh recapSq) flags
        ∧ (MovePicker.quiescence env raw p ttm d mh recapSq).stage
          = (if p.in_check then EVASIONS_INIT
             else if d > env.DEPTH_QS_NO_CHECKS then QCAPTURES_1_INIT
             else if d > env.DEPTH_QS_RECAPTURES then QCAPTURES_2_INIT
             else QSEARCH_RECAPTURES))) := by
  have hp : MovePicker.probcut env raw p ttm th = MovePicker.probcut env raw p MOVE_NONE th := by
    rcases hbad with h | h | h <;> simp [MovePicker.probcut, h]
  refine ⟨⟨by rw [hp], by rw [hp]; simp [MovePicker.probcut]⟩, ?_⟩
  intro hpl
  have hn : MovePicker.normal env raw p ttm d mh ch cm k0 k1
      = MovePicker.normal env raw p MOVE_NONE d mh ch cm k0 k1 := by
    simp [MovePicker.normal, hpl]
  have hq : MovePicker.quiescence env raw p ttm d mh recapSq
      = MovePicker.quiescence env raw p MOVE_NONE d mh recapSq := by
    unfold MovePicker.quiescence
    simp only []
    split
    · exact withHashMove_reject _ _ (Or.inr hpl)
    · split
      · exact withHashMove_reject _ _ (Or.inr hpl)
      · split
        · exact withHashMove_reject _ _ (Or.inr hpl)
        · rfl
  refine ⟨⟨by rw [hn], ?_⟩, ⟨by rw [hq], ?_⟩⟩
  · rw [hn]
    cases hc : p.in_check <;> simp [MovePicker.normal, hc]
  · rw [hq]
    unfold MovePicker.quiescence
    simp only []
    split
    · simp [MovePicker.withHashMove]
    · split
      · simp [MovePicker.withHashMove]
      · split
        · simp [MovePicker.withHashMove]
        · rfl

/-- Witness of C10: the hash move 99 is not pseudo-legal on the example position. -/
theorem invalid_hash_move_dropped_witness :
    exPos.pseudo_legal_s 99 = false
    ∧ run (MovePicker.probcut exEnv exRaw exPos 99 0) [false, false]
        = run (MovePicker.probcut exEnv exRaw exPos MOVE_NONE 0) [false, false]
    ∧ run (MovePicker.normal exEnv exRaw exPos 99 3 exHistory exContHistory 0 0 0) [false, false]
        = run (MovePicker.normal exEnv exRaw exPos MOVE_NONE 3 exHistory exContHistory 0 0 0)
            [false, false] :=
  have h := invalid_hash_move_dropped exEnv exRaw exPos 99 3 exHistory exContHistory
    0 0 0 0 0 [false, false] (Or.inl (by decide))
  ⟨by decide, h.1.1, (h.2 (by decide)).1.1⟩

/-! ## Evasion scoring -/

theorem LVA_le (pt : Piece) : LVA pt ≤ 10000 := by
  unfold LVA LVATable
  by_cases h : pt < 16
  · interval_cases pt <;> simp
  · have h16 : 16 ≤ pt := Nat.le_of_not_lt h
    rw [List.getD_eq_default]
    · norm_num
    · simpa using h16

theorem LVA_nonneg (pt : Piece) : 0 ≤ LVA pt := by
  unfold LVA LVATable
  by_cases h : pt < 16
  · interval_cases pt <;> simp
  · have h16 : 16 ≤ pt := Nat.le_of_not_lt h
    rw [List.getD_eq_default]
    simpa using h16

/-- C9: after `score<EVASIONS>` every capturing evasion of the scored range has a value
strictly greater than every non-capturing one, when the captured-piece values are not
negative and the main-history entries are at most 2^28 - 10001: the capturing one has
CapturePieceValue[victim] - LVA(type of moved_piece_before) + 2^28, the other its
main-history entry. The sum is that of the integers; it stays inside the range of a
32-bit `int` when the captured-piece values are at most 2^31 - 1 - 2^28. -/
theorem evasion_captures_outrank_quiet_evasions (mp : MovePicker) (i j : Nat)
    (hval : ∀ pc, 0 ≤ mp.env.CapturePieceValue pc)
    (hhist : ∀ ft c, mp.mainHistory ft c ≤ 2 ^ 28 - 10001)
    (hi : mp.cur ≤ i ∧ i < mp.endMoves) (hj : mp.cur ≤ j ∧ j < mp.endMoves)
    (hci : mp.pos.capture (mp.moves i).move = true)
    (hcj : mp.pos.capture (mp.moves j).move = false) :
    (mp.score_EVASIONS.moves j).value < (mp.score_EVASIONS.moves i).value
    ∧ (mp.score_EVASIONS.moves i).value
        = mp.env.CapturePieceValue (mp.pos.piece_on (mp.env.to_sq (mp.moves i).move))
          - LVA (mp.env.type_of (mp.pos.moved_piece_before (mp.moves i).move)) + 2 ^ 28
    ∧ (mp.score_EVASIONS.moves j).value
        = mp.mainHistory (mp.env.from_to (mp.moves j).move) mp.pos.side_to_move
    ∧ ((∀ pc, mp.env.CapturePieceValue pc ≤ 2 ^ 31 - 1 - 2 ^ 28) →
        -(2 ^ 31) ≤ (mp.score_EVASIONS.moves i).value
        ∧ (mp.score_EVASIONS.moves i).value ≤ 2 ^ 31 - 1) := by
  have e1 : (mp.score_EVASIONS.moves i).value
      = mp.env.CapturePieceValue (mp.pos.piece_on (mp.env.to_sq (mp.moves i).move))
          - LVA (mp.env.type_of (mp.pos.moved_piece_before (mp.moves i).move)) + 2 ^ 28 := by
    simp [MovePicker.score_EVASIONS, MovePicker.scoreWith, MovePicker.evasionValue, hi, hci]
  have e2 : (mp.score_EVASIONS.moves j).value
      = mp.mainHistory (mp.env.from_to (mp.moves j).move) mp.pos.side_to_move := by
    simp [MovePicker.score_EVASIONS, MovePicker.scoreWith, MovePicker.evasionValue, hj, hcj]
  have h1 := hval (mp.pos.piece_on (mp.env.to_sq (mp.moves i).move))
  have h2 := LVA_le (mp.env.type_of (mp.pos.moved_piece_before (mp.moves i).move))
  have h2b := LVA_nonneg (mp.env.type_of (mp.pos.moved_piece_before (mp.moves i).move))
  have h3 := hhist (mp.env.from_to (mp.moves j).move) mp.pos.side_to_move
  refine ⟨?_, e1, e2, ?_⟩
  · rw [e1, e2]
    linarith
  · intro hfit
    have h4 := hfit (mp.pos.piece_on (mp.env.to_sq (mp.moves i).move))
    rw [e1]
    constructor <;> linarith

/-- Witness of C9: the capturing evasion 11 and the quiet evasion 21 of the example
position in check. -/
theorem evasion_captures_outrank_quiet_evasions_witness :
    (exEvasionPicker.score_EVASIONS.moves 1).value
      < (exEvasionPicker.score_EVASIONS.moves 0).value
    ∧ (exEvasionPicker.score_EVASIONS.moves 0).value ≤ 2 ^ 31 - 1 :=
  have hpc : ∀ pc : Piece, ((pc % 32 : Nat) : Int) < 32 := by
    intro pc
    have := Nat.mod_lt pc (by norm_num : 32 > 0)
    omega
  have h := evasion_captures_outrank_quiet_evasions exEvasionPicker 0 1
    (by
      intro pc
      show (0 : Int) ≤ ((pc % 32 : Nat) : Int) * 100
      positivity)
    (by
      intro ft c
      show ((ft % 1000 : Nat) : Int) ≤ 2 ^ 28 - 10001
      have := Nat.mod_lt ft (by norm_num : 1000 > 0)
      omega)
    (by decide) (by decide) (by decide) (by decide)
  ⟨h.1, (h.2.2.2 (by
    intro pc
    show ((pc % 32 : Nat) : Int) * 100 ≤ 2 ^ 31 - 1 - 2 ^ 28
    have := hpc pc
    omega)).2⟩

/-! ## A killer that is a pawn promotion -/

/-- C2, the code at the failing input: the batches have no duplicate and are disjoint,
the first killer 13 is a pawn promotion that captures nothing, and the full consumption
returns 13 twice, from GOOD_CAPTURES and from the killer phase; the call after it
returns MOVE_NONE. -/
theorem killer_pawn_promotion_returned_twice :
    exPos.genCAPTURES_PRO_PLUS.Nodup ∧ exPos.genNON_CAPTURES_PRO_MINUS.Nodup
    ∧ (∀ m ∈ exPos.genCAPTURES_PRO_PLUS, m ∉ exPos.genNON_CAPTURES_PRO_MINUS)
    ∧ exPos.capture 13 = false ∧ exPos.capture_or_pawn_promotion 13 = true
    ∧ consume 10 exKillerPicker false
        = [(.goodCapture, 13), (.goodCapture, 11), (.killer, 13), (.quiet, 22), (.quiet, 21),
            (.badCapture, 12)]
    ∧ (next_move (after exKillerPicker [false, false, false, false, false, false]) false).1
        = MOVE_NONE := by
  refine ⟨by decide, by decide, by decide, by decide, by decide, by decide, by decide⟩

/-! ## Ranges of the buffer -/

theorem slice_of_le {buf : Buffer} {b e : Nat} (h : e ≤ b) : slice buf b e = [] := by
  simp [slice, Nat.sub_eq_zero_of_le h]

theorem slice_cons {buf : Buffer} {b e : Nat} (h : b < e) :
    slice buf b e = buf b :: slice buf (b + 1) e := by
  unfold slice
  have h1 : e - b = (e - (b + 1)) + 1 := by omega
  rw [h1, List.range'_succ]
  simp

theorem slice_snoc {buf : Buffer} {b e : Nat} (h : b ≤ e) :
    slice buf b (e + 1) = slice buf b e ++ [buf e] := by
  unfold slice
  have h1 : e + 1 - b = (e - b) + 1 := by omega
  rw [h1, List.range'_concat]
  have h2 : b + (e - b) = e := by omega
  simp [h2]

theorem length_slice (buf : Buffer) (b e : Nat) : (slice buf b e).length = e - b := by
  simp [slice]

theorem mem_slice {buf : Buffer} {b e : Nat} {x : ExtMove} :
    x ∈ slice buf b e ↔ ∃ i, b ≤ i ∧ i < e ∧ buf i = x := by
  unfold slice
  rw [List.mem_map]
  constructor
  · rintro ⟨i, hi, rfl⟩
    rw [List.mem_range'_1] at hi
    exact ⟨i, hi.1, by omega, rfl⟩
  · rintro ⟨i, h1, h2, rfl⟩
    exact ⟨i, by rw [List.mem_range'_1]; omega, rfl⟩

theorem slice_congr {buf1 buf2 : Buffer} {b e : Nat}
    (h : ∀ i, b ≤ i → i < e → buf1 i = buf2 i) : slice buf1 b e = slice buf2 b e := by
  unfold slice
  apply List.map_congr_left
  intro i hi
  rw [List.mem_range'_1] at hi
  exact h i hi.1 (by omega)

theorem slice_append {buf : Buffer} {b m e : Nat} (h1 : b ≤ m) (h2 : m ≤ e) :
    slice buf b e = slice buf b m ++ slice buf m e := by
  unfold slice
  rw [← List.map_append]
  congr 1
  have h3 : e - b = (e - m) + (m - b) := by omega
  have h4 : List.range' m (e - m) = List.range' (b + (m - b)) (e - m) := by
    congr 1
    omega
  rw [h3, h4, List.range'_append_1]

theorem swap_eq_comp (buf : Buffer) (i j : Nat) : swap buf i j = buf ∘ (Equiv.swap i j) := by
  funext k
  simp only [swap, Function.comp, Function.update_apply, Equiv.swap_apply_def]
  by_cases h1 : k = j
  · by_cases h2 : k = i
    · subst h1; subst h2; simp
    · have h3 : ¬ j = i := fun h => h2 (h1.trans h)
      simp [h1, h3]
  · by_cases h2 : k = i
    · subst h2
      simp [h1]
    · simp [h1, h2]

theorem swap_apply_of_ne (buf : Buffer) {i j k : Nat} (h1 : k ≠ i) (h2 : k ≠ j) :
    swap buf i j k = buf k := by
  simp [swap, Function.update_apply, h1, h2]

theorem swap_apply_left (buf : Buffer) (i j : Nat) : swap buf i j i = buf j := by
  by_cases h : i = j
  · subst h; simp [swap]
  · simp [swap, Function.update_apply, h]

theorem slice_swap_perm (buf : Buffer) {b e i j : Nat} (hi : b ≤ i ∧ i < e)
    (hj : b ≤ j ∧ j < e) : (slice (swap buf i j) b e).Perm (slice buf b e) := by
  rw [swap_eq_comp]
  unfold slice
  rw [← List.map_map]
  apply List.Perm.map
  rw [List.perm_ext_iff_of_nodup]
  · intro a
    rw [List.mem_map]
    simp only [List.mem_range'_1]
    constructor
    · rintro ⟨k, hk, rfl⟩
      rw [Equiv.swap_apply_def]
      split_ifs <;> omega
    · intro ha
      refine ⟨Equiv.swap i j a, ?_, by simp⟩
      rw [Equiv.swap_apply_def]
      split_ifs <;> omega
  · exact (List.nodup_range' b (e - b)).map (Equiv.injective _)
  · exact List.nodup_range' b (e - b)

/-! ## pick_best -/

theorem max_elementLoop_spec (buf : Buffer) (b : Nat) :
    ∀ (n largest first : Nat), b ≤ largest → largest < first →
      (∀ i, b ≤ i → i < first → (buf i).value ≤ (buf largest).value) →
      b ≤ max_elementLoop buf n largest first
      ∧ max_elementLoop buf n largest first < first + n
      ∧ ∀ i, b ≤ i → i < first + n →
          (buf i).value ≤ (buf (max_elementLoop buf n largest first)).value := by
  intro n
  induction n with
  | zero =>
    intro largest first h1 h2 h3
    exact ⟨h1, by simpa [max_elementLoop] using h2, by simpa [max_elementLoop] using h3⟩
  | succ n ih =>
    intro largest first h1 h2 h3
    unfold max_elementLoop
    have hstep : first + (n + 1) = (first + 1) + n := by omega
    rw [hstep]
    by_cases hlt : (buf largest).value < (buf first).value
    · have hl : (buf largest).lt (buf first) = true := by simp [ExtMove.lt, hlt]
      rw [if_pos hl]
      apply ih first (first + 1) (by omega) (by omega)
      intro i hi1 hi2
      by_cases hif : i = first
      · rw [hif]
      · exact le_of_lt (lt_of_le_of_lt (h3 i hi1 (by omega)) hlt)
    · have hl : ¬ (buf largest).lt (buf first) = true := by simp [ExtMove.lt, hlt]
      rw [if_neg hl]
      apply ih largest (first + 1) h1 (by omega)
      intro i hi1 hi2
      by_cases hif : i = first
      · rw [hif]; exact not_lt.mp hlt
      · exact h3 i hi1 (by omega)

theorem max_element_spec (buf : Buffer) {b e : Nat} (h : b < e) :
    b ≤ max_element buf b e ∧ max_element buf b e < e
    ∧ ∀ i, b ≤ i → i < e → (buf i).value ≤ (buf (max_element buf b e)).value := by
  unfold max_element
  rw [if_neg (by omega)]
  have h1 := max_elementLoop_spec buf b (e - (b + 1)) b (b + 1) (le_refl b) (by omega)
    (by
      intro i hi1 hi2
      have : i = b := by omega
      rw [this])
  have h2 : b + 1 + (e - (b + 1)) = e := by omega
  rw [h2] at h1
  exact h1

/-- What one `pick_best(cur, end)` on a non-empty range does: the move returned is the
one now at `cur`, which has the greatest value of the range; the range is rearranged
and nothing outside it changes. -/
theorem pick_best_spec (buf : Buffer) {b e : Nat} (h : b < e) :
    (pick_best buf b e).1 = ((pick_best buf b e).2 b).move
    ∧ (slice (pick_best buf b e).2 b e).Perm (slice buf b e)
    ∧ (∀ i, b ≤ i → i < e → ((pick_best buf b e).2 i).value ≤ ((pick_best buf b e).2 b).value)
    ∧ (∀ i, i < b ∨ e ≤ i → (pick_best buf b e).2 i = buf i) := by
  obtain ⟨h1, h2, h3⟩ := max_element_spec buf h
  refine ⟨rfl, ?_, ?_, ?_⟩
  · exact slice_swap_perm buf ⟨le_refl b, h⟩ ⟨h1, h2⟩
  · intro i hi1 hi2
    show (swap buf b (max_element buf b e) i).value ≤ (swap buf b (max_element buf b e) b).value
    rw [swap_apply_left]
    by_cases hb : i = b
    · rw [hb, swap_apply_left]
    · by_cases hj : i = max_element buf b e
      · have : swap buf b (max_element buf b e) i = buf b := by
          rw [hj]; simp [swap]
        rw [this]
        exact h3 b (le_refl b) h
      · rw [swap_apply_of_ne buf hb hj]
        exact h3 i hi1 hi2
  · intro i hi
    show swap buf b (max_element buf b e) i = buf i
    apply swap_apply_of_ne <;> omega

/-! ## The dispatch of `next_move` on the stage -/

theorem next_move_traced_CAPTURES_INIT (mp : MovePicker) (sq : Bool) (h : mp.stage = CAPTURES_INIT) :
    next_move_traced mp sq = case_CAPTURES_INIT mp sq := by
  unfold next_move_traced
  simp [h]

theorem next_move_traced_GOOD_CAPTURES (mp : MovePicker) (sq : Bool) (h : mp.stage = GOOD_CAPTURES) :
    next_move_traced mp sq = case_GOOD_CAPTURES mp sq := by
  unfold next_move_traced
  simp [h]

theorem next_move_traced_KILLER0 (mp : MovePicker) (sq : Bool) (h : mp.stage = KILLER0) :
    next_move_traced mp sq = case_KILLER mp sq := by
  unfold next_move_traced
  simp [h]

theorem next_move_traced_KILLER1 (mp : MovePicker) (sq : Bool) (h : mp.stage = KILLER1) :
    next_move_traced mp sq = case_KILLER mp sq := by
  unfold next_move_traced
  simp [h]

theorem next_move_traced_COUNTERMOVE (mp : MovePicker) (sq : Bool) (h : mp.stage = COUNTERMOVE) :
    next_move_traced mp sq = case_COUNTERMOVE mp sq := by
  unfold next_move_traced
  simp [h]

theorem next_move_traced_QUIET_INIT (mp : MovePicker) (sq : Bool) (h : mp.stage = QUIET_INIT) :
    next_move_traced mp sq = case_QUIET_INIT mp sq := by
  unfold next_move_traced
  simp [h]

theorem next_move_traced_QUIET (mp : MovePicker) (sq : Bool) (h : mp.stage = QUIET) :
    next_move_traced mp sq = case_QUIET mp sq := by
  unfold next_move_traced
  simp [h]

theorem next_move_traced_BAD_CAPTURES (mp : MovePicker) (sq : Bool) (h : mp.stage = BAD_CAPTURES) :
    next_move_traced mp sq = case_BAD_CAPTURES mp := by
  unfold next_move_traced
  simp [h]

theorem next_move_traced_EVASIONS_INIT (mp : MovePicker) (sq : Bool) (h : mp.stage = EVASIONS_INIT) :
    next_move_traced mp sq = case_EVASIONS_INIT mp := by
  unfold next_move_traced
  simp [h]

theorem next_move_traced_ALL_EVASIONS (mp : MovePicker) (sq : Bool) (h : mp.stage = ALL_EVASIONS) :
    next_move_traced mp sq = case_ALL_EVASIONS mp := by
  unfold next_move_traced
  simp [h]

theorem next_move_traced_PROBCUT_INIT (mp : MovePicker) (sq : Bool) (h : mp.stage = PROBCUT_INIT) :
    next_move_traced mp sq = case_PROBCUT_INIT mp := by
  unfold next_move_traced
  simp [h]

theorem next_move_traced_PROBCUT_CAPTURES (mp : MovePicker) (sq : Bool) (h : mp.stage = PROBCUT_CAPTURES) :
    next_move_traced mp sq = case_PROBCUT_CAPTURES mp := by
  unfold next_move_traced
  simp [h]

theorem next_move_traced_QCAPTURES_1_INIT (mp : MovePicker) (sq : Bool) (h : mp.stage = QCAPTURES_1_INIT) :
    next_move_traced mp sq = case_QCAPTURES_INIT mp := by
  unfold next_move_traced
  simp [h]

theorem next_move_traced_QCAPTURES_2_INIT (mp : MovePicker) (sq : Bool) (h : mp.stage = QCAPTURES_2_INIT) :
    next_move_traced mp sq = case_QCAPTURES_INIT mp := by
  unfold next_move_traced
  simp [h]

theorem next_move_traced_QCAPTURES_1 (mp : MovePicker) (sq : Bool) (h : mp.stage = QCAPTURES_1) :
    next_move_traced mp sq = case_QCAPTURES mp := by
  unfold next_move_traced
  simp [h]

theorem next_move_traced_QCAPTURES_2 (mp : MovePicker) (sq : Bool) (h : mp.stage = QCAPTURES_2) :
    next_move_traced mp sq = case_QCAPTURES mp := by
  unfold next_move_traced
  simp [h]

theorem next_move_traced_QCHECKS (mp : MovePicker) (sq : Bool) (h : mp.stage = QCHECKS) :
    next_move_traced mp sq = case_QCHECKS mp := by
  unfold next_move_traced
  simp [h]

theorem next_move_traced_QSEARCH_RECAPTURES (mp : MovePicker) (sq : Bool) (h : mp.stage = QSEARCH_RECAPTURES) :
    next_move_traced mp sq = case_QSEARCH_RECAPTURES mp := by
  unfold next_move_traced
  simp [h]

theorem next_move_traced_QRECAPTURES (mp : MovePicker) (sq : Bool) (h : mp.stage = QRECAPTURES) :
    next_move_traced mp sq = case_QRECAPTURES mp := by
  unfold next_move_traced
  simp [h]

theorem next_move_eq (mp : MovePicker) (sq : Bool) :
    next_move mp sq = ((next_move_traced mp sq).2.1, (next_move_traced mp sq).2.2) := rfl

/-! ## The loops -/

theorem pickLoop_done (accept : Move → Bool) (n : Nat) (mp : MovePicker)
    (h : mp.endMoves ≤ mp.cur) : pickLoop accept n mp = (none, mp) := by
  cases n with
  | zero => rfl
  | succ n => unfold pickLoop; rw [if_neg (by omega)]

theorem pickLoop_unroll (accept : Move → Bool) (mp : MovePicker) (h : mp.cur < mp.endMoves) :
    pickLoop accept (mp.endMoves - mp.cur) mp
      = if accept (pick_best mp.moves mp.cur mp.endMoves).1 then
          (some (pick_best mp.moves mp.cur mp.endMoves).1,
            { mp with moves := (pick_best mp.moves mp.cur mp.endMoves).2, cur := mp.cur + 1 })
        else
          pickLoop accept (mp.endMoves - (mp.cur + 1))
            { mp with moves := (pick_best mp.moves mp.cur mp.endMoves).2, cur := mp.cur + 1 } := by
  have h1 : mp.endMoves - mp.cur = (mp.endMoves - (mp.cur + 1)) + 1 := by omega
  rw [h1]
  conv_lhs => unfold pickLoop
  rw [if_pos h]

theorem scanLoop_done (accept : Move → Bool) (n : Nat) (mp : MovePicker)
    (h : mp.endMoves ≤ mp.cur) : scanLoop accept n mp = (none, mp) := by
  cases n with
  | zero => rfl
  | succ n => unfold scanLoop; rw [if_neg (by omega)]

theorem scanLoop_unroll (accept : Move → Bool) (mp : MovePicker) (h : mp.cur < mp.endMoves) :
    scanLoop accept (mp.endMoves - mp.cur) mp
      = if accept (mp.moves mp.cur).move then
          (some (mp.moves mp.cur).move, { mp with cur := mp.cur + 1 })
        else
          scanLoop accept (mp.endMoves - (mp.cur + 1)) { mp with cur := mp.cur + 1 } := by
  have h1 : mp.endMoves - mp.cur = (mp.endMoves - (mp.cur + 1)) + 1 := by omega
  rw [h1]
  conv_lhs => unfold scanLoop
  rw [if_pos h]

/-- Every slot of `[b, e)` holds a move with the property `S`. -/
theorem pick_best_range (buf : Buffer) (b e : Nat) (S : Move → Prop)
    (h : ∀ i, b ≤ i → i < e → S (buf i).move) :
    ∀ i, b ≤ i → i < e → S ((pick_best buf b e).2 i).move := by
  intro i hi1 hi2
  have hbe : b < e := by omega
  have hperm := (pick_best_spec buf hbe).2.1
  have hmem : (pick_best buf b e).2 i ∈ slice (pick_best buf b e).2 b e :=
    mem_slice.mpr ⟨i, hi1, hi2, rfl⟩
  obtain ⟨k, hk1, hk2, hk3⟩ := mem_slice.mp (hperm.mem_iff.mp hmem)
  rw [← hk3]
  exact h k hk1 hk2

theorem pickLoop_succ (accept : Move → Bool) (n : Nat) (mp : MovePicker) :
    pickLoop accept (n + 1) mp
      = if mp.cur < mp.endMoves then
          (if accept (pick_best mp.moves mp.cur mp.endMoves).1 then
            (some (pick_best mp.moves mp.cur mp.endMoves).1,
              { mp with moves := (pick_best mp.moves mp.cur mp.endMoves).2, cur := mp.cur + 1 })
          else
            pickLoop accept n
              { mp with moves := (pick_best mp.moves mp.cur mp.endMoves).2, cur := mp.cur + 1 })
        else (none, mp) := rfl

/-- The loop of the best-selector phases: the move it returns passed the test of the
phase and comes from the range; the range that is left still holds moves of the same
kind; only `moves` and `cur` change. -/
theorem pickLoop_inv (accept : Move → Bool) (S : Move → Prop) :
    ∀ (n : Nat) (mp : MovePicker),
      (∀ i, mp.cur ≤ i → i < mp.endMoves → S (mp.moves i).move) →
      (∀ m, (pickLoop accept n mp).1 = some m → accept m = true ∧ S m)
      ∧ (∀ i, (pickLoop accept n mp).2.cur ≤ i → i < (pickLoop accept n mp).2.endMoves →
          S ((pickLoop accept n mp).2.moves i).move)
      ∧ (∃ buf c, (pickLoop accept n mp).2 = { mp with moves := buf, cur := c }) := by
  intro n
  induction n with
  | zero =>
    intro mp h
    exact ⟨by simp [pickLoop], by simpa [pickLoop] using h, mp.moves, mp.cur, rfl⟩
  | succ n ih =>
    intro mp h
    rw [pickLoop_succ]
    by_cases hc : mp.cur < mp.endMoves
    · rw [if_pos hc]
      have hr := pick_best_range mp.moves mp.cur mp.endMoves S h
      have hfirst : S (pick_best mp.moves mp.cur mp.endMoves).1 := by
        rw [(pick_best_spec mp.moves hc).1]
        exact hr mp.cur (le_refl _) hc
      by_cases ha : accept (pick_best mp.moves mp.cur mp.endMoves).1 = true
      · rw [if_pos ha]
        refine ⟨?_, ?_, _, _, rfl⟩
        · intro m hm
          simp only [Option.some.injEq] at hm
          rw [← hm]
          exact ⟨ha, hfirst⟩
        · intro i hi1 hi2
          exact hr i (Nat.le_of_succ_le hi1) hi2
      · rw [if_neg ha]
        obtain ⟨h1, h2, buf, c, h3⟩ := ih
          { mp with moves := (pick_best mp.moves mp.cur mp.endMoves).2, cur := mp.cur + 1 }
          (by
            intro i hi1 hi2
            exact hr i (Nat.le_of_succ_le hi1) hi2)
        exact ⟨h1, h2, buf, c, h3⟩
    · rw [if_neg hc]
      exact ⟨by simp, h, mp.moves, mp.cur, rfl⟩

/-! ## Generation and scoring -/

theorem generateMoves_range (mp : MovePicker) (T : MOVE_GEN_TYPE) (start : Nat) :
    ∀ i, start ≤ i → i < (mp.generateMoves T start).endMoves →
      ((mp.generateMoves T start).moves i).move ∈ mp.pos.generate mp.recaptureSquare T := by
  intro i h1 h2
  have h3 : i < start + (mp.pos.generate mp.recaptureSquare T).length := h2
  have h4 : i - start < (mp.pos.generate mp.recaptureSquare T).length := by omega
  unfold MovePicker.generateMoves
  simp only []
  rw [if_pos ⟨h1, h3⟩]
  show (mp.pos.generate mp.recaptureSquare T).getD (i - start) MOVE_NONE ∈ _
  rw [List.getD_eq_getElem _ _ h4]
  exact List.getElem_mem _

theorem scoreWith_move (mp : MovePicker) (f : Move → Value) (i : Nat) :
    ((mp.scoreWith f).moves i).move = (mp.moves i).move := by
  show (if mp.cur ≤ i ∧ i < mp.endMoves
      then { mp.moves i with value := f (mp.moves i).move } else mp.moves i).move = _
  split <;> rfl

/-! ## ProbCut -/

theorem case_PROBCUT_CAPTURES_spec (mp : MovePicker) (S : Move → Prop)
    (h : ∀ i, mp.cur ≤ i → i < mp.endMoves → S (mp.moves i).move) :
    ((case_PROBCUT_CAPTURES mp).2.1 ≠ MOVE_NONE →
        ((case_PROBCUT_CAPTURES mp).2.1 ≠ mp.ttMove
          ∧ mp.pos.see_ge (case_PROBCUT_CAPTURES mp).2.1 mp.threshold = true)
        ∧ S (case_PROBCUT_CAPTURES mp).2.1)
    ∧ (∀ i, (case_PROBCUT_CAPTURES mp).2.2.cur ≤ i → i < (case_PROBCUT_CAPTURES mp).2.2.endMoves →
        S ((case_PROBCUT_CAPTURES mp).2.2.moves i).move)
    ∧ (∃ buf c, (case_PROBCUT_CAPTURES mp).2.2 = { mp with moves := buf, cur := c }) := by
  obtain ⟨h1, h2, h3⟩ := pickLoop_inv
    (fun move => move != mp.ttMove && mp.pos.see_ge move mp.threshold) S
    (mp.endMoves - mp.cur) mp h
  unfold case_PROBCUT_CAPTURES
  simp only []
  split
  · rename_i move hm
    refine ⟨fun _ => ?_, h2, h3⟩
    have := h1 move hm
    simpa using this
  · exact ⟨fun hne => absurd rfl hne, h2, h3⟩

theorem probcutInv_step (p : Position) (th : Value) (tt : Move) (mp : MovePicker) (sq : Bool)
    (hcap : tt ≠ MOVE_NONE → p.capture tt = true ∧ p.see_ge tt th = true)
    (h : ProbcutInv p th tt mp) :
    ProbcutInv p th tt (next_move mp sq).2
    ∧ ((next_move mp sq).1 ≠ MOVE_NONE →
        p.see_ge (next_move mp sq).1 th = true
        ∧ (((next_move mp sq).1 = tt ∧ p.capture tt = true)
          ∨ (next_move mp sq).1 ∈ p.genCAPTURES_PRO_PLUS)) := by
  obtain ⟨hp, hth, htt, hst⟩ := h
  rw [next_move_eq]
  rcases hst with ⟨hs, hne⟩ | hs | ⟨hs, hrange⟩
  · rw [next_move_traced_ttStage mp sq (by simp [hs])]
    refine ⟨⟨hp, hth, htt, Or.inr (Or.inl (by simp [hs]))⟩, fun _ => ⟨?_, Or.inl ⟨htt, ?_⟩⟩⟩
    · show p.see_ge mp.ttMove th = true
      rw [htt]
      exact (hcap hne).2
    · exact (hcap hne).1
  · rw [next_move_traced_PROBCUT_INIT mp sq hs]
    unfold case_PROBCUT_INIT
    simp only []
    obtain ⟨h1, h2, buf, c, h3⟩ := case_PROBCUT_CAPTURES_spec
      { (({ mp with cur := 0 } : MovePicker).generateMoves .CAPTURES_PRO_PLUS 0).score_CAPTURES
        with stage := (({ mp with cur := 0 } : MovePicker).generateMoves
          .CAPTURES_PRO_PLUS 0).score_CAPTURES.stage + 1 }
      (fun m => m ∈ p.genCAPTURES_PRO_PLUS)
      (by
        intro i hi1 hi2
        show ((({ mp with cur := 0 } : MovePicker).generateMoves
          .CAPTURES_PRO_PLUS 0).scoreWith _ |>.moves i).move ∈ _
        rw [scoreWith_move, ← hp]
        exact generateMoves_range _ .CAPTURES_PRO_PLUS 0 i (Nat.zero_le i) hi2)
    refine ⟨?_, ?_⟩
    · rw [h3] at h2 ⊢
      refine ⟨hp, hth, htt, Or.inr (Or.inr ⟨?_, h2⟩)⟩
      show mp.stage + 1 = PROBCUT_CAPTURES
      rw [hs]
    · intro hne
      obtain ⟨⟨_, hsee⟩, hmem⟩ := h1 hne
      refine ⟨?_, Or.inr hmem⟩
      rw [← hp, ← hth]
      exact hsee
  · rw [next_move_traced_PROBCUT_CAPTURES mp sq hs]
    obtain ⟨h1, h2, buf, c, h3⟩ := case_PROBCUT_CAPTURES_spec mp
      (fun m => m ∈ p.genCAPTURES_PRO_PLUS) hrange
    refine ⟨?_, ?_⟩
    · rw [h3] at h2 ⊢
      exact ⟨hp, hth, htt, Or.inr (Or.inr ⟨hs, h2⟩)⟩
    · intro hne
      obtain ⟨⟨_, hsee⟩, hmem⟩ := h1 hne
      refine ⟨?_, Or.inr hmem⟩
      rw [← hp, ← hth]
      exact hsee

theorem probcutInv_init (env : Env) (raw : MovePicker) (p : Position) (ttm : Move) (th : Value) :
    ProbcutInv p th (MovePicker.probcut env raw p ttm th).ttMove
      (MovePicker.probcut env raw p ttm th)
    ∧ ((MovePicker.probcut env raw p ttm th).ttMove ≠ MOVE_NONE →
        (MovePicker.probcut env raw p ttm th).ttMove = ttm
        ∧ p.capture ttm = true ∧ p.see_ge ttm th = true) := by
  by_cases hv : (ttm != MOVE_NONE && p.pseudo_legal_s ttm && p.capture ttm && p.see_ge ttm th)
      = true
  · have htt : (MovePicker.probcut env raw p ttm th).ttMove = ttm := by
      simp only [MovePicker.probcut, hv, if_true]
    have hne : ttm ≠ MOVE_NONE := by
      simp only [Bool.and_eq_true, bne_iff_ne] at hv
      exact hv.1.1.1
    have hst : (MovePicker.probcut env raw p ttm th).stage = PROBCUT := by
      have : (ttm == MOVE_NONE) = false := by simpa using hne
      simp [MovePicker.probcut, hv, this]
    simp only [Bool.and_eq_true] at hv
    exact ⟨⟨rfl, rfl, rfl, Or.inl ⟨hst, by rw [htt]; exact hne⟩⟩,
      fun _ => ⟨htt, hv.1.2, hv.2⟩⟩
  · have htt : (MovePicker.probcut env raw p ttm th).ttMove = MOVE_NONE := by
      simp only [MovePicker.probcut, hv]
      rfl
    have hst : (MovePicker.probcut env raw p ttm th).stage = PROBCUT_INIT := by
      simp [MovePicker.probcut, hv]
    exact ⟨⟨rfl, rfl, rfl, Or.inr (Or.inl hst)⟩, fun h => absurd htt h⟩

theorem probcutInv_reachable (env : Env) (raw : MovePicker) (p : Position) (ttm : Move)
    (th : Value) (mp : MovePicker) (hr : Reachable (MovePicker.probcut env raw p ttm th) mp) :
    ProbcutInv p th (MovePicker.probcut env raw p ttm th).ttMove mp := by
  induction hr with
  | init => exact (probcutInv_init env raw p ttm th).1
  | step mp1 sq _ ih =>
    refine (probcutInv_step p th _ mp1 sq ?_ ih).1
    intro hne
    obtain ⟨h1, h2, h3⟩ := (probcutInv_init env raw p ttm th).2 hne
    rw [h1]
    exact ⟨h2, h3⟩

/-- C6, as amended: every move other than MOVE_NONE that a ProbCut picker returns, at
any call, satisfies `see_ge(move, threshold)` and is either the validated hash move,
which is a capture, or a move of the CAPTURES_PRO_PLUS batch (captures and pawn
promotions). -/
theorem probcut_moves_meet_threshold (env : Env) (raw : MovePicker) (p : Position)
    (ttm : Move) (th : Value) (mp : MovePicker) (skipQuiets : Bool)
    (hr : Reachable (MovePicker.probcut env raw p ttm th) mp)
    (hne : (next_move mp skipQuiets).1 ≠ MOVE_NONE) :
    p.see_ge (next_move mp skipQuiets).1 th = true
    ∧ (((next_move mp skipQuiets).1 = ttm ∧ p.capture (next_move mp skipQuiets).1 = true)
      ∨ (next_move mp skipQuiets).1 ∈ p.genCAPTURES_PRO_PLUS) := by
  have hinit := (probcutInv_init env raw p ttm th).2
  have hinv := probcutInv_reachable env raw p ttm th mp hr
  have hstep := (probcutInv_step p th _ mp skipQuiets
    (fun h => by
      obtain ⟨h1, h2, h3⟩ := hinit h
      rw [h1]
      exact ⟨h2, h3⟩) hinv).2 hne
  refine ⟨hstep.1, ?_⟩
  rcases hstep.2 with ⟨h1, h2⟩ | h
  · left
    have h3 : (MovePicker.probcut env raw p ttm th).ttMove ≠ MOVE_NONE := by
      rw [← h1]
      exact hne
    have h4 := (hinit h3).1
    rw [h1]
    exact ⟨h4, h2⟩
  · exact Or.inr h

/-- Witness of C6: the first call of the ProbCut picker with the capture 11 as hash
move. -/
theorem probcut_moves_meet_threshold_witness :
    (next_move (MovePicker.probcut exEnv exRaw exPos 11 0) false).1 ≠ MOVE_NONE
    ∧ exPos.see_ge (next_move (MovePicker.probcut exEnv exRaw exPos 11 0) false).1 0 = true :=
  ⟨by decide,
    (probcut_moves_meet_threshold exEnv exRaw exPos 11 0 _ false Reachable.init
      (by decide)).1⟩

/-- Counterexample to C6 as stated: with threshold 0 the ProbCut picker returns the
pawn promotion 13 of the CAPTURES_PRO_PLUS batch, which is not a capture. -/
theorem probcut_returns_pawn_promotion :
    (next_move (MovePicker.probcut exEnv exRaw exPos MOVE_NONE 0) false).1 = 13
    ∧ (13 : Move) ≠ MOVE_NONE ∧ exPos.capture 13 = false := by
  decide

/-! ## Quiescence search without checks -/

theorem case_QCAPTURES_2_spec (mp : MovePicker) (S : Move → Prop) (hs : mp.stage = QCAPTURES_2)
    (h : ∀ i, mp.cur ≤ i → i < mp.endMoves → S (mp.moves i).move) :
    ((case_QCAPTURES mp).2.1 ≠ MOVE_NONE →
        (case_QCAPTURES mp).2.1 ≠ mp.ttMove ∧ S (case_QCAPTURES mp).2.1)
    ∧ (∀ i, (case_QCAPTURES mp).2.2.cur ≤ i → i < (case_QCAPTURES mp).2.2.endMoves →
        S ((case_QCAPTURES mp).2.2.moves i).move)
    ∧ (∃ buf c, (case_QCAPTURES mp).2.2 = { mp with moves := buf, cur := c }) := by
  obtain ⟨h1, h2, buf, c, h3⟩ := pickLoop_inv (fun move => move != mp.ttMove) S
    (mp.endMoves - mp.cur) mp h
  unfold case_QCAPTURES
  simp only []
  split
  · rename_i move hm
    refine ⟨fun _ => ?_, h2, buf, c, h3⟩
    have := h1 move hm
    simpa using this
  · have hst : (pickLoop (fun move => move != mp.ttMove) (mp.endMoves - mp.cur) mp).2.stage
        = QCAPTURES_2 := by
      rw [h3]
      exact hs
    rw [if_pos hst]
    exact ⟨fun hne => absurd rfl hne, h2, buf, c, h3⟩

theorem qNoChecksInv_step (p : Position) (tt : Move) (mp : MovePicker) (sq : Bool)
    (h : QNoChecksInv p tt mp) :
    QNoChecksInv p tt (next_move mp sq).2
    ∧ ((next_move mp sq).1 ≠ MOVE_NONE →
        ((next_move mp sq).1 = tt ∧ tt ≠ MOVE_NONE)
          ∨ (next_move mp sq).1 ∈ p.genCAPTURES_PRO_PLUS) := by
  obtain ⟨hp, htt, hgen, hst⟩ := h
  rw [next_move_eq]
  rcases hst with ⟨hs, hne⟩ | hs | ⟨hs, hrange⟩
  · rw [next_move_traced_ttStage mp sq (by simp [hs])]
    exact ⟨⟨hp, htt, hgen, Or.inr (Or.inl (by simp [hs]))⟩, fun _ => Or.inl ⟨htt, hne⟩⟩
  · rw [next_move_traced_QCAPTURES_2_INIT mp sq hs]
    unfold case_QCAPTURES_INIT
    simp only []
    obtain ⟨h1, h2, buf, c, h3⟩ := case_QCAPTURES_2_spec
      { (({ mp with cur := 0 } : MovePicker).generateMoves .CAPTURES_PRO_PLUS 0).score_CAPTURES
        with stage := (({ mp with cur := 0 } : MovePicker).generateMoves
          .CAPTURES_PRO_PLUS 0).score_CAPTURES.stage + 1 }
      (fun m => m ∈ p.genCAPTURES_PRO_PLUS)
      (by
        show mp.stage + 1 = QCAPTURES_2
        rw [hs])
      (by
        intro i hi1 hi2
        show ((({ mp with cur := 0 } : MovePicker).generateMoves
          .CAPTURES_PRO_PLUS 0).scoreWith _ |>.moves i).move ∈ _
        rw [scoreWith_move, ← hp]
        exact generateMoves_range _ .CAPTURES_PRO_PLUS 0 i (Nat.zero_le i) hi2)
    refine ⟨?_, fun hne => Or.inr (h1 hne).2⟩
    rw [h3] at h2 ⊢
    refine ⟨hp, htt, ?_, Or.inr (Or.inr ⟨?_, h2⟩)⟩
    · show MOVE_GEN_TYPE.QUIET_CHECKS ∉ mp.generated ++ [MOVE_GEN_TYPE.CAPTURES_PRO_PLUS]
      simp [hgen]
    · show mp.stage + 1 = QCAPTURES_2
      rw [hs]
  · rw [next_move_traced_QCAPTURES_2 mp sq hs]
    obtain ⟨h1, h2, buf, c, h3⟩ := case_QCAPTURES_2_spec mp
      (fun m => m ∈ p.genCAPTURES_PRO_PLUS) hs hrange
    refine ⟨?_, fun hne => Or.inr (h1 hne).2⟩
    rw [h3] at h2 ⊢
    exact ⟨hp, htt, hgen, Or.inr (Or.inr ⟨hs, h2⟩)⟩

theorem qNoChecksInv_init (env : Env) (raw : MovePicker) (p : Position) (ttm : Move)
    (d : Depth) (mh : Nat → Color → Value) (recapSq : Square) (hc : p.in_check = false)
    (hd1 : d ≤ env.DEPTH_QS_NO_CHECKS) (hd2 : env.DEPTH_QS_RECAPTURES < d) :
    QNoChecksInv p (MovePicker.quiescence env raw p ttm d mh recapSq).ttMove
      (MovePicker.quiescence env raw p ttm d mh recapSq)
    ∧ ((MovePicker.quiescence env raw p ttm d mh recapSq).ttMove ≠ MOVE_NONE →
        (MovePicker.quiescence env raw p ttm d mh recapSq).ttMove = ttm
        ∧ p.pseudo_legal_s ttm = true) := by
  have h1 : ¬ d > env.DEPTH_QS_NO_CHECKS := not_lt.mpr hd1
  have h2 : d > env.DEPTH_QS_RECAPTURES := hd2
  have hq : MovePicker.quiescence env raw p ttm d mh recapSq
      = MovePicker.withHashMove
          { raw with env := env, pos := p, mainHistory := mh, generated := [],
                     stage := QSEARCH_NO_CHECKS } ttm := by
    unfold MovePicker.quiescence
    simp only [hc, h1, h2, if_false, if_true, Bool.false_eq_true]
  rw [hq]
  by_cases hv : (ttm != MOVE_NONE && p.pseudo_legal_s ttm) = true
  · have hne : ttm ≠ MOVE_NONE := by
      simp only [Bool.and_eq_true, bne_iff_ne] at hv
      exact hv.1
    have hpl : p.pseudo_legal_s ttm = true := by
      simp only [Bool.and_eq_true] at hv
      exact hv.2
    have hacc := withHashMove_accept
      { raw with env := env, pos := p, mainHistory := mh, generated := [],
                 stage := QSEARCH_NO_CHECKS } ttm hne hpl
    refine ⟨⟨rfl, rfl, ?_, Or.inl ⟨hacc.2, ?_⟩⟩, fun _ => ⟨hacc.1, hpl⟩⟩
    · simp [MovePicker.withHashMove]
    · rw [hacc.1]
      exact hne
  · have htt : (MovePicker.withHashMove
          { raw with env := env, pos := p, mainHistory := mh, generated := [],
                     stage := QSEARCH_NO_CHECKS } ttm).ttMove = MOVE_NONE := by
      simp only [MovePicker.withHashMove, hv]
      rfl
    refine ⟨⟨rfl, rfl, ?_, Or.inr (Or.inl ?_)⟩, fun h => absurd htt h⟩
    · simp [MovePicker.withHashMove]
    · simp [MovePicker.withHashMove, hv]

theorem qNoChecksInv_reachable (env : Env) (raw : MovePicker) (p : Position) (ttm : Move)
    (d : Depth) (mh : Nat → Color → Value) (recapSq : Square) (hc : p.in_check = false)
    (hd1 : d ≤ env.DEPTH_QS_NO_CHECKS) (hd2 : env.DEPTH_QS_RECAPTURES < d) (mp : MovePicker)
    (hr : Reachable (MovePicker.quiescence env raw p ttm d mh recapSq) mp) :
    QNoChecksInv p (MovePicker.quiescence env raw p ttm d mh recapSq).ttMove mp := by
  induction hr with
  | init => exact (qNoChecksInv_init env raw p ttm d mh recapSq hc hd1 hd2).1
  | step mp1 sq _ ih => exact (qNoChecksInv_step p _ mp1 sq ih).1

/-- C8, as amended: a quiescence picker built on a position not in check with
DEPTH_QS_RECAPTURES < d ≤ DEPTH_QS_NO_CHECKS stays in the stages QSEARCH_NO_CHECKS to
QCAPTURES_2, never runs the QUIET_CHECKS generator, and every move it returns before
the sentinel is the validated hash move (any pseudo-legal move) or a move of the
CAPTURES_PRO_PLUS batch. -/
theorem qsearch_no_checks_moves (env : Env) (raw : MovePicker) (p : Position) (ttm : Move)
    (d : Depth) (mh : Nat → Color → Value) (recapSq : Square) (mp : MovePicker)
    (skipQuiets : Bool) (hc : p.in_check = false)
    (hd1 : d ≤ env.DEPTH_QS_NO_CHECKS) (hd2 : env.DEPTH_QS_RECAPTURES < d)
    (hr : Reachable (MovePicker.quiescence env raw p ttm d mh recapSq) mp) :
    MOVE_GEN_TYPE.QUIET_CHECKS ∉ (next_move mp skipQuiets).2.generated
    ∧ (QSEARCH_NO_CHECKS ≤ mp.stage ∧ mp.stage ≤ QCAPTURES_2)
    ∧ (QSEARCH_NO_CHECKS ≤ (next_move mp skipQuiets).2.stage
        ∧ (next_move mp skipQuiets).2.stage ≤ QCAPTURES_2)
    ∧ ((next_move mp skipQuiets).1 ≠ MOVE_NONE →
        ((next_move mp skipQuiets).1 = ttm ∧ p.pseudo_legal_s ttm = true)
          ∨ (next_move mp skipQuiets).1 ∈ p.genCAPTURES_PRO_PLUS) := by
  have hinit := (qNoChecksInv_init env raw p ttm d mh recapSq hc hd1 hd2).2
  have hinv := qNoChecksInv_reachable env raw p ttm d mh recapSq hc hd1 hd2 mp hr
  have hstep := qNoChecksInv_step p _ mp skipQuiets hinv
  have hstage : ∀ m : MovePicker,
      QNoChecksInv p (MovePicker.quiescence env raw p ttm d mh recapSq).ttMove m →
      QSEARCH_NO_CHECKS ≤ m.stage ∧ m.stage ≤ QCAPTURES_2 := by
    intro m hm
    rcases hm.2.2.2 with ⟨h, _⟩ | h | ⟨h, _⟩ <;> rw [h] <;> decide
  refine ⟨hstep.1.2.2.1, hstage mp hinv, hstage _ hstep.1, fun hne => ?_⟩
  rcases hstep.2 hne with ⟨h1, h2⟩ | h
  · left
    obtain ⟨h3, h4⟩ := hinit h2
    exact ⟨h1.trans h3, h4⟩
  · exact Or.inr h

/-- Witness of C8: the example position at quiescence depth -2. -/
theorem qsearch_no_checks_moves_witness :
    exPos.in_check = false ∧ (-2 : Int) ≤ exEnv.DEPTH_QS_NO_CHECKS
    ∧ exEnv.DEPTH_QS_RECAPTURES < (-2 : Int)
    ∧ MOVE_GEN_TYPE.QUIET_CHECKS ∉
        (next_move (MovePicker.quiescence exEnv exRaw exPos 0 (-2) exHistory 0) false).2.generated :=
  ⟨by decide, by decide, by decide,
    (qsearch_no_checks_moves exEnv exRaw exPos 0 (-2) exHistory 0 _ false (by decide)
      (by decide) (by decide) Reachable.init).1⟩

/-- Counterexample to C8 as stated: at quiescence depth -2, position not in check, the
first move returned is the hash move 21, a quiet move that captures nothing. -/
theorem qsearch_returns_quiet_hash_move :
    exPos.in_check = false ∧ exEnv.DEPTH_QS_RECAPTURES < (-2 : Int)
    ∧ (-2 : Int) ≤ exEnv.DEPTH_QS_NO_CHECKS
    ∧ (next_move (MovePicker.quiescence exEnv exRaw exPos 21 (-2) exHistory 0) false).1 = 21
    ∧ (21 : Move) ≠ MOVE_NONE
    ∧ exPos.capture 21 = false ∧ exPos.capture_or_pawn_promotion 21 = false := by
  decide

/-! ## partial_insertion_sort -/

/-- A buffer that reads another one through a map of `[b, e)` into itself without
collisions holds a rearrangement of the range. -/
theorem slice_perm_of_injOn (buf1 buf2 : Buffer) (b e : Nat) (σ : Nat → Nat)
    (hmaps : ∀ k, b ≤ k → k < e → b ≤ σ k ∧ σ k < e)
    (hinj : ∀ x y, b ≤ x → x < e → b ≤ y → y < e → σ x = σ y → x = y)
    (hbuf : ∀ k, b ≤ k → k < e → buf2 k = buf1 (σ k)) :
    (slice buf2 b e).Perm (slice buf1 b e) := by
  have h1 : slice buf2 b e = ((List.range' b (e - b)).map σ).map buf1 := by
    unfold slice
    rw [List.map_map]
    apply List.map_congr_left
    intro k hk
    rw [List.mem_range'_1] at hk
    exact hbuf k hk.1 (by omega)
  rw [h1]
  unfold slice
  apply List.Perm.map
  apply List.Subperm.perm_of_length_le
  · apply List.subperm_of_subset
    · apply List.Nodup.map_on _ (List.nodup_range' b (e - b))
      intro x hx y hy hxy
      rw [List.mem_range'_1] at hx hy
      exact hinj x y hx.1 (by omega) hy.1 (by omega) hxy
    · intro a ha
      rw [List.mem_map] at ha
      obtain ⟨k, hk, rfl⟩ := ha
      rw [List.mem_range'_1] at hk ⊢
      have := hmaps k hk.1 (by omega)
      omega
  · simp

/-- The inner loop started at `q` stores `tmp` at some `r` in `[begin, q]` and moves the
slots `[r, q)` one place up; they all have a smaller value than `tmp`, and the slot
before `r`, if any, does not. -/
theorem insertLoop_spec (b : Nat) (tmp : ExtMove) :
    ∀ (q : Nat) (buf : Buffer), b ≤ q →
      ∃ r, b ≤ r ∧ r ≤ q
        ∧ (∀ k, r ≤ k → k < q → (buf k).value < tmp.value)
        ∧ (r = b ∨ tmp.value ≤ (buf (r - 1)).value)
        ∧ ∀ k, insertLoop b tmp q buf k
            = if k < r then buf k else if k = r then tmp
              else if k ≤ q then buf (k - 1) else buf k := by
  intro q
  induction q with
  | zero =>
    intro buf hb
    refine ⟨0, hb, le_refl 0, fun k h1 h2 => absurd h2 (Nat.not_lt_zero k), Or.inl (by omega), ?_⟩
    intro k
    unfold insertLoop
    by_cases hk : k = 0
    · subst hk
      simp
    · have h1 : ¬ k ≤ 0 := by omega
      simp [hk, h1]
  | succ q ih =>
    intro buf hb
    unfold insertLoop
    by_cases hcond : (q + 1 != b && (buf q).lt tmp) = true
    · rw [if_pos hcond]
      simp only [Bool.and_eq_true, bne_iff_ne, ne_eq, ExtMove.lt, decide_eq_true_eq] at hcond
      obtain ⟨hne, hlt⟩ := hcond
      obtain ⟨r, hr1, hr2, hr3, hr4, hr5⟩ := ih (Function.update buf (q + 1) (buf q)) (by omega)
      refine ⟨r, hr1, by omega, ?_, ?_, ?_⟩
      · intro k hk1 hk2
        by_cases hkq : k = q
        · rw [hkq]; exact hlt
        · have := hr3 k hk1 (by omega)
          rwa [Function.update_noteq (by omega)] at this
      · rcases hr4 with h | h
        · exact Or.inl h
        · by_cases hrb : r = b
          · exact Or.inl hrb
          · right
            rwa [Function.update_noteq (by omega)] at h
      · intro k
        rw [hr5 k]
        by_cases h1 : k < r
        · simp only [h1, if_true]
          rw [Function.update_noteq (by omega)]
        · simp only [h1, if_false]
          by_cases h2 : k = r
          · simp only [h2, if_true]
          · simp only [h2, if_false]
            by_cases h3 : k ≤ q
            · have h4 : k ≤ q + 1 := by omega
              simp only [h3, h4, if_true]
              rw [Function.update_noteq (by omega)]
            · simp only [h3, if_false]
              by_cases h4 : k = q + 1
              · subst h4
                simp
              · have h5 : ¬ k ≤ q + 1 := by omega
                simp only [h5, if_false]
                rw [Function.update_noteq h4]
    · rw [if_neg hcond]
      refine ⟨q + 1, hb, le_refl _, fun k h1 h2 => by omega, ?_, ?_⟩
      · by_cases hqb : q + 1 = b
        · exact Or.inl hqb
        · right
          simp only [Bool.and_eq_true, bne_iff_ne, ne_eq, ExtMove.lt, decide_eq_true_eq,
            not_and, not_lt] at hcond
          simpa using hcond hqb
      · intro k
        by_cases h1 : k < q + 1
        · simp only [h1, if_true]
          rw [Function.update_noteq (by omega)]
        · simp only [h1, if_false]
          by_cases h2 : k = q + 1
          · subst h2
            simp
          · have h3 : ¬ k ≤ q + 1 := by omega
            simp only [h2, h3, if_false]
            rw [Function.update_noteq h2]

/-- One iteration of the outer loop that inserts `*p`: the sorted prefix grows by one
slot and stays in descending order, the slots between the prefix and `p` keep values
below the limit, and the range is rearranged. -/
theorem sortStep_spec (b e : Nat) (limit : Int) (buf : Buffer) (se p : Nat)
    (hb : b ≤ se) (hsp : se < p) (hpe : p < e)
    (hsorted : ∀ i j, b ≤ i → i ≤ j → j ≤ se → (buf j).value ≤ (buf i).value)
    (hlow : ∀ k, se < k → k < p → (buf k).value < limit) :
    (∀ i j, b ≤ i → i ≤ j → j ≤ se + 1 →
      (insertLoop b (buf p) (se + 1) (Function.update buf p (buf (se + 1))) j).value
        ≤ (insertLoop b (buf p) (se + 1) (Function.update buf p (buf (se + 1))) i).value)
    ∧ (∀ k, se + 1 < k → k < p + 1 →
      (insertLoop b (buf p) (se + 1) (Function.update buf p (buf (se + 1))) k).value < limit)
    ∧ (slice (insertLoop b (buf p) (se + 1) (Function.update buf p (buf (se + 1)))) b e).Perm
        (slice buf b e)
    ∧ (∀ k, k < b ∨ e ≤ k →
      insertLoop b (buf p) (se + 1) (Function.update buf p (buf (se + 1))) k = buf k) := by
  obtain ⟨r, hr1, hr2, hr3, hr4, hr5⟩ :=
    insertLoop_spec b (buf p) (se + 1) (Function.update buf p (buf (se + 1))) (by omega)
  have hb1 : ∀ k, k ≠ p → Function.update buf p (buf (se + 1)) k = buf k :=
    fun k hk => Function.update_noteq hk _ _
  have hb2 : Function.update buf p (buf (se + 1)) p = buf (se + 1) := Function.update_same _ _ _
  -- the slots of the result, read in the buffer before the iteration
  have o1 : ∀ k, k < r →
      insertLoop b (buf p) (se + 1) (Function.update buf p (buf (se + 1))) k = buf k := by
    intro k hk
    rw [hr5 k, if_pos hk, hb1 k (by omega)]
  have o2 : insertLoop b (buf p) (se + 1) (Function.update buf p (buf (se + 1))) r = buf p := by
    rw [hr5 r, if_neg (lt_irrefl r), if_pos rfl]
  have o3 : ∀ k, r < k → k ≤ se + 1 →
      insertLoop b (buf p) (se + 1) (Function.update buf p (buf (se + 1))) k = buf (k - 1) := by
    intro k hk1 hk2
    rw [hr5 k, if_neg (by omega), if_neg (by omega), if_pos hk2, hb1 (k - 1) (by omega)]
  have o4 : se + 1 < p →
      insertLoop b (buf p) (se + 1) (Function.update buf p (buf (se + 1))) p = buf (se + 1) := by
    intro h
    rw [hr5 p, if_neg (by omega), if_neg (by omega), if_neg (by omega), hb2]
  have o5 : ∀ k, se + 1 < k → k ≠ p →
      insertLoop b (buf p) (se + 1) (Function.update buf p (buf (se + 1))) k = buf k := by
    intro k hk1 hk2
    rw [hr5 k, if_neg (by omega), if_neg (by omega), if_neg (by omega), hb1 k hk2]
  have hshift : ∀ k, r ≤ k → k < se + 1 → (buf k).value < (buf p).value := by
    intro k hk1 hk2
    have := hr3 k hk1 hk2
    rwa [hb1 k (by omega)] at this
  have hbefore : ∀ i, b ≤ i → i < r → (buf p).value ≤ (buf i).value := by
    intro i hi1 hi2
    rcases hr4 with h | h
    · omega
    · rw [hb1 (r - 1) (by omega)] at h
      exact le_trans h (hsorted i (r - 1) hi1 (by omega) (by omega))
  refine ⟨?_, ?_, ?_, ?_⟩
  · intro i j hi hij hj
    rcases Nat.lt_trichotomy j r with hjr | hjr | hjr
    · rw [o1 j hjr, o1 i (by omega)]
      exact hsorted i j hi hij (by omega)
    · rw [hjr, o2]
      rcases Nat.lt_or_ge i r with hir | hir
      · rw [o1 i hir]
        exact hbefore i hi hir
      · have : i = r := by omega
        rw [this, o2]
    · rw [o3 j hjr hj]
      rcases Nat.lt_trichotomy i r with hir | hir | hir
      · rw [o1 i hir]
        exact hsorted i (j - 1) hi (by omega) (by omega)
      · rw [hir, o2]
        exact le_of_lt (hshift (j - 1) (by omega) (by omega))
      · rw [o3 i hir (by omega)]
        exact hsorted (i - 1) (j - 1) (by omega) (by omega) (by omega)
  · intro k hk1 hk2
    by_cases hkp : k = p
    · rw [hkp, o4 (by omega)]
      exact hlow (se + 1) (by omega) (by omega)
    · rw [o5 k hk1 hkp]
      exact hlow k (by omega) (by omega)
  · apply slice_perm_of_injOn buf _ b e
      (fun k => if k < r then k else if k = r then p else if k ≤ se + 1 then k - 1
        else if k = p then se + 1 else k)
    · intro k hk1 hk2
      split_ifs <;> omega
    · intro x y hx1 hx2 hy1 hy2 hxy
      split_ifs at hxy <;> omega
    · intro k hk1 hk2
      split_ifs with h1 h2 h3 h4
      · exact o1 k h1
      · rw [h2]; exact o2
      · exact o3 k (by omega) h3
      · rw [h4]; exact o4 (by omega)
      · exact o5 k (by omega) h4
  · intro k hk
    rcases hk with hk | hk
    · exact o1 k (by omega)
    · exact o5 k (by omega) (by omega)

theorem sortLoop_succ (b e : Nat) (limit : Int) (n se p : Nat) (buf : Buffer) :
    sortLoop b e limit (n + 1) se p buf
      = if p < e then
          (if limit ≤ (buf p).value then
            sortLoop b e limit n (se + 1) (p + 1)
              (insertLoop b (buf p) (se + 1) (Function.update buf p (buf (se + 1))))
          else sortLoop b e limit n se (p + 1) buf)
        else buf := rfl

/-- The outer loop, from a state in which `[begin, sortedEnd]` is in descending order
and the slots of `(sortedEnd, p)` are below the limit, ends in such a state with
`p = end`; the range is rearranged and nothing outside it is written. -/
theorem sortLoop_spec (b e : Nat) (limit : Int) (orig : Buffer) :
    ∀ (n se p : Nat) (buf : Buffer), b ≤ se → se < p → p ≤ e → e - p ≤ n →
      (∀ i j, b ≤ i → i ≤ j → j ≤ se → (buf j).value ≤ (buf i).value) →
      (∀ k, se < k → k < p → (buf k).value < limit) →
      (slice buf b e).Perm (slice orig b e) →
      (∀ k, k < b ∨ e ≤ k → buf k = orig k) →
      ∃ se2, b ≤ se2 ∧ se2 < e
        ∧ (∀ i j, b ≤ i → i ≤ j → j ≤ se2 →
            (sortLoop b e limit n se p buf j).value ≤ (sortLoop b e limit n se p buf i).value)
        ∧ (∀ k, se2 < k → k < e → (sortLoop b e limit n se p buf k).value < limit)
        ∧ (slice (sortLoop b e limit n se p buf) b e).Perm (slice orig b e)
        ∧ (∀ k, k < b ∨ e ≤ k → sortLoop b e limit n se p buf k = orig k) := by
  intro n
  induction n with
  | zero =>
    intro se p buf h1 h2 h3 h4 hs hl hp hf
    have hpe : p = e := by omega
    subst hpe
    exact ⟨se, h1, h2, hs, hl, hp, hf⟩
  | succ n ih =>
    intro se p buf h1 h2 h3 h4 hs hl hp hf
    rw [sortLoop_succ]
    by_cases hpe : p < e
    · rw [if_pos hpe]
      by_cases hv : limit ≤ (buf p).value
      · rw [if_pos hv]
        obtain ⟨s1, s2, s3, s4⟩ := sortStep_spec b e limit buf se p h1 h2 hpe hs hl
        apply ih (se + 1) (p + 1) _ (by omega) (by omega) (by omega) (by omega) s1 s2
          (s3.trans hp)
        intro k hk
        rw [s4 k hk]
        exact hf k hk
      · rw [if_neg hv]
        apply ih se (p + 1) buf h1 (by omega) (by omega) (by omega) hs _ hp hf
        intro k hk1 hk2
        by_cases hkp : k = p
        · rw [hkp]
          exact not_le.mp hv
        · exact hl k hk1 (by omega)
    · rw [if_neg hpe]
      have hpe2 : p = e := by omega
      subst hpe2
      exact ⟨se, h1, h2, hs, hl, hp, hf⟩

/-- The sort rearranges the range and writes nothing outside it. -/
theorem partial_insertion_sort_perm (buf : Buffer) (b e : Nat) (limit : Int) :
    (slice (partial_insertion_sort buf b e limit) b e).Perm (slice buf b e)
    ∧ (∀ k, k < b ∨ e ≤ k → partial_insertion_sort buf b e limit k = buf k) := by
  unfold partial_insertion_sort
  by_cases hbe : b < e
  · obtain ⟨se2, _, _, _, _, h5, h6⟩ := sortLoop_spec b e limit buf (e - (b + 1)) b (b + 1) buf
      (le_refl b) (by omega) (by omega) (le_refl _)
      (by
        intro i j hi hij hj
        have h1 : i = b := by omega
        have h2 : j = b := by omega
        rw [h1, h2])
      (by intro k hk1 hk2; omega) (List.Perm.refl _) (fun k _ => rfl)
    exact ⟨h5, h6⟩
  · have h0 : e - (b + 1) = 0 := by omega
    rw [h0]
    exact ⟨List.Perm.refl _, fun k _ => rfl⟩

/-- C5: after `partial_insertion_sort(begin, end, limit)` a slot of the range with a
value ≥ limit comes before every slot with a value < limit, and of two slots with
values ≥ limit the earlier one has the greater or equal value. -/
theorem partial_insertion_sort_order (buf : Buffer) (b e : Nat) (limit : Int) (i j : Nat)
    (hi1 : b ≤ i) (hi2 : i < e) (hj1 : b ≤ j) (hj2 : j < e)
    (hiv : limit ≤ (partial_insertion_sort buf b e limit i).value) :
    ((partial_insertion_sort buf b e limit j).value < limit → i < j)
    ∧ (i < j → limit ≤ (partial_insertion_sort buf b e limit j).value →
        (partial_insertion_sort buf b e limit j).value
          ≤ (partial_insertion_sort buf b e limit i).value) := by
  have hbe : b < e := by omega
  obtain ⟨se2, h1, h2, hs, hl, _, _⟩ := sortLoop_spec b e limit buf (e - (b + 1)) b (b + 1) buf
    (le_refl b) (by omega) (by omega) (le_refl _)
    (by
      intro i j hi hij hj
      have h1 : i = b := by omega
      have h2 : j = b := by omega
      rw [h1, h2])
    (by intro k hk1 hk2; omega) (List.Perm.refl _) (fun k _ => rfl)
  have hout : partial_insertion_sort buf b e limit
      = sortLoop b e limit (e - (b + 1)) b (b + 1) buf := rfl
  rw [hout] at hiv ⊢
  have hise : i ≤ se2 := by
    by_contra hcon
    have hlt := hl i (by omega) hi2
    exact absurd (lt_of_lt_of_le hlt hiv) (lt_irrefl _)
  constructor
  · intro hjv
    by_contra hcon
    have hji : j ≤ i := by omega
    have hle := hs j i hj1 hji hise
    exact absurd (lt_of_le_of_lt (le_trans hiv hle) hjv) (lt_irrefl _)
  · intro hij hjv
    have hjse : j ≤ se2 := by
      by_contra hcon
      have hlt := hl j (by omega) hj2
      exact absurd (lt_of_lt_of_le hlt hjv) (lt_irrefl _)
    exact hs i j hi1 (by omega) hjse

/-- Witness of C5: the values 3, 10, -1, 5 sorted with limit 0; slot 0 then holds
10 and slot 3 holds -1. -/
theorem partial_insertion_sort_order_witness :
    (0 : Int) ≤ (partial_insertion_sort exBuf 0 4 0 0).value
    ∧ ((partial_insertion_sort exBuf 0 4 0 3).value < 0 → 0 < 3)
    ∧ (slice (partial_insertion_sort exBuf 0 4 0) 0 4).map ExtMove.value = [10, 5, 3, -1] :=
  ⟨by decide,
    (partial_insertion_sort_order exBuf 0 4 0 0 3 (by decide) (by decide) (by decide)
      (by decide) (by decide)).1,
    by decide⟩

/-! ## Full consumption: BAD_CAPTURES and QUIET -/

theorem consume_succ (n : Nat) (mp : MovePicker) (sq : Bool) :
    consume (n + 1) mp sq = consumeFrom n (next_move_traced mp sq) sq := rfl

theorem consumeFrom_none (n : Nat) (s : ReturnSite) (mp : MovePicker) (sq : Bool) :
    consumeFrom n (s, MOVE_NONE, mp) sq = [] := by
  simp [consumeFrom]

theorem consumeFrom_move (n : Nat) (s : ReturnSite) (m : Move) (mp : MovePicker) (sq : Bool)
    (h : m ≠ MOVE_NONE) : consumeFrom n (s, m, mp) sq = (s, m) :: consume n mp sq := by
  simp [consumeFrom, h]

@[simp] theorem length_tagged (s : ReturnSite) (ms : List Move) :
    (tagged s ms).length = ms.length := by
  simp [tagged]

@[simp] theorem tagged_nil (s : ReturnSite) : tagged s [] = [] := rfl

@[simp] theorem tagged_cons (s : ReturnSite) (m : Move) (ms : List Move) :
    tagged s (m :: ms) = (s, m) :: tagged s ms := rfl

@[simp] theorem tagged_append (s : ReturnSite) (l1 l2 : List Move) :
    tagged s (l1 ++ l2) = tagged s l1 ++ tagged s l2 := by
  simp [tagged]

@[simp] theorem movesOf_nil : movesOf [] = [] := rfl

@[simp] theorem movesOf_cons (x : ExtMove) (l : List ExtMove) :
    movesOf (x :: l) = x.move :: movesOf l := rfl

theorem movesOf_slice_cons {buf : Buffer} {b e : Nat} (h : b < e) :
    movesOf (slice buf b e) = (buf b).move :: movesOf (slice buf (b + 1) e) := by
  rw [slice_cons h]
  rfl

/-- BAD_CAPTURES returns the slots `[cur, endBadCaptures)` in order. -/
theorem consume_BAD_CAPTURES (sq : Bool) :
    ∀ (k : Nat) (mp : MovePicker), mp.endBadCaptures - mp.cur = k →
      mp.stage = BAD_CAPTURES →
      (∀ i, mp.cur ≤ i → i < mp.endBadCaptures → (mp.moves i).move ≠ MOVE_NONE) →
      ∀ f, (movesOf (slice mp.moves mp.cur mp.endBadCaptures)).length ≤ f →
        consumeFrom f (case_BAD_CAPTURES mp) sq
          = tagged .badCapture (movesOf (slice mp.moves mp.cur mp.endBadCaptures)) := by
  intro k
  induction k with
  | zero =>
    intro mp hk hs hne f hf
    have h1 : ¬ mp.cur < mp.endBadCaptures := by omega
    unfold case_BAD_CAPTURES
    rw [if_neg h1, consumeFrom_none, slice_of_le (by omega)]
    rfl
  | succ k ih =>
    intro mp hk hs hne f hf
    have h1 : mp.cur < mp.endBadCaptures := by omega
    unfold case_BAD_CAPTURES
    rw [if_pos h1, consumeFrom_move _ _ _ _ _ (hne mp.cur (le_refl _) h1),
      movesOf_slice_cons h1]
    rw [movesOf_slice_cons h1] at hf
    obtain ⟨f1, rfl⟩ : ∃ f1, f = f1 + 1 := ⟨f - 1, by simp at hf; omega⟩
    rw [consume_succ, next_move_traced_BAD_CAPTURES { mp with cur := mp.cur + 1 } sq hs]
    rw [ih { mp with cur := mp.cur + 1 } (by simp; omega) hs
      (fun i hi1 hi2 => hne i (Nat.le_of_succ_le hi1) hi2) f1 (by simpa using hf)]
    rfl

theorem case_QUIET_skip (mp : MovePicker) :
    case_QUIET mp true = case_BAD_CAPTURES { mp with stage := mp.stage + 1, cur := 0 } := by
  simp [case_QUIET]

theorem case_QUIET_done (mp : MovePicker) (h : mp.endMoves ≤ mp.cur) :
    case_QUIET mp false = case_BAD_CAPTURES { mp with stage := mp.stage + 1, cur := 0 } := by
  simp [case_QUIET, scanLoop_done _ _ _ h]

theorem case_QUIET_unroll (mp : MovePicker) (h : mp.cur < mp.endMoves) :
    case_QUIET mp false
      = if mp.quietAccept (mp.moves mp.cur).move then
          (.quiet, (mp.moves mp.cur).move, { mp with cur := mp.cur + 1 })
        else case_QUIET { mp with cur := mp.cur + 1 } false := by
  unfold case_QUIET
  simp only [Bool.not_false, if_true]
  rw [scanLoop_unroll _ _ h]
  split_ifs
  · rfl
  · rfl

/-- QUIET returns the slots of `[cur, endMoves)` that pass its test, in order, unless
quiets are skipped, and then BAD_CAPTURES returns the slots `[0, endBadCaptures)`. -/
theorem consume_QUIET (sq : Bool) :
    ∀ (k : Nat) (mp : MovePicker), mp.endMoves - mp.cur = k →
      mp.stage = QUIET →
      (sq = false → ∀ i, mp.cur ≤ i → i < mp.endMoves → (mp.moves i).move ≠ MOVE_NONE) →
      (∀ i, i < mp.endBadCaptures → (mp.moves i).move ≠ MOVE_NONE) →
      ∀ f, ((if sq then [] else tagged .quiet
              ((movesOf (slice mp.moves mp.cur mp.endMoves)).filter mp.quietAccept))
            ++ tagged .badCapture (movesOf (slice mp.moves 0 mp.endBadCaptures))).length ≤ f →
        consumeFrom f (case_QUIET mp sq) sq
          = (if sq then [] else tagged .quiet
              ((movesOf (slice mp.moves mp.cur mp.endMoves)).filter mp.quietAccept))
            ++ tagged .badCapture (movesOf (slice mp.moves 0 mp.endBadCaptures)) := by
  have hbad : ∀ (mp : MovePicker), mp.stage = QUIET →
      (∀ i, i < mp.endBadCaptures → (mp.moves i).move ≠ MOVE_NONE) →
      ∀ f, (movesOf (slice mp.moves 0 mp.endBadCaptures)).length ≤ f →
        consumeFrom f (case_BAD_CAPTURES { mp with stage := mp.stage + 1, cur := 0 }) sq
          = tagged .badCapture (movesOf (slice mp.moves 0 mp.endBadCaptures)) := by
    intro mp hs hne f hf
    exact consume_BAD_CAPTURES sq _ { mp with stage := mp.stage + 1, cur := 0 } rfl
      (by show mp.stage + 1 = BAD_CAPTURES; rw [hs])
      (fun i _ hi2 => hne i hi2) f hf
  cases sq with
  | true =>
    intro k mp _ hs _ hne f hf
    rw [case_QUIET_skip]
    simpa using hbad mp hs hne f (by simpa using hf)
  | false =>
    intro k
    induction k with
    | zero =>
      intro mp hk hs _ hne f hf
      rw [case_QUIET_done mp (by omega), slice_of_le (show mp.endMoves ≤ mp.cur by omega)]
      rw [slice_of_le (show mp.endMoves ≤ mp.cur by omega)] at hf
      simpa using hbad mp hs hne f (by simpa using hf)
    | succ k ih =>
      intro mp hk hs hq hne f hf
      have h1 : mp.cur < mp.endMoves := by omega
      have ih1 := ih { mp with cur := mp.cur + 1 } (by simp; omega) hs
        (fun _ i hi1 hi2 => hq rfl i (Nat.le_of_succ_le hi1) hi2) hne
      rw [case_QUIET_unroll mp h1, movesOf_slice_cons h1]
      rw [movesOf_slice_cons h1] at hf
      by_cases ha : mp.quietAccept (mp.moves mp.cur).move = true
      · rw [if_pos ha, consumeFrom_move _ _ _ _ _ (hq rfl mp.cur (le_refl _) h1)]
        simp only [Bool.false_eq_true, if_false, List.filter_cons, ha, if_true] at hf ⊢
        obtain ⟨f1, rfl⟩ : ∃ f1, f = f1 + 1 := ⟨f - 1, by simp at hf; omega⟩
        rw [consume_succ, next_move_traced_QUIET { mp with cur := mp.cur + 1 } false hs]
        have := ih1 f1 (by simpa using hf)
        simp only [Bool.false_eq_true, if_false] at this
        rw [this]
        rfl
      · rw [if_neg ha]
        simp only [Bool.false_eq_true, if_false, List.filter_cons, ha] at hf ⊢
        have := ih1 f (by simpa using hf)
        simpa using this

/-! ## Full consumption: QUIET_INIT, COUNTERMOVE and the killers -/

theorem slice_getElem (buf : Buffer) (b e i : Nat) (h : i < (slice buf b e).length) :
    (slice buf b e)[i] = buf (b + i) := by
  simp [slice]

/-- The range after generation and scoring: the batch, each move with its score. -/
theorem slice_generate_score (mp : MovePicker) (T : MOVE_GEN_TYPE) (start : Nat)
    (f : Move → Value) (hcur : mp.cur = start) :
    slice ((mp.generateMoves T start).scoreWith f).moves start
        (start + (mp.pos.generate mp.recaptureSquare T).length)
      = (mp.pos.generate mp.recaptureSquare T).map (fun m => (⟨m, f m⟩ : ExtMove)) := by
  apply List.ext_getElem
  · simp [length_slice]
  · intro i h1 h2
    rw [slice_getElem]
    have hi : i < (mp.pos.generate mp.recaptureSquare T).length := by simpa using h2
    have hc : (mp.generateMoves T start).cur ≤ start + i := by
      show mp.cur ≤ start + i
      omega
    have he : start + i < (mp.generateMoves T start).endMoves := by
      show start + i < start + (mp.pos.generate mp.recaptureSquare T).length
      omega
    have hr : start ≤ start + i ∧ start + i < start + (mp.pos.generate mp.recaptureSquare T).length :=
      ⟨by omega, by omega⟩
    unfold MovePicker.scoreWith
    simp only []
    rw [if_pos ⟨hc, he⟩]
    unfold MovePicker.generateMoves
    simp only []
    rw [if_pos hr]
    simp only [List.getElem_map]
    have h3 : start + i - start = i := by omega
    rw [h3, List.getD_eq_getElem _ _ hi]

theorem generate_score_frame (mp : MovePicker) (T : MOVE_GEN_TYPE) (start : Nat)
    (f : Move → Value) (hcur : mp.cur = start) (i : Nat) (hi : i < start) :
    ((mp.generateMoves T start).scoreWith f).moves i = mp.moves i := by
  have h1 : ¬ ((mp.generateMoves T start).cur ≤ i ∧ i < (mp.generateMoves T start).endMoves) := by
    intro h
    have : mp.cur ≤ i := h.1
    omega
  have h2 : ¬ (start ≤ i ∧ i < start + (mp.pos.generate mp.recaptureSquare T).length) := by
    omega
  unfold MovePicker.scoreWith
  simp only []
  rw [if_neg h1]
  unfold MovePicker.generateMoves
  simp only []
  rw [if_neg h2]

/-- QUIET_INIT leaves the slots below `endBadCaptures` as they are and puts a
rearrangement of the NON_CAPTURES_PRO_MINUS batch behind them. -/
theorem case_QUIET_INIT_eq (mp : MovePicker) (sq : Bool) :
    ∃ buf : Buffer,
      (∀ i, i < mp.endBadCaptures → buf i = mp.moves i)
      ∧ (movesOf (slice buf mp.endBadCaptures
            (mp.endBadCaptures + mp.pos.genNON_CAPTURES_PRO_MINUS.length))).Perm
          mp.pos.genNON_CAPTURES_PRO_MINUS
      ∧ case_QUIET_INIT mp sq
        = case_QUIET
            { mp with
              stage := mp.stage + 1, moves := buf, cur := mp.endBadCaptures,
              endMoves := mp.endBadCaptures + mp.pos.genNON_CAPTURES_PRO_MINUS.length,
              generated := mp.generated ++ [MOVE_GEN_TYPE.NON_CAPTURES_PRO_MINUS] } sq := by
  have hperm := partial_insertion_sort_perm
    ((({ mp with cur := mp.endBadCaptures } : MovePicker).generateMoves
      .NON_CAPTURES_PRO_MINUS mp.endBadCaptures).score_QUIETS).moves
    mp.endBadCaptures (mp.endBadCaptures + mp.pos.genNON_CAPTURES_PRO_MINUS.length)
    (Int.tdiv (-4000 * mp.depth) mp.env.ONE_PLY)
  have hsl := slice_generate_score ({ mp with cur := mp.endBadCaptures } : MovePicker)
    .NON_CAPTURES_PRO_MINUS mp.endBadCaptures
    (({ mp with cur := mp.endBadCaptures } : MovePicker).generateMoves
      .NON_CAPTURES_PRO_MINUS mp.endBadCaptures).quietValue rfl
  refine ⟨partial_insertion_sort
    ((({ mp with cur := mp.endBadCaptures } : MovePicker).generateMoves
      .NON_CAPTURES_PRO_MINUS mp.endBadCaptures).score_QUIETS).moves
    mp.endBadCaptures (mp.endBadCaptures + mp.pos.genNON_CAPTURES_PRO_MINUS.length)
    (Int.tdiv (-4000 * mp.depth) mp.env.ONE_PLY), ?_, ?_, rfl⟩
  · intro i hi
    rw [hperm.2 i (Or.inl hi)]
    exact generate_score_frame ({ mp with cur := mp.endBadCaptures } : MovePicker)
      .NON_CAPTURES_PRO_MINUS mp.endBadCaptures _ rfl i hi
  · have h1 := hperm.1.map ExtMove.move
    refine h1.trans ?_
    have h2 : (slice ((({ mp with cur := mp.endBadCaptures } : MovePicker).generateMoves
        .NON_CAPTURES_PRO_MINUS mp.endBadCaptures).score_QUIETS).moves mp.endBadCaptures
        (mp.endBadCaptures + mp.pos.genNON_CAPTURES_PRO_MINUS.length)).map ExtMove.move
        = mp.pos.genNON_CAPTURES_PRO_MINUS := by
      unfold MovePicker.score_QUIETS
      rw [show mp.pos.genNON_CAPTURES_PRO_MINUS
          = ({ mp with cur := mp.endBadCaptures } : MovePicker).pos.generate
              ({ mp with cur := mp.endBadCaptures } : MovePicker).recaptureSquare
              .NON_CAPTURES_PRO_MINUS from rfl, hsl]
      simp [Function.comp_def]
    rw [h2]

theorem consume_QUIET_INIT (sq : Bool) (mp : MovePicker) (hs : mp.stage = QUIET_INIT)
    (hq : sq = false → MOVE_NONE ∉ mp.pos.genNON_CAPTURES_PRO_MINUS)
    (hne : ∀ i, i < mp.endBadCaptures → (mp.moves i).move ≠ MOVE_NONE) :
    ∃ qs : List Move, qs.Perm mp.pos.genNON_CAPTURES_PRO_MINUS
      ∧ ∀ f, ((if sq then [] else tagged .quiet (qs.filter mp.quietAccept))
              ++ tagged .badCapture (movesOf (slice mp.moves 0 mp.endBadCaptures))).length ≤ f →
          consumeFrom f (case_QUIET_INIT mp sq) sq
            = (if sq then [] else tagged .quiet (qs.filter mp.quietAccept))
              ++ tagged .badCapture (movesOf (slice mp.moves 0 mp.endBadCaptures)) := by
  obtain ⟨buf, hb1, hb2, hb3⟩ := case_QUIET_INIT_eq mp sq
  refine ⟨_, hb2, ?_⟩
  intro f hf
  rw [hb3]
  have hsl : slice buf 0 mp.endBadCaptures = slice mp.moves 0 mp.endBadCaptures :=
    slice_congr (fun i _ hi => hb1 i hi)
  have key := consume_QUIET sq _
    { mp with
      stage := mp.stage + 1, moves := buf, cur := mp.endBadCaptures,
      endMoves := mp.endBadCaptures + mp.pos.genNON_CAPTURES_PRO_MINUS.length,
      generated := mp.generated ++ [MOVE_GEN_TYPE.NON_CAPTURES_PRO_MINUS] } rfl
    (by show mp.stage + 1 = QUIET; rw [hs])
    (by
      intro hsq i hi1 hi2 hcon
      have hmem : (buf i).move ∈ movesOf (slice buf mp.endBadCaptures
          (mp.endBadCaptures + mp.pos.genNON_CAPTURES_PRO_MINUS.length)) :=
        List.mem_map.mpr ⟨buf i, mem_slice.mpr ⟨i, hi1, hi2, rfl⟩, rfl⟩
      rw [hcon] at hmem
      exact hq hsq (hb2.mem_iff.mp hmem))
    (by
      intro i hi
      show (buf i).move ≠ MOVE_NONE
      rw [hb1 i hi]
      exact hne i hi)
    f
  simp only [hsl] at key
  exact key hf

theorem consume_COUNTERMOVE (sq : Bool) (mp : MovePicker) (hs : mp.stage = COUNTERMOVE)
    (hq : sq = false → MOVE_NONE ∉ mp.pos.genNON_CAPTURES_PRO_MINUS)
    (hne : ∀ i, i < mp.endBadCaptures → (mp.moves i).move ≠ MOVE_NONE) :
    ∃ qs : List Move, qs.Perm mp.pos.genNON_CAPTURES_PRO_MINUS
      ∧ ∀ f, (tagged .countermove ([mp.countermove].filter mp.countermoveAccept)
              ++ ((if sq then [] else tagged .quiet (qs.filter mp.quietAccept))
              ++ tagged .badCapture (movesOf (slice mp.moves 0 mp.endBadCaptures)))).length ≤ f →
          consumeFrom f (case_COUNTERMOVE mp sq) sq
            = tagged .countermove ([mp.countermove].filter mp.countermoveAccept)
              ++ ((if sq then [] else tagged .quiet (qs.filter mp.quietAccept))
              ++ tagged .badCapture (movesOf (slice mp.moves 0 mp.endBadCaptures))) := by
  obtain ⟨qs, hp, hrest⟩ := consume_QUIET_INIT sq { mp with stage := mp.stage + 1 }
    (by show mp.stage + 1 = QUIET_INIT; rw [hs]) hq hne
  refine ⟨qs, hp, ?_⟩
  intro f hf
  unfold case_COUNTERMOVE
  simp only []
  by_cases ha : mp.countermoveAccept mp.countermove = true
  · have ha2 : ({ mp with stage := mp.stage + 1 } : MovePicker).countermoveAccept mp.countermove
        = true := ha
    have hcm : mp.countermove ≠ MOVE_NONE := by
      simp only [MovePicker.countermoveAccept, Bool.and_eq_true, bne_iff_ne] at ha
      exact ha.1.1.1.1.1
    rw [if_pos ha2, consumeFrom_move _ _ _ _ _ hcm]
    simp only [List.filter_cons, ha, if_true, List.filter_nil, tagged_cons, tagged_nil,
      List.cons_append, List.nil_append] at hf ⊢
    obtain ⟨f1, rfl⟩ : ∃ f1, f = f1 + 1 := ⟨f - 1, by simp at hf; omega⟩
    rw [consume_succ, next_move_traced_QUIET_INIT { mp with stage := mp.stage + 1 } sq
      (by show mp.stage + 1 = QUIET_INIT; rw [hs])]
    rw [hrest f1 (by simpa using hf)]
    rfl
  · have ha2 : ¬ ({ mp with stage := mp.stage + 1 } : MovePicker).countermoveAccept mp.countermove
        = true := ha
    rw [if_neg ha2]
    simp only [List.filter_cons, ha, List.filter_nil, tagged_nil, List.nil_append,
      Bool.false_eq_true, if_false] at hf ⊢
    exact hrest f hf

theorem killers_one (mp : MovePicker) : mp.killers 1 = mp.killers1 := by
  simp [MovePicker.killers]

theorem killers_zero (mp : MovePicker) : mp.killers 0 = mp.killers0 := by
  simp [MovePicker.killers]

theorem case_KILLER_stage4 (mp : MovePicker) (sq : Bool) (hs : mp.stage = KILLER1) :
    case_KILLER mp sq
      = if mp.killerAccept mp.killers1 then
          (.killer, mp.killers1, { mp with stage := mp.stage + 1 })
        else case_COUNTERMOVE { mp with stage := mp.stage + 1 } sq := by
  unfold case_KILLER
  have h1 : max 1 (COUNTERMOVE - mp.stage) = 1 := by rw [hs]; rfl
  have h2 : ((mp.stage + 1 : Nat) : Int) - (KILLER1 : Int) = 1 := by rw [hs]; rfl
  have h3 : ¬ mp.stage + 1 ≤ KILLER1 := by rw [hs]; decide
  rw [h1]
  unfold killerLoop
  simp only [h2, h3, if_false]
  have h4 : ({ mp with stage := mp.stage + 1 } : MovePicker).killers 1 = mp.killers1 :=
    killers_one _
  rw [h4]
  by_cases ha : mp.killerAccept mp.killers1 = true
  · have ha2 : ({ mp with stage := mp.stage + 1 } : MovePicker).killerAccept mp.killers1
        = true := ha
    simp only [ha, ha2, if_true]
  · have ha2 : ¬ ({ mp with stage := mp.stage + 1 } : MovePicker).killerAccept mp.killers1
        = true := ha
    simp only [ha, ha2, if_false]
    rfl

theorem case_KILLER_stage3 (mp : MovePicker) (sq : Bool) (hs : mp.stage = KILLER0) :
    case_KILLER mp sq
      = if mp.killerAccept mp.killers0 then
          (.killer, mp.killers0, { mp with stage := mp.stage + 1 })
        else if mp.killerAccept mp.killers1 then
          (.killer, mp.killers1, { mp with stage := mp.stage + 1 + 1 })
        else case_COUNTERMOVE { mp with stage := mp.stage + 1 + 1 } sq := by
  unfold case_KILLER
  have h1 : max 1 (COUNTERMOVE - mp.stage) = 2 := by rw [hs]; rfl
  have h2 : ((mp.stage + 1 : Nat) : Int) - (KILLER1 : Int) = 0 := by rw [hs]; rfl
  have h2b : ((mp.stage + 1 + 1 : Nat) : Int) - (KILLER1 : Int) = 1 := by rw [hs]; rfl
  have h3 : mp.stage + 1 ≤ KILLER1 := by rw [hs]
  have h3b : ¬ mp.stage + 1 + 1 ≤ KILLER1 := by rw [hs]; decide
  rw [h1]
  unfold killerLoop
  simp only [h2, h3, if_true]
  have h4 : ({ mp with stage := mp.stage + 1 } : MovePicker).killers 0 = mp.killers0 :=
    killers_zero _
  rw [h4]
  by_cases ha : mp.killerAccept mp.killers0 = true
  · have ha2 : ({ mp with stage := mp.stage + 1 } : MovePicker).killerAccept mp.killers0
        = true := ha
    simp only [ha, ha2, if_true]
  · have ha2 : ¬ ({ mp with stage := mp.stage + 1 } : MovePicker).killerAccept mp.killers0
        = true := ha
    simp only [ha, ha2, if_false]
    unfold killerLoop
    simp only [h2b, h3b, if_false]
    have h5 : ({ mp with stage := mp.stage + 1 + 1 } : MovePicker).killers 1 = mp.killers1 :=
      killers_one _
    rw [h5]
    by_cases hb : mp.killerAccept mp.killers1 = true
    · have hb2 : ({ mp with stage := mp.stage + 1 + 1 } : MovePicker).killerAccept mp.killers1
          = true := hb
      simp only [hb, hb2, if_true, Bool.false_eq_true, if_false]
    · have hb2 : ¬ ({ mp with stage := mp.stage + 1 + 1 } : MovePicker).killerAccept mp.killers1
          = true := hb
      simp only [hb, hb2, if_false, Bool.false_eq_true]

theorem filter_single_pos (p : Move → Bool) (m : Move) (h : p m = true) :
    [m].filter p = [m] := by
  simp [h]

theorem filter_single_neg (p : Move → Bool) (m : Move) (h : ¬ p m = true) :
    [m].filter p = [] := by
  simp [h]

theorem killerAccept_ne_none (mp : MovePicker) (m : Move) (h : mp.killerAccept m = true) :
    m ≠ MOVE_NONE := by
  simp only [MovePicker.killerAccept, Bool.and_eq_true, bne_iff_ne] at h
  exact h.1.1.1

theorem consume_KILLER1 (sq : Bool) (mp : MovePicker) (hs : mp.stage = KILLER1)
    (hq : sq = false → MOVE_NONE ∉ mp.pos.genNON_CAPTURES_PRO_MINUS)
    (hne : ∀ i, i < mp.endBadCaptures → (mp.moves i).move ≠ MOVE_NONE) :
    ∃ qs : List Move, qs.Perm mp.pos.genNON_CAPTURES_PRO_MINUS
      ∧ ∀ f, (tagged .killer ([mp.killers1].filter mp.killerAccept)
              ++ (tagged .countermove ([mp.countermove].filter mp.countermoveAccept)
              ++ ((if sq then [] else tagged .quiet (qs.filter mp.quietAccept))
              ++ tagged .badCapture (movesOf (slice mp.moves 0 mp.endBadCaptures))))).length ≤ f →
          consumeFrom f (case_KILLER mp sq) sq
            = tagged .killer ([mp.killers1].filter mp.killerAccept)
              ++ (tagged .countermove ([mp.countermove].filter mp.countermoveAccept)
              ++ ((if sq then [] else tagged .quiet (qs.filter mp.quietAccept))
              ++ tagged .badCapture (movesOf (slice mp.moves 0 mp.endBadCaptures)))) := by
  have hs5 : ({ mp with stage := mp.stage + 1 } : MovePicker).stage = COUNTERMOVE := by
    show mp.stage + 1 = COUNTERMOVE
    rw [hs]
  obtain ⟨qs, hp, hrest0⟩ := consume_COUNTERMOVE sq { mp with stage := mp.stage + 1 } hs5 hq hne
  have hrest : ∀ f, (tagged .countermove ([mp.countermove].filter mp.countermoveAccept)
        ++ ((if sq then [] else tagged .quiet (qs.filter mp.quietAccept))
        ++ tagged .badCapture (movesOf (slice mp.moves 0 mp.endBadCaptures)))).length ≤ f →
      consumeFrom f (case_COUNTERMOVE { mp with stage := mp.stage + 1 } sq) sq
        = tagged .countermove ([mp.countermove].filter mp.countermoveAccept)
          ++ ((if sq then [] else tagged .quiet (qs.filter mp.quietAccept))
          ++ tagged .badCapture (movesOf (slice mp.moves 0 mp.endBadCaptures))) := hrest0
  refine ⟨qs, hp, ?_⟩
  intro f hf
  rw [case_KILLER_stage4 mp sq hs]
  by_cases ha : mp.killerAccept mp.killers1 = true
  · rw [if_pos ha, consumeFrom_move _ _ _ _ _ (killerAccept_ne_none mp _ ha)]
    rw [filter_single_pos mp.killerAccept mp.killers1 ha] at hf ⊢
    simp only [tagged_cons, tagged_nil, List.cons_append, List.nil_append] at hf ⊢
    obtain ⟨f1, rfl⟩ : ∃ f1, f = f1 + 1 := ⟨f - 1, by simp at hf; omega⟩
    rw [consume_succ, next_move_traced_COUNTERMOVE { mp with stage := mp.stage + 1 } sq hs5]
    rw [hrest f1 (by
      simp only [List.length_cons, add_le_add_iff_right] at hf
      exact hf)]
  · rw [if_neg ha]
    rw [filter_single_neg mp.killerAccept mp.killers1 ha] at hf ⊢
    simp only [tagged_nil, List.nil_append] at hf ⊢
    exact hrest f hf

/-- From KILLER0 on a normal-search picker returns `normalTail`. -/
theorem consume_KILLER0 (sq : Bool) (mp : MovePicker) (hs : mp.stage = KILLER0)
    (hq : sq = false → MOVE_NONE ∉ mp.pos.genNON_CAPTURES_PRO_MINUS)
    (hne : ∀ i, i < mp.endBadCaptures → (mp.moves i).move ≠ MOVE_NONE) :
    ∃ qs : List Move, qs.Perm mp.pos.genNON_CAPTURES_PRO_MINUS
      ∧ ∀ f, (normalTail mp sq qs (movesOf (slice mp.moves 0 mp.endBadCaptures))).length ≤ f →
          consumeFrom f (case_KILLER mp sq) sq
            = normalTail mp sq qs (movesOf (slice mp.moves 0 mp.endBadCaptures)) := by
  have hs4 : ({ mp with stage := mp.stage + 1 } : MovePicker).stage = KILLER1 := by
    show mp.stage + 1 = KILLER1
    rw [hs]
  have hs5 : ({ mp with stage := mp.stage + 1 + 1 } : MovePicker).stage = COUNTERMOVE := by
    show mp.stage + 1 + 1 = COUNTERMOVE
    rw [hs]
  obtain ⟨qs, hp, hrest0⟩ := consume_KILLER1 sq { mp with stage := mp.stage + 1 } hs4 hq hne
  have hrest : ∀ f, (tagged .killer ([mp.killers1].filter mp.killerAccept)
        ++ (tagged .countermove ([mp.countermove].filter mp.countermoveAccept)
        ++ ((if sq then [] else tagged .quiet (qs.filter mp.quietAccept))
        ++ tagged .badCapture (movesOf (slice mp.moves 0 mp.endBadCaptures))))).length ≤ f →
      consumeFrom f (case_KILLER { mp with stage := mp.stage + 1 } sq) sq
        = tagged .killer ([mp.killers1].filter mp.killerAccept)
          ++ (tagged .countermove ([mp.countermove].filter mp.countermoveAccept)
          ++ ((if sq then [] else tagged .quiet (qs.filter mp.quietAccept))
          ++ tagged .badCapture (movesOf (slice mp.moves 0 mp.endBadCaptures)))) := hrest0
  refine ⟨qs, hp, ?_⟩
  intro f hf
  unfold normalTail at hf ⊢
  by_cases ha : mp.killerAccept mp.killers0 = true
  · rw [case_KILLER_stage3 mp sq hs, if_pos ha,
      consumeFrom_move _ _ _ _ _ (killerAccept_ne_none mp _ ha)]
    rw [filter_single_pos mp.killerAccept mp.killers0 ha] at hf ⊢
    simp only [tagged_cons, tagged_nil, List.cons_append, List.nil_append] at hf ⊢
    obtain ⟨f1, rfl⟩ : ∃ f1, f = f1 + 1 := ⟨f - 1, by simp at hf; omega⟩
    rw [consume_succ, next_move_traced_KILLER1 { mp with stage := mp.stage + 1 } sq hs4]
    rw [hrest f1 (by
      simp only [List.length_cons, add_le_add_iff_right] at hf
      exact hf)]
  · have heq : case_KILLER mp sq = case_KILLER { mp with stage := mp.stage + 1 } sq := by
      rw [case_KILLER_stage3 mp sq hs, if_neg ha,
        case_KILLER_stage4 { mp with stage := mp.stage + 1 } sq hs4]
      rfl
    rw [heq]
    rw [filter_single_neg mp.killerAccept mp.killers0 ha] at hf ⊢
    simp only [tagged_nil, List.nil_append] at hf ⊢
    exact hrest f hf

/-! ## Full consumption: GOOD_CAPTURES -/

theorem goodCapturesLoop_done (n : Nat) (mp : MovePicker) (h : mp.endMoves ≤ mp.cur) :
    goodCapturesLoop n mp = (none, mp) := by
  cases n with
  | zero => rfl
  | succ n => unfold goodCapturesLoop; rw [if_neg (by omega)]

theorem case_GOOD_CAPTURES_done (mp : MovePicker) (sq : Bool) (h : mp.endMoves ≤ mp.cur) :
    case_GOOD_CAPTURES mp sq = case_KILLER { mp with stage := mp.stage + 1 } sq := by
  simp [case_GOOD_CAPTURES, goodCapturesLoop_done _ _ h]

theorem case_GOOD_CAPTURES_unroll (mp : MovePicker) (sq : Bool) (h : mp.cur < mp.endMoves) :
    case_GOOD_CAPTURES mp sq
      = if (pick_best mp.moves mp.cur mp.endMoves).1 != mp.ttMove then
          (if mp.pos.see_ge (pick_best mp.moves mp.cur mp.endMoves).1 0 then
            (.goodCapture, (pick_best mp.moves mp.cur mp.endMoves).1,
              { mp with moves := (pick_best mp.moves mp.cur mp.endMoves).2, cur := mp.cur + 1 })
          else
            case_GOOD_CAPTURES
              { mp with
                moves := fun i =>
                  if i = mp.endBadCaptures then
                    { (pick_best mp.moves mp.cur mp.endMoves).2 i with
                      move := (pick_best mp.moves mp.cur mp.endMoves).1 }
                  else (pick_best mp.moves mp.cur mp.endMoves).2 i,
                cur := mp.cur + 1,
                endBadCaptures := mp.endBadCaptures + 1 } sq)
        else
          case_GOOD_CAPTURES
            { mp with moves := (pick_best mp.moves mp.cur mp.endMoves).2, cur := mp.cur + 1 } sq := by
  have h1 : mp.endMoves - mp.cur = (mp.endMoves - (mp.cur + 1)) + 1 := by omega
  unfold case_GOOD_CAPTURES
  simp only []
  rw [h1]
  conv_lhs => unfold goodCapturesLoop
  simp only [if_pos h]
  split_ifs <;> rfl

theorem picks_cons (buf buf1 : Buffer) (b e : Nat) (picks : List ExtMove) (h : b < e)
    (hperm : (slice buf1 b e).Perm (slice buf b e))
    (hmax : ∀ i, b ≤ i → i < e → (buf1 i).value ≤ (buf1 b).value)
    (hp1 : picks.Perm (slice buf1 (b + 1) e))
    (hp2 : picks.Pairwise (fun x y => y.value ≤ x.value)) :
    (buf1 b :: picks).Perm (slice buf b e)
    ∧ (buf1 b :: picks).Pairwise (fun x y => y.value ≤ x.value) := by
  constructor
  · refine List.Perm.trans ?_ hperm
    rw [slice_cons h]
    exact List.Perm.cons _ hp1
  · rw [List.pairwise_cons]
    refine ⟨?_, hp2⟩
    intro y hy
    obtain ⟨i, hi1, hi2, hi3⟩ := mem_slice.mp (hp1.mem_iff.mp hy)
    rw [← hi3]
    exact hmax i (by omega) hi2

/-- What a full consumption returns from GOOD_CAPTURES on: the picked captures that are
not the hash move and pass `see_ge(move, 0)`, then the killer phase and what follows it,
where the captures set aside are those already in `[0, endBadCaptures)` followed by the
picked ones that fail `see_ge(move, 0)`. `picks` is the order in which `pick_best`
picks the range. -/
theorem consume_GOOD_CAPTURES (sq : Bool) :
    ∀ (k : Nat) (mp : MovePicker), mp.endMoves - mp.cur = k →
      mp.stage = GOOD_CAPTURES → mp.endBadCaptures ≤ mp.cur →
      (∀ i, mp.cur ≤ i → i < mp.endMoves → (mp.moves i).move ≠ MOVE_NONE) →
      (∀ i, i < mp.endBadCaptures → (mp.moves i).move ≠ MOVE_NONE) →
      (sq = false → MOVE_NONE ∉ mp.pos.genNON_CAPTURES_PRO_MINUS) →
      ∃ (picks : List ExtMove) (qs : List Move),
        picks.Perm (slice mp.moves mp.cur mp.endMoves)
        ∧ picks.Pairwise (fun x y => y.value ≤ x.value)
        ∧ qs.Perm mp.pos.genNON_CAPTURES_PRO_MINUS
        ∧ ∀ f, (tagged .goodCapture ((movesOf picks).filter mp.goodAccept)
                ++ normalTail mp sq qs (movesOf (slice mp.moves 0 mp.endBadCaptures)
                    ++ (movesOf picks).filter mp.badAccept)).length ≤ f →
            consumeFrom f (case_GOOD_CAPTURES mp sq) sq
              = tagged .goodCapture ((movesOf picks).filter mp.goodAccept)
                ++ normalTail mp sq qs (movesOf (slice mp.moves 0 mp.endBadCaptures)
                    ++ (movesOf picks).filter mp.badAccept) := by
  intro k
  induction k with
  | zero =>
    intro mp hk hs hbc hne1 hne2 hq
    have hle : mp.endMoves ≤ mp.cur := by omega
    obtain ⟨qs, hp, hrest0⟩ := consume_KILLER0 sq { mp with stage := mp.stage + 1 }
      (by show mp.stage + 1 = KILLER0; rw [hs]) hq hne2
    have hrest : ∀ f,
        (normalTail mp sq qs (movesOf (slice mp.moves 0 mp.endBadCaptures))).length ≤ f →
        consumeFrom f (case_KILLER { mp with stage := mp.stage + 1 } sq) sq
          = normalTail mp sq qs (movesOf (slice mp.moves 0 mp.endBadCaptures)) := hrest0
    refine ⟨[], qs, ?_, List.Pairwise.nil, hp, ?_⟩
    · rw [slice_of_le hle]
    · intro f hf
      rw [case_GOOD_CAPTURES_done mp sq hle]
      simp only [movesOf_nil, List.filter_nil, tagged_nil, List.nil_append,
        List.append_nil] at hf ⊢
      exact hrest f hf
  | succ k ih =>
    intro mp hk hs hbc hne1 hne2 hq
    have h1 : mp.cur < mp.endMoves := by omega
    obtain ⟨hx1, hperm, hmax, hframe⟩ := pick_best_spec mp.moves h1
    have hrange := pick_best_range mp.moves mp.cur mp.endMoves (fun m => m ≠ MOVE_NONE) hne1
    have hxne : (pick_best mp.moves mp.cur mp.endMoves).1 ≠ MOVE_NONE := by
      rw [hx1]
      exact hrange mp.cur (le_refl _) h1
    rw [case_GOOD_CAPTURES_unroll mp sq h1]
    generalize pick_best mp.moves mp.cur mp.endMoves = pb at hx1 hperm hmax hframe hrange hxne ⊢
    have hsl : slice pb.2 0 mp.endBadCaptures = slice mp.moves 0 mp.endBadCaptures :=
      slice_congr (fun i _ hi => hframe i (Or.inl (by omega)))
    by_cases htt : (pb.1 != mp.ttMove) = true
    · rw [if_pos htt]
      by_cases hsee : mp.pos.see_ge pb.1 0 = true
      · -- the capture is returned
        rw [if_pos hsee]
        obtain ⟨picks, qs, hp1, hp2, hp3, hrest0⟩ :=
          ih { mp with moves := pb.2, cur := mp.cur + 1 } (by show mp.endMoves - (mp.cur + 1) = k; omega)
            hs (by show mp.endBadCaptures ≤ mp.cur + 1; omega)
            (fun i hi1 hi2 => hrange i (Nat.le_of_succ_le hi1) hi2)
            (fun i hi => by
              have hi3 : i < mp.endBadCaptures := hi
              show (pb.2 i).move ≠ MOVE_NONE
              rw [hframe i (Or.inl (by omega))]
              exact hne2 i hi)
            hq
        have hrest : ∀ f, (tagged .goodCapture ((movesOf picks).filter mp.goodAccept)
              ++ normalTail mp sq qs (movesOf (slice pb.2 0 mp.endBadCaptures)
                  ++ (movesOf picks).filter mp.badAccept)).length ≤ f →
            consumeFrom f (case_GOOD_CAPTURES { mp with moves := pb.2, cur := mp.cur + 1 } sq) sq
              = tagged .goodCapture ((movesOf picks).filter mp.goodAccept)
                ++ normalTail mp sq qs (movesOf (slice pb.2 0 mp.endBadCaptures)
                    ++ (movesOf picks).filter mp.badAccept) := hrest0
        rw [hsl] at hrest
        obtain ⟨hc1, hc2⟩ := picks_cons mp.moves pb.2 mp.cur mp.endMoves picks h1 hperm hmax hp1 hp2
        refine ⟨pb.2 mp.cur :: picks, qs, hc1, hc2, hp3, ?_⟩
        intro f hf
        have hg : mp.goodAccept (pb.2 mp.cur).move = true := by
          rw [← hx1]
          simp only [MovePicker.goodAccept, Bool.and_eq_true]
          exact ⟨htt, hsee⟩
        have hb : ¬ mp.badAccept (pb.2 mp.cur).move = true := by
          rw [← hx1]
          simp [MovePicker.badAccept, hsee]
        simp only [movesOf_cons, List.filter_cons, hg, hb, if_true, if_false, tagged_cons,
          List.cons_append, Bool.false_eq_true] at hf ⊢
        rw [consumeFrom_move _ _ _ _ _ hxne, hx1]
        obtain ⟨f1, rfl⟩ : ∃ f1, f = f1 + 1 := ⟨f - 1, by simp at hf; omega⟩
        rw [consume_succ,
          next_move_traced_GOOD_CAPTURES { mp with moves := pb.2, cur := mp.cur + 1 } sq hs]
        rw [hrest f1 (by
          simp only [List.length_cons, add_le_add_iff_right] at hf
          exact hf)]
      · -- the capture is set aside
        rw [if_neg hsee]
        have hsl2 : slice (fun i => if i = mp.endBadCaptures
              then { pb.2 i with move := pb.1 } else pb.2 i) (mp.cur + 1) mp.endMoves
            = slice pb.2 (mp.cur + 1) mp.endMoves :=
          slice_congr (fun i hi1 _ => by
            have : ¬ i = mp.endBadCaptures := by omega
            simp only [this, if_false])
        have hsl3 : movesOf (slice (fun i => if i = mp.endBadCaptures
              then { pb.2 i with move := pb.1 } else pb.2 i) 0 (mp.endBadCaptures + 1))
            = movesOf (slice mp.moves 0 mp.endBadCaptures) ++ [(pb.2 mp.cur).move] := by
          rw [slice_snoc (Nat.zero_le _)]
          simp only [movesOf, List.map_append, List.map_cons, List.map_nil, if_true]
          congr 1
          · congr 1
            rw [← hsl]
            exact slice_congr (fun i _ hi => by
              have : ¬ i = mp.endBadCaptures := by omega
              simp only [this, if_false])
          · rw [hx1]
        obtain ⟨picks, qs, hp1, hp2, hp3, hrest0⟩ :=
          ih { mp with
                moves := fun i => if i = mp.endBadCaptures
                  then { pb.2 i with move := pb.1 } else pb.2 i,
                cur := mp.cur + 1, endBadCaptures := mp.endBadCaptures + 1 }
            (by show mp.endMoves - (mp.cur + 1) = k; omega)
            hs (by show mp.endBadCaptures + 1 ≤ mp.cur + 1; omega)
            (fun i hi1 hi2 => by
              have hi3 : mp.cur + 1 ≤ i := hi1
              have : ¬ i = mp.endBadCaptures := by omega
              show (if i = mp.endBadCaptures then { pb.2 i with move := pb.1 }
                else pb.2 i).move ≠ MOVE_NONE
              rw [if_neg this]
              exact hrange i (by omega) hi2)
            (fun i hi => by
              have hi3 : i < mp.endBadCaptures + 1 := hi
              show (if i = mp.endBadCaptures then { pb.2 i with move := pb.1 }
                else pb.2 i).move ≠ MOVE_NONE
              by_cases hie : i = mp.endBadCaptures
              · rw [if_pos hie]
                exact hxne
              · rw [if_neg hie, hframe i (Or.inl (by omega))]
                exact hne2 i (by omega))
            hq
        have hp1b : picks.Perm (slice pb.2 (mp.cur + 1) mp.endMoves) := by
          rw [← hsl2]
          exact hp1
        have hrest : ∀ f, (tagged .goodCapture ((movesOf picks).filter mp.goodAccept)
              ++ normalTail mp sq qs (movesOf (slice (fun i => if i = mp.endBadCaptures
                    then { pb.2 i with move := pb.1 } else pb.2 i) 0 (mp.endBadCaptures + 1))
                  ++ (movesOf picks).filter mp.badAccept)).length ≤ f →
            consumeFrom f (case_GOOD_CAPTURES { mp with
                moves := fun i => if i = mp.endBadCaptures
                  then { pb.2 i with move := pb.1 } else pb.2 i,
                cur := mp.cur + 1, endBadCaptures := mp.endBadCaptures + 1 } sq) sq
              = tagged .goodCapture ((movesOf picks).filter mp.goodAccept)
                ++ normalTail mp sq qs (movesOf (slice (fun i => if i = mp.endBadCaptures
                    then { pb.2 i with move := pb.1 } else pb.2 i) 0 (mp.endBadCaptures + 1))
                  ++ (movesOf picks).filter mp.badAccept) := hrest0
        rw [hsl3] at hrest
        obtain ⟨hc1, hc2⟩ := picks_cons mp.moves pb.2 mp.cur mp.endMoves picks h1 hperm hmax
          hp1b hp2
        refine ⟨pb.2 mp.cur :: picks, qs, hc1, hc2, hp3, ?_⟩
        intro f hf
        have hg : ¬ mp.goodAccept (pb.2 mp.cur).move = true := by
          rw [← hx1]
          simp [MovePicker.goodAccept, hsee]
        have hb : mp.badAccept (pb.2 mp.cur).move = true := by
          rw [← hx1]
          simp only [MovePicker.badAccept, Bool.and_eq_true]
          exact ⟨htt, by simpa using hsee⟩
        simp only [movesOf_cons, List.filter_cons, hg, hb, if_true, if_false,
          Bool.false_eq_true] at hf ⊢
        simp only [List.append_assoc, List.singleton_append] at hrest
        exact hrest f hf
    · -- the hash move is skipped
      rw [if_neg htt]
      obtain ⟨picks, qs, hp1, hp2, hp3, hrest0⟩ :=
        ih { mp with moves := pb.2, cur := mp.cur + 1 } (by show mp.endMoves - (mp.cur + 1) = k; omega)
          hs (by show mp.endBadCaptures ≤ mp.cur + 1; omega)
          (fun i hi1 hi2 => hrange i (Nat.le_of_succ_le hi1) hi2)
          (fun i hi => by
            have hi3 : i < mp.endBadCaptures := hi
            show (pb.2 i).move ≠ MOVE_NONE
            rw [hframe i (Or.inl (by omega))]
            exact hne2 i hi)
          hq
      have hrest : ∀ f, (tagged .goodCapture ((movesOf picks).filter mp.goodAccept)
            ++ normalTail mp sq qs (movesOf (slice pb.2 0 mp.endBadCaptures)
                ++ (movesOf picks).filter mp.badAccept)).length ≤ f →
          consumeFrom f (case_GOOD_CAPTURES { mp with moves := pb.2, cur := mp.cur + 1 } sq) sq
            = tagged .goodCapture ((movesOf picks).filter mp.goodAccept)
              ++ normalTail mp sq qs (movesOf (slice pb.2 0 mp.endBadCaptures)
                  ++ (movesOf picks).filter mp.badAccept) := hrest0
      rw [hsl] at hrest
      obtain ⟨hc1, hc2⟩ := picks_cons mp.moves pb.2 mp.cur mp.endMoves picks h1 hperm hmax hp1 hp2
      refine ⟨pb.2 mp.cur :: picks, qs, hc1, hc2, hp3, ?_⟩
      intro f hf
      have hg : ¬ mp.goodAccept (pb.2 mp.cur).move = true := by
        rw [← hx1]
        simp only [MovePicker.goodAccept, Bool.and_eq_true, not_and]
        intro h
        exact absurd h htt
      have hb : ¬ mp.badAccept (pb.2 mp.cur).move = true := by
        rw [← hx1]
        simp only [MovePicker.badAccept, Bool.and_eq_true, not_and]
        intro h
        exact absurd h htt
      simp only [movesOf_cons, List.filter_cons, hg, hb, if_false, Bool.false_eq_true] at hf ⊢
      exact hrest f hf

/-! ## Full consumption of a normal-search picker -/

theorem consume_CAPTURES_INIT (sq : Bool) (mp : MovePicker) (hs : mp.stage = CAPTURES_INIT)
    (hc : MOVE_NONE ∉ mp.pos.genCAPTURES_PRO_PLUS)
    (hq : sq = false → MOVE_NONE ∉ mp.pos.genNON_CAPTURES_PRO_MINUS) :
    ∃ (picks : List ExtMove) (qs : List Move),
      picks.Perm (scoredCaptures mp)
      ∧ picks.Pairwise (fun x y => y.value ≤ x.value)
      ∧ qs.Perm mp.pos.genNON_CAPTURES_PRO_MINUS
      ∧ ∀ f, (tagged .goodCapture ((movesOf picks).filter mp.goodAccept)
              ++ normalTail mp sq qs ((movesOf picks).filter mp.badAccept)).length ≤ f →
          consumeFrom f (case_CAPTURES_INIT mp sq) sq
            = tagged .goodCapture ((movesOf picks).filter mp.goodAccept)
              ++ normalTail mp sq qs ((movesOf picks).filter mp.badAccept) := by
  have hsl := slice_generate_score ({ mp with endBadCaptures := 0, cur := 0 } : MovePicker)
    .CAPTURES_PRO_PLUS 0 mp.captureValue rfl
  obtain ⟨picks, qs, hp1, hp2, hp3, hrest0⟩ := consume_GOOD_CAPTURES sq _
    { (({ mp with endBadCaptures := 0, cur := 0 } : MovePicker).generateMoves
        .CAPTURES_PRO_PLUS 0).score_CAPTURES with stage := mp.stage + 1 }
    rfl (by show mp.stage + 1 = GOOD_CAPTURES; rw [hs]) (le_refl 0)
    (by
      intro i hi1 hi2 hcon
      have hmem := generateMoves_range ({ mp with endBadCaptures := 0, cur := 0 } : MovePicker)
        .CAPTURES_PRO_PLUS 0 i (Nat.zero_le i) hi2
      have hmv : ((({ mp with endBadCaptures := 0, cur := 0 } : MovePicker).generateMoves
          .CAPTURES_PRO_PLUS 0).score_CAPTURES.moves i).move = MOVE_NONE := hcon
      unfold MovePicker.score_CAPTURES at hmv
      rw [scoreWith_move] at hmv
      rw [hmv] at hmem
      exact hc hmem)
    (by intro i hi; exact absurd hi (Nat.not_lt_zero i))
    hq
  have hp1b : picks.Perm (scoredCaptures mp) := by
    have h0 : (0 : Nat) + mp.pos.genCAPTURES_PRO_PLUS.length
        = mp.pos.genCAPTURES_PRO_PLUS.length := Nat.zero_add _
    have hp1c : picks.Perm (slice ((({ mp with endBadCaptures := 0, cur := 0 } : MovePicker
        ).generateMoves .CAPTURES_PRO_PLUS 0).scoreWith mp.captureValue).moves 0
        (0 + mp.pos.genCAPTURES_PRO_PLUS.length)) := hp1
    have hsl2 : slice ((({ mp with endBadCaptures := 0, cur := 0 } : MovePicker
        ).generateMoves .CAPTURES_PRO_PLUS 0).scoreWith mp.captureValue).moves 0
        (0 + mp.pos.genCAPTURES_PRO_PLUS.length) = scoredCaptures mp := hsl
    rw [hsl2] at hp1c
    exact hp1c
  have hrest : ∀ f, (tagged .goodCapture ((movesOf picks).filter mp.goodAccept)
        ++ normalTail mp sq qs (movesOf (slice ((({ mp with endBadCaptures := 0, cur := 0 }
            : MovePicker).generateMoves .CAPTURES_PRO_PLUS 0).score_CAPTURES).moves 0 0)
            ++ (movesOf picks).filter mp.badAccept)).length ≤ f →
      consumeFrom f (case_CAPTURES_INIT mp sq) sq
        = tagged .goodCapture ((movesOf picks).filter mp.goodAccept)
          ++ normalTail mp sq qs (movesOf (slice ((({ mp with endBadCaptures := 0, cur := 0 }
              : MovePicker).generateMoves .CAPTURES_PRO_PLUS 0).score_CAPTURES).moves 0 0)
              ++ (movesOf picks).filter mp.badAccept) := hrest0
  rw [slice_of_le (le_refl 0)] at hrest
  exact ⟨picks, qs, hp1b, hp2, hp3, hrest⟩

/-- A full consumption of a normal-search picker on a position not in check, for either
value of `skipQuiets` kept over all calls: with enough calls allowed it returns, in this
order, the hash move, the good captures, the accepted killers and counter-move, the
quiet moves that pass the test of QUIET (none when quiets are skipped) and the captures
that were set aside; the next call returns MOVE_NONE. `picks` is a rearrangement of the
scored capture batch in non-increasing order of value, `qs` one of the quiet batch. -/
theorem consume_normal (sq : Bool) (mp : MovePicker)
    (hst : (mp.stage = MAIN_SEARCH ∧ mp.ttMove ≠ MOVE_NONE)
      ∨ (mp.stage = CAPTURES_INIT ∧ mp.ttMove = MOVE_NONE))
    (hc : MOVE_NONE ∉ mp.pos.genCAPTURES_PRO_PLUS)
    (hq : sq = false → MOVE_NONE ∉ mp.pos.genNON_CAPTURES_PRO_MINUS) :
    ∃ (picks : List ExtMove) (qs : List Move),
      picks.Perm (scoredCaptures mp)
      ∧ picks.Pairwise (fun x y => y.value ≤ x.value)
      ∧ qs.Perm mp.pos.genNON_CAPTURES_PRO_MINUS
      ∧ ∀ f, (normalOutput mp sq picks qs).length < f →
          consume f mp sq = normalOutput mp sq picks qs := by
  rcases hst with ⟨hs, htt⟩ | ⟨hs, htt⟩
  · obtain ⟨picks, qs, hp1, hp2, hp3, hrest0⟩ :=
      consume_CAPTURES_INIT sq { mp with stage := mp.stage + 1 }
        (by show mp.stage + 1 = CAPTURES_INIT; rw [hs]) hc hq
    have hrest : ∀ f, (tagged .goodCapture ((movesOf picks).filter mp.goodAccept)
          ++ normalTail mp sq qs ((movesOf picks).filter mp.badAccept)).length ≤ f →
        consumeFrom f (case_CAPTURES_INIT { mp with stage := mp.stage + 1 } sq) sq
          = tagged .goodCapture ((movesOf picks).filter mp.goodAccept)
            ++ normalTail mp sq qs ((movesOf picks).filter mp.badAccept) := hrest0
    refine ⟨picks, qs, hp1, hp2, hp3, ?_⟩
    intro f hf
    unfold normalOutput at hf ⊢
    have hfil : [mp.ttMove].filter (fun m => m != MOVE_NONE) = [mp.ttMove] :=
      filter_single_pos _ _ (by simpa using htt)
    rw [hfil] at hf ⊢
    simp only [tagged_cons, tagged_nil, List.cons_append, List.nil_append,
      List.length_cons] at hf ⊢
    obtain ⟨f1, rfl⟩ : ∃ f1, f = f1 + 1 := ⟨f - 1, by omega⟩
    rw [consume_succ, next_move_traced_ttStage mp sq (Or.inl hs),
      consumeFrom_move _ _ _ _ _ htt]
    obtain ⟨f2, rfl⟩ : ∃ f2, f1 = f2 + 1 := ⟨f1 - 1, by omega⟩
    rw [consume_succ, next_move_traced_CAPTURES_INIT { mp with stage := mp.stage + 1 } sq
      (by show mp.stage + 1 = CAPTURES_INIT; rw [hs])]
    rw [hrest f2 (by omega)]
  · obtain ⟨picks, qs, hp1, hp2, hp3, hrest⟩ := consume_CAPTURES_INIT sq mp hs hc hq
    refine ⟨picks, qs, hp1, hp2, hp3, ?_⟩
    intro f hf
    unfold normalOutput at hf ⊢
    have hfil : [mp.ttMove].filter (fun m => m != MOVE_NONE) = [] :=
      filter_single_neg _ _ (by simp [htt])
    rw [hfil] at hf ⊢
    simp only [tagged_nil, List.nil_append] at hf ⊢
    obtain ⟨f1, rfl⟩ : ∃ f1, f = f1 + 1 := ⟨f - 1, by omega⟩
    rw [consume_succ, next_move_traced_CAPTURES_INIT mp sq hs]
    exact hrest f1 (by omega)

/-! ## Full consumption of a picker built in check -/

theorem case_ALL_EVASIONS_done (mp : MovePicker) (h : mp.endMoves ≤ mp.cur) :
    case_ALL_EVASIONS mp = (.exhausted, MOVE_NONE, mp) := by
  simp [case_ALL_EVASIONS, pickLoop_done _ _ _ h]

theorem case_ALL_EVASIONS_unroll (mp : MovePicker) (h : mp.cur < mp.endMoves) :
    case_ALL_EVASIONS mp
      = if (pick_best mp.moves mp.cur mp.endMoves).1 != mp.ttMove then
          (.evasion, (pick_best mp.moves mp.cur mp.endMoves).1,
            { mp with moves := (pick_best mp.moves mp.cur mp.endMoves).2, cur := mp.cur + 1 })
        else
          case_ALL_EVASIONS
            { mp with moves := (pick_best mp.moves mp.cur mp.endMoves).2, cur := mp.cur + 1 } := by
  unfold case_ALL_EVASIONS
  simp only []
  rw [pickLoop_unroll _ _ h]
  split_ifs <;> rfl

theorem consume_ALL_EVASIONS (sq : Bool) :
    ∀ (k : Nat) (mp : MovePicker), mp.endMoves - mp.cur = k →
      mp.stage = ALL_EVASIONS →
      (∀ i, mp.cur ≤ i → i < mp.endMoves → (mp.moves i).move ≠ MOVE_NONE) →
      ∃ picks : List ExtMove,
        picks.Perm (slice mp.moves mp.cur mp.endMoves)
        ∧ picks.Pairwise (fun x y => y.value ≤ x.value)
        ∧ ∀ f, (tagged .evasion ((movesOf picks).filter (fun m => m != mp.ttMove))).length ≤ f →
            consumeFrom f (case_ALL_EVASIONS mp) sq
              = tagged .evasion ((movesOf picks).filter (fun m => m != mp.ttMove)) := by
  intro k
  induction k with
  | zero =>
    intro mp hk hs hne
    have hle : mp.endMoves ≤ mp.cur := by omega
    refine ⟨[], ?_, List.Pairwise.nil, ?_⟩
    · rw [slice_of_le hle]
    · intro f _
      rw [case_ALL_EVASIONS_done mp hle, consumeFrom_none]
      rfl
  | succ k ih =>
    intro mp hk hs hne
    have h1 : mp.cur < mp.endMoves := by omega
    obtain ⟨hx1, hperm, hmax, hframe⟩ := pick_best_spec mp.moves h1
    have hrange := pick_best_range mp.moves mp.cur mp.endMoves (fun m => m ≠ MOVE_NONE) hne
    have hxne : (pick_best mp.moves mp.cur mp.endMoves).1 ≠ MOVE_NONE := by
      rw [hx1]
      exact hrange mp.cur (le_refl _) h1
    rw [case_ALL_EVASIONS_unroll mp h1]
    generalize pick_best mp.moves mp.cur mp.endMoves = pb at hx1 hperm hmax hframe hrange hxne ⊢
    obtain ⟨picks, hp1, hp2, hrest0⟩ :=
      ih { mp with moves := pb.2, cur := mp.cur + 1 }
        (by show mp.endMoves - (mp.cur + 1) = k; omega) hs
        (fun i hi1 hi2 => hrange i (Nat.le_of_succ_le hi1) hi2)
    have hrest : ∀ f,
        (tagged .evasion ((movesOf picks).filter (fun m => m != mp.ttMove))).length ≤ f →
        consumeFrom f (case_ALL_EVASIONS { mp with moves := pb.2, cur := mp.cur + 1 }) sq
          = tagged .evasion ((movesOf picks).filter (fun m => m != mp.ttMove)) := hrest0
    obtain ⟨hc1, hc2⟩ := picks_cons mp.moves pb.2 mp.cur mp.endMoves picks h1 hperm hmax hp1 hp2
    refine ⟨pb.2 mp.cur :: picks, hc1, hc2, ?_⟩
    intro f hf
    by_cases htt : (pb.1 != mp.ttMove) = true
    · rw [if_pos htt]
      have hg : ((pb.2 mp.cur).move != mp.ttMove) = true := by
        rw [← hx1]
        exact htt
      simp only [movesOf_cons, List.filter_cons, hg, if_true, tagged_cons] at hf ⊢
      rw [consumeFrom_move _ _ _ _ _ hxne, hx1]
      obtain ⟨f1, rfl⟩ : ∃ f1, f = f1 + 1 := ⟨f - 1, by simp at hf; omega⟩
      rw [consume_succ,
        next_move_traced_ALL_EVASIONS { mp with moves := pb.2, cur := mp.cur + 1 } sq hs]
      rw [hrest f1 (by
        simp only [List.length_cons, add_le_add_iff_right] at hf
        exact hf)]
    · rw [if_neg htt]
      have hg : ¬ ((pb.2 mp.cur).move != mp.ttMove) = true := by
        rw [← hx1]
        exact htt
      simp only [movesOf_cons, List.filter_cons, hg, if_false, Bool.false_eq_true] at hf ⊢
      exact hrest f hf

/-- A full consumption of a picker built in check: with enough calls allowed it returns
the hash move and then the evasions other than the hash move, in the order `picks` in
which `pick_best` picks them; the next call returns MOVE_NONE. -/
theorem consume_evasion (sq : Bool) (mp : MovePicker)
    (hst : (mp.stage = EVASION ∧ mp.ttMove ≠ MOVE_NONE)
      ∨ (mp.stage = EVASIONS_INIT ∧ mp.ttMove = MOVE_NONE))
    (he : MOVE_NONE ∉ mp.pos.genEVASIONS) :
    ∃ picks : List ExtMove,
      picks.Perm (scoredEvasions mp)
      ∧ picks.Pairwise (fun x y => y.value ≤ x.value)
      ∧ ∀ f, (evasionOutput mp picks).length < f →
          consume f mp sq = evasionOutput mp picks := by
  have hinit : ∀ mp1 : MovePicker, mp1.stage = EVASIONS_INIT →
      MOVE_NONE ∉ mp1.pos.genEVASIONS →
      ∃ picks : List ExtMove,
        picks.Perm (scoredEvasions mp1)
        ∧ picks.Pairwise (fun x y => y.value ≤ x.value)
        ∧ ∀ f, (tagged .evasion ((movesOf picks).filter (fun m => m != mp1.ttMove))).length ≤ f →
            consumeFrom f (case_EVASIONS_INIT mp1) sq
              = tagged .evasion ((movesOf picks).filter (fun m => m != mp1.ttMove)) := by
    intro mp1 hs1 he1
    have hsl := slice_generate_score ({ mp1 with cur := 0 } : MovePicker)
      .EVASIONS 0 mp1.evasionValue rfl
    obtain ⟨picks, hp1, hp2, hrest0⟩ := consume_ALL_EVASIONS sq _
      { (({ mp1 with cur := 0 } : MovePicker).generateMoves .EVASIONS 0).score_EVASIONS
        with stage := mp1.stage + 1 }
      rfl (by show mp1.stage + 1 = ALL_EVASIONS; rw [hs1])
      (by
        intro i hi1 hi2 hcon
        have hmem := generateMoves_range ({ mp1 with cur := 0 } : MovePicker)
          .EVASIONS 0 i (Nat.zero_le i) hi2
        have hmv : ((({ mp1 with cur := 0 } : MovePicker).generateMoves
            .EVASIONS 0).score_EVASIONS.moves i).move = MOVE_NONE := hcon
        unfold MovePicker.score_EVASIONS at hmv
        rw [scoreWith_move] at hmv
        rw [hmv] at hmem
        exact he1 hmem)
    have hp1c : picks.Perm (slice ((({ mp1 with cur := 0 } : MovePicker
        ).generateMoves .EVASIONS 0).scoreWith mp1.evasionValue).moves 0
        (0 + mp1.pos.genEVASIONS.length)) := hp1
    have hsl2 : slice ((({ mp1 with cur := 0 } : MovePicker
        ).generateMoves .EVASIONS 0).scoreWith mp1.evasionValue).moves 0
        (0 + mp1.pos.genEVASIONS.length) = scoredEvasions mp1 := hsl
    rw [hsl2] at hp1c
    exact ⟨picks, hp1c, hp2, hrest0⟩
  rcases hst with ⟨hs, htt⟩ | ⟨hs, htt⟩
  · obtain ⟨picks, hp1, hp2, hrest0⟩ := hinit { mp with stage := mp.stage + 1 }
      (by show mp.stage + 1 = EVASIONS_INIT; rw [hs]) he
    have hrest : ∀ f,
        (tagged .evasion ((movesOf picks).filter (fun m => m != mp.ttMove))).length ≤ f →
        consumeFrom f (case_EVASIONS_INIT { mp with stage := mp.stage + 1 }) sq
          = tagged .evasion ((movesOf picks).filter (fun m => m != mp.ttMove)) := hrest0
    refine ⟨picks, hp1, hp2, ?_⟩
    intro f hf
    unfold evasionOutput at hf ⊢
    have hfil : [mp.ttMove].filter (fun m => m != MOVE_NONE) = [mp.ttMove] :=
      filter_single_pos _ _ (by simpa using htt)
    rw [hfil] at hf ⊢
    simp only [tagged_cons, tagged_nil, List.cons_append, List.nil_append,
      List.length_cons] at hf ⊢
    obtain ⟨f1, rfl⟩ : ∃ f1, f = f1 + 1 := ⟨f - 1, by omega⟩
    rw [consume_succ, next_move_traced_ttStage mp sq (Or.inr (Or.inl hs)),
      consumeFrom_move _ _ _ _ _ htt]
    obtain ⟨f2, rfl⟩ : ∃ f2, f1 = f2 + 1 := ⟨f1 - 1, by omega⟩
    rw [consume_succ, next_move_traced_EVASIONS_INIT { mp with stage := mp.stage + 1 } sq
      (by show mp.stage + 1 = EVASIONS_INIT; rw [hs])]
    rw [hrest f2 (by omega)]
  · obtain ⟨picks, hp1, hp2, hrest⟩ := hinit mp hs he
    refine ⟨picks, hp1, hp2, ?_⟩
    intro f hf
    unfold evasionOutput at hf ⊢
    have hfil : [mp.ttMove].filter (fun m => m != MOVE_NONE) = [] :=
      filter_single_neg _ _ (by simp [htt])
    rw [hfil] at hf ⊢
    simp only [tagged_nil, List.nil_append] at hf ⊢
    obtain ⟨f1, rfl⟩ : ∃ f1, f = f1 + 1 := ⟨f - 1, by omega⟩
    rw [consume_succ, next_move_traced_EVASIONS_INIT mp sq hs]
    exact hrest f1 (by omega)

/-! ## The constructors -/

theorem normal_ttMove (env : Env) (raw : MovePicker) (p : Position) (ttm : Move) (d : Depth)
    (mh : Nat → Color → Value) (ch : Nat → Square → Piece → Value) (cm k0 k1 : Move) :
    ((MovePicker.normal env raw p ttm d mh ch cm k0 k1).ttMove = ttm ∧ ttm ≠ MOVE_NONE
        ∧ p.pseudo_legal_s ttm = true)
    ∨ ((MovePicker.normal env raw p ttm d mh ch cm k0 k1).ttMove = MOVE_NONE
        ∧ (ttm = MOVE_NONE ∨ p.pseudo_legal_s ttm = false)) := by
  by_cases h1 : ttm = MOVE_NONE
  · right
    simp [MovePicker.normal, h1]
  · cases h2 : p.pseudo_legal_s ttm
    · right
      simp [MovePicker.normal, h2]
    · left
      simp [MovePicker.normal, h1, h2]

theorem normal_stage (env : Env) (raw : MovePicker) (p : Position) (ttm : Move) (d : Depth)
    (mh : Nat → Color → Value) (ch : Nat → Square → Piece → Value) (cm k0 k1 : Move) :
    (MovePicker.normal env raw p ttm d mh ch cm k0 k1).stage
      = (if p.in_check then EVASION else MAIN_SEARCH)
        + (if (MovePicker.normal env raw p ttm d mh ch cm k0 k1).ttMove = MOVE_NONE
            then 1 else 0) := by
  simp [MovePicker.normal]

theorem normal_start (env : Env) (raw : MovePicker) (p : Position) (ttm : Move) (d : Depth)
    (mh : Nat → Color → Value) (ch : Nat → Square → Piece → Value) (cm k0 k1 : Move) :
    (p.in_check = false →
      ((MovePicker.normal env raw p ttm d mh ch cm k0 k1).stage = MAIN_SEARCH
        ∧ (MovePicker.normal env raw p ttm d mh ch cm k0 k1).ttMove ≠ MOVE_NONE)
      ∨ ((MovePicker.normal env raw p ttm d mh ch cm k0 k1).stage = CAPTURES_INIT
        ∧ (MovePicker.normal env raw p ttm d mh ch cm k0 k1).ttMove = MOVE_NONE))
    ∧ (p.in_check = true →
      ((MovePicker.normal env raw p ttm d mh ch cm k0 k1).stage = EVASION
        ∧ (MovePicker.normal env raw p ttm d mh ch cm k0 k1).ttMove ≠ MOVE_NONE)
      ∨ ((MovePicker.normal env raw p ttm d mh ch cm k0 k1).stage = EVASIONS_INIT
        ∧ (MovePicker.normal env raw p ttm d mh ch cm k0 k1).ttMove = MOVE_NONE)) := by
  have hst := normal_stage env raw p ttm d mh ch cm k0 k1
  constructor
  · intro hc
    rw [hc] at hst
    by_cases h : (MovePicker.normal env raw p ttm d mh ch cm k0 k1).ttMove = MOVE_NONE
    · right
      rw [if_pos h] at hst
      exact ⟨hst, h⟩
    · left
      rw [if_neg h] at hst
      exact ⟨hst, h⟩
  · intro hc
    rw [hc] at hst
    by_cases h : (MovePicker.normal env raw p ttm d mh ch cm k0 k1).ttMove = MOVE_NONE
    · right
      rw [if_pos h] at hst
      exact ⟨hst, h⟩
    · left
      rw [if_neg h] at hst
      exact ⟨hst, h⟩

theorem quiescence_check (env : Env) (raw : MovePicker) (p : Position) (ttm : Move) (d : Depth)
    (mh : Nat → Color → Value) (recapSq : Square) (hc : p.in_check = true) :
    (MovePicker.quiescence env raw p ttm d mh recapSq).pos = p
    ∧ (((MovePicker.quiescence env raw p ttm d mh recapSq).ttMove = ttm ∧ ttm ≠ MOVE_NONE
          ∧ p.pseudo_legal_s ttm = true
          ∧ (MovePicker.quiescence env raw p ttm d mh recapSq).stage = EVASION)
      ∨ ((MovePicker.quiescence env raw p ttm d mh recapSq).ttMove = MOVE_NONE
          ∧ (MovePicker.quiescence env raw p ttm d mh recapSq).stage = EVASIONS_INIT)) := by
  unfold MovePicker.quiescence
  simp only [hc, if_true]
  refine ⟨rfl, ?_⟩
  by_cases h1 : ttm = MOVE_NONE
  · right
    simp [MovePicker.withHashMove, h1]
  · cases h2 : p.pseudo_legal_s ttm
    · right
      simp [MovePicker.withHashMove, h2]
    · left
      simp [MovePicker.withHashMove, h1, h2]

/-! ## The set of moves of a full consumption -/

theorem mem_tagged_snd (s : ReturnSite) (ms : List Move) (m : Move) :
    m ∈ (tagged s ms).map Prod.snd ↔ m ∈ ms := by
  simp [tagged]

theorem mem_tagged (s t : ReturnSite) (ms : List Move) (m : Move) :
    (t, m) ∈ tagged s ms ↔ t = s ∧ m ∈ ms := by
  simp only [tagged, List.mem_map, Prod.mk.injEq]
  constructor
  · rintro ⟨a, ha, h1, h2⟩
    exact ⟨h1.symm, h2 ▸ ha⟩
  · rintro ⟨h1, h2⟩
    exact ⟨m, h2, h1.symm, rfl⟩

theorem movesOf_scoredCaptures (mp : MovePicker) :
    movesOf (scoredCaptures mp) = mp.pos.genCAPTURES_PRO_PLUS := by
  simp [movesOf, scoredCaptures, Function.comp_def]

theorem movesOf_scoredEvasions (mp : MovePicker) :
    movesOf (scoredEvasions mp) = mp.pos.genEVASIONS := by
  simp [movesOf, scoredEvasions, Function.comp_def]

theorem mem_movesOf_picks (mp : MovePicker) (picks : List ExtMove)
    (hp : picks.Perm (scoredCaptures mp)) (m : Move) :
    m ∈ movesOf picks ↔ m ∈ mp.pos.genCAPTURES_PRO_PLUS := by
  rw [← movesOf_scoredCaptures]
  exact (hp.map ExtMove.move).mem_iff

/-- Where a pair of the output of a normal-search picker comes from. -/
theorem mem_normalOutput (mp : MovePicker) (sq : Bool) (picks : List ExtMove) (qs : List Move)
    (t : ReturnSite) (m : Move) :
    (t, m) ∈ normalOutput mp sq picks qs ↔
      (t = .ttMove ∧ m = mp.ttMove ∧ m ≠ MOVE_NONE)
      ∨ (t = .goodCapture ∧ m ∈ movesOf picks ∧ mp.goodAccept m = true)
      ∨ (t = .killer ∧ m = mp.killers0 ∧ mp.killerAccept m = true)
      ∨ (t = .killer ∧ m = mp.killers1 ∧ mp.killerAccept m = true)
      ∨ (t = .countermove ∧ m = mp.countermove ∧ mp.countermoveAccept m = true)
      ∨ (t = .quiet ∧ sq = false ∧ m ∈ qs ∧ mp.quietAccept m = true)
      ∨ (t = .badCapture ∧ m ∈ movesOf picks ∧ mp.badAccept m = true) := by
  unfold normalOutput normalTail
  simp only [List.mem_append, mem_tagged, List.mem_filter, List.mem_singleton]
  have hq : (t, m) ∈ (if sq = true then [] else tagged .quiet (qs.filter mp.quietAccept))
      ↔ (t = .quiet ∧ sq = false ∧ m ∈ qs ∧ mp.quietAccept m = true) := by
    cases sq
    · simp [mem_tagged, List.mem_filter]
    · simp
  rw [hq]
  constructor
  · rintro (⟨h1, h2, h3⟩ | ⟨h1, h2, h3⟩ | ⟨h1, h2, h3⟩ | ⟨h1, h2, h3⟩ | ⟨h1, h2, h3⟩ | h
      | ⟨h1, h2, h3⟩)
    · exact Or.inl ⟨h1, h2, by simpa using h3⟩
    · exact Or.inr (Or.inl ⟨h1, h2, h3⟩)
    · exact Or.inr (Or.inr (Or.inl ⟨h1, h2, h3⟩))
    · exact Or.inr (Or.inr (Or.inr (Or.inl ⟨h1, h2, h3⟩)))
    · exact Or.inr (Or.inr (Or.inr (Or.inr (Or.inl ⟨h1, h2, h3⟩))))
    · exact Or.inr (Or.inr (Or.inr (Or.inr (Or.inr (Or.inl h)))))
    · exact Or.inr (Or.inr (Or.inr (Or.inr (Or.inr (Or.inr ⟨h1, h2, h3⟩)))))
  · rintro (⟨h1, h2, h3⟩ | ⟨h1, h2, h3⟩ | ⟨h1, h2, h3⟩ | ⟨h1, h2, h3⟩ | ⟨h1, h2, h3⟩ | h
      | ⟨h1, h2, h3⟩)
    · exact Or.inl ⟨h1, h2, by simpa using h3⟩
    · exact Or.inr (Or.inl ⟨h1, h2, h3⟩)
    · exact Or.inr (Or.inr (Or.inl ⟨h1, h2, h3⟩))
    · exact Or.inr (Or.inr (Or.inr (Or.inl ⟨h1, h2, h3⟩)))
    · exact Or.inr (Or.inr (Or.inr (Or.inr (Or.inl ⟨h1, h2, h3⟩))))
    · exact Or.inr (Or.inr (Or.inr (Or.inr (Or.inr (Or.inl h)))))
    · exact Or.inr (Or.inr (Or.inr (Or.inr (Or.inr (Or.inr ⟨h1, h2, h3⟩)))))

theorem mem_map_snd_iff (out : List (ReturnSite × Move)) (m : Move) :
    m ∈ out.map Prod.snd ↔ ∃ t, (t, m) ∈ out := by
  simp

/-- The moves of the output of a normal-search picker with no quiets skipped are the
moves of the capture and of the quiet batch, when the predicates agree with the
generators. -/
theorem normalOutput_moves (mp : MovePicker) (picks : List ExtMove) (qs : List Move)
    (hp : picks.Perm (scoredCaptures mp)) (hq : qs.Perm mp.pos.genNON_CAPTURES_PRO_MINUS)
    (h0 : MOVE_NONE ∉ mp.pos.genCAPTURES_PRO_PLUS ∧ MOVE_NONE ∉ mp.pos.genNON_CAPTURES_PRO_MINUS)
    (htt : mp.ttMove ≠ MOVE_NONE →
      mp.ttMove ∈ mp.pos.genCAPTURES_PRO_PLUS ∨ mp.ttMove ∈ mp.pos.genNON_CAPTURES_PRO_MINUS)
    (hk : ∀ k, k = mp.killers0 ∨ k = mp.killers1 → mp.killerAccept k = true →
      k ∈ mp.pos.genCAPTURES_PRO_PLUS ∨ k ∈ mp.pos.genNON_CAPTURES_PRO_MINUS)
    (hcm : mp.countermoveAccept mp.countermove = true →
      mp.countermove ∈ mp.pos.genCAPTURES_PRO_PLUS
        ∨ mp.countermove ∈ mp.pos.genNON_CAPTURES_PRO_MINUS)
    (hquiet : ∀ m ∈ mp.pos.genNON_CAPTURES_PRO_MINUS,
      mp.pos.pseudo_legal m = true ∧ mp.pos.pseudo_legal_s m = true ∧ mp.pos.capture m = false
        ∧ mp.pos.capture_or_pawn_promotion m = false)
    (m : Move) :
    m ∈ (normalOutput mp false picks qs).map Prod.snd
      ↔ m ∈ mp.pos.genCAPTURES_PRO_PLUS ∨ m ∈ mp.pos.genNON_CAPTURES_PRO_MINUS := by
  rw [mem_map_snd_iff]
  constructor
  · rintro ⟨t, ht⟩
    rw [mem_normalOutput] at ht
    rcases ht with ⟨_, h2, h3⟩ | ⟨_, h2, _⟩ | ⟨_, h2, h3⟩ | ⟨_, h2, h3⟩ | ⟨_, h2, h3⟩
      | ⟨_, _, h2, _⟩ | ⟨_, h2, _⟩
    · rw [h2] at h3 ⊢
      exact htt h3
    · exact Or.inl ((mem_movesOf_picks mp picks hp m).mp h2)
    · exact hk m (Or.inl h2) h3
    · exact hk m (Or.inr h2) h3
    · rw [h2] at h3 ⊢
      exact hcm h3
    · exact Or.inr (hq.mem_iff.mp h2)
    · exact Or.inl ((mem_movesOf_picks mp picks hp m).mp h2)
  · intro hm
    have hmne : m ≠ MOVE_NONE := by
      rintro rfl
      rcases hm with h | h
      · exact h0.1 h
      · exact h0.2 h
    by_cases h1 : m = mp.ttMove
    · exact ⟨.ttMove, (mem_normalOutput _ _ _ _ _ _).mpr (Or.inl ⟨rfl, h1, hmne⟩)⟩
    · rcases hm with hc | hqm
      · have hpick := (mem_movesOf_picks mp picks hp m).mpr hc
        cases hsee : mp.pos.see_ge m 0
        · refine ⟨.badCapture, (mem_normalOutput _ _ _ _ _ _).mpr ?_⟩
          refine Or.inr (Or.inr (Or.inr (Or.inr (Or.inr (Or.inr ⟨rfl, hpick, ?_⟩)))))
          simp [MovePicker.badAccept, h1, hsee]
        · refine ⟨.goodCapture, (mem_normalOutput _ _ _ _ _ _).mpr ?_⟩
          refine Or.inr (Or.inl ⟨rfl, hpick, ?_⟩)
          simp [MovePicker.goodAccept, h1, hsee]
      · obtain ⟨q1, q2, q3, q4⟩ := hquiet m hqm
        have hka : mp.killerAccept m = true := by
          simp [MovePicker.killerAccept, hmne, h1, q1, q3]
        by_cases h2 : m = mp.killers0
        · exact ⟨.killer, (mem_normalOutput _ _ _ _ _ _).mpr
            (Or.inr (Or.inr (Or.inl ⟨rfl, h2, hka⟩)))⟩
        · by_cases h3 : m = mp.killers1
          · exact ⟨.killer, (mem_normalOutput _ _ _ _ _ _).mpr
              (Or.inr (Or.inr (Or.inr (Or.inl ⟨rfl, h3, hka⟩))))⟩
          · by_cases h4 : m = mp.countermove
            · refine ⟨.countermove, (mem_normalOutput _ _ _ _ _ _).mpr ?_⟩
              refine Or.inr (Or.inr (Or.inr (Or.inr (Or.inl ⟨rfl, h4, ?_⟩))))
              simp [MovePicker.countermoveAccept, hmne, h1, h2, h3, q2, q4]
            · refine ⟨.quiet, (mem_normalOutput _ _ _ _ _ _).mpr ?_⟩
              refine Or.inr (Or.inr (Or.inr (Or.inr (Or.inr (Or.inl
                ⟨rfl, rfl, hq.mem_iff.mpr hqm, ?_⟩)))))
              simp [MovePicker.quietAccept, h1, h2, h3, h4]

theorem evasionOutput_moves (mp : MovePicker) (picks : List ExtMove)
    (hp : picks.Perm (scoredEvasions mp)) (h0 : MOVE_NONE ∉ mp.pos.genEVASIONS)
    (htt : mp.ttMove ≠ MOVE_NONE → mp.ttMove ∈ mp.pos.genEVASIONS) (m : Move) :
    m ∈ (evasionOutput mp picks).map Prod.snd ↔ m ∈ mp.pos.genEVASIONS := by
  have hmem : ∀ x, x ∈ movesOf picks ↔ x ∈ mp.pos.genEVASIONS := by
    intro x
    rw [← movesOf_scoredEvasions]
    exact (hp.map ExtMove.move).mem_iff
  unfold evasionOutput
  simp only [List.map_append, List.mem_append, mem_tagged_snd, List.mem_filter,
    List.mem_singleton, hmem]
  constructor
  · rintro (⟨h1, h2⟩ | ⟨h1, _⟩)
    · rw [h1] at h2 ⊢
      exact htt (by simpa using h2)
    · exact h1
  · intro hm
    by_cases h1 : m = mp.ttMove
    · left
      refine ⟨h1, ?_⟩
      have : m ≠ MOVE_NONE := by
        rintro rfl
        exact h0 hm
      simpa using this
    · right
      exact ⟨hm, by simpa using h1⟩

/-- C3: a full consumption with `skipQuiets = false` (no must-capture filter) returns
exactly the moves of the batches of the context: the CAPTURES_PRO_PLUS and the
NON_CAPTURES_PRO_MINUS batch for a normal-search picker off check, the EVASIONS batch
for a normal-search or quiescence picker built in check, when the predicates of the
position agree with its generators. `out` is what the calls return before MOVE_NONE,
for every bound on the number of calls above its length. -/
theorem full_consumption_returns_generated_moves (env : Env) (raw : MovePicker)
    (p : Position) (ttm : Move) (d dq : Depth) (mh : Nat → Color → Value)
    (ch : Nat → Square → Piece → Value) (cm k0 k1 : Move) (recapSq : Square)
    (hagree : GeneratorsAgree p ttm k0 k1 cm) :
    (p.in_check = false →
      ∃ out : List (ReturnSite × Move),
        (∀ f, out.length < f →
          consume f (MovePicker.normal env raw p ttm d mh ch cm k0 k1) false = out)
        ∧ ∀ m, m ∈ out.map Prod.snd
            ↔ m ∈ p.genCAPTURES_PRO_PLUS ∨ m ∈ p.genNON_CAPTURES_PRO_MINUS)
    ∧ (p.in_check = true →
      (∃ out : List (ReturnSite × Move),
        (∀ f, out.length < f →
          consume f (MovePicker.normal env raw p ttm d mh ch cm k0 k1) false = out)
        ∧ ∀ m, m ∈ out.map Prod.snd ↔ m ∈ p.genEVASIONS)
      ∧ (∃ out : List (ReturnSite × Move),
        (∀ f, out.length < f →
          consume f (MovePicker.quiescence env raw p ttm dq mh recapSq) false = out)
        ∧ ∀ m, m ∈ out.map Prod.snd ↔ m ∈ p.genEVASIONS)) := by
  obtain ⟨h0c, h0q, h0e⟩ := hagree.no_sentinel
  constructor
  · intro hc
    obtain ⟨picks, qs, hp1, _, hp3, hcons⟩ := consume_normal false
      (MovePicker.normal env raw p ttm d mh ch cm k0 k1)
      ((normal_start env raw p ttm d mh ch cm k0 k1).1 hc) h0c (fun _ => h0q)
    refine ⟨_, hcons, ?_⟩
    intro m
    refine normalOutput_moves (MovePicker.normal env raw p ttm d mh ch cm k0 k1) picks qs
      hp1 hp3 ⟨h0c, h0q⟩ ?_ ?_ ?_ ?_ m
    · intro hne
      rcases normal_ttMove env raw p ttm d mh ch cm k0 k1 with ⟨h1, h2, h3⟩ | ⟨h1, _⟩
      · rw [h1]
        have := hagree.hash_move h2 h3
        rw [hc] at this
        simpa using this
      · exact absurd h1 hne
    · intro k hk hka
      simp only [MovePicker.killerAccept, Bool.and_eq_true, bne_iff_ne, ne_eq,
        Bool.not_eq_true'] at hka
      exact hagree.killer hc k hk hka.1.1.1 hka.1.2 hka.2
    · intro hca
      simp only [MovePicker.countermoveAccept, Bool.and_eq_true, bne_iff_ne, ne_eq,
        Bool.not_eq_true'] at hca
      exact hagree.countermove hc hca.1.1.1.1.1 hca.1.2 hca.2
    · exact hagree.quiet hc
  · intro hc
    constructor
    · obtain ⟨picks, hp1, _, hcons⟩ := consume_evasion false
        (MovePicker.normal env raw p ttm d mh ch cm k0 k1)
        ((normal_start env raw p ttm d mh ch cm k0 k1).2 hc) h0e
      refine ⟨_, hcons, ?_⟩
      intro m
      refine evasionOutput_moves _ picks hp1 h0e ?_ m
      intro hne
      rcases normal_ttMove env raw p ttm d mh ch cm k0 k1 with ⟨h1, h2, h3⟩ | ⟨h1, _⟩
      · rw [h1]
        have := hagree.hash_move h2 h3
        rw [hc] at this
        simpa using this
      · exact absurd h1 hne
    · obtain ⟨hpos, hq⟩ := quiescence_check env raw p ttm dq mh recapSq hc
      have h0e2 : MOVE_NONE ∉ (MovePicker.quiescence env raw p ttm dq mh recapSq).pos.genEVASIONS := by
        rw [hpos]
        exact h0e
      obtain ⟨picks, hp1, _, hcons⟩ := consume_evasion false
        (MovePicker.quiescence env raw p ttm dq mh recapSq)
        (by
          rcases hq with ⟨h1, h2, _, h4⟩ | ⟨h1, h2⟩
          · exact Or.inl ⟨h4, by rw [h1]; exact h2⟩
          · exact Or.inr ⟨h2, h1⟩)
        h0e2
      refine ⟨_, hcons, ?_⟩
      intro m
      rw [evasionOutput_moves _ picks hp1 h0e2 ?_ m, hpos]
      intro hne
      rw [hpos]
      rcases hq with ⟨h1, h2, h3, _⟩ | ⟨h1, _⟩
      · rw [h1]
        have := hagree.hash_move h2 h3
        rw [hc] at this
        simpa using this
      · exact absurd h1 hne

theorem exPos_agree : GeneratorsAgree exPos 21 22 0 0 where
  no_sentinel := by decide
  hash_move := by
    intro _ _
    show (21 : Move) ∈ exPos.genCAPTURES_PRO_PLUS ∨ (21 : Move) ∈ exPos.genNON_CAPTURES_PRO_MINUS
    decide
  killer := by
    intro _ k hk hne _ _
    rcases hk with rfl | rfl
    · decide
    · exact absurd rfl hne
  countermove := by
    intro _ hne
    exact absurd rfl hne
  quiet := by decide

theorem exPosCheck_agree : GeneratorsAgree exPosCheck 11 0 0 0 where
  no_sentinel := by decide
  hash_move := by
    intro _ _
    show (11 : Move) ∈ exPosCheck.genEVASIONS
    decide
  killer := by
    intro h
    exact absurd h (by decide)
  countermove := by
    intro h
    exact absurd h (by decide)
  quiet := by
    intro h
    exact absurd h (by decide)

/-- Witness of C3: the example position off check with hash move 21 and killer 22, and
the example position in check with hash move 11. -/
theorem full_consumption_returns_generated_moves_witness :
    GeneratorsAgree exPos 21 22 0 0 ∧ GeneratorsAgree exPosCheck 11 0 0 0
    ∧ (∃ out : List (ReturnSite × Move),
        (∀ f, out.length < f →
          consume f (MovePicker.normal exEnv exRaw exPos 21 3 exHistory exContHistory 0 22 0)
            false = out)
        ∧ ∀ m, m ∈ out.map Prod.snd
            ↔ m ∈ exPos.genCAPTURES_PRO_PLUS ∨ m ∈ exPos.genNON_CAPTURES_PRO_MINUS)
    ∧ (∃ out : List (ReturnSite × Move),
        (∀ f, out.length < f →
          consume f (MovePicker.quiescence exEnv exRaw exPosCheck 11 (-1) exHistory 0)
            false = out)
        ∧ ∀ m, m ∈ out.map Prod.snd ↔ m ∈ exPosCheck.genEVASIONS) :=
  ⟨exPos_agree, exPosCheck_agree,
    (full_consumption_returns_generated_moves exEnv exRaw exPos 21 3 (-1) exHistory
      exContHistory 0 22 0 0 exPos_agree).1 rfl,
    ((full_consumption_returns_generated_moves exEnv exRaw exPosCheck 11 3 (-1) exHistory
      exContHistory 0 0 0 0 exPosCheck_agree).2 rfl).2⟩

/-! ## One call on a normal-search picker -/

theorem Frame.refl (mp : MovePicker) : Frame mp mp :=
  ⟨mp.stage, mp.moves, mp.cur, mp.endMoves, mp.endBadCaptures, mp.generated, rfl⟩

theorem Frame.trans {mp mp1 mp2 : MovePicker} (h1 : Frame mp mp1) (h2 : Frame mp1 mp2) :
    Frame mp mp2 := by
  obtain ⟨st, buf, c, e, eb, g, rfl⟩ := h1
  obtain ⟨st2, buf2, c2, e2, eb2, g2, rfl⟩ := h2
  exact ⟨st2, buf2, c2, e2, eb2, g2, rfl⟩

theorem Frame.fields {mp mp1 : MovePicker} (h : Frame mp mp1) :
    mp1.pos = mp.pos ∧ mp1.ttMove = mp.ttMove ∧ mp1.killers0 = mp.killers0
    ∧ mp1.killers1 = mp.killers1 ∧ mp1.countermove = mp.countermove
    ∧ mp1.threshold = mp.threshold ∧ mp1.env = mp.env := by
  obtain ⟨st, buf, c, e, eb, g, rfl⟩ := h
  exact ⟨rfl, rfl, rfl, rfl, rfl, rfl, rfl⟩

theorem goodCapturesLoop_succ (n : Nat) (mp : MovePicker) :
    goodCapturesLoop (n + 1) mp
      = if mp.cur < mp.endMoves then
          (if (pick_best mp.moves mp.cur mp.endMoves).1 != mp.ttMove then
            (if mp.pos.see_ge (pick_best mp.moves mp.cur mp.endMoves).1 0 then
              (some (pick_best mp.moves mp.cur mp.endMoves).1,
                { mp with moves := (pick_best mp.moves mp.cur mp.endMoves).2, cur := mp.cur + 1 })
            else
              goodCapturesLoop n
                { mp with
                  moves := fun i =>
                    if i = mp.endBadCaptures then
                      { (pick_best mp.moves mp.cur mp.endMoves).2 i with
                        move := (pick_best mp.moves mp.cur mp.endMoves).1 }
                    else (pick_best mp.moves mp.cur mp.endMoves).2 i,
                  cur := mp.cur + 1,
                  endBadCaptures := mp.endBadCaptures + 1 })
          else
            goodCapturesLoop n
              { mp with moves := (pick_best mp.moves mp.cur mp.endMoves).2, cur := mp.cur + 1 })
        else (none, mp) := rfl

/-- The loop of GOOD_CAPTURES keeps `endBadCaptures ≤ cur`, so a capture set aside is
stored in a slot that has been picked already; the slots below `endBadCaptures` keep
holding captures that fail `see_ge(move, 0)`; a move it returns passes it. -/
theorem goodCapturesLoop_inv :
    ∀ (n : Nat) (mp : MovePicker), mp.endBadCaptures ≤ mp.cur → BadOK mp →
      (∃ buf c eb, (goodCapturesLoop n mp).2
          = { mp with moves := buf, cur := c, endBadCaptures := eb })
      ∧ BadOK (goodCapturesLoop n mp).2
      ∧ (goodCapturesLoop n mp).2.endBadCaptures ≤ (goodCapturesLoop n mp).2.cur
      ∧ ∀ m, (goodCapturesLoop n mp).1 = some m → m ≠ mp.ttMove ∧ mp.pos.see_ge m 0 = true := by
  intro n
  induction n with
  | zero =>
    intro mp h1 h2
    exact ⟨⟨mp.moves, mp.cur, mp.endBadCaptures, rfl⟩, h2, h1, by simp [goodCapturesLoop]⟩
  | succ n ih =>
    intro mp h1 h2
    rw [goodCapturesLoop_succ]
    by_cases hc : mp.cur < mp.endMoves
    · rw [if_pos hc]
      obtain ⟨_, _, _, hframe⟩ := pick_best_spec mp.moves hc
      generalize pick_best mp.moves mp.cur mp.endMoves = pb at hframe ⊢
      have hb1 : BadOK { mp with moves := pb.2, cur := mp.cur + 1 } := by
        intro i hi
        have hi2 : i < mp.endBadCaptures := hi
        show mp.pos.see_ge (pb.2 i).move 0 = false ∧ (pb.2 i).move ≠ mp.ttMove
        rw [hframe i (Or.inl (by omega))]
        exact h2 i hi2
      by_cases htt : (pb.1 != mp.ttMove) = true
      · rw [if_pos htt]
        by_cases hsee : mp.pos.see_ge pb.1 0 = true
        · rw [if_pos hsee]
          refine ⟨⟨pb.2, mp.cur + 1, mp.endBadCaptures, rfl⟩, hb1, ?_, ?_⟩
          · show mp.endBadCaptures ≤ mp.cur + 1
            omega
          · intro m hm
            simp only [Option.some.injEq] at hm
            rw [← hm]
            exact ⟨by simpa using htt, hsee⟩
        · rw [if_neg hsee]
          obtain ⟨⟨buf, c, eb, h3⟩, h4, h5, h6⟩ := ih
            { mp with
              moves := fun i =>
                if i = mp.endBadCaptures then { pb.2 i with move := pb.1 } else pb.2 i,
              cur := mp.cur + 1, endBadCaptures := mp.endBadCaptures + 1 }
            (by show mp.endBadCaptures + 1 ≤ mp.cur + 1; omega)
            (by
              intro i hi
              have hi2 : i < mp.endBadCaptures + 1 := hi
              show mp.pos.see_ge (if i = mp.endBadCaptures then { pb.2 i with move := pb.1 }
                  else pb.2 i).move 0 = false
                ∧ (if i = mp.endBadCaptures then { pb.2 i with move := pb.1 }
                  else pb.2 i).move ≠ mp.ttMove
              by_cases hie : i = mp.endBadCaptures
              · rw [if_pos hie]
                exact ⟨by simpa using hsee, by simpa using htt⟩
              · rw [if_neg hie]
                exact hb1 i (by show i < mp.endBadCaptures; omega))
          exact ⟨⟨buf, c, eb, h3⟩, h4, h5, h6⟩
      · rw [if_neg htt]
        obtain ⟨⟨buf, c, eb, h3⟩, h4, h5, h6⟩ := ih
          { mp with moves := pb.2, cur := mp.cur + 1 }
          (by show mp.endBadCaptures ≤ mp.cur + 1; omega) hb1
        exact ⟨⟨buf, c, eb, h3⟩, h4, h5, h6⟩
    · rw [if_neg hc]
      exact ⟨⟨mp.moves, mp.cur, mp.endBadCaptures, rfl⟩, h2, h1, by simp⟩

theorem scanLoop_succ (accept : Move → Bool) (n : Nat) (mp : MovePicker) :
    scanLoop accept (n + 1) mp
      = if mp.cur < mp.endMoves then
          (if accept (mp.moves mp.cur).move then
            (some (mp.moves mp.cur).move, { mp with cur := mp.cur + 1 })
          else scanLoop accept n { mp with cur := mp.cur + 1 })
        else (none, mp) := rfl

/-- The loop of QUIET and QCHECKS changes only `cur`; a move it returns passed the
test. -/
theorem scanLoop_inv (accept : Move → Bool) :
    ∀ (n : Nat) (mp : MovePicker),
      (∃ c, (scanLoop accept n mp).2 = { mp with cur := c })
      ∧ ∀ m, (scanLoop accept n mp).1 = some m → accept m = true := by
  intro n
  induction n with
  | zero =>
    intro mp
    exact ⟨⟨mp.cur, rfl⟩, by simp [scanLoop]⟩
  | succ n ih =>
    intro mp
    rw [scanLoop_succ]
    by_cases hc : mp.cur < mp.endMoves
    · rw [if_pos hc]
      by_cases ha : accept (mp.moves mp.cur).move = true
      · rw [if_pos ha]
        refine ⟨⟨mp.cur + 1, rfl⟩, ?_⟩
        intro m hm
        simp only [Option.some.injEq] at hm
        rw [← hm]
        exact ha
      · rw [if_neg ha]
        obtain ⟨⟨c, h1⟩, h2⟩ := ih { mp with cur := mp.cur + 1 }
        exact ⟨⟨c, h1⟩, h2⟩
    · rw [if_neg hc]
      exact ⟨⟨mp.cur, rfl⟩, by simp⟩

theorem NormalStep.of_frame {mp : MovePicker} (mp1 : MovePicker) {sq : Bool}
    {r : ReturnSite × Move × MovePicker} (h1 : Frame mp mp1) (h2 : mp.stage ≤ mp1.stage)
    (h : NormalStep mp1 sq r) : NormalStep mp sq r :=
  ⟨h1.trans h.1, h.2.1, le_trans h2 h.2.2.1, h.2.2.2⟩

theorem step_BAD_CAPTURES (sq : Bool) (mp : MovePicker) (hs : mp.stage = BAD_CAPTURES)
    (hb : BadOK mp) : NormalStep mp sq (case_BAD_CAPTURES mp) := by
  unfold case_BAD_CAPTURES
  by_cases hc : mp.cur < mp.endBadCaptures
  · rw [if_pos hc]
    refine ⟨⟨mp.stage, mp.moves, mp.cur + 1, mp.endMoves, mp.endBadCaptures, mp.generated, rfl⟩,
      hb, le_refl _, ?_⟩
    exact ⟨(hb mp.cur hc).2, (hb mp.cur hc).1, hs⟩
  · rw [if_neg hc]
    exact ⟨Frame.refl mp, hb, le_refl _, rfl, hs, Nat.le_of_not_lt hc⟩

theorem step_QUIET (sq : Bool) (mp : MovePicker) (hs : mp.stage = QUIET)
    (hb : BadOK mp) : NormalStep mp sq (case_QUIET mp sq) := by
  have hfall : ∀ c : Nat, NormalStep mp sq
      (case_BAD_CAPTURES
        { ({ mp with cur := c } : MovePicker) with stage := mp.stage + 1, cur := 0 }) := by
    intro c
    refine NormalStep.of_frame _
      ⟨mp.stage + 1, mp.moves, 0, mp.endMoves, mp.endBadCaptures, mp.generated, rfl⟩
      (Nat.le_succ _) ?_
    exact step_BAD_CAPTURES sq _ (by show mp.stage + 1 = BAD_CAPTURES; rw [hs]) hb
  cases sq with
  | true =>
    rw [case_QUIET_skip]
    exact hfall mp.cur
  | false =>
    obtain ⟨⟨c, h1⟩, h2⟩ := scanLoop_inv mp.quietAccept (mp.endMoves - mp.cur) mp
    unfold case_QUIET
    simp only [Bool.not_false, if_true]
    split
    · rename_i move hm
      rw [h1]
      refine ⟨⟨mp.stage, mp.moves, c, mp.endMoves, mp.endBadCaptures, mp.generated, rfl⟩,
        hb, le_refl _, ?_⟩
      exact ⟨rfl, h2 move hm, hs⟩
    · rw [h1]
      exact hfall c

theorem step_QUIET_INIT (sq : Bool) (mp : MovePicker) (hs : mp.stage = QUIET_INIT)
    (hb : BadOK mp) : NormalStep mp sq (case_QUIET_INIT mp sq) := by
  obtain ⟨buf, hb1, _, hb3⟩ := case_QUIET_INIT_eq mp sq
  rw [hb3]
  refine NormalStep.of_frame
    { mp with
      stage := mp.stage + 1, moves := buf, cur := mp.endBadCaptures,
      endMoves := mp.endBadCaptures + mp.pos.genNON_CAPTURES_PRO_MINUS.length,
      generated := mp.generated ++ [MOVE_GEN_TYPE.NON_CAPTURES_PRO_MINUS] }
    ⟨_, _, _, _, _, _, rfl⟩ (Nat.le_succ _) ?_
  apply step_QUIET sq _ (by show mp.stage + 1 = QUIET; rw [hs])
  intro i hi
  have hi2 : i < mp.endBadCaptures := hi
  show mp.pos.see_ge (buf i).move 0 = false ∧ (buf i).move ≠ mp.ttMove
  rw [hb1 i hi2]
  exact hb i hi2

theorem step_COUNTERMOVE (sq : Bool) (mp : MovePicker) (hs : mp.stage = COUNTERMOVE)
    (hb : BadOK mp) : NormalStep mp sq (case_COUNTERMOVE mp sq) := by
  unfold case_COUNTERMOVE
  simp only []
  split
  · rename_i ha
    refine ⟨⟨_, _, _, _, _, _, rfl⟩, hb, Nat.le_succ _, ?_⟩
    exact ⟨ha, rfl, by show mp.stage + 1 = QUIET_INIT; rw [hs]⟩
  · refine NormalStep.of_frame { mp with stage := mp.stage + 1 }
      ⟨_, _, _, _, _, _, rfl⟩ (Nat.le_succ _) ?_
    exact step_QUIET_INIT sq _ (by show mp.stage + 1 = QUIET_INIT; rw [hs]) hb

theorem step_KILLER1 (sq : Bool) (mp : MovePicker) (hs : mp.stage = KILLER1)
    (hb : BadOK mp) : NormalStep mp sq (case_KILLER mp sq) := by
  rw [case_KILLER_stage4 mp sq hs]
  split
  · rename_i ha
    refine ⟨⟨_, _, _, _, _, _, rfl⟩, hb, Nat.le_succ _, ?_⟩
    exact ⟨ha, Or.inr ⟨rfl, by show mp.stage + 1 = COUNTERMOVE; rw [hs]⟩⟩
  · refine NormalStep.of_frame { mp with stage := mp.stage + 1 }
      ⟨_, _, _, _, _, _, rfl⟩ (Nat.le_succ _) ?_
    exact step_COUNTERMOVE sq _ (by show mp.stage + 1 = COUNTERMOVE; rw [hs]) hb

theorem step_KILLER0 (sq : Bool) (mp : MovePicker) (hs : mp.stage = KILLER0)
    (hb : BadOK mp) : NormalStep mp sq (case_KILLER mp sq) := by
  rw [case_KILLER_stage3 mp sq hs]
  split
  · rename_i ha
    refine ⟨⟨_, _, _, _, _, _, rfl⟩, hb, Nat.le_succ _, ?_⟩
    exact ⟨ha, Or.inl ⟨rfl, by show mp.stage + 1 = KILLER1; rw [hs]⟩⟩
  · split
    · rename_i ha
      refine ⟨⟨_, _, _, _, _, _, rfl⟩, hb, by show mp.stage ≤ mp.stage + 1 + 1; omega, ?_⟩
      exact ⟨ha, Or.inr ⟨rfl, by show mp.stage + 1 + 1 = COUNTERMOVE; rw [hs]⟩⟩
    · refine NormalStep.of_frame { mp with stage := mp.stage + 1 + 1 }
        ⟨_, _, _, _, _, _, rfl⟩ (by show mp.stage ≤ mp.stage + 1 + 1; omega) ?_
      exact step_COUNTERMOVE sq _ (by show mp.stage + 1 + 1 = COUNTERMOVE; rw [hs]) hb

theorem step_GOOD_CAPTURES (sq : Bool) (mp : MovePicker) (hs : mp.stage = GOOD_CAPTURES)
    (hbc : mp.endBadCaptures ≤ mp.cur) (hb : BadOK mp) :
    NormalStep mp sq (case_GOOD_CAPTURES mp sq) := by
  obtain ⟨⟨buf, c, eb, h1⟩, h2, h3, h4⟩ :=
    goodCapturesLoop_inv (mp.endMoves - mp.cur) mp hbc hb
  unfold case_GOOD_CAPTURES
  simp only []
  split
  · rename_i move hm
    refine ⟨?_, h2, ?_, ?_⟩
    · rw [h1]
      exact ⟨_, _, _, _, _, _, rfl⟩
    · rw [h1]
    · obtain ⟨h5, h6⟩ := h4 move hm
      refine ⟨?_, ?_, ?_, h3⟩
      · rw [h1]; exact h5
      · rw [h1]; exact h6
      · rw [h1]; exact hs
  · have hfr : Frame mp { (goodCapturesLoop (mp.endMoves - mp.cur) mp).2 with
        stage := (goodCapturesLoop (mp.endMoves - mp.cur) mp).2.stage + 1 } := by
      rw [h1]
      exact ⟨_, _, _, _, _, _, rfl⟩
    refine NormalStep.of_frame _ hfr (by rw [h1]; exact Nat.le_succ _) ?_
    apply step_KILLER0 sq _ (by rw [h1]; show mp.stage + 1 = KILLER0; rw [hs])
    exact h2

theorem step_CAPTURES_INIT (sq : Bool) (mp : MovePicker) (hs : mp.stage = CAPTURES_INIT) :
    NormalStep mp sq (case_CAPTURES_INIT mp sq) := by
  unfold case_CAPTURES_INIT
  simp only []
  refine NormalStep.of_frame { (({ mp with endBadCaptures := 0, cur := 0 }
      : MovePicker).generateMoves .CAPTURES_PRO_PLUS 0).score_CAPTURES with
      stage := mp.stage + 1 } ⟨_, _, _, _, _, _, rfl⟩ (Nat.le_succ _) ?_
  apply step_GOOD_CAPTURES sq _ (by show mp.stage + 1 = GOOD_CAPTURES; rw [hs]) (le_refl 0)
  intro i hi
  exact absurd hi (Nat.not_lt_zero i)

theorem normalInv_of_stage (mp : MovePicker) (st : Nat) (hs : mp.stage = st)
    (h1 : st ≤ BAD_CAPTURES) (h2 : st ≠ MAIN_SEARCH) (h3 : GOOD_CAPTURES ≤ st → BadOK mp)
    (h4 : st = GOOD_CAPTURES → mp.endBadCaptures ≤ mp.cur) : NormalInv mp := by
  unfold NormalInv
  rw [hs]
  exact ⟨h1, fun h => absurd h h2, h3, h4⟩

theorem normalInv_of_step {mp : MovePicker} {sq : Bool} {r : ReturnSite × Move × MovePicker}
    (h : NormalStep mp sq r) : NormalInv r.2.2 := by
  obtain ⟨_, hb, _, hsite⟩ := h
  unfold NormalSite at hsite
  split at hsite
  · obtain ⟨_, h2⟩ := hsite
    exact normalInv_of_stage _ _ h2 (by decide) (by decide) (fun h => absurd h (by decide))
      (fun h => absurd h (by decide))
  · obtain ⟨_, _, h2, h3⟩ := hsite
    exact normalInv_of_stage _ _ h2 (by decide) (by decide) (fun _ => hb) (fun _ => h3)
  · obtain ⟨_, h2⟩ := hsite
    rcases h2 with ⟨_, h2⟩ | ⟨_, h2⟩
    · exact normalInv_of_stage _ _ h2 (by decide) (by decide) (fun _ => hb)
        (fun h => absurd h (by decide))
    · exact normalInv_of_stage _ _ h2 (by decide) (by decide) (fun _ => hb)
        (fun h => absurd h (by decide))
  · obtain ⟨_, _, h2⟩ := hsite
    exact normalInv_of_stage _ _ h2 (by decide) (by decide) (fun _ => hb)
      (fun h => absurd h (by decide))
  · obtain ⟨_, _, h2⟩ := hsite
    exact normalInv_of_stage _ _ h2 (by decide) (by decide) (fun _ => hb)
      (fun h => absurd h (by decide))
  · obtain ⟨_, _, h2⟩ := hsite
    exact normalInv_of_stage _ _ h2 (by decide) (by decide) (fun _ => hb)
      (fun h => absurd h (by decide))
  · obtain ⟨_, h2, _⟩ := hsite
    exact normalInv_of_stage _ _ h2 (by decide) (by decide) (fun _ => hb)
      (fun h => absurd h (by decide))
  · exact absurd hsite not_false

/-- One call of `next_move` on a normal-search picker off check: only the stage, the
buffer, the cursors and the log change, the stage does not decrease, and the `return`
statement taken tells what the move returned is. -/
theorem normal_step (sq : Bool) (mp : MovePicker) (hinv : NormalInv mp) :
    Frame mp (next_move_traced mp sq).2.2
    ∧ mp.stage ≤ (next_move_traced mp sq).2.2.stage
    ∧ NormalSite sq (next_move_traced mp sq).1 (next_move_traced mp sq).2.1
        (next_move_traced mp sq).2.2
    ∧ NormalInv (next_move_traced mp sq).2.2 := by
  obtain ⟨h1, h2, h3, h4⟩ := hinv
  have hfin : ∀ r : ReturnSite × Move × MovePicker, NormalStep mp sq r →
      Frame mp r.2.2 ∧ mp.stage ≤ r.2.2.stage ∧ NormalSite sq r.1 r.2.1 r.2.2
        ∧ NormalInv r.2.2 :=
    fun r h => ⟨h.1, h.2.2.1, h.2.2.2, normalInv_of_step h⟩
  have hcases : mp.stage = 0 ∨ mp.stage = 1 ∨ mp.stage = 2 ∨ mp.stage = 3 ∨ mp.stage = 4
      ∨ mp.stage = 5 ∨ mp.stage = 6 ∨ mp.stage = 7 ∨ mp.stage = 8 := by
    have : mp.stage ≤ 8 := h1
    omega
  rcases hcases with hs | hs | hs | hs | hs | hs | hs | hs | hs
  · rw [next_move_traced_ttStage mp sq (Or.inl hs)]
    refine ⟨⟨_, _, _, _, _, _, rfl⟩, Nat.le_succ _, ⟨rfl, by show mp.stage + 1 = 1; rw [hs]⟩, ?_⟩
    exact normalInv_of_stage { mp with stage := mp.stage + 1 } 1
      (by show mp.stage + 1 = 1; rw [hs]) (by decide) (by decide)
      (fun h => absurd h (by decide)) (fun h => absurd h (by decide))
  · rw [next_move_traced_CAPTURES_INIT mp sq hs]
    exact hfin _ (step_CAPTURES_INIT sq mp hs)
  · rw [next_move_traced_GOOD_CAPTURES mp sq hs]
    exact hfin _ (step_GOOD_CAPTURES sq mp hs (h4 hs) (h3 (by rw [hs])))
  · rw [next_move_traced_KILLER0 mp sq hs]
    exact hfin _ (step_KILLER0 sq mp hs (h3 (by rw [hs]; decide)))
  · rw [next_move_traced_KILLER1 mp sq hs]
    exact hfin _ (step_KILLER1 sq mp hs (h3 (by rw [hs]; decide)))
  · rw [next_move_traced_COUNTERMOVE mp sq hs]
    exact hfin _ (step_COUNTERMOVE sq mp hs (h3 (by rw [hs]; decide)))
  · rw [next_move_traced_QUIET_INIT mp sq hs]
    exact hfin _ (step_QUIET_INIT sq mp hs (h3 (by rw [hs]; decide)))
  · rw [next_move_traced_QUIET mp sq hs]
    exact hfin _ (step_QUIET sq mp hs (h3 (by rw [hs]; decide)))
  · rw [next_move_traced_BAD_CAPTURES mp sq hs]
    exact hfin _ (step_BAD_CAPTURES sq mp hs (h3 (by rw [hs]; decide)))

theorem normalInv_start (mp : MovePicker)
    (hst : (mp.stage = MAIN_SEARCH ∧ mp.ttMove ≠ MOVE_NONE)
      ∨ (mp.stage = CAPTURES_INIT ∧ mp.ttMove = MOVE_NONE)) : NormalInv mp := by
  rcases hst with ⟨hs, htt⟩ | ⟨hs, _⟩
  · unfold NormalInv
    rw [hs]
    exact ⟨by decide, fun _ => htt, fun h => absurd h (by decide),
      fun h => absurd h (by decide)⟩
  · exact normalInv_of_stage mp 1 hs (by decide) (by decide)
      (fun h => absurd h (by decide)) (fun h => absurd h (by decide))

/-- Every picker that calls of `next_move` lead to from a normal-search picker built
off check satisfies the invariant and differs from it as `Frame` allows. -/
theorem normal_reachable (env : Env) (raw : MovePicker) (p : Position) (ttm : Move)
    (d : Depth) (mh : Nat → Color → Value) (ch : Nat → Square → Piece → Value)
    (cm k0 k1 : Move) (hc : p.in_check = false) (mp : MovePicker)
    (hr : Reachable (MovePicker.normal env raw p ttm d mh ch cm k0 k1) mp) :
    NormalInv mp ∧ Frame (MovePicker.normal env raw p ttm d mh ch cm k0 k1) mp := by
  induction hr with
  | init =>
    exact ⟨normalInv_start _ ((normal_start env raw p ttm d mh ch cm k0 k1).1 hc),
      Frame.refl _⟩
  | step mp1 sq _ ih =>
    obtain ⟨h1, _, _, h4⟩ := normal_step sq mp1 ih.1
    exact ⟨h4, ih.2.trans h1⟩

/-! ## Good and bad captures -/

/-- C4: in a normal-search picker off check, at any call after any sequence of calls, a
move returned by GOOD_CAPTURES satisfies `see_ge(move, 0)` and a move returned by
BAD_CAPTURES fails it; and in a full consumption, with either value of `skipQuiets`,
every capture of the batch other than the hash move is returned by exactly one of the
two phases: by GOOD_CAPTURES when it passes `see_ge(move, 0)`, by BAD_CAPTURES when it
fails. -/
theorem captures_split_by_see (env : Env) (raw : MovePicker) (p : Position) (ttm : Move)
    (d : Depth) (mh : Nat → Color → Value) (ch : Nat → Square → Piece → Value)
    (cm k0 k1 : Move) (hc : p.in_check = false) :
    (∀ (mp : MovePicker) (sq : Bool),
      Reachable (MovePicker.normal env raw p ttm d mh ch cm k0 k1) mp →
        ((next_move_traced mp sq).1 = .goodCapture → p.see_ge (next_move mp sq).1 0 = true)
        ∧ ((next_move_traced mp sq).1 = .badCapture → p.see_ge (next_move mp sq).1 0 = false))
    ∧ (∀ sq : Bool, MOVE_NONE ∉ p.genCAPTURES_PRO_PLUS →
        (sq = false → MOVE_NONE ∉ p.genNON_CAPTURES_PRO_MINUS) →
        ∃ out : List (ReturnSite × Move),
          (∀ f, out.length < f →
            consume f (MovePicker.normal env raw p ttm d mh ch cm k0 k1) sq = out)
          ∧ ∀ m ∈ p.genCAPTURES_PRO_PLUS,
              m ≠ (MovePicker.normal env raw p ttm d mh ch cm k0 k1).ttMove →
              ((.goodCapture, m) ∈ out ∧ (.badCapture, m) ∉ out ∧ p.see_ge m 0 = true)
              ∨ ((.badCapture, m) ∈ out ∧ (.goodCapture, m) ∉ out ∧ p.see_ge m 0 = false)) := by
  constructor
  · intro mp sq hr
    obtain ⟨hinv, hfr⟩ := normal_reachable env raw p ttm d mh ch cm k0 k1 hc mp hr
    obtain ⟨hfr2, _, hsite, _⟩ := normal_step sq mp hinv
    have hpos : (next_move_traced mp sq).2.2.pos = p := (hfr.trans hfr2).fields.1
    constructor
    · intro h
      rw [h] at hsite
      simp only [NormalSite] at hsite
      rw [hpos] at hsite
      exact hsite.2.1
    · intro h
      rw [h] at hsite
      simp only [NormalSite] at hsite
      rw [hpos] at hsite
      exact hsite.2.1
  · intro sq h0c h0q
    obtain ⟨picks, qs, hp1, _, _, hcons⟩ := consume_normal sq
      (MovePicker.normal env raw p ttm d mh ch cm k0 k1)
      ((normal_start env raw p ttm d mh ch cm k0 k1).1 hc) h0c h0q
    refine ⟨_, hcons, ?_⟩
    intro m hm hne
    have hpick : m ∈ movesOf picks := (mem_movesOf_picks _ picks hp1 m).mpr hm
    cases hsee : p.see_ge m 0
    · right
      have hb : (MovePicker.normal env raw p ttm d mh ch cm k0 k1).badAccept m = true := by
        show (m != (MovePicker.normal env raw p ttm d mh ch cm k0 k1).ttMove
          && !p.see_ge m 0) = true
        simp [hne, hsee]
      have hg : (MovePicker.normal env raw p ttm d mh ch cm k0 k1).goodAccept m = false := by
        show (m != (MovePicker.normal env raw p ttm d mh ch cm k0 k1).ttMove
          && p.see_ge m 0) = false
        simp [hsee]
      refine ⟨?_, ?_, rfl⟩
      · rw [mem_normalOutput]
        exact Or.inr (Or.inr (Or.inr (Or.inr (Or.inr (Or.inr ⟨rfl, hpick, hb⟩)))))
      · rw [mem_normalOutput]
        simp [hg]
    · left
      have hg : (MovePicker.normal env raw p ttm d mh ch cm k0 k1).goodAccept m = true := by
        show (m != (MovePicker.normal env raw p ttm d mh ch cm k0 k1).ttMove
          && p.see_ge m 0) = true
        simp [hne, hsee]
      have hb : (MovePicker.normal env raw p ttm d mh ch cm k0 k1).badAccept m = false := by
        show (m != (MovePicker.normal env raw p ttm d mh ch cm k0 k1).ttMove
          && !p.see_ge m 0) = false
        simp [hsee]
      refine ⟨?_, ?_, rfl⟩
      · rw [mem_normalOutput]
        exact Or.inr (Or.inl ⟨rfl, hpick, hg⟩)
      · rw [mem_normalOutput]
        simp [hb]

/-- Witness of C4: the example position, hash move 21; the capture 12 fails
`see_ge(move, 0)` and is returned by BAD_CAPTURES. -/
theorem captures_split_by_see_witness :
    exPos.in_check = false
    ∧ ((next_move_traced (MovePicker.normal exEnv exRaw exPos 21 3 exHistory exContHistory
          0 22 0) false).1 = .badCapture →
        exPos.see_ge (next_move (MovePicker.normal exEnv exRaw exPos 21 3 exHistory
          exContHistory 0 22 0) false).1 0 = false)
    ∧ ∃ out : List (ReturnSite × Move),
        (∀ f, out.length < f →
          consume f (MovePicker.normal exEnv exRaw exPos 21 3 exHistory exContHistory 0 22 0)
            true = out)
        ∧ ∀ m ∈ exPos.genCAPTURES_PRO_PLUS,
            m ≠ (MovePicker.normal exEnv exRaw exPos 21 3 exHistory exContHistory 0 22 0).ttMove →
            ((.goodCapture, m) ∈ out ∧ (.badCapture, m) ∉ out ∧ exPos.see_ge m 0 = true)
            ∨ ((.badCapture, m) ∈ out ∧ (.goodCapture, m) ∉ out ∧ exPos.see_ge m 0 = false) :=
  have h := captures_split_by_see exEnv exRaw exPos 21 3 exHistory exContHistory 0 22 0 rfl
  ⟨rfl, (h.1 _ false Reachable.init).2, h.2 true (by decide) (fun hf => absurd hf (by decide))⟩

/-! ## Skipping the quiet moves -/

theorem normal_no_quiet_after (mp : MovePicker) (hinv : NormalInv mp)
    (hs : mp.stage = BAD_CAPTURES) :
    ∀ flags : List Bool, ∀ x ∈ run mp flags, x.1 ≠ ReturnSite.quiet := by
  intro flags
  induction flags generalizing mp with
  | nil =>
    intro x hx
    simp [run] at hx
  | cons sq rest ih =>
    intro x hx
    obtain ⟨_, hmono, hsite, hinv2⟩ := normal_step sq mp hinv
    have hpost : (next_move_traced mp sq).2.2.stage = BAD_CAPTURES := by
      have h1 : (next_move_traced mp sq).2.2.stage ≤ BAD_CAPTURES := hinv2.1
      rw [hs] at hmono
      omega
    simp only [run, List.mem_cons] at hx
    rcases hx with hx | hx
    · rw [hx]
      intro hq
      have hq2 : (next_move_traced mp sq).1 = ReturnSite.quiet := hq
      rw [hq2] at hsite
      simp only [NormalSite] at hsite
      rw [hpost] at hsite
      exact absurd hsite.2.2 (by decide)
    · exact ih (next_move mp sq).2 hinv2 hpost x hx

/-- C7: for a normal-search picker off check, (1) at any call with `skipQuiets = true`,
after any sequence of calls, the move returned does not come from the QUIET phase;
(2) a full consumption with `skipQuiets = true` on every call returns no move from QUIET
and returns every capture that was set aside (a capture of the batch that is not the
hash move and fails `see_ge(move, 0)`) from BAD_CAPTURES; (3) a call with
`skipQuiets = true` that starts at QUIET leaves the picker at BAD_CAPTURES, and from
BAD_CAPTURES on no call, whatever its argument, returns a move from QUIET. -/
theorem skip_quiets_elides_quiet_phase (env : Env) (raw : MovePicker) (p : Position)
    (ttm : Move) (d : Depth) (mh : Nat → Color → Value) (ch : Nat → Square → Piece → Value)
    (cm k0 k1 : Move) (hc : p.in_check = false) :
    (∀ mp : MovePicker, Reachable (MovePicker.normal env raw p ttm d mh ch cm k0 k1) mp →
      (next_move_traced mp true).1 ≠ ReturnSite.quiet)
    ∧ (MOVE_NONE ∉ p.genCAPTURES_PRO_PLUS →
        ∃ out : List (ReturnSite × Move),
          (∀ f, out.length < f →
            consume f (MovePicker.normal env raw p ttm d mh ch cm k0 k1) true = out)
          ∧ (∀ x ∈ out, x.1 ≠ ReturnSite.quiet)
          ∧ ∀ m ∈ p.genCAPTURES_PRO_PLUS,
              m ≠ (MovePicker.normal env raw p ttm d mh ch cm k0 k1).ttMove →
              p.see_ge m 0 = false → (ReturnSite.badCapture, m) ∈ out)
    ∧ (∀ mp : MovePicker, Reachable (MovePicker.normal env raw p ttm d mh ch cm k0 k1) mp →
        (mp.stage = QUIET → (next_move mp true).2.stage = BAD_CAPTURES)
        ∧ (mp.stage = BAD_CAPTURES →
            ∀ flags : List Bool, ∀ x ∈ run mp flags, x.1 ≠ ReturnSite.quiet)) := by
  refine ⟨?_, ?_, ?_⟩
  · intro mp hr hq
    obtain ⟨hinv, _⟩ := normal_reachable env raw p ttm d mh ch cm k0 k1 hc mp hr
    obtain ⟨_, _, hsite, _⟩ := normal_step true mp hinv
    rw [hq] at hsite
    simp only [NormalSite] at hsite
    exact absurd hsite.1 (by decide)
  · intro h0c
    obtain ⟨picks, qs, hp1, _, _, hcons⟩ := consume_normal true
      (MovePicker.normal env raw p ttm d mh ch cm k0 k1)
      ((normal_start env raw p ttm d mh ch cm k0 k1).1 hc) h0c
      (fun h => absurd h (by decide))
    refine ⟨_, hcons, ?_, ?_⟩
    · rintro ⟨t, m⟩ hx hq
      have ht : t = ReturnSite.quiet := hq
      rw [ht, mem_normalOutput] at hx
      simp at hx
    · intro m hm hne hsee
      have hb : (MovePicker.normal env raw p ttm d mh ch cm k0 k1).badAccept m = true := by
        show (m != (MovePicker.normal env raw p ttm d mh ch cm k0 k1).ttMove
          && !p.see_ge m 0) = true
        simp [hne, hsee]
      rw [mem_normalOutput]
      exact Or.inr (Or.inr (Or.inr (Or.inr (Or.inr (Or.inr
        ⟨rfl, (mem_movesOf_picks _ picks hp1 m).mpr hm, hb⟩)))))
  · intro mp hr
    obtain ⟨hinv, _⟩ := normal_reachable env raw p ttm d mh ch cm k0 k1 hc mp hr
    constructor
    · intro hs
      obtain ⟨_, hmono, hsite, hinv2⟩ := normal_step true mp hinv
      have h1 : (next_move_traced mp true).2.2.stage ≤ BAD_CAPTURES := hinv2.1
      rw [hs] at hmono
      have h2 : (next_move_traced mp true).2.2.stage ≠ QUIET := by
        intro h7
        unfold NormalSite at hsite
        split at hsite
        · rw [h7] at hsite; exact absurd hsite.2 (by decide)
        · rw [h7] at hsite; exact absurd hsite.2.2.1 (by decide)
        · rw [h7] at hsite
          rcases hsite.2 with ⟨_, h⟩ | ⟨_, h⟩ <;> exact absurd h (by decide)
        · rw [h7] at hsite; exact absurd hsite.2.2 (by decide)
        · exact absurd hsite.1 (by decide)
        · rw [h7] at hsite; exact absurd hsite.2.2 (by decide)
        · rw [h7] at hsite; exact absurd hsite.2.1 (by decide)
        · exact hsite
      show (next_move_traced mp true).2.2.stage = BAD_CAPTURES
      have h3 : QUIET ≤ (next_move_traced mp true).2.2.stage := hmono
      have h4 : (next_move_traced mp true).2.2.stage ≤ 8 := h1
      have h5 : (7 : Nat) ≤ (next_move_traced mp true).2.2.stage := h3
      have h6 : (next_move_traced mp true).2.2.stage ≠ 7 := h2
      show (next_move_traced mp true).2.2.stage = 8
      omega
    · intro hs
      exact normal_no_quiet_after mp hinv hs

/-- Witness of C7: the example position; the capture 12 was set aside and comes back
from BAD_CAPTURES although the quiet moves are skipped. -/
theorem skip_quiets_elides_quiet_phase_witness :
    exPos.in_check = false
    ∧ (next_move_traced (MovePicker.normal exEnv exRaw exPos 21 3 exHistory exContHistory
        0 22 0) true).1 ≠ ReturnSite.quiet
    ∧ ∃ out : List (ReturnSite × Move),
        (∀ f, out.length < f →
          consume f (MovePicker.normal exEnv exRaw exPos 21 3 exHistory exContHistory 0 22 0)
            true = out)
        ∧ (∀ x ∈ out, x.1 ≠ ReturnSite.quiet)
        ∧ ∀ m ∈ exPos.genCAPTURES_PRO_PLUS,
            m ≠ (MovePicker.normal exEnv exRaw exPos 21 3 exHistory exContHistory 0 22 0).ttMove →
            exPos.see_ge m 0 = false → (ReturnSite.badCapture, m) ∈ out :=
  have h := skip_quiets_elides_quiet_phase exEnv exRaw exPos 21 3 exHistory exContHistory
    0 22 0 rfl
  ⟨rfl, h.1 _ Reachable.init, h.2.1 (by decide)⟩

/-! ## The order on root moves -/

theorem RootMove.lt_iff (a b : RootMove) :
    a.lt b = true
      ↔ b.score < a.score ∨ (a.score = b.score ∧ b.previousScore < a.previousScore) := by
  unfold RootMove.lt
  by_cases h : b.score = a.score
  · simp [h]
  · have h2 : ¬ a.score = b.score := fun e => h e.symm
    simp [h, h2]

theorem RootMove.lt_eq_false_iff (a b : RootMove) :
    a.lt b = false
      ↔ a.score < b.score ∨ (a.score = b.score ∧ a.previousScore ≤ b.previousScore) := by
  rw [← Bool.not_eq_true, RootMove.lt_iff]
  constructor
  · intro h
    by_cases h1 : a.score < b.score
    · exact Or.inl h1
    · have h2 : a.score = b.score :=
        le_antisymm (not_lt.1 fun h3 => h (Or.inl h3)) (not_lt.1 h1)
      exact Or.inr ⟨h2, not_lt.1 fun h3 => h (Or.inr ⟨h2, h3⟩)⟩
  · rintro (h | ⟨h1, h2⟩) (h3 | ⟨h3, h4⟩) <;> linarith

/-- C13: `RootMove::operator<` is the descending lexicographic order on
(score, previousScore): `a < b` holds exactly when `a.score > b.score`, or the scores are
equal and `a.previousScore > b.previousScore`. It is irreflexive, asymmetric and
transitive, and so is "neither is less than the other" (a strict weak order, what
`std::stable_sort` needs). In a sequence sorted with it (no element is less than one
before it) the scores do not increase, the first element has the highest score, and
among equal scores the previous scores do not increase. -/
theorem rootMove_lt_descending_lexicographic (a b c : RootMove) (l : List RootMove) :
    (a.lt b = true
      ↔ a.score > b.score ∨ (a.score = b.score ∧ a.previousScore > b.previousScore))
    ∧ a.lt a = false
    ∧ (a.lt b = true → b.lt a = false)
    ∧ (a.lt b = true → b.lt c = true → a.lt c = true)
    ∧ (a.lt b = false → b.lt c = false → a.lt c = false)
    ∧ (a.lt b = false ∧ b.lt a = false
        ↔ a.score = b.score ∧ a.previousScore = b.previousScore)
    ∧ ((a :: l).Pairwise (fun x y => y.lt x = false) →
        (a :: l).Pairwise (fun x y =>
          y.score ≤ x.score ∧ (y.score = x.score → y.previousScore ≤ x.previousScore))
        ∧ ∀ x ∈ l, x.score ≤ a.score) := by
  refine ⟨RootMove.lt_iff a b, ?_, ?_, ?_, ?_, ?_, ?_⟩
  · rw [RootMove.lt_eq_false_iff]
    exact Or.inr ⟨rfl, le_refl _⟩
  · rw [RootMove.lt_iff, RootMove.lt_eq_false_iff]
    rintro (h | ⟨h1, h2⟩)
    · exact Or.inl h
    · exact Or.inr ⟨h1.symm, by linarith⟩
  · rw [RootMove.lt_iff, RootMove.lt_iff, RootMove.lt_iff]
    rintro (h | ⟨h1, h2⟩) (h3 | ⟨h3, h4⟩)
    · exact Or.inl (by linarith)
    · exact Or.inl (by linarith)
    · exact Or.inl (by linarith)
    · exact Or.inr ⟨by linarith, by linarith⟩
  · rw [RootMove.lt_eq_false_iff, RootMove.lt_eq_false_iff, RootMove.lt_eq_false_iff]
    rintro (h | ⟨h1, h2⟩) (h3 | ⟨h3, h4⟩)
    · exact Or.inl (by linarith)
    · exact Or.inl (by linarith)
    · exact Or.inl (by linarith)
    · exact Or.inr ⟨by linarith, by linarith⟩
  · rw [RootMove.lt_eq_false_iff, RootMove.lt_eq_false_iff]
    constructor
    · rintro ⟨h | ⟨h1, h2⟩, h3 | ⟨h3, h4⟩⟩
      · linarith
      · linarith
      · linarith
      · exact ⟨h1, by linarith⟩
    · rintro ⟨h1, h2⟩
      exact ⟨Or.inr ⟨h1, by linarith⟩, Or.inr ⟨h1.symm, by linarith⟩⟩
  · intro h
    have h2 : (a :: l).Pairwise (fun x y =>
        y.score ≤ x.score ∧ (y.score = x.score → y.previousScore ≤ x.previousScore)) := by
      refine h.imp ?_
      intro x y hxy
      rw [RootMove.lt_eq_false_iff] at hxy
      rcases hxy with h1 | ⟨h1, h3⟩
      · exact ⟨by linarith, fun e => by linarith⟩
      · exact ⟨by linarith, fun _ => h3⟩
    refine ⟨h2, ?_⟩
    intro x hx
    exact ((List.pairwise_cons.1 h2).1 x hx).1

theorem rootMove_lt_descending_lexicographic_witness :
    (⟨5, 0, 0, []⟩ : RootMove).lt ⟨3, 9, 0, []⟩ = true
    ∧ (⟨3, 9, 0, []⟩ : RootMove).lt ⟨3, 2, 0, []⟩ = true
    ∧ (⟨5, 0, 0, []⟩ : RootMove).lt ⟨3, 2, 0, []⟩ = true :=
  ⟨by decide, by decide,
    (rootMove_lt_descending_lexicographic ⟨5, 0, 0, []⟩ ⟨3, 9, 0, []⟩ ⟨3, 2, 0, []⟩ []).2.2.2.1
      (by decide) (by decide)⟩

/-! ## The sort reads and writes its range only -/

/-- The inner loop reads slots of `[begin, q)` only: on buffers that agree on the range
it gives buffers that agree on the range. -/
theorem insertLoop_congr (b e : Nat) (tmp : ExtMove) :
    ∀ (q : Nat) (buf1 buf2 : Buffer), b ≤ q → q < e →
      (∀ k, b ≤ k → k < e → buf1 k = buf2 k) →
      ∀ k, b ≤ k → k < e → insertLoop b tmp q buf1 k = insertLoop b tmp q buf2 k := by
  intro q
  induction q with
  | zero =>
    intro buf1 buf2 _ _ h k hk1 hk2
    unfold insertLoop
    by_cases hk : k = 0
    · subst hk
      simp
    · simp only [Function.update_noteq hk]
      exact h k hk1 hk2
  | succ q ih =>
    intro buf1 buf2 hb hq h k hk1 hk2
    unfold insertLoop
    by_cases hqb : q + 1 = b
    · have hc : ∀ buf : Buffer, ((q + 1 != b) && (buf q).lt tmp) = false := by
        intro buf
        simp [hqb]
      simp only [hc, Bool.false_eq_true, if_false]
      by_cases hk : k = q + 1
      · subst hk
        simp
      · simp only [Function.update_noteq hk]
        exact h k hk1 hk2
    · have hbq : b ≤ q := by omega
      have hq12 : buf1 q = buf2 q := h q hbq (by omega)
      rw [hq12]
      by_cases hc : ((q + 1 != b) && (buf2 q).lt tmp) = true
      · simp only [hc, if_true]
        apply ih _ _ hbq (by omega) _ k hk1 hk2
        intro j hj1 hj2
        by_cases hj : j = q + 1
        · subst hj
          simp
        · simp only [Function.update_noteq hj]
          exact h j hj1 hj2
      · rw [if_neg hc, if_neg hc]
        by_cases hk : k = q + 1
        · subst hk
          simp
        · rw [Function.update_noteq hk, Function.update_noteq hk]
          exact h k hk1 hk2

/-- The outer loop reads slots of `[begin, end)` only. -/
theorem sortLoop_congr (b e : Nat) (limit : Int) :
    ∀ (n se p : Nat) (buf1 buf2 : Buffer), b ≤ se → se < p →
      (∀ k, b ≤ k → k < e → buf1 k = buf2 k) →
      ∀ k, b ≤ k → k < e →
        sortLoop b e limit n se p buf1 k = sortLoop b e limit n se p buf2 k := by
  intro n
  induction n with
  | zero =>
    intro se p buf1 buf2 _ _ h k hk1 hk2
    exact h k hk1 hk2
  | succ n ih =>
    intro se p buf1 buf2 hb hsp h k hk1 hk2
    rw [sortLoop_succ, sortLoop_succ]
    by_cases hpe : p < e
    · rw [if_pos hpe, if_pos hpe]
      have hp12 : buf1 p = buf2 p := h p (by omega) hpe
      have hs12 : buf1 (se + 1) = buf2 (se + 1) := h (se + 1) (by omega) (by omega)
      rw [hp12, hs12]
      by_cases hv : limit ≤ (buf2 p).value
      · rw [if_pos hv, if_pos hv]
        apply ih (se + 1) (p + 1) _ _ (by omega) (by omega) _ k hk1 hk2
        apply insertLoop_congr b e (buf2 p) (se + 1) _ _ (by omega) (by omega)
        intro j hj1 hj2
        by_cases hj : j = p
        · subst hj
          simp
        · simp only [Function.update_noteq hj]
          exact h j hj1 hj2
      · rw [if_neg hv, if_neg hv]
        exact ih se (p + 1) buf1 buf2 hb (by omega) h k hk1 hk2
    · rw [if_neg hpe, if_neg hpe]
      exact h k hk1 hk2

/-- C19: `partial_insertion_sort(begin, end, limit)` rearranges the range: the scored
moves of `[begin, end)` after the call are a permutation of those before it (the same
multiset of (move, value) pairs), no slot outside the range is written, and no slot
outside it is read (the result on the range is the same for two buffers that agree on
the range). So QUIET_INIT hands to QUIET a range whose moves are a permutation of the
NON_CAPTURES_PRO_MINUS batch: no generated move is lost or duplicated. -/
theorem partial_insertion_sort_rearranges (buf buf2 : Buffer) (b e : Nat) (limit : Int)
    (mp : MovePicker) (sq : Bool) :
    (slice (partial_insertion_sort buf b e limit) b e).Perm (slice buf b e)
    ∧ (∀ x, (slice (partial_insertion_sort buf b e limit) b e).count x
        = (slice buf b e).count x)
    ∧ (∀ k, k < b ∨ e ≤ k → partial_insertion_sort buf b e limit k = buf k)
    ∧ ((∀ k, b ≤ k → k < e → buf2 k = buf k) →
        ∀ k, b ≤ k → k < e →
          partial_insertion_sort buf2 b e limit k = partial_insertion_sort buf b e limit k)
    ∧ (∃ qbuf : Buffer,
        (movesOf (slice qbuf mp.endBadCaptures
            (mp.endBadCaptures + mp.pos.genNON_CAPTURES_PRO_MINUS.length))).Perm
          mp.pos.genNON_CAPTURES_PRO_MINUS
        ∧ case_QUIET_INIT mp sq
          = case_QUIET
              { mp with
                stage := mp.stage + 1, moves := qbuf, cur := mp.endBadCaptures,
                endMoves := mp.endBadCaptures + mp.pos.genNON_CAPTURES_PRO_MINUS.length,
                generated := mp.generated ++ [MOVE_GEN_TYPE.NON_CAPTURES_PRO_MINUS] } sq) := by
  obtain ⟨h1, h2⟩ := partial_insertion_sort_perm buf b e limit
  refine ⟨h1, fun x => h1.count_eq x, h2, ?_, ?_⟩
  · intro h k hk1 hk2
    unfold partial_insertion_sort
    exact sortLoop_congr b e limit _ b (b + 1) buf2 buf (le_refl b) (by omega) h k hk1 hk2
  · obtain ⟨qbuf, _, h4, h5⟩ := case_QUIET_INIT_eq mp sq
    exact ⟨qbuf, h4, h5⟩

/-- Witness of C19: the four scored moves of `exBuf` sorted with limit 0, and the same
buffer with another move in slot 7, outside the range. -/
theorem partial_insertion_sort_rearranges_witness :
    (slice (partial_insertion_sort exBuf 0 4 0) 0 4).Perm (slice exBuf 0 4)
    ∧ partial_insertion_sort exBuf 0 4 0 9 = exBuf 9
    ∧ partial_insertion_sort (Function.update exBuf 7 ⟨99, 99⟩) 0 4 0 1
        = partial_insertion_sort exBuf 0 4 0 1 :=
  have h := partial_insertion_sort_rearranges exBuf (Function.update exBuf 7 ⟨99, 99⟩) 0 4 0
    exRaw false
  ⟨h.1, h.2.2.1 9 (Or.inr (by decide)),
    h.2.2.2.1 (fun k _ hk2 => Function.update_noteq (by omega) _ _) 1 (by decide) (by decide)⟩

/-! ## The index into `killers[]` -/

theorem killerLoop_succ (n : Nat) (mp : MovePicker) :
    killerLoop (n + 1) mp
      = if ({ mp with stage := mp.stage + 1 } : MovePicker).killerAccept
            (({ mp with stage := mp.stage + 1 } : MovePicker).killers
              (((mp.stage + 1 : Nat) : Int) - (KILLER1 : Int))) then
          (some (({ mp with stage := mp.stage + 1 } : MovePicker).killers
              (((mp.stage + 1 : Nat) : Int) - (KILLER1 : Int))),
            { mp with stage := mp.stage + 1 })
        else if mp.stage + 1 ≤ KILLER1 then killerLoop n { mp with stage := mp.stage + 1 }
        else (none, { mp with stage := mp.stage + 1 }) := rfl

theorem killerReads_succ (n : Nat) (mp : MovePicker) :
    killerReads (n + 1) mp
      = if ({ mp with stage := mp.stage + 1 } : MovePicker).killerAccept
            (({ mp with stage := mp.stage + 1 } : MovePicker).killers
              (((mp.stage + 1 : Nat) : Int) - (KILLER1 : Int))) then
          [((mp.stage + 1 : Nat) : Int) - (KILLER1 : Int)]
        else if mp.stage + 1 ≤ KILLER1 then
          (((mp.stage + 1 : Nat) : Int) - (KILLER1 : Int))
            :: killerReads n { mp with stage := mp.stage + 1 }
        else [((mp.stage + 1 : Nat) : Int) - (KILLER1 : Int)] := rfl

/-- The killer loop entered at KILLER1, with any bound of at least one iteration. -/
theorem killerLoop_stage4 (mp : MovePicker) (n : Nat) (hs : mp.stage = KILLER1) :
    killerReads (n + 1) mp = [1]
    ∧ killerLoop (n + 1) mp
        = if mp.killerAccept mp.killers1 then
            (some mp.killers1, { mp with stage := COUNTERMOVE })
          else (none, { mp with stage := COUNTERMOVE }) := by
  have h2 : ((mp.stage + 1 : Nat) : Int) - (KILLER1 : Int) = 1 := by rw [hs]; rfl
  have h3 : ¬ mp.stage + 1 ≤ KILLER1 := by rw [hs]; decide
  have h4 : ({ mp with stage := mp.stage + 1 } : MovePicker).killers 1 = mp.killers1 :=
    killers_one _
  have h5 : ({ mp with stage := mp.stage + 1 } : MovePicker)
      = { mp with stage := COUNTERMOVE } := by rw [hs]
  rw [killerReads_succ, killerLoop_succ, h2, h4, if_neg h3, if_neg h3, h5]
  have h6 : ({ mp with stage := COUNTERMOVE } : MovePicker).killerAccept mp.killers1
      = mp.killerAccept mp.killers1 := rfl
  rw [h6]
  constructor
  · split <;> rfl
  · rfl

/-- The killer loop entered at KILLER0, with any bound of at least two iterations. -/
theorem killerLoop_stage3 (mp : MovePicker) (n : Nat) (hs : mp.stage = KILLER0) :
    killerReads (n + 2) mp = (if mp.killerAccept mp.killers0 then [0] else [0, 1])
    ∧ killerLoop (n + 2) mp
        = if mp.killerAccept mp.killers0 then
            (some mp.killers0, { mp with stage := KILLER1 })
          else if mp.killerAccept mp.killers1 then
            (some mp.killers1, { mp with stage := COUNTERMOVE })
          else (none, { mp with stage := COUNTERMOVE }) := by
  have h2 : ((mp.stage + 1 : Nat) : Int) - (KILLER1 : Int) = 0 := by rw [hs]; rfl
  have h3 : mp.stage + 1 ≤ KILLER1 := by rw [hs]
  have h4 : ({ mp with stage := mp.stage + 1 } : MovePicker).killers 0 = mp.killers0 :=
    killers_zero _
  have h5 : ({ mp with stage := mp.stage + 1 } : MovePicker)
      = { mp with stage := KILLER1 } := by rw [hs]
  have h6 : ({ mp with stage := KILLER1 } : MovePicker).killerAccept mp.killers0
      = mp.killerAccept mp.killers0 := rfl
  obtain ⟨h7, h8⟩ := killerLoop_stage4 { mp with stage := KILLER1 } n rfl
  have h9 : ({ ({ mp with stage := KILLER1 } : MovePicker) with stage := COUNTERMOVE }
      : MovePicker) = { mp with stage := COUNTERMOVE } := rfl
  have h10 : ({ mp with stage := KILLER1 } : MovePicker).killerAccept
      ({ mp with stage := KILLER1 } : MovePicker).killers1
      = mp.killerAccept mp.killers1 := rfl
  rw [h9, h10] at h8
  rw [killerReads_succ, killerLoop_succ, h2, h4, if_pos h3, if_pos h3, h5, h6, h7, h8]
  exact ⟨rfl, rfl⟩

/-- C20: the loop of KILLER0/KILLER1, run as `next_move` runs it, reads `killers[]` at
the index `stage - KILLER1` taken after the pre-increment. Entered at KILLER0 it reads
index 0 and, when `killers[0]` is not returned, index 1; entered at KILLER1 it reads
index 1 only. Every index read is 0 or 1, the loop ends by its own condition (a larger
bound on the iterations changes nothing), a killer that is returned passed the test of
the phase, and when none is returned the stage is COUNTERMOVE. -/
theorem killer_index_zero_or_one (mp : MovePicker) (n : Nat) :
    (mp.stage = KILLER0 →
      max 1 (COUNTERMOVE - mp.stage) = 2
      ∧ killerReads (n + 2) mp = (if mp.killerAccept mp.killers0 then [0] else [0, 1])
      ∧ killerLoop (n + 2) mp
          = if mp.killerAccept mp.killers0 then
              (some mp.killers0, { mp with stage := KILLER1 })
            else if mp.killerAccept mp.killers1 then
              (some mp.killers1, { mp with stage := COUNTERMOVE })
            else (none, { mp with stage := COUNTERMOVE }))
    ∧ (mp.stage = KILLER1 →
      max 1 (COUNTERMOVE - mp.stage) = 1
      ∧ killerReads (n + 1) mp = [1]
      ∧ killerLoop (n + 1) mp
          = if mp.killerAccept mp.killers1 then
              (some mp.killers1, { mp with stage := COUNTERMOVE })
            else (none, { mp with stage := COUNTERMOVE }))
    ∧ (mp.stage = KILLER0 ∨ mp.stage = KILLER1 →
      (∀ i ∈ killerReads (max 1 (COUNTERMOVE - mp.stage)) mp, i = 0 ∨ i = 1)
      ∧ ((killerLoop (max 1 (COUNTERMOVE - mp.stage)) mp).1 = none →
          (killerLoop (max 1 (COUNTERMOVE - mp.stage)) mp).2.stage = COUNTERMOVE)
      ∧ (∀ m, (killerLoop (max 1 (COUNTERMOVE - mp.stage)) mp).1 = some m →
          mp.killerAccept m = true ∧ (m = mp.killers0 ∨ m = mp.killers1))) := by
  refine ⟨?_, ?_, ?_⟩
  · intro hs
    exact ⟨by rw [hs]; rfl, killerLoop_stage3 mp n hs⟩
  · intro hs
    exact ⟨by rw [hs]; rfl, killerLoop_stage4 mp n hs⟩
  · rintro (hs | hs)
    · have hf : max 1 (COUNTERMOVE - mp.stage) = 0 + 2 := by rw [hs]; rfl
      obtain ⟨h1, h2⟩ := killerLoop_stage3 mp 0 hs
      rw [hf, h1, h2]
      by_cases h0 : mp.killerAccept mp.killers0 = true
      · simp only [if_pos h0]
        refine ⟨by simp, by simp, ?_⟩
        intro m hm
        simp only [Option.some.injEq] at hm
        rw [← hm]
        exact ⟨h0, Or.inl rfl⟩
      · simp only [if_neg h0]
        refine ⟨by simp, ?_, ?_⟩
        · intro _
          split <;> rfl
        · intro m hm
          by_cases h1 : mp.killerAccept mp.killers1 = true
          · simp only [if_pos h1, Option.some.injEq] at hm
            rw [← hm]
            exact ⟨h1, Or.inr rfl⟩
          · simp only [if_neg h1] at hm
            exact absurd hm (by simp)
    · have hf : max 1 (COUNTERMOVE - mp.stage) = 0 + 1 := by rw [hs]; rfl
      obtain ⟨h1, h2⟩ := killerLoop_stage4 mp 0 hs
      rw [hf, h1, h2]
      refine ⟨by simp, ?_, ?_⟩
      · intro _
        split <;> rfl
      · intro m hm
        by_cases h1 : mp.killerAccept mp.killers1 = true
        · simp only [if_pos h1, Option.some.injEq] at hm
          rw [← hm]
          exact ⟨h1, Or.inr rfl⟩
        · simp only [if_neg h1] at hm
          exact absurd hm (by simp)

/-- Witness of C20: the example picker with the killers 13 and 0, at KILLER0 with an
empty capture range; `killers[0]` is read and returned. -/
theorem killer_index_zero_or_one_witness :
    ({ exKillerPicker with stage := KILLER0 } : MovePicker).stage = KILLER0
    ∧ killerReads 2 { exKillerPicker with stage := KILLER0 } = [0]
    ∧ (killerLoop 2 { exKillerPicker with stage := KILLER0 }).1 = some 13 :=
  have h := (killer_index_zero_or_one { exKillerPicker with stage := KILLER0 } 0).1 rfl
  ⟨rfl, by rw [h.2.1]; decide, by rw [h.2.2]; decide⟩

/-! ## One call, for every protocol -/

theorem pickLoop_exhausted (accept : Move → Bool) :
    ∀ (n : Nat) (mp : MovePicker), mp.endMoves - mp.cur ≤ n →
      (pickLoop accept n mp).1 = none →
      (pickLoop accept n mp).2.endMoves ≤ (pickLoop accept n mp).2.cur := by
  intro n
  induction n with
  | zero =>
    intro mp h _
    show mp.endMoves ≤ mp.cur
    omega
  | succ n ih =>
    intro mp h
    rw [pickLoop_succ]
    by_cases hc : mp.cur < mp.endMoves
    · rw [if_pos hc]
      by_cases ha : accept (pick_best mp.moves mp.cur mp.endMoves).1 = true
      · rw [if_pos ha]
        intro hn
        exact absurd hn (by simp)
      · rw [if_neg ha]
        exact ih _ (by show mp.endMoves - (mp.cur + 1) ≤ n; omega)
    · rw [if_neg hc]
      intro _
      exact Nat.le_of_not_lt hc

/-- The loop of a best-selector phase, run as the phase runs it. -/
theorem pickLoop_facts (accept : Move → Bool) (S : Move → Prop) (mp : MovePicker)
    (hr : RangeOK S mp) :
    (∀ m, (pickLoop accept (mp.endMoves - mp.cur) mp).1 = some m → accept m = true ∧ S m)
    ∧ ((pickLoop accept (mp.endMoves - mp.cur) mp).1 = none →
        (pickLoop accept (mp.endMoves - mp.cur) mp).2.endMoves
          ≤ (pickLoop accept (mp.endMoves - mp.cur) mp).2.cur)
    ∧ RangeOK S (pickLoop accept (mp.endMoves - mp.cur) mp).2
    ∧ ∃ buf c, (pickLoop accept (mp.endMoves - mp.cur) mp).2
        = { mp with moves := buf, cur := c } := by
  obtain ⟨h1, h2, h3⟩ := pickLoop_inv accept S (mp.endMoves - mp.cur) mp hr
  exact ⟨h1, pickLoop_exhausted accept _ mp (le_refl _), h2, h3⟩

/-- The loop of QUIET and QCHECKS, with the property `S` of the moves of the range. -/
theorem scanLoop_range (accept : Move → Bool) (S : Move → Prop) :
    ∀ (n : Nat) (mp : MovePicker), RangeOK S mp →
      (∀ m, (scanLoop accept n mp).1 = some m → accept m = true ∧ S m)
      ∧ (mp.endMoves - mp.cur ≤ n → (scanLoop accept n mp).1 = none →
          (scanLoop accept n mp).2.endMoves ≤ (scanLoop accept n mp).2.cur)
      ∧ ∃ c, mp.cur ≤ c ∧ (scanLoop accept n mp).2 = { mp with cur := c } := by
  intro n
  induction n with
  | zero =>
    intro mp _
    refine ⟨by simp [scanLoop], ?_, mp.cur, le_refl _, rfl⟩
    intro h _
    show mp.endMoves ≤ mp.cur
    omega
  | succ n ih =>
    intro mp hr
    rw [scanLoop_succ]
    by_cases hc : mp.cur < mp.endMoves
    · rw [if_pos hc]
      by_cases ha : accept (mp.moves mp.cur).move = true
      · rw [if_pos ha]
        refine ⟨?_, ?_, mp.cur + 1, Nat.le_succ _, rfl⟩
        · intro m hm
          simp only [Option.some.injEq] at hm
          rw [← hm]
          exact ⟨ha, hr mp.cur (le_refl _) hc⟩
        · intro _ hn
          exact absurd hn (by simp)
      · rw [if_neg ha]
        obtain ⟨h1, h2, c, h3, h4⟩ := ih { mp with cur := mp.cur + 1 }
          (fun i hi1 hi2 => hr i (Nat.le_of_succ_le hi1) hi2)
        refine ⟨h1, ?_, c, Nat.le_of_succ_le h3, h4⟩
        intro hf
        exact h2 (by show mp.endMoves - (mp.cur + 1) ≤ n; omega)
    · rw [if_neg hc]
      refine ⟨by simp, ?_, mp.cur, le_refl _, rfl⟩
      intro _ _
      exact Nat.le_of_not_lt hc

/-- The loop of GOOD_CAPTURES, with the property `S` of the moves of the range: the
slots below `endBadCaptures` keep holding moves with the property that are not the hash
move, and `endBadCaptures ≤ cur` is kept. -/
theorem goodCapturesLoop_between (S : Move → Prop) :
    ∀ (n : Nat) (mp : MovePicker), mp.endBadCaptures ≤ mp.cur → RangeOK S mp →
      BadSlots S mp →
      (∀ m, (goodCapturesLoop n mp).1 = some m → S m ∧ m ≠ mp.ttMove)
      ∧ RangeOK S (goodCapturesLoop n mp).2
      ∧ BadSlots S (goodCapturesLoop n mp).2
      ∧ (goodCapturesLoop n mp).2.endBadCaptures ≤ (goodCapturesLoop n mp).2.cur
      ∧ ∃ buf c eb, (goodCapturesLoop n mp).2
          = { mp with moves := buf, cur := c, endBadCaptures := eb } := by
  intro n
  induction n with
  | zero =>
    intro mp h1 h2 h3
    exact ⟨by simp [goodCapturesLoop], h2, h3, h1, mp.moves, mp.cur, mp.endBadCaptures, rfl⟩
  | succ n ih =>
    intro mp h1 h2 h3
    rw [goodCapturesLoop_succ]
    by_cases hc : mp.cur < mp.endMoves
    · rw [if_pos hc]
      have hr := pick_best_range mp.moves mp.cur mp.endMoves S h2
      have hfirst : S (pick_best mp.moves mp.cur mp.endMoves).1 := by
        rw [(pick_best_spec mp.moves hc).1]
        exact hr mp.cur (le_refl _) hc
      obtain ⟨_, _, _, hframe⟩ := pick_best_spec mp.moves hc
      generalize pick_best mp.moves mp.cur mp.endMoves = pb at hframe hr hfirst ⊢
      have hr1 : RangeOK S { mp with moves := pb.2, cur := mp.cur + 1 } :=
        fun i hi1 hi2 => hr i (Nat.le_of_succ_le hi1) hi2
      have hb1 : BadSlots S { mp with moves := pb.2, cur := mp.cur + 1 } := by
        intro i hi
        have hi2 : i < mp.endBadCaptures := hi
        show S (pb.2 i).move ∧ (pb.2 i).move ≠ mp.ttMove
        rw [hframe i (Or.inl (by omega))]
        exact h3 i hi2
      by_cases htt : (pb.1 != mp.ttMove) = true
      · rw [if_pos htt]
        by_cases hsee : mp.pos.see_ge pb.1 0 = true
        · rw [if_pos hsee]
          refine ⟨?_, hr1, hb1, ?_, pb.2, mp.cur + 1, mp.endBadCaptures, rfl⟩
          · intro m hm
            simp only [Option.some.injEq] at hm
            rw [← hm]
            exact ⟨hfirst, by simpa using htt⟩
          · show mp.endBadCaptures ≤ mp.cur + 1
            omega
        · rw [if_neg hsee]
          obtain ⟨h4, h5, h6, h7, buf, c, eb, h8⟩ := ih
            { mp with
              moves := fun i =>
                if i = mp.endBadCaptures then { pb.2 i with move := pb.1 } else pb.2 i,
              cur := mp.cur + 1, endBadCaptures := mp.endBadCaptures + 1 }
            (by show mp.endBadCaptures + 1 ≤ mp.cur + 1; omega)
            (by
              intro i hi1 hi2
              have hi3 : mp.cur + 1 ≤ i := hi1
              have hi4 : i < mp.endMoves := hi2
              show S (if i = mp.endBadCaptures then { pb.2 i with move := pb.1 }
                else pb.2 i).move
              rw [if_neg (by omega)]
              exact hr i (by omega) hi4)
            (by
              intro i hi
              have hi2 : i < mp.endBadCaptures + 1 := hi
              show S (if i = mp.endBadCaptures then { pb.2 i with move := pb.1 }
                  else pb.2 i).move
                ∧ (if i = mp.endBadCaptures then { pb.2 i with move := pb.1 }
                  else pb.2 i).move ≠ mp.ttMove
              by_cases hie : i = mp.endBadCaptures
              · rw [if_pos hie]
                exact ⟨hfirst, by simpa using htt⟩
              · rw [if_neg hie]
                exact hb1 i (by show i < mp.endBadCaptures; omega))
          exact ⟨h4, h5, h6, h7, buf, c, eb, h8⟩
      · rw [if_neg htt]
        obtain ⟨h4, h5, h6, h7, buf, c, eb, h8⟩ := ih
          { mp with moves := pb.2, cur := mp.cur + 1 }
          (by show mp.endBadCaptures ≤ mp.cur + 1; omega) hr1 hb1
        exact ⟨h4, h5, h6, h7, buf, c, eb, h8⟩
    · rw [if_neg hc]
      exact ⟨by simp, h2, h3, h1, mp.moves, mp.cur, mp.endBadCaptures, rfl⟩

theorem between_of_stage (S : Move → Prop) (mp : MovePicker) (st : Nat) (hs : mp.stage = st)
    (h1 : rangeStage st → RangeOK S mp)
    (h2 : GOOD_CAPTURES ≤ st ∧ st ≤ BAD_CAPTURES → BadSlots S mp)
    (h3 : st = GOOD_CAPTURES → mp.endBadCaptures ≤ mp.cur)
    (h4 : mp.generated = generatedAt st) : Between S mp := by
  unfold Between
  rw [hs]
  exact ⟨h1, h2, h3, h4⟩

theorem Call.weaken {S : Move → Prop} {lo hi lo1 : Nat} {mp : MovePicker} (mp1 : MovePicker)
    {r : ReturnSite × Move × MovePicker} (h1 : Frame mp mp1) (h2 : lo ≤ lo1)
    (h : Call S lo1 hi mp1 r) : Call S lo hi mp r :=
  ⟨h1.trans h.1, le_trans h2 h.2.1, h.2.2.1, h.2.2.2⟩

theorem call_BAD_CAPTURES (S : Move → Prop) (mp : MovePicker) (hs : mp.stage = BAD_CAPTURES)
    (hb : BadSlots S mp)
    (hg : mp.generated = [.CAPTURES_PRO_PLUS, .NON_CAPTURES_PRO_MINUS]) :
    Call S BAD_CAPTURES BAD_CAPTURES mp (case_BAD_CAPTURES mp) := by
  have hbetween : ∀ c : Nat, Between S { mp with cur := c } := fun c =>
    between_of_stage S _ BAD_CAPTURES hs (fun h => absurd h (by unfold rangeStage; decide))
      (fun _ => hb) (fun h => absurd h (by decide)) hg
  unfold case_BAD_CAPTURES
  by_cases hc : mp.cur < mp.endBadCaptures
  · rw [if_pos hc]
    exact ⟨⟨mp.stage, mp.moves, mp.cur + 1, mp.endMoves, mp.endBadCaptures, mp.generated, rfl⟩,
      ge_of_eq hs, le_of_eq hs, ⟨(hb mp.cur hc).1, (hb mp.cur hc).2, hs⟩, hbetween _⟩
  · rw [if_neg hc]
    exact ⟨Frame.refl mp, ge_of_eq hs, le_of_eq hs,
      ⟨rfl, Or.inl ⟨hs, Nat.le_of_not_lt hc⟩⟩, hbetween mp.cur⟩

theorem call_QUIET (S : Move → Prop) (sq : Bool) (mp : MovePicker) (hs : mp.stage = QUIET)
    (hr : RangeOK S mp) (hb : BadSlots S mp)
    (hg : mp.generated = [.CAPTURES_PRO_PLUS, .NON_CAPTURES_PRO_MINUS]) :
    Call S QUIET BAD_CAPTURES mp (case_QUIET mp sq) := by
  have hfall : ∀ c : Nat, Call S QUIET BAD_CAPTURES mp
      (case_BAD_CAPTURES
        { ({ mp with cur := c } : MovePicker) with stage := mp.stage + 1, cur := 0 }) := by
    intro c
    refine Call.weaken _
      ⟨mp.stage + 1, mp.moves, 0, mp.endMoves, mp.endBadCaptures, mp.generated, rfl⟩
      ?_ (call_BAD_CAPTURES S _ (by show mp.stage + 1 = BAD_CAPTURES; rw [hs]) hb hg)
    decide
  cases sq with
  | true =>
    rw [case_QUIET_skip]
    exact hfall mp.cur
  | false =>
    obtain ⟨h1, _, c, h3, h4⟩ := scanLoop_range mp.quietAccept S (mp.endMoves - mp.cur) mp hr
    unfold case_QUIET
    simp only [Bool.not_false, if_true]
    split
    · rename_i move hm
      rw [h4]
      refine ⟨⟨mp.stage, mp.moves, c, mp.endMoves, mp.endBadCaptures, mp.generated, rfl⟩,
        ge_of_eq hs, by rw [show ({ mp with cur := c } : MovePicker).stage = QUIET from hs]; decide,
        ⟨(h1 move hm).2, (h1 move hm).1, hs⟩, ?_⟩
      exact between_of_stage S _ QUIET hs
        (fun _ i hi1 hi2 => hr i (le_trans h3 hi1) hi2) (fun _ => hb)
        (fun h => absurd h (by decide)) hg
    · rw [h4]
      exact hfall c

theorem call_QUIET_INIT (S : Move → Prop) (sq : Bool) (mp : MovePicker)
    (hs : mp.stage = QUIET_INIT) (hb : BadSlots S mp)
    (hg : mp.generated = [.CAPTURES_PRO_PLUS]) (hgen : Emits S mp) :
    Call S QUIET BAD_CAPTURES mp (case_QUIET_INIT mp sq) := by
  obtain ⟨buf, hb1, hb2, hb3⟩ := case_QUIET_INIT_eq mp sq
  rw [hb3]
  refine Call.weaken
    { mp with
      stage := mp.stage + 1, moves := buf, cur := mp.endBadCaptures,
      endMoves := mp.endBadCaptures + mp.pos.genNON_CAPTURES_PRO_MINUS.length,
      generated := mp.generated ++ [MOVE_GEN_TYPE.NON_CAPTURES_PRO_MINUS] }
    ⟨_, _, _, _, _, _, rfl⟩ (le_refl _) ?_
  apply call_QUIET S sq _ (by show mp.stage + 1 = QUIET; rw [hs])
  · intro i hi1 hi2
    have hi3 : mp.endBadCaptures ≤ i := hi1
    have hi4 : i < mp.endBadCaptures + mp.pos.genNON_CAPTURES_PRO_MINUS.length := hi2
    show S (buf i).move
    have hmem : (buf i).move ∈ movesOf (slice buf mp.endBadCaptures
        (mp.endBadCaptures + mp.pos.genNON_CAPTURES_PRO_MINUS.length)) :=
      List.mem_map.mpr ⟨buf i, mem_slice.mpr ⟨i, hi3, hi4, rfl⟩, rfl⟩
    exact hgen .NON_CAPTURES_PRO_MINUS _ (hb2.mem_iff.mp hmem)
  · intro i hi
    have hi2 : i < mp.endBadCaptures := hi
    show S (buf i).move ∧ (buf i).move ≠ mp.ttMove
    rw [hb1 i hi2]
    exact hb i hi2
  · show mp.generated ++ [MOVE_GEN_TYPE.NON_CAPTURES_PRO_MINUS] = _
    rw [hg]
    rfl

theorem call_COUNTERMOVE (S : Move → Prop) (sq : Bool) (mp : MovePicker)
    (hs : mp.stage = COUNTERMOVE) (hb : BadSlots S mp)
    (hg : mp.generated = [.CAPTURES_PRO_PLUS]) (hgen : Emits S mp) :
    Call S QUIET_INIT BAD_CAPTURES mp (case_COUNTERMOVE mp sq) := by
  have hs1 : ({ mp with stage := mp.stage + 1 } : MovePicker).stage = QUIET_INIT := by
    show mp.stage + 1 = QUIET_INIT
    rw [hs]
  unfold case_COUNTERMOVE
  simp only []
  split
  · rename_i ha
    refine ⟨⟨_, _, _, _, _, _, rfl⟩, ge_of_eq hs1, by rw [hs1]; decide, ⟨ha, rfl, hs1⟩, ?_⟩
    exact between_of_stage S _ QUIET_INIT hs1 (fun h => absurd h (by unfold rangeStage; decide))
      (fun _ => hb) (fun h => absurd h (by decide)) hg
  · refine Call.weaken { mp with stage := mp.stage + 1 }
      ⟨_, _, _, _, _, _, rfl⟩ ?_ (call_QUIET_INIT S sq _ hs1 hb hg hgen)
    decide

theorem call_KILLER1 (S : Move → Prop) (sq : Bool) (mp : MovePicker)
    (hs : mp.stage = KILLER1) (hb : BadSlots S mp)
    (hg : mp.generated = [.CAPTURES_PRO_PLUS]) (hgen : Emits S mp) :
    Call S COUNTERMOVE BAD_CAPTURES mp (case_KILLER mp sq) := by
  have hs1 : ({ mp with stage := mp.stage + 1 } : MovePicker).stage = COUNTERMOVE := by
    show mp.stage + 1 = COUNTERMOVE
    rw [hs]
  rw [case_KILLER_stage4 mp sq hs]
  split
  · rename_i ha
    refine ⟨⟨_, _, _, _, _, _, rfl⟩, ge_of_eq hs1, by rw [hs1]; decide,
      ⟨ha, Or.inr ⟨rfl, hs1⟩⟩, ?_⟩
    exact between_of_stage S _ COUNTERMOVE hs1
      (fun h => absurd h (by unfold rangeStage; decide))
      (fun _ => hb) (fun h => absurd h (by decide)) hg
  · refine Call.weaken { mp with stage := mp.stage + 1 }
      ⟨_, _, _, _, _, _, rfl⟩ ?_ (call_COUNTERMOVE S sq _ hs1 hb hg hgen)
    decide

theorem call_KILLER0 (S : Move → Prop) (sq : Bool) (mp : MovePicker)
    (hs : mp.stage = KILLER0) (hb : BadSlots S mp)
    (hg : mp.generated = [.CAPTURES_PRO_PLUS]) (hgen : Emits S mp) :
    Call S KILLER1 BAD_CAPTURES mp (case_KILLER mp sq) := by
  have hs1 : ({ mp with stage := mp.stage + 1 } : MovePicker).stage = KILLER1 := by
    show mp.stage + 1 = KILLER1
    rw [hs]
  have hs2 : ({ mp with stage := mp.stage + 1 + 1 } : MovePicker).stage = COUNTERMOVE := by
    show mp.stage + 1 + 1 = COUNTERMOVE
    rw [hs]
  rw [case_KILLER_stage3 mp sq hs]
  split
  · rename_i ha
    refine ⟨⟨_, _, _, _, _, _, rfl⟩, ge_of_eq hs1, by rw [hs1]; decide,
      ⟨ha, Or.inl ⟨rfl, hs1⟩⟩, ?_⟩
    exact between_of_stage S _ KILLER1 hs1
      (fun h => absurd h (by unfold rangeStage; decide))
      (fun _ => hb) (fun h => absurd h (by decide)) hg
  · split
    · rename_i ha
      refine ⟨⟨_, _, _, _, _, _, rfl⟩, by rw [hs2]; decide, by rw [hs2]; decide,
        ⟨ha, Or.inr ⟨rfl, hs2⟩⟩, ?_⟩
      exact between_of_stage S _ COUNTERMOVE hs2
        (fun h => absurd h (by unfold rangeStage; decide))
        (fun _ => hb) (fun h => absurd h (by decide)) hg
    · refine Call.weaken { mp with stage := mp.stage + 1 + 1 }
        ⟨_, _, _, _, _, _, rfl⟩ ?_ (call_COUNTERMOVE S sq _ hs2 hb hg hgen)
      decide

theorem call_GOOD_CAPTURES (S : Move → Prop) (sq : Bool) (mp : MovePicker)
    (hs : mp.stage = GOOD_CAPTURES) (hbc : mp.endBadCaptures ≤ mp.cur) (hr : RangeOK S mp)
    (hb : BadSlots S mp) (hg : mp.generated = [.CAPTURES_PRO_PLUS]) (hgen : Emits S mp) :
    Call S GOOD_CAPTURES BAD_CAPTURES mp (case_GOOD_CAPTURES mp sq) := by
  have key := goodCapturesLoop_between S (mp.endMoves - mp.cur) mp hbc hr hb
  unfold case_GOOD_CAPTURES
  generalize goodCapturesLoop (mp.endMoves - mp.cur) mp = r at key ⊢
  obtain ⟨o, mp1⟩ := r
  obtain ⟨h1, h2, h3, h4, buf, c, eb, h5⟩ := key
  simp only at h1 h2 h3 h4 h5
  subst h5
  cases o with
  | some move =>
    obtain ⟨h6, h7⟩ := h1 move rfl
    exact ⟨⟨_, _, _, _, _, _, rfl⟩, ge_of_eq hs, by rw [show _ = GOOD_CAPTURES from hs]; decide,
      ⟨h6, h7, hs⟩,
      between_of_stage S _ GOOD_CAPTURES hs (fun _ => h2) (fun _ => h3) (fun _ => h4) hg⟩
  | none =>
    have hs1 : ({ ({ mp with moves := buf, cur := c, endBadCaptures := eb } : MovePicker) with
        stage := mp.stage + 1 } : MovePicker).stage = KILLER0 := by
      show mp.stage + 1 = KILLER0
      rw [hs]
    refine Call.weaken
      { ({ mp with moves := buf, cur := c, endBadCaptures := eb } : MovePicker) with
        stage := mp.stage + 1 }
      ⟨_, _, _, _, _, _, rfl⟩ ?_ (call_KILLER0 S sq _ hs1 h3 hg hgen)
    decide

theorem call_CAPTURES_INIT (S : Move → Prop) (sq : Bool) (mp : MovePicker)
    (hs : mp.stage = CAPTURES_INIT) (hg : mp.generated = []) (hgen : Emits S mp) :
    Call S GOOD_CAPTURES BAD_CAPTURES mp (case_CAPTURES_INIT mp sq) := by
  unfold case_CAPTURES_INIT
  simp only []
  refine Call.weaken { (({ mp with endBadCaptures := 0, cur := 0 }
      : MovePicker).generateMoves .CAPTURES_PRO_PLUS 0).score_CAPTURES with
      stage := mp.stage + 1 } ⟨_, _, _, _, _, _, rfl⟩ (le_refl _) ?_
  apply call_GOOD_CAPTURES S sq _ (by show mp.stage + 1 = GOOD_CAPTURES; rw [hs]) (le_refl 0)
  · intro i hi1 hi2
    show S (((({ mp with endBadCaptures := 0, cur := 0 } : MovePicker).generateMoves
      .CAPTURES_PRO_PLUS 0).scoreWith _).moves i).move
    rw [scoreWith_move]
    exact hgen .CAPTURES_PRO_PLUS _
      (generateMoves_range ({ mp with endBadCaptures := 0, cur := 0 } : MovePicker)
        .CAPTURES_PRO_PLUS 0 i (Nat.zero_le _) hi2)
  · intro i hi
    exact absurd hi (Nat.not_lt_zero i)
  · show mp.generated ++ [MOVE_GEN_TYPE.CAPTURES_PRO_PLUS] = _
    rw [hg]
    rfl
  · exact hgen

theorem call_ALL_EVASIONS (S : Move → Prop) (mp : MovePicker) (hs : mp.stage = ALL_EVASIONS)
    (hr : RangeOK S mp) (hg : mp.generated = [.EVASIONS]) :
    Call S ALL_EVASIONS ALL_EVASIONS mp (case_ALL_EVASIONS mp) := by
  have key := pickLoop_facts (fun move => move != mp.ttMove) S mp hr
  unfold case_ALL_EVASIONS
  generalize pickLoop (fun move => move != mp.ttMove) (mp.endMoves - mp.cur) mp = r at key ⊢
  obtain ⟨o, mp1⟩ := r
  obtain ⟨h1, h2, h3, buf, c, h4⟩ := key
  simp only at h1 h2 h3 h4
  subst h4
  have hbetween : Between S { mp with moves := buf, cur := c } :=
    between_of_stage S _ ALL_EVASIONS hs (fun _ => h3) (fun h => absurd h (by decide))
      (fun h => absurd h (by decide)) hg
  cases o with
  | some move =>
    obtain ⟨h5, h6⟩ := h1 move rfl
    exact ⟨⟨_, _, _, _, _, _, rfl⟩, ge_of_eq hs, le_of_eq hs,
      ⟨h6, by simpa using h5, hs⟩, hbetween⟩
  | none =>
    exact ⟨⟨_, _, _, _, _, _, rfl⟩, ge_of_eq hs, le_of_eq hs,
      ⟨rfl, Or.inr ⟨Or.inl hs, h2 rfl⟩⟩, hbetween⟩

theorem call_EVASIONS_INIT (S : Move → Prop) (mp : MovePicker) (hs : mp.stage = EVASIONS_INIT)
    (hg : mp.generated = []) (hgen : Emits S mp) :
    Call S ALL_EVASIONS ALL_EVASIONS mp (case_EVASIONS_INIT mp) := by
  unfold case_EVASIONS_INIT
  simp only []
  refine Call.weaken { (({ mp with cur := 0 }
      : MovePicker).generateMoves .EVASIONS 0).score_EVASIONS with
      stage := mp.stage + 1 } ⟨_, _, _, _, _, _, rfl⟩ (le_refl _) ?_
  apply call_ALL_EVASIONS S _ (by show mp.stage + 1 = ALL_EVASIONS; rw [hs])
  · intro i hi1 hi2
    show S (((({ mp with cur := 0 } : MovePicker).generateMoves
      .EVASIONS 0).scoreWith _).moves i).move
    rw [scoreWith_move]
    exact hgen .EVASIONS _
      (generateMoves_range ({ mp with cur := 0 } : MovePicker)
        .EVASIONS 0 i (Nat.zero_le _) hi2)
  · show mp.generated ++ [MOVE_GEN_TYPE.EVASIONS] = _
    rw [hg]
    rfl

theorem call_PROBCUT_CAPTURES (S : Move → Prop) (mp : MovePicker)
    (hs : mp.stage = PROBCUT_CAPTURES) (hr : RangeOK S mp)
    (hg : mp.generated = [.CAPTURES_PRO_PLUS]) :
    Call S PROBCUT_CAPTURES PROBCUT_CAPTURES mp (case_PROBCUT_CAPTURES mp) := by
  have key := pickLoop_facts
    (fun move => move != mp.ttMove && mp.pos.see_ge move mp.threshold) S mp hr
  unfold case_PROBCUT_CAPTURES
  generalize pickLoop (fun move => move != mp.ttMove && mp.pos.see_ge move mp.threshold)
    (mp.endMoves - mp.cur) mp = r at key ⊢
  obtain ⟨o, mp1⟩ := r
  obtain ⟨h1, h2, h3, buf, c, h4⟩ := key
  simp only at h1 h2 h3 h4
  subst h4
  have hbetween : Between S { mp with moves := buf, cur := c } :=
    between_of_stage S _ PROBCUT_CAPTURES hs (fun _ => h3) (fun h => absurd h (by decide))
      (fun h => absurd h (by decide)) hg
  cases o with
  | some move =>
    obtain ⟨h5, h6⟩ := h1 move rfl
    simp only [Bool.and_eq_true, bne_iff_ne, ne_eq] at h5
    exact ⟨⟨_, _, _, _, _, _, rfl⟩, ge_of_eq hs, le_of_eq hs,
      ⟨h6, h5.1, h5.2, hs⟩, hbetween⟩
  | none =>
    exact ⟨⟨_, _, _, _, _, _, rfl⟩, ge_of_eq hs, le_of_eq hs,
      ⟨rfl, Or.inr ⟨Or.inr (Or.inl hs), h2 rfl⟩⟩, hbetween⟩

theorem call_PROBCUT_INIT (S : Move → Prop) (mp : MovePicker) (hs : mp.stage = PROBCUT_INIT)
    (hg : mp.generated = []) (hgen : Emits S mp) :
    Call S PROBCUT_CAPTURES PROBCUT_CAPTURES mp (case_PROBCUT_INIT mp) := by
  unfold case_PROBCUT_INIT
  simp only []
  refine Call.weaken { (({ mp with cur := 0 }
      : MovePicker).generateMoves .CAPTURES_PRO_PLUS 0).score_CAPTURES with
      stage := mp.stage + 1 } ⟨_, _, _, _, _, _, rfl⟩ (le_refl _) ?_
  apply call_PROBCUT_CAPTURES S _ (by show mp.stage + 1 = PROBCUT_CAPTURES; rw [hs])
  · intro i hi1 hi2
    show S (((({ mp with cur := 0 } : MovePicker).generateMoves
      .CAPTURES_PRO_PLUS 0).scoreWith _).moves i).move
    rw [scoreWith_move]
    exact hgen .CAPTURES_PRO_PLUS _
      (generateMoves_range ({ mp with cur := 0 } : MovePicker)
        .CAPTURES_PRO_PLUS 0 i (Nat.zero_le _) hi2)
  · show mp.generated ++ [MOVE_GEN_TYPE.CAPTURES_PRO_PLUS] = _
    rw [hg]
    rfl

theorem call_QCHECKS (S : Move → Prop) (mp : MovePicker) (hs : mp.stage = QCHECKS)
    (hr : RangeOK S mp) (hg : mp.generated = [.CAPTURES_PRO_PLUS, .QUIET_CHECKS]) :
    Call S QCHECKS QCHECKS mp (case_QCHECKS mp) := by
  have key := scanLoop_range (fun move => move != mp.ttMove && !mp.pos.pawn_promotion move) S
    (mp.endMoves - mp.cur) mp hr
  unfold case_QCHECKS
  generalize scanLoop (fun move => move != mp.ttMove && !mp.pos.pawn_promotion move)
    (mp.endMoves - mp.cur) mp = r at key ⊢
  obtain ⟨o, mp1⟩ := r
  obtain ⟨h1, h2, c, h3, h4⟩ := key
  simp only at h1 h2 h4
  subst h4
  have hbetween : Between S { mp with cur := c } :=
    between_of_stage S _ QCHECKS hs (fun _ i hi1 hi2 => hr i (le_trans h3 hi1) hi2)
      (fun h => absurd h (by decide)) (fun h => absurd h (by decide)) hg
  cases o with
  | some move =>
    obtain ⟨h5, h6⟩ := h1 move rfl
    simp only [Bool.and_eq_true, bne_iff_ne, ne_eq, Bool.not_eq_true'] at h5
    exact ⟨⟨_, _, _, _, _, _, rfl⟩, ge_of_eq hs, le_of_eq hs,
      ⟨h6, h5.1, h5.2, hs⟩, hbetween⟩
  | none =>
    exact ⟨⟨_, _, _, _, _, _, rfl⟩, ge_of_eq hs, le_of_eq hs,
      ⟨rfl, Or.inr ⟨Or.inr (Or.inr (Or.inl hs)), h2 (le_refl _) rfl⟩⟩, hbetween⟩

theorem call_QCAPTURES_2 (S : Move → Prop) (mp : MovePicker) (hs : mp.stage = QCAPTURES_2)
    (hr : RangeOK S mp) (hg : mp.generated = [.CAPTURES_PRO_PLUS]) :
    Call S QCAPTURES_2 QCAPTURES_2 mp (case_QCAPTURES mp) := by
  have key := pickLoop_facts (fun move => move != mp.ttMove) S mp hr
  unfold case_QCAPTURES
  generalize pickLoop (fun move => move != mp.ttMove) (mp.endMoves - mp.cur) mp = r at key ⊢
  obtain ⟨o, mp1⟩ := r
  obtain ⟨h1, h2, h3, buf, c, h4⟩ := key
  simp only at h1 h2 h3 h4
  subst h4
  have hbetween : Between S { mp with moves := buf, cur := c } :=
    between_of_stage S _ QCAPTURES_2 hs (fun _ => h3) (fun h => absurd h (by decide))
      (fun h => absurd h (by decide)) hg
  cases o with
  | some move =>
    obtain ⟨h5, h6⟩ := h1 move rfl
    exact ⟨⟨_, _, _, _, _, _, rfl⟩, ge_of_eq hs, le_of_eq hs,
      ⟨h6, by simpa using h5, Or.inr hs⟩, hbetween⟩
  | none =>
    simp only []
    rw [if_pos hs]
    exact ⟨⟨_, _, _, _, _, _, rfl⟩, ge_of_eq hs, le_of_eq hs,
      ⟨rfl, Or.inr ⟨Or.inr (Or.inr (Or.inr (Or.inl hs))), h2 rfl⟩⟩, hbetween⟩

theorem call_QCAPTURES_1 (S : Move → Prop) (mp : MovePicker) (hs : mp.stage = QCAPTURES_1)
    (hr : RangeOK S mp) (hg : mp.generated = [.CAPTURES_PRO_PLUS]) (hgen : Emits S mp) :
    Call S QCAPTURES_1 QCHECKS mp (case_QCAPTURES mp) := by
  have key := pickLoop_facts (fun move => move != mp.ttMove) S mp hr
  unfold case_QCAPTURES
  generalize pickLoop (fun move => move != mp.ttMove) (mp.endMoves - mp.cur) mp = r at key ⊢
  obtain ⟨o, mp1⟩ := r
  obtain ⟨h1, h2, h3, buf, c, h4⟩ := key
  simp only at h1 h2 h3 h4
  subst h4
  cases o with
  | some move =>
    obtain ⟨h5, h6⟩ := h1 move rfl
    exact ⟨⟨_, _, _, _, _, _, rfl⟩, ge_of_eq hs,
      by rw [show _ = QCAPTURES_1 from hs]; decide,
      ⟨h6, by simpa using h5, Or.inl hs⟩,
      between_of_stage S _ QCAPTURES_1 hs (fun _ => h3) (fun h => absurd h (by decide))
        (fun h => absurd h (by decide)) hg⟩
  | none =>
    have hst : ¬ ({ mp with moves := buf, cur := c } : MovePicker).stage = QCAPTURES_2 := by
      show ¬ mp.stage = QCAPTURES_2
      rw [hs]
      decide
    simp only [hst, if_false]
    refine Call.weaken
      { (({ ({ mp with moves := buf, cur := c } : MovePicker) with cur := 0 }
          : MovePicker).generateMoves .QUIET_CHECKS 0) with stage := mp.stage + 1 }
      ⟨_, _, _, _, _, _, rfl⟩ ?_
      (call_QCHECKS S _ (by show mp.stage + 1 = QCHECKS; rw [hs]) ?_ ?_)
    · decide
    · intro i _ hi2
      exact hgen .QUIET_CHECKS _
        (generateMoves_range ({ ({ mp with moves := buf, cur := c } : MovePicker) with cur := 0 }
          : MovePicker) .QUIET_CHECKS 0 i (Nat.zero_le _) hi2)
    · show mp.generated ++ [MOVE_GEN_TYPE.QUIET_CHECKS] = _
      rw [hg]
      rfl

theorem qcaptures_init_range (S : Move → Prop) (mp : MovePicker) (hg : mp.generated = [])
    (hgen : Emits S mp) :
    RangeOK S { (({ mp with cur := 0 }
      : MovePicker).generateMoves .CAPTURES_PRO_PLUS 0).score_CAPTURES with
      stage := mp.stage + 1 }
    ∧ ({ (({ mp with cur := 0 }
      : MovePicker).generateMoves .CAPTURES_PRO_PLUS 0).score_CAPTURES with
      stage := mp.stage + 1 } : MovePicker).generated = [.CAPTURES_PRO_PLUS] := by
  constructor
  · intro i hi1 hi2
    show S (((({ mp with cur := 0 } : MovePicker).generateMoves
      .CAPTURES_PRO_PLUS 0).scoreWith _).moves i).move
    rw [scoreWith_move]
    exact hgen .CAPTURES_PRO_PLUS _
      (generateMoves_range ({ mp with cur := 0 } : MovePicker)
        .CAPTURES_PRO_PLUS 0 i (Nat.zero_le _) hi2)
  · show mp.generated ++ [MOVE_GEN_TYPE.CAPTURES_PRO_PLUS] = _
    rw [hg]
    rfl

theorem call_QCAPTURES_1_INIT (S : Move → Prop) (mp : MovePicker)
    (hs : mp.stage = QCAPTURES_1_INIT) (hg : mp.generated = []) (hgen : Emits S mp) :
    Call S QCAPTURES_1 QCHECKS mp (case_QCAPTURES_INIT mp) := by
  obtain ⟨hr, hg1⟩ := qcaptures_init_range S mp hg hgen
  unfold case_QCAPTURES_INIT
  simp only []
  exact Call.weaken _ ⟨_, _, _, _, _, _, rfl⟩ (le_refl _)
    (call_QCAPTURES_1 S _ (by show mp.stage + 1 = QCAPTURES_1; rw [hs]) hr hg1 hgen)

theorem call_QCAPTURES_2_INIT (S : Move → Prop) (mp : MovePicker)
    (hs : mp.stage = QCAPTURES_2_INIT) (hg : mp.generated = []) (hgen : Emits S mp) :
    Call S QCAPTURES_2 QCAPTURES_2 mp (case_QCAPTURES_INIT mp) := by
  obtain ⟨hr, hg1⟩ := qcaptures_init_range S mp hg hgen
  unfold case_QCAPTURES_INIT
  simp only []
  exact Call.weaken _ ⟨_, _, _, _, _, _, rfl⟩ (le_refl _)
    (call_QCAPTURES_2 S _ (by show mp.stage + 1 = QCAPTURES_2; rw [hs]) hr hg1)

theorem call_QRECAPTURES (S : Move → Prop) (mp : MovePicker) (hs : mp.stage = QRECAPTURES)
    (hr : RangeOK S mp) (hg : mp.generated = [.RECAPTURES]) :
    Call S QRECAPTURES QRECAPTURES mp (case_QRECAPTURES mp) := by
  have key := pickLoop_facts (fun _ => true) S mp hr
  unfold case_QRECAPTURES
  generalize pickLoop (fun _ => true) (mp.endMoves - mp.cur) mp = r at key ⊢
  obtain ⟨o, mp1⟩ := r
  obtain ⟨h1, h2, h3, buf, c, h4⟩ := key
  simp only at h1 h2 h3 h4
  subst h4
  have hbetween : Between S { mp with moves := buf, cur := c } :=
    between_of_stage S _ QRECAPTURES hs (fun _ => h3) (fun h => absurd h (by decide))
      (fun h => absurd h (by decide)) hg
  cases o with
  | some move =>
    obtain ⟨_, h6⟩ := h1 move rfl
    exact ⟨⟨_, _, _, _, _, _, rfl⟩, ge_of_eq hs, le_of_eq hs, ⟨h6, hs⟩, hbetween⟩
  | none =>
    exact ⟨⟨_, _, _, _, _, _, rfl⟩, ge_of_eq hs, le_of_eq hs,
      ⟨rfl, Or.inr ⟨Or.inr (Or.inr (Or.inr (Or.inr hs))), h2 rfl⟩⟩, hbetween⟩

theorem call_QSEARCH_RECAPTURES (S : Move → Prop) (mp : MovePicker)
    (hs : mp.stage = QSEARCH_RECAPTURES) (hg : mp.generated = []) (hgen : Emits S mp) :
    Call S QRECAPTURES QRECAPTURES mp (case_QSEARCH_RECAPTURES mp) := by
  unfold case_QSEARCH_RECAPTURES
  simp only []
  refine Call.weaken { (({ mp with cur := 0 }
      : MovePicker).generateMoves .RECAPTURES 0).score_CAPTURES with
      stage := mp.stage + 1 } ⟨_, _, _, _, _, _, rfl⟩ (le_refl _) ?_
  apply call_QRECAPTURES S _ (by show mp.stage + 1 = QRECAPTURES; rw [hs])
  · intro i hi1 hi2
    show S (((({ mp with cur := 0 } : MovePicker).generateMoves
      .RECAPTURES 0).scoreWith _).moves i).move
    rw [scoreWith_move]
    exact hgen .RECAPTURES _
      (generateMoves_range ({ mp with cur := 0 } : MovePicker)
        .RECAPTURES 0 i (Nat.zero_le _) hi2)
  · show mp.generated ++ [MOVE_GEN_TYPE.RECAPTURES] = _
    rw [hg]
    rfl

/-- From a call that did not return the hash move to the facts about the call. -/
theorem picker_of_call (S : Move → Prop) (mp : MovePicker) (lo hi : Nat)
    (r : ReturnSite × Move × MovePicker) (h : Call S lo hi mp r) (h1 : mp.stage ≤ lo)
    (h2 : hi = protocolEnd mp.stage) (h3 : generatingStage mp.stage → mp.stage < lo)
    (h4 : ¬ ttStage mp.stage)
    (h5 : ∀ s, lo ≤ s → s ≤ hi → s ≠ 0 ∧ s ≠ 9 ∧ s ≠ 12 ∧ s ≠ 15 ∧ s ≠ 19 ∧ s ≤ 23) :
    Frame mp r.2.2
    ∧ mp.stage ≤ r.2.2.stage
    ∧ r.2.2.stage ≤ protocolEnd mp.stage
    ∧ (ttStage mp.stage ∨ generatingStage mp.stage → mp.stage < r.2.2.stage)
    ∧ ((ttStage mp.stage ∧ r = (.ttMove, mp.ttMove, { mp with stage := mp.stage + 1 }))
      ∨ (¬ ttStage mp.stage ∧ Site S r.1 r.2.1 r.2.2))
    ∧ PickerInv S r.2.2 := by
  obtain ⟨hf, hlo, hhi, hsite, hbetween⟩ := h
  obtain ⟨n0, n9, n12, n15, n19, n23⟩ := h5 _ hlo hhi
  refine ⟨hf, le_trans h1 hlo, by rw [← h2]; exact hhi, ?_, Or.inr ⟨h4, hsite⟩, n23, ?_, hbetween⟩
  · rintro (h | h)
    · exact absurd h h4
    · exact lt_of_lt_of_le (h3 h) hlo
  · rintro (h | h | h | h | h)
    · exact absurd h n0
    · exact absurd h n9
    · exact absurd h n15
    · exact absurd h n19
    · exact absurd h n12

/-- One call of `next_move` on a picker that satisfies the invariant: only the stage, the
buffer, the cursors and the log change; the stage does not decrease, stays within the
protocol and increases at a stage that returns the hash move or generates moves; the
`return` statement taken tells what the move returned is; the invariant holds again. -/
theorem picker_step (S : Move → Prop) (sq : Bool) (mp : MovePicker) (hinv : PickerInv S mp)
    (hgen : Emits S mp) :
    Frame mp (next_move_traced mp sq).2.2
    ∧ mp.stage ≤ (next_move_traced mp sq).2.2.stage
    ∧ (next_move_traced mp sq).2.2.stage ≤ protocolEnd mp.stage
    ∧ (ttStage mp.stage ∨ generatingStage mp.stage →
        mp.stage < (next_move_traced mp sq).2.2.stage)
    ∧ ((ttStage mp.stage
          ∧ next_move_traced mp sq = (.ttMove, mp.ttMove, { mp with stage := mp.stage + 1 }))
      ∨ (¬ ttStage mp.stage
          ∧ Site S (next_move_traced mp sq).1 (next_move_traced mp sq).2.1
              (next_move_traced mp sq).2.2))
    ∧ PickerInv S (next_move_traced mp sq).2.2 := by
  obtain ⟨hle, htt, hbr, hbb, hbc, hbg⟩ := hinv
  have htts : ∀ st : Nat, mp.stage = st → ttStage st → 0 < protocolEnd st - st →
      generatedAt st = [] → generatedAt (st + 1) = [] → ¬ rangeStage (st + 1) →
      ¬ (GOOD_CAPTURES ≤ st + 1 ∧ st + 1 ≤ BAD_CAPTURES) → ¬ ttStage (st + 1) →
      st + 1 ≤ QRECAPTURES →
      Frame mp ({ mp with stage := mp.stage + 1 } : MovePicker)
      ∧ mp.stage ≤ mp.stage + 1
      ∧ mp.stage + 1 ≤ protocolEnd mp.stage
      ∧ (ttStage mp.stage ∨ generatingStage mp.stage → mp.stage < mp.stage + 1)
      ∧ ((ttStage mp.stage
            ∧ ((.ttMove, mp.ttMove, { mp with stage := mp.stage + 1 })
                : ReturnSite × Move × MovePicker)
              = (.ttMove, mp.ttMove, { mp with stage := mp.stage + 1 }))
        ∨ (¬ ttStage mp.stage
            ∧ Site S .ttMove mp.ttMove ({ mp with stage := mp.stage + 1 } : MovePicker)))
      ∧ PickerInv S ({ mp with stage := mp.stage + 1 } : MovePicker) := by
    intro st hs h1 h2 h3 h4 h5 h6 h7 h8
    have hs1 : ({ mp with stage := mp.stage + 1 } : MovePicker).stage = st + 1 := by
      show mp.stage + 1 = st + 1
      rw [hs]
    refine ⟨⟨_, _, _, _, _, _, rfl⟩, Nat.le_succ _, by rw [hs]; omega,
      fun _ => Nat.lt_succ_self _, Or.inl ⟨by rw [hs]; exact h1, rfl⟩, ?_, ?_, ?_⟩
    · rw [hs1]
      exact h8
    · rw [hs1]
      exact fun h => absurd h h7
    · refine between_of_stage S _ (st + 1) hs1 (fun h => absurd h h5) (fun h => absurd h h6)
        (fun h => absurd (Or.inl h) h5) ?_
      show mp.generated = _
      rw [hbg, hs, h3, h4]
  have hcases : mp.stage = 0 ∨ mp.stage = 1 ∨ mp.stage = 2 ∨ mp.stage = 3 ∨ mp.stage = 4
      ∨ mp.stage = 5 ∨ mp.stage = 6 ∨ mp.stage = 7 ∨ mp.stage = 8 ∨ mp.stage = 9
      ∨ mp.stage = 10 ∨ mp.stage = 11 ∨ mp.stage = 12 ∨ mp.stage = 13 ∨ mp.stage = 14
      ∨ mp.stage = 15 ∨ mp.stage = 16 ∨ mp.stage = 17 ∨ mp.stage = 18 ∨ mp.stage = 19
      ∨ mp.stage = 20 ∨ mp.stage = 21 ∨ mp.stage = 22 ∨ mp.stage = 23 := by
    have : mp.stage ≤ 23 := hle
    omega
  rcases hcases with hs | hs | hs | hs | hs | hs | hs | hs | hs | hs | hs | hs | hs | hs | hs
    | hs | hs | hs | hs | hs | hs | hs | hs | hs
  · rw [next_move_traced_ttStage mp sq (Or.inl hs)]
    exact htts 0 hs (by unfold ttStage; decide) (by decide) (by decide) (by decide)
      (by unfold rangeStage; decide) (by decide) (by unfold ttStage; decide) (by decide)
  · rw [next_move_traced_CAPTURES_INIT mp sq hs]
    exact picker_of_call S mp 2 8 _
      (call_CAPTURES_INIT S sq mp hs (by rw [hbg, hs]; rfl) hgen)
      (by omega) (by rw [hs]; decide) (fun _ => by rw [hs]; decide)
      (by rw [hs]; unfold ttStage; decide) (by intro s a b; omega)
  · rw [next_move_traced_GOOD_CAPTURES mp sq hs]
    exact picker_of_call S mp 2 8 _
      (call_GOOD_CAPTURES S sq mp hs (hbc hs) (hbr (by rw [hs]; unfold rangeStage; decide)) (hbb (by rw [hs]; decide)) (by rw [hbg, hs]; rfl) hgen)
      (by omega) (by rw [hs]; decide) (fun h => absurd h (by rw [hs]; unfold generatingStage; decide))
      (by rw [hs]; unfold ttStage; decide) (by intro s a b; omega)
  · rw [next_move_traced_KILLER0 mp sq hs]
    exact picker_of_call S mp 4 8 _
      (call_KILLER0 S sq mp hs (hbb (by rw [hs]; decide)) (by rw [hbg, hs]; rfl) hgen)
      (by omega) (by rw [hs]; decide) (fun h => absurd h (by rw [hs]; unfold generatingStage; decide))
      (by rw [hs]; unfold ttStage; decide) (by intro s a b; omega)
  · rw [next_move_traced_KILLER1 mp sq hs]
    exact picker_of_call S mp 5 8 _
      (call_KILLER1 S sq mp hs (hbb (by rw [hs]; decide)) (by rw [hbg, hs]; rfl) hgen)
      (by omega) (by rw [hs]; decide) (fun h => absurd h (by rw [hs]; unfold generatingStage; decide))
      (by rw [hs]; unfold ttStage; decide) (by intro s a b; omega)
  · rw [next_move_traced_COUNTERMOVE mp sq hs]
    exact picker_of_call S mp 6 8 _
      (call_COUNTERMOVE S sq mp hs (hbb (by rw [hs]; decide)) (by rw [hbg, hs]; rfl) hgen)
      (by omega) (by rw [hs]; decide) (fun h => absurd h (by rw [hs]; unfold generatingStage; decide))
      (by rw [hs]; unfold ttStage; decide) (by intro s a b; omega)
  · rw [next_move_traced_QUIET_INIT mp sq hs]
    exact picker_of_call S mp 7 8 _
      (call_QUIET_INIT S sq mp hs (hbb (by rw [hs]; decide)) (by rw [hbg, hs]; rfl) hgen)
      (by omega) (by rw [hs]; decide) (fun _ => by rw [hs]; decide)
      (by rw [hs]; unfold ttStage; decide) (by intro s a b; omega)
  · rw [next_move_traced_QUIET mp sq hs]
    exact picker_of_call S mp 7 8 _
      (call_QUIET S sq mp hs (hbr (by rw [hs]; unfold rangeStage; decide)) (hbb (by rw [hs]; decide)) (by rw [hbg, hs]; rfl))
      (by omega) (by rw [hs]; decide) (fun h => absurd h (by rw [hs]; unfold generatingStage; decide))
      (by rw [hs]; unfold ttStage; decide) (by intro s a b; omega)
  · rw [next_move_traced_BAD_CAPTURES mp sq hs]
    exact picker_of_call S mp 8 8 _
      (call_BAD_CAPTURES S mp hs (hbb (by rw [hs]; decide)) (by rw [hbg, hs]; rfl))
      (by omega) (by rw [hs]; decide) (fun h => absurd h (by rw [hs]; unfold generatingStage; decide))
      (by rw [hs]; unfold ttStage; decide) (by intro s a b; omega)
  · rw [next_move_traced_ttStage mp sq (Or.inr (Or.inl hs))]
    exact htts 9 hs (by unfold ttStage; decide) (by decide) (by decide) (by decide)
      (by unfold rangeStage; decide) (by decide) (by unfold ttStage; decide) (by decide)
  · rw [next_move_traced_EVASIONS_INIT mp sq hs]
    exact picker_of_call S mp 11 11 _
      (call_EVASIONS_INIT S mp hs (by rw [hbg, hs]; rfl) hgen)
      (by omega) (by rw [hs]; decide) (fun _ => by rw [hs]; decide)
      (by rw [hs]; unfold ttStage; decide) (by intro s a b; omega)
  · rw [next_move_traced_ALL_EVASIONS mp sq hs]
    exact picker_of_call S mp 11 11 _
      (call_ALL_EVASIONS S mp hs (hbr (by rw [hs]; unfold rangeStage; decide)) (by rw [hbg, hs]; rfl))
      (by omega) (by rw [hs]; decide) (fun h => absurd h (by rw [hs]; unfold generatingStage; decide))
      (by rw [hs]; unfold ttStage; decide) (by intro s a b; omega)
  · rw [next_move_traced_ttStage mp sq (Or.inr (Or.inr (Or.inr (Or.inr (hs)))))]
    exact htts 12 hs (by unfold ttStage; decide) (by decide) (by decide) (by decide)
      (by unfold rangeStage; decide) (by decide) (by unfold ttStage; decide) (by decide)
  · rw [next_move_traced_PROBCUT_INIT mp sq hs]
    exact picker_of_call S mp 14 14 _
      (call_PROBCUT_INIT S mp hs (by rw [hbg, hs]; rfl) hgen)
      (by omega) (by rw [hs]; decide) (fun _ => by rw [hs]; decide)
      (by rw [hs]; unfold ttStage; decide) (by intro s a b; omega)
  · rw [next_move_traced_PROBCUT_CAPTURES mp sq hs]
    exact picker_of_call S mp 14 14 _
      (call_PROBCUT_CAPTURES S mp hs (hbr (by rw [hs]; unfold rangeStage; decide)) (by rw [hbg, hs]; rfl))
      (by omega) (by rw [hs]; decide) (fun h => absurd h (by rw [hs]; unfold generatingStage; decide))
      (by rw [hs]; unfold ttStage; decide) (by intro s a b; omega)
  · rw [next_move_traced_ttStage mp sq (Or.inr (Or.inr (Or.inl hs)))]
    exact htts 15 hs (by unfold ttStage; decide) (by decide) (by decide) (by decide)
      (by unfold rangeStage; decide) (by decide) (by unfold ttStage; decide) (by decide)
  · rw [next_move_traced_QCAPTURES_1_INIT mp sq hs]
    exact picker_of_call S mp 17 18 _
      (call_QCAPTURES_1_INIT S mp hs (by rw [hbg, hs]; rfl) hgen)
      (by omega) (by rw [hs]; decide) (fun _ => by rw [hs]; decide)
      (by rw [hs]; unfold ttStage; decide) (by intro s a b; omega)
  · rw [next_move_traced_QCAPTURES_1 mp sq hs]
    exact picker_of_call S mp 17 18 _
      (call_QCAPTURES_1 S mp hs (hbr (by rw [hs]; unfold rangeStage; decide)) (by rw [hbg, hs]; rfl) hgen)
      (by omega) (by rw [hs]; decide) (fun h => absurd h (by rw [hs]; unfold generatingStage; decide))
      (by rw [hs]; unfold ttStage; decide) (by intro s a b; omega)
  · rw [next_move_traced_QCHECKS mp sq hs]
    exact picker_of_call S mp 18 18 _
      (call_QCHECKS S mp hs (hbr (by rw [hs]; unfold rangeStage; decide)) (by rw [hbg, hs]; rfl))
      (by omega) (by rw [hs]; decide) (fun h => absurd h (by rw [hs]; unfold generatingStage; decide))
      (by rw [hs]; unfold ttStage; decide) (by intro s a b; omega)
  · rw [next_move_traced_ttStage mp sq (Or.inr (Or.inr (Or.inr (Or.inl hs))))]
    exact htts 19 hs (by unfold ttStage; decide) (by decide) (by decide) (by decide)
      (by unfold rangeStage; decide) (by decide) (by unfold ttStage; decide) (by decide)
  · rw [next_move_traced_QCAPTURES_2_INIT mp sq hs]
    exact picker_of_call S mp 21 21 _
      (call_QCAPTURES_2_INIT S mp hs (by rw [hbg, hs]; rfl) hgen)
      (by omega) (by rw [hs]; decide) (fun _ => by rw [hs]; decide)
      (by rw [hs]; unfold ttStage; decide) (by intro s a b; omega)
  · rw [next_move_traced_QCAPTURES_2 mp sq hs]
    exact picker_of_call S mp 21 21 _
      (call_QCAPTURES_2 S mp hs (hbr (by rw [hs]; unfold rangeStage; decide)) (by rw [hbg, hs]; rfl))
      (by omega) (by rw [hs]; decide) (fun h => absurd h (by rw [hs]; unfold generatingStage; decide))
      (by rw [hs]; unfold ttStage; decide) (by intro s a b; omega)
  · rw [next_move_traced_QSEARCH_RECAPTURES mp sq hs]
    exact picker_of_call S mp 23 23 _
      (call_QSEARCH_RECAPTURES S mp hs (by rw [hbg, hs]; rfl) hgen)
      (by omega) (by rw [hs]; decide) (fun _ => by rw [hs]; decide)
      (by rw [hs]; unfold ttStage; decide) (by intro s a b; omega)
  · rw [next_move_traced_QRECAPTURES mp sq hs]
    exact picker_of_call S mp 23 23 _
      (call_QRECAPTURES S mp hs (hbr (by rw [hs]; unfold rangeStage; decide)) (by rw [hbg, hs]; rfl))
      (by omega) (by rw [hs]; decide) (fun h => absurd h (by rw [hs]; unfold generatingStage; decide))
      (by rw [hs]; unfold ttStage; decide) (by intro s a b; omega)

/-! ## Every picker that calls lead to -/

theorem Frame.emits {S : Move → Prop} {mp mp1 : MovePicker} (h : Frame mp mp1)
    (hgen : Emits S mp) : Emits S mp1 := by
  obtain ⟨st, buf, c, e, eb, g, rfl⟩ := h
  exact hgen

theorem protocolEnd_of_le (s s1 : Nat) (h1 : s ≤ s1) (h2 : s1 ≤ protocolEnd s) :
    protocolEnd s1 = protocolEnd s := by
  unfold protocolEnd at h2 ⊢
  simp only [BAD_CAPTURES, ALL_EVASIONS, PROBCUT_CAPTURES, QCHECKS, QCAPTURES_2, QRECAPTURES]
    at h2 ⊢
  split_ifs at h2 ⊢ <;> omega

theorem protocolStart_of_le (s s1 : Nat) (h1 : s ≤ s1) (h2 : s1 ≤ protocolEnd s) :
    protocolStart s1 = protocolStart s := by
  unfold protocolEnd at h2
  unfold protocolStart
  simp only [BAD_CAPTURES, ALL_EVASIONS, PROBCUT_CAPTURES, QCHECKS, QCAPTURES_2, QRECAPTURES]
    at h2 ⊢
  split_ifs at h2 ⊢ <;> omega

theorem protocolStart_le (s : Nat) : protocolStart s ≤ s := by
  unfold protocolStart
  simp only [BAD_CAPTURES, ALL_EVASIONS, PROBCUT_CAPTURES, QCHECKS, QCAPTURES_2, QRECAPTURES,
    MAIN_SEARCH, EVASION, PROBCUT, QSEARCH_WITH_CHECKS, QSEARCH_NO_CHECKS, QSEARCH_RECAPTURES]
  split_ifs <;> omega

/-- The invariant holds of every picker that calls of `next_move` lead to from a picker
that satisfies it; the stage has not decreased and is within the protocol. -/
theorem reachable_inv (S : Move → Prop) (mp0 mp : MovePicker) (h0 : PickerInv S mp0)
    (hgen : Emits S mp0) (hr : Reachable mp0 mp) :
    PickerInv S mp ∧ Frame mp0 mp ∧ mp0.stage ≤ mp.stage ∧ mp.stage ≤ protocolEnd mp0.stage := by
  induction hr with
  | init =>
    refine ⟨h0, Frame.refl _, le_refl _, ?_⟩
    have h1 : mp0.stage ≤ 23 := h0.1
    unfold protocolEnd
    simp only [BAD_CAPTURES, ALL_EVASIONS, PROBCUT_CAPTURES, QCHECKS, QCAPTURES_2, QRECAPTURES]
    split_ifs <;> omega
  | step mp1 sq _ ih =>
    obtain ⟨h1, h2, h3, h4⟩ := ih
    obtain ⟨s1, s2, s3, _, _, s6⟩ := picker_step S sq mp1 h1 (h2.emits hgen)
    refine ⟨s6, h2.trans s1, le_trans h3 s2, ?_⟩
    rw [← protocolEnd_of_le _ _ h3 h4]
    exact s3

theorem reachable_after (mp0 : MovePicker) (flags : List Bool) :
    ∀ mp, Reachable mp0 mp → Reachable mp0 (after mp flags) := by
  induction flags with
  | nil => exact fun mp h => h
  | cons sq rest ih => exact fun mp h => ih _ (Reachable.step mp sq h)

/-- A picker at the first stage of a protocol with a hash move, or at the stage after it,
with no generator run yet, satisfies the invariant. -/
theorem pickerInv_start (S : Move → Prop) (mp : MovePicker) (hg : mp.generated = [])
    (h : (ttStage mp.stage ∧ mp.ttMove ≠ MOVE_NONE)
      ∨ mp.stage = CAPTURES_INIT ∨ mp.stage = EVASIONS_INIT ∨ mp.stage = PROBCUT_INIT
      ∨ mp.stage = QCAPTURES_1_INIT ∨ mp.stage = QCAPTURES_2_INIT
      ∨ mp.stage = QSEARCH_RECAPTURES) : PickerInv S mp := by
  have key : ∀ st : Nat, mp.stage = st → st ≤ QRECAPTURES → (ttStage st → mp.ttMove ≠ MOVE_NONE) →
      ¬ rangeStage st → ¬ (GOOD_CAPTURES ≤ st ∧ st ≤ BAD_CAPTURES) → generatedAt st = [] →
      PickerInv S mp := by
    intro st hs h1 h2 h3 h4 h5
    refine ⟨by rw [hs]; exact h1, by rw [hs]; exact h2, ?_⟩
    exact between_of_stage S mp st hs (fun h => absurd h h3) (fun h => absurd h h4)
      (fun h => absurd (Or.inl h) h3) (by rw [hg, h5])
  rcases h with ⟨h1 | h1 | h1 | h1 | h1, h2⟩ | h | h | h | h | h | h
  · exact key _ h1 (by decide) (fun _ => h2) (by unfold rangeStage; decide) (by decide)
      (by decide)
  · exact key _ h1 (by decide) (fun _ => h2) (by unfold rangeStage; decide) (by decide)
      (by decide)
  · exact key _ h1 (by decide) (fun _ => h2) (by unfold rangeStage; decide) (by decide)
      (by decide)
  · exact key _ h1 (by decide) (fun _ => h2) (by unfold rangeStage; decide) (by decide)
      (by decide)
  · exact key _ h1 (by decide) (fun _ => h2) (by unfold rangeStage; decide) (by decide)
      (by decide)
  · exact key _ h (by decide) (fun h3 => absurd h3 (by unfold ttStage; decide))
      (by unfold rangeStage; decide) (by decide) (by decide)
  · exact key _ h (by decide) (fun h3 => absurd h3 (by unfold ttStage; decide))
      (by unfold rangeStage; decide) (by decide) (by decide)
  · exact key _ h (by decide) (fun h3 => absurd h3 (by unfold ttStage; decide))
      (by unfold rangeStage; decide) (by decide) (by decide)
  · exact key _ h (by decide) (fun h3 => absurd h3 (by unfold ttStage; decide))
      (by unfold rangeStage; decide) (by decide) (by decide)
  · exact key _ h (by decide) (fun h3 => absurd h3 (by unfold ttStage; decide))
      (by unfold rangeStage; decide) (by decide) (by decide)
  · exact key _ h (by decide) (fun h3 => absurd h3 (by unfold ttStage; decide))
      (by unfold rangeStage; decide) (by decide) (by decide)

/-- The end of a constructor that looks at the hash move: the picker is at the first
stage with the hash move validated, or at the stage after it without a hash move. -/
theorem withHashMove_start (mp : MovePicker) (ttm : Move) :
    ((mp.withHashMove ttm).stage = mp.stage ∧ (mp.withHashMove ttm).ttMove = ttm
        ∧ ttm ≠ MOVE_NONE ∧ mp.pos.pseudo_legal_s ttm = true)
    ∨ ((mp.withHashMove ttm).stage = mp.stage + 1 ∧ (mp.withHashMove ttm).ttMove = MOVE_NONE
        ∧ (ttm = MOVE_NONE ∨ mp.pos.pseudo_legal_s ttm = false)) := by
  have hstage : (mp.withHashMove ttm).stage
      = mp.stage + (if ((mp.withHashMove ttm).ttMove == MOVE_NONE) = true then 1 else 0) := rfl
  have htm : (mp.withHashMove ttm).ttMove
      = if (ttm != MOVE_NONE && mp.pos.pseudo_legal_s ttm) = true then ttm else MOVE_NONE := rfl
  by_cases h : (ttm != MOVE_NONE && mp.pos.pseudo_legal_s ttm) = true
  · have h2 : ttm ≠ MOVE_NONE ∧ mp.pos.pseudo_legal_s ttm = true := by simpa using h
    rw [if_pos h] at htm
    left
    refine ⟨?_, htm, h2.1, h2.2⟩
    rw [hstage, htm]
    simp [h2.1]
  · have h2 : ttm = MOVE_NONE ∨ mp.pos.pseudo_legal_s ttm = false := by
      by_cases h3 : ttm = MOVE_NONE
      · exact Or.inl h3
      · right
        simpa [h3] using h
    rw [if_neg h] at htm
    right
    refine ⟨?_, htm, h2⟩
    rw [hstage, htm]
    rfl

theorem quiescence_eq (env : Env) (raw : MovePicker) (p : Position) (ttm : Move) (d : Depth)
    (mh : Nat → Color → Value) (recapSq : Square) :
    MovePicker.quiescence env raw p ttm d mh recapSq
      = if p.in_check = true ∨ d > env.DEPTH_QS_NO_CHECKS ∨ d > env.DEPTH_QS_RECAPTURES then
          MovePicker.withHashMove
            { ({ raw with env := env, pos := p, mainHistory := mh, generated := [] }
                : MovePicker) with
              stage := if p.in_check then EVASION else if d > env.DEPTH_QS_NO_CHECKS
                then QSEARCH_WITH_CHECKS else QSEARCH_NO_CHECKS } ttm
        else
          { ({ raw with env := env, pos := p, mainHistory := mh, generated := [] }
              : MovePicker) with
            stage := QSEARCH_RECAPTURES, recaptureSquare := recapSq } := by
  unfold MovePicker.quiescence
  by_cases hc : p.in_check = true
  · simp [hc]
  · by_cases hd1 : d > env.DEPTH_QS_NO_CHECKS
    · simp [hc, hd1]
    · by_cases hd2 : d > env.DEPTH_QS_RECAPTURES
      · simp [hc, hd1, hd2]
      · simp [hc, hd1, hd2]

/-- The stage and the hash move of the picker that the quiescence constructor builds. -/
theorem quiescence_start (env : Env) (raw : MovePicker) (p : Position) (ttm : Move) (d : Depth)
    (mh : Nat → Color → Value) (recapSq : Square) :
    (MovePicker.quiescence env raw p ttm d mh recapSq).generated = []
    ∧ (MovePicker.quiescence env raw p ttm d mh recapSq).pos = p
    ∧ ((¬ (p.in_check = true ∨ d > env.DEPTH_QS_NO_CHECKS ∨ d > env.DEPTH_QS_RECAPTURES)
          ∧ (MovePicker.quiescence env raw p ttm d mh recapSq).stage = QSEARCH_RECAPTURES)
      ∨ ((p.in_check = true ∨ d > env.DEPTH_QS_NO_CHECKS ∨ d > env.DEPTH_QS_RECAPTURES)
        ∧ (MovePicker.quiescence env raw p ttm d mh recapSq).stage
            = (if p.in_check then EVASION else if d > env.DEPTH_QS_NO_CHECKS
                then QSEARCH_WITH_CHECKS else QSEARCH_NO_CHECKS)
              + (if (MovePicker.quiescence env raw p ttm d mh recapSq).ttMove = MOVE_NONE
                  then 1 else 0)
        ∧ (((MovePicker.quiescence env raw p ttm d mh recapSq).ttMove = ttm
              ∧ ttm ≠ MOVE_NONE ∧ p.pseudo_legal_s ttm = true)
          ∨ ((MovePicker.quiescence env raw p ttm d mh recapSq).ttMove = MOVE_NONE
              ∧ (ttm = MOVE_NONE ∨ p.pseudo_legal_s ttm = false))))) := by
  rw [quiescence_eq]
  by_cases h : p.in_check = true ∨ d > env.DEPTH_QS_NO_CHECKS ∨ d > env.DEPTH_QS_RECAPTURES
  · rw [if_pos h]
    refine ⟨rfl, rfl, Or.inr ⟨h, ?_⟩⟩
    rcases withHashMove_start
      { ({ raw with env := env, pos := p, mainHistory := mh, generated := [] }
          : MovePicker) with
        stage := if p.in_check then EVASION else if d > env.DEPTH_QS_NO_CHECKS
          then QSEARCH_WITH_CHECKS else QSEARCH_NO_CHECKS } ttm
      with ⟨h1, h2, h3, h4⟩ | ⟨h1, h2, h3⟩
    · rw [h1, h2, if_neg h3]
      exact ⟨rfl, Or.inl ⟨rfl, h3, h4⟩⟩
    · rw [h1, h2]
      exact ⟨rfl, Or.inr ⟨rfl, h3⟩⟩
  · rw [if_neg h]
    exact ⟨rfl, rfl, Or.inl ⟨h, rfl⟩⟩

theorem probcut_start (env : Env) (raw : MovePicker) (p : Position) (ttm : Move) (th : Value) :
    (MovePicker.probcut env raw p ttm th).generated = []
    ∧ (((MovePicker.probcut env raw p ttm th).stage = PROBCUT
          ∧ (MovePicker.probcut env raw p ttm th).ttMove = ttm ∧ ttm ≠ MOVE_NONE
          ∧ p.pseudo_legal_s ttm = true ∧ p.capture ttm = true ∧ p.see_ge ttm th = true)
      ∨ ((MovePicker.probcut env raw p ttm th).stage = PROBCUT_INIT
          ∧ (MovePicker.probcut env raw p ttm th).ttMove = MOVE_NONE
          ∧ (ttm = MOVE_NONE ∨ p.pseudo_legal_s ttm = false ∨ p.capture ttm = false
              ∨ p.see_ge ttm th = false))) := by
  have hstage : (MovePicker.probcut env raw p ttm th).stage
      = PROBCUT + (if ((MovePicker.probcut env raw p ttm th).ttMove == MOVE_NONE) = true
          then 1 else 0) := rfl
  have htm : (MovePicker.probcut env raw p ttm th).ttMove
      = if (ttm != MOVE_NONE && p.pseudo_legal_s ttm && p.capture ttm && p.see_ge ttm th) = true
        then ttm else MOVE_NONE := rfl
  refine ⟨rfl, ?_⟩
  by_cases h : (ttm != MOVE_NONE && p.pseudo_legal_s ttm && p.capture ttm && p.see_ge ttm th)
      = true
  · have h2 : ((ttm ≠ MOVE_NONE ∧ p.pseudo_legal_s ttm = true) ∧ p.capture ttm = true)
        ∧ p.see_ge ttm th = true := by simpa using h
    rw [if_pos h] at htm
    left
    refine ⟨?_, htm, h2.1.1.1, h2.1.1.2, h2.1.2, h2.2⟩
    rw [hstage, htm]
    simp [h2.1.1.1]
  · rw [if_neg h] at htm
    right
    refine ⟨?_, htm, ?_⟩
    · rw [hstage, htm]
      rfl
    · by_cases h1 : ttm = MOVE_NONE
      · exact Or.inl h1
      · by_cases h3 : p.pseudo_legal_s ttm = true
        · by_cases h4 : p.capture ttm = true
          · right; right; right
            simpa [h1, h3, h4] using h
          · right; right; left
            simpa using h4
        · right; left
          simpa using h3

/-- Every constructor leaves the picker at the first stage of a protocol with a validated
hash move, or at the stage after it, and with no generator run. -/
theorem constructed_start (mp0 : MovePicker) (hc : Constructed mp0) :
    mp0.generated = []
    ∧ ((ttStage mp0.stage ∧ mp0.ttMove ≠ MOVE_NONE)
      ∨ mp0.stage = CAPTURES_INIT ∨ mp0.stage = EVASIONS_INIT ∨ mp0.stage = PROBCUT_INIT
      ∨ mp0.stage = QCAPTURES_1_INIT ∨ mp0.stage = QCAPTURES_2_INIT
      ∨ mp0.stage = QSEARCH_RECAPTURES) := by
  cases hc with
  | normal env raw p ttm d mh ch cm k0 k1 =>
    refine ⟨rfl, ?_⟩
    cases hcheck : p.in_check with
    | false =>
      rcases (normal_start env raw p ttm d mh ch cm k0 k1).1 hcheck with ⟨h1, h2⟩ | ⟨h1, _⟩
      · exact Or.inl ⟨Or.inl h1, h2⟩
      · exact Or.inr (Or.inl h1)
    | true =>
      rcases (normal_start env raw p ttm d mh ch cm k0 k1).2 hcheck with ⟨h1, h2⟩ | ⟨h1, _⟩
      · exact Or.inl ⟨Or.inr (Or.inl h1), h2⟩
      · exact Or.inr (Or.inr (Or.inl h1))
  | quiescence env raw p ttm d mh recapSq =>
    obtain ⟨hg, _, h⟩ := quiescence_start env raw p ttm d mh recapSq
    refine ⟨hg, ?_⟩
    rcases h with ⟨_, hs⟩ | ⟨_, hs, htt⟩
    · exact Or.inr (Or.inr (Or.inr (Or.inr (Or.inr (Or.inr hs)))))
    · rcases htt with ⟨h1, h2, _⟩ | ⟨h1, _⟩
      · rw [h1, if_neg h2] at hs
        refine Or.inl ⟨?_, by rw [h1]; exact h2⟩
        rw [hs]
        by_cases hc : p.in_check = true
        · rw [if_pos hc]
          exact Or.inr (Or.inl rfl)
        · rw [if_neg hc]
          by_cases hd : d > env.DEPTH_QS_NO_CHECKS
          · rw [if_pos hd]
            exact Or.inr (Or.inr (Or.inl rfl))
          · rw [if_neg hd]
            exact Or.inr (Or.inr (Or.inr (Or.inl rfl)))
      · rw [h1, if_pos rfl] at hs
        right
        rw [hs]
        by_cases hc : p.in_check = true
        · rw [if_pos hc]
          exact Or.inr (Or.inl rfl)
        · rw [if_neg hc]
          by_cases hd : d > env.DEPTH_QS_NO_CHECKS
          · rw [if_pos hd]
            exact Or.inr (Or.inr (Or.inr (Or.inl rfl)))
          · rw [if_neg hd]
            exact Or.inr (Or.inr (Or.inr (Or.inr (Or.inl rfl))))
  | probcut env raw p ttm th =>
    obtain ⟨hg, h⟩ := probcut_start env raw p ttm th
    refine ⟨hg, ?_⟩
    rcases h with ⟨h1, h2, h3, _⟩ | ⟨h1, _⟩
    · exact Or.inl ⟨Or.inr (Or.inr (Or.inr (Or.inr h1))), by rw [h2]; exact h3⟩
    · exact Or.inr (Or.inr (Or.inr (Or.inl h1)))

theorem constructed_inv (S : Move → Prop) (mp0 : MovePicker) (hc : Constructed mp0) :
    PickerInv S mp0 :=
  pickerInv_start S mp0 (constructed_start mp0 hc).1 (constructed_start mp0 hc).2

/-- What holds of every picker that calls of `next_move` lead to from a picker built by a
constructor, and of the call made on it. -/
theorem constructed_reachable (S : Move → Prop) (mp0 mp : MovePicker) (sq : Bool)
    (hc : Constructed mp0) (hgen : Emits S mp0) (hr : Reachable mp0 mp) :
    (PickerInv S mp ∧ Frame mp0 mp ∧ mp0.stage ≤ mp.stage ∧ mp.stage ≤ protocolEnd mp0.stage)
    ∧ Frame mp (next_move_traced mp sq).2.2
    ∧ mp.stage ≤ (next_move_traced mp sq).2.2.stage
    ∧ (next_move_traced mp sq).2.2.stage ≤ protocolEnd mp.stage
    ∧ (ttStage mp.stage ∨ generatingStage mp.stage →
        mp.stage < (next_move_traced mp sq).2.2.stage)
    ∧ ((ttStage mp.stage
          ∧ next_move_traced mp sq = (.ttMove, mp.ttMove, { mp with stage := mp.stage + 1 }))
      ∨ (¬ ttStage mp.stage
          ∧ Site S (next_move_traced mp sq).1 (next_move_traced mp sq).2.1
              (next_move_traced mp sq).2.2))
    ∧ PickerInv S (next_move_traced mp sq).2.2 := by
  have h := reachable_inv S mp0 mp (constructed_inv S mp0 hc) hgen hr
  exact ⟨h, picker_step S sq mp h.1 (h.2.1.emits hgen)⟩

theorem emits_true (mp : MovePicker) : Emits (fun _ => True) mp :=
  fun _ _ _ => trivial

/-! ## The stage only increases -/

theorem stagesOf_ge (S : Move → Prop) :
    ∀ (flags : List Bool) (mp : MovePicker), PickerInv S mp → Emits S mp →
      ∀ s ∈ stagesOf mp flags, mp.stage ≤ s := by
  intro flags
  induction flags with
  | nil =>
    intro mp _ _ s hs
    exact absurd hs (List.not_mem_nil s)
  | cons sq rest ih =>
    intro mp hinv hgen s hs
    obtain ⟨h1, h2, _, _, _, h6⟩ := picker_step S sq mp hinv hgen
    rcases List.mem_cons.1 hs with h | h
    · rw [h]
    · exact le_trans h2 (ih _ h6 (h1.emits hgen) s h)

theorem stagesOf_sorted (S : Move → Prop) :
    ∀ (flags : List Bool) (mp : MovePicker), PickerInv S mp → Emits S mp →
      (stagesOf mp flags).Pairwise (fun a b => a ≤ b) := by
  intro flags
  induction flags with
  | nil =>
    intro mp _ _
    exact List.Pairwise.nil
  | cons sq rest ih =>
    intro mp hinv hgen
    obtain ⟨h1, h2, _, _, _, h6⟩ := picker_step S sq mp hinv hgen
    refine List.Pairwise.cons ?_ (ih _ h6 (h1.emits hgen))
    intro s hs
    exact le_trans h2 (stagesOf_ge S rest _ h6 (h1.emits hgen) s hs)

theorem stagesOf_count (S : Move → Prop) (g : Nat) (hg : ttStage g ∨ generatingStage g) :
    ∀ (flags : List Bool) (mp : MovePicker), PickerInv S mp → Emits S mp →
      (stagesOf mp flags).count g ≤ 1 := by
  intro flags
  induction flags with
  | nil =>
    intro mp _ _
    exact Nat.zero_le _
  | cons sq rest ih =>
    intro mp hinv hgen
    obtain ⟨h1, h2, _, h4, _, h6⟩ := picker_step S sq mp hinv hgen
    show (mp.stage :: stagesOf (next_move mp sq).2 rest).count g ≤ 1
    by_cases hs : mp.stage = g
    · have hnot : g ∉ stagesOf (next_move mp sq).2 rest := by
        intro hmem
        have h7 := stagesOf_ge S rest _ h6 (h1.emits hgen) g hmem
        have h8 := h4 (by rw [hs]; exact hg)
        have h9 : (next_move_traced mp sq).2.2.stage ≤ g := h7
        omega
      rw [hs, List.count_cons_self, List.count_eq_zero_of_not_mem hnot]
    · rw [List.count_cons_of_ne (fun h => hs h.symm)]
      exact ih _ h6 (h1.emits hgen)

theorem generatedAt_nodup (s : Nat) : (generatedAt s).Nodup := by
  unfold generatedAt
  split_ifs <;> decide

/-- C15: for every picker that calls of `next_move` lead to from a picker built by a
constructor, and every `skipQuiets`, the stage after a call is greater than or equal to
the stage before it, and greater when the call starts at a stage that generates moves.
So in every sequence of calls the stages at which the calls start do not decrease and
each generating stage (and each stage that returns the hash move) starts at most one
call. The log of generator runs is the one that belongs to the stage: every generator
has run at most once. -/
theorem stage_never_decreases (mp0 mp : MovePicker) (sq : Bool) (flags : List Bool) (g : Nat)
    (hc : Constructed mp0) (hr : Reachable mp0 mp) :
    mp.stage ≤ (next_move mp sq).2.stage
    ∧ (generatingStage mp.stage → mp.stage < (next_move mp sq).2.stage)
    ∧ (stagesOf mp0 flags).Pairwise (fun a b => a ≤ b)
    ∧ (ttStage g ∨ generatingStage g → (stagesOf mp0 flags).count g ≤ 1)
    ∧ mp.generated = generatedAt mp.stage
    ∧ mp.generated.Nodup := by
  obtain ⟨⟨⟨_, _, _, _, _, hg⟩, _⟩, _, h2, _, h4, _⟩ :=
    constructed_reachable (fun _ => True) mp0 mp sq hc (emits_true mp0) hr
  have h0 := constructed_inv (fun _ => True) mp0 hc
  refine ⟨h2, fun h => h4 (Or.inr h), stagesOf_sorted _ flags mp0 h0 (emits_true mp0),
    fun h => stagesOf_count _ g h flags mp0 h0 (emits_true mp0), hg, ?_⟩
  rw [hg]
  exact generatedAt_nodup _

/-- Witness of C15: the example picker with a killer, after two calls. -/
theorem stage_never_decreases_witness :
    Constructed exKillerPicker
    ∧ Reachable exKillerPicker (after exKillerPicker [false, false])
    ∧ (after exKillerPicker [false, false]).stage
        ≤ (next_move (after exKillerPicker [false, false]) false).2.stage
    ∧ (stagesOf exKillerPicker [false, false, false]).count CAPTURES_INIT ≤ 1 :=
  have hc : Constructed exKillerPicker :=
    Constructed.normal exEnv exRaw exPos 0 3 exHistory exContHistory 0 13 0
  have hr : Reachable exKillerPicker (after exKillerPicker [false, false]) :=
    reachable_after exKillerPicker [false, false] exKillerPicker Reachable.init
  have h := stage_never_decreases exKillerPicker (after exKillerPicker [false, false]) false
    [false, false, false] CAPTURES_INIT hc hr
  ⟨hc, hr, h.1, h.2.2.2.1 (Or.inr (Or.inl rfl))⟩

/-! ## The stage stays within the protocol -/

/-- The stage of a picker that calls lead to from a picker built by a constructor is
within the protocol of the stage at construction, and the call made on it does not take
the `default` branch. -/
theorem in_protocol (mp0 mp : MovePicker) (sq : Bool) (hc : Constructed mp0)
    (hr : Reachable mp0 mp) :
    protocolStart mp0.stage ≤ mp.stage ∧ mp.stage ≤ protocolEnd mp0.stage
    ∧ (next_move_traced mp sq).1 ≠ .unreachable := by
  obtain ⟨⟨_, _, h3, h4⟩, _, _, _, _, h5, _⟩ :=
    constructed_reachable (fun _ => True) mp0 mp sq hc (emits_true mp0) hr
  refine ⟨le_trans (protocolStart_le _) h3, h4, ?_⟩
  rcases h5 with ⟨_, h6⟩ | ⟨_, h6⟩
  · rw [h6]
    exact fun h => ReturnSite.noConfusion h
  · intro h
    rw [h] at h6
    exact h6

/-- C16: for every picker built by a constructor and every sequence of calls of
`next_move` with any arguments, the stage is within the range of the protocol chosen at
construction (MAIN_SEARCH..BAD_CAPTURES, EVASION..ALL_EVASIONS, PROBCUT..PROBCUT_CAPTURES,
QSEARCH_WITH_CHECKS..QCHECKS, QSEARCH_NO_CHECKS..QCAPTURES_2,
QSEARCH_RECAPTURES..QRECAPTURES), and the next call does not take the `default` branch
marked UNREACHABLE. -/
theorem stage_stays_in_protocol (env : Env) (raw : MovePicker) (p : Position) (ttm : Move)
    (d : Depth) (mh : Nat → Color → Value) (ch : Nat → Square → Piece → Value)
    (cm k0 k1 : Move) (recapSq : Square) (th : Value) (flags : List Bool) (sq : Bool) :
    ((if p.in_check then
        EVASION ≤ (after (MovePicker.normal env raw p ttm d mh ch cm k0 k1) flags).stage
        ∧ (after (MovePicker.normal env raw p ttm d mh ch cm k0 k1) flags).stage ≤ ALL_EVASIONS
      else
        MAIN_SEARCH ≤ (after (MovePicker.normal env raw p ttm d mh ch cm k0 k1) flags).stage
        ∧ (after (MovePicker.normal env raw p ttm d mh ch cm k0 k1) flags).stage
            ≤ BAD_CAPTURES)
      ∧ (next_move_traced (after (MovePicker.normal env raw p ttm d mh ch cm k0 k1) flags)
          sq).1 ≠ .unreachable)
    ∧ ((if p.in_check then
        EVASION ≤ (after (MovePicker.quiescence env raw p ttm d mh recapSq) flags).stage
        ∧ (after (MovePicker.quiescence env raw p ttm d mh recapSq) flags).stage ≤ ALL_EVASIONS
      else if d > env.DEPTH_QS_NO_CHECKS then
        QSEARCH_WITH_CHECKS
          ≤ (after (MovePicker.quiescence env raw p ttm d mh recapSq) flags).stage
        ∧ (after (MovePicker.quiescence env raw p ttm d mh recapSq) flags).stage ≤ QCHECKS
      else if d > env.DEPTH_QS_RECAPTURES then
        QSEARCH_NO_CHECKS
          ≤ (after (MovePicker.quiescence env raw p ttm d mh recapSq) flags).stage
        ∧ (after (MovePicker.quiescence env raw p ttm d mh recapSq) flags).stage ≤ QCAPTURES_2
      else
        QSEARCH_RECAPTURES
          ≤ (after (MovePicker.quiescence env raw p ttm d mh recapSq) flags).stage
        ∧ (after (MovePicker.quiescence env raw p ttm d mh recapSq) flags).stage
            ≤ QRECAPTURES)
      ∧ (next_move_traced (after (MovePicker.quiescence env raw p ttm d mh recapSq) flags)
          sq).1 ≠ .unreachable)
    ∧ (PROBCUT ≤ (after (MovePicker.probcut env raw p ttm th) flags).stage
      ∧ (after (MovePicker.probcut env raw p ttm th) flags).stage ≤ PROBCUT_CAPTURES
      ∧ (next_move_traced (after (MovePicker.probcut env raw p ttm th) flags) sq).1
          ≠ .unreachable) := by
  have key : ∀ (mp0 : MovePicker) (a b : Nat), Constructed mp0 →
      (mp0.stage = a ∨ mp0.stage = a + 1) → protocolStart a = a → protocolEnd a = b →
      protocolStart (a + 1) = a → protocolEnd (a + 1) = b →
      (a ≤ (after mp0 flags).stage ∧ (after mp0 flags).stage ≤ b)
      ∧ (next_move_traced (after mp0 flags) sq).1 ≠ .unreachable := by
    intro mp0 a b hc hs h1 h2 h3 h4
    obtain ⟨h5, h6, h7⟩ := in_protocol mp0 (after mp0 flags) sq hc
      (reachable_after mp0 flags mp0 Reachable.init)
    rcases hs with hs | hs
    · rw [hs, h1] at h5
      rw [hs, h2] at h6
      exact ⟨⟨h5, h6⟩, h7⟩
    · rw [hs, h3] at h5
      rw [hs, h4] at h6
      exact ⟨⟨h5, h6⟩, h7⟩
  refine ⟨?_, ?_, ?_⟩
  · have hc := Constructed.normal env raw p ttm d mh ch cm k0 k1
    cases hcheck : p.in_check with
    | false =>
      have hs : (MovePicker.normal env raw p ttm d mh ch cm k0 k1).stage = MAIN_SEARCH
          ∨ (MovePicker.normal env raw p ttm d mh ch cm k0 k1).stage = MAIN_SEARCH + 1 := by
        rcases (normal_start env raw p ttm d mh ch cm k0 k1).1 hcheck with ⟨h1, _⟩ | ⟨h1, _⟩
        · exact Or.inl h1
        · exact Or.inr h1
      simp only [Bool.false_eq_true, if_false]
      exact key _ MAIN_SEARCH BAD_CAPTURES hc hs (by decide) (by decide) (by decide) (by decide)
    | true =>
      have hs : (MovePicker.normal env raw p ttm d mh ch cm k0 k1).stage = EVASION
          ∨ (MovePicker.normal env raw p ttm d mh ch cm k0 k1).stage = EVASION + 1 := by
        rcases (normal_start env raw p ttm d mh ch cm k0 k1).2 hcheck with ⟨h1, _⟩ | ⟨h1, _⟩
        · exact Or.inl h1
        · exact Or.inr h1
      simp only [if_true]
      exact key _ EVASION ALL_EVASIONS hc hs (by decide) (by decide) (by decide) (by decide)
  · have hc := Constructed.quiescence env raw p ttm d mh recapSq
    obtain ⟨_, _, h⟩ := quiescence_start env raw p ttm d mh recapSq
    rcases h with ⟨hcond, hs⟩ | ⟨hcond, hs, _⟩
    · have h1 : ¬ p.in_check = true := fun h => hcond (Or.inl h)
      have h2 : ¬ d > env.DEPTH_QS_NO_CHECKS := fun h => hcond (Or.inr (Or.inl h))
      have h3 : ¬ d > env.DEPTH_QS_RECAPTURES := fun h => hcond (Or.inr (Or.inr h))
      rw [if_neg h1, if_neg h2, if_neg h3]
      obtain ⟨h5, h6, h7⟩ := in_protocol _
        (after (MovePicker.quiescence env raw p ttm d mh recapSq) flags) sq hc
        (reachable_after _ flags _ Reachable.init)
      rw [hs] at h5 h6
      exact ⟨⟨h5, h6⟩, h7⟩
    · have hs2 : ∀ a : Nat, (if p.in_check then EVASION else if d > env.DEPTH_QS_NO_CHECKS
          then QSEARCH_WITH_CHECKS else QSEARCH_NO_CHECKS) = a →
          (MovePicker.quiescence env raw p ttm d mh recapSq).stage = a
          ∨ (MovePicker.quiescence env raw p ttm d mh recapSq).stage = a + 1 := by
        intro a ha
        rw [hs, ha]
        split
        · exact Or.inr rfl
        · exact Or.inl rfl
      by_cases h1 : p.in_check = true
      · rw [if_pos h1]
        exact key _ EVASION ALL_EVASIONS hc (hs2 _ (if_pos h1)) (by decide) (by decide)
          (by decide) (by decide)
      · rw [if_neg h1]
        by_cases h2 : d > env.DEPTH_QS_NO_CHECKS
        · rw [if_pos h2]
          exact key _ QSEARCH_WITH_CHECKS QCHECKS hc
            (hs2 _ (by rw [if_neg h1, if_pos h2])) (by decide) (by decide) (by decide)
            (by decide)
        · rw [if_neg h2]
          have h3 : d > env.DEPTH_QS_RECAPTURES := by
            rcases hcond with h | h | h
            · exact absurd h h1
            · exact absurd h h2
            · exact h
          rw [if_pos h3]
          exact key _ QSEARCH_NO_CHECKS QCAPTURES_2 hc
            (hs2 _ (by rw [if_neg h1, if_neg h2])) (by decide) (by decide) (by decide)
            (by decide)
  · have hc := Constructed.probcut env raw p ttm th
    have hs : (MovePicker.probcut env raw p ttm th).stage = PROBCUT
        ∨ (MovePicker.probcut env raw p ttm th).stage = PROBCUT + 1 := by
      rcases (probcut_start env raw p ttm th).2 with ⟨h1, _⟩ | ⟨h1, _⟩
      · exact Or.inl h1
      · exact Or.inr h1
    obtain ⟨⟨h1, h2⟩, h3⟩ := key _ PROBCUT PROBCUT_CAPTURES hc hs (by decide) (by decide)
      (by decide) (by decide)
    exact ⟨h1, h2, h3⟩

/-- Witness of C16: the example picker with a killer after three calls, the example
ProbCut picker after one call. -/
theorem stage_stays_in_protocol_witness :
    (after exKillerPicker [false, false, true]).stage ≤ BAD_CAPTURES
    ∧ (next_move_traced (after exKillerPicker [false, false, true]) false).1 ≠ .unreachable
    ∧ (after (MovePicker.probcut exEnv exRaw exPos 0 0) [false, false, true]).stage
        ≤ PROBCUT_CAPTURES :=
  have h := stage_stays_in_protocol exEnv exRaw exPos 0 3 exHistory exContHistory 0 13 0 0 0
    [false, false, true] false
  ⟨h.1.1.2, h.1.2, h.2.2.2.1⟩

/-! ## The hash move is returned once -/

theorem site_ne_ttMove (S : Move → Prop) (t : ReturnSite) (m : Move) (mp1 : MovePicker)
    (h : Site S t m mp1) (hne : mp1.ttMove ≠ MOVE_NONE) (hst : mp1.stage ≠ QRECAPTURES) :
    m ≠ mp1.ttMove := by
  cases t with
  | ttMove => exact absurd h not_false
  | goodCapture => exact h.2.1
  | killer =>
    have h1 : mp1.killerAccept m = true := h.1
    unfold MovePicker.killerAccept at h1
    simp only [Bool.and_eq_true, bne_iff_ne, ne_eq] at h1
    exact h1.1.1.2
  | countermove =>
    have h1 : mp1.countermoveAccept m = true := h.1
    unfold MovePicker.countermoveAccept at h1
    simp only [Bool.and_eq_true, bne_iff_ne, ne_eq] at h1
    exact h1.1.1.1.1.2
  | quiet =>
    have h1 : mp1.quietAccept m = true := h.2.1
    unfold MovePicker.quietAccept at h1
    simp only [Bool.and_eq_true, bne_iff_ne, ne_eq] at h1
    exact h1.1.1.1
  | badCapture => exact h.2.1
  | evasion => exact h.2.1
  | probcutCapture => exact h.2.1
  | qCapture => exact h.2.1
  | qCheck => exact h.2.1
  | recapture => exact absurd h.2 hst
  | exhausted =>
    have h1 : m = MOVE_NONE := h.1
    rw [h1]
    exact fun e => hne e.symm
  | unreachable => exact absurd h not_false

theorem after_ttStage (s0 s : Nat) (h0 : ttStage s0) (h1 : s0 + 1 ≤ s)
    (h2 : s ≤ protocolEnd (s0 + 1)) :
    ¬ ttStage s ∧ protocolEnd s ≠ QRECAPTURES := by
  unfold ttStage at h0 ⊢
  unfold protocolEnd at h2 ⊢
  simp only [MAIN_SEARCH, EVASION, PROBCUT, QSEARCH_WITH_CHECKS, QSEARCH_NO_CHECKS,
    BAD_CAPTURES, ALL_EVASIONS, PROBCUT_CAPTURES, QCHECKS, QCAPTURES_2, QRECAPTURES] at h0 h2 ⊢
  rcases h0 with h | h | h | h | h <;> subst h <;> norm_num at h2 <;>
    (split_ifs <;> omega)

/-- A picker that starts at a stage that returns the hash move returns it from the first
call and from no later call. -/
theorem hash_move_once (mp0 : MovePicker) (sq : Bool) (hinv : PickerInv (fun _ => True) mp0)
    (htt : ttStage mp0.stage) :
    mp0.ttMove ≠ MOVE_NONE
    ∧ (next_move mp0 sq).1 = mp0.ttMove
    ∧ ∀ mp, Reachable (next_move mp0 sq).2 mp → ∀ sq2, (next_move mp sq2).1 ≠ mp0.ttMove := by
  have hne : mp0.ttMove ≠ MOVE_NONE := hinv.2.1 htt
  obtain ⟨h1, _, _, _, h5, h6⟩ := picker_step (fun _ => True) sq mp0 hinv (emits_true mp0)
  have hres : next_move_traced mp0 sq
      = (.ttMove, mp0.ttMove, { mp0 with stage := mp0.stage + 1 }) := by
    rcases h5 with ⟨_, h⟩ | ⟨h, _⟩
    · exact h
    · exact absurd htt h
  have hnext : (next_move mp0 sq).2 = { mp0 with stage := mp0.stage + 1 } := by
    show (next_move_traced mp0 sq).2.2 = _
    rw [hres]
  have hfirst : (next_move mp0 sq).1 = mp0.ttMove := by
    show (next_move_traced mp0 sq).2.1 = _
    rw [hres]
  refine ⟨hne, hfirst, ?_⟩
  intro mp hr sq2
  have hinv1 : PickerInv (fun _ => True) (next_move mp0 sq).2 := h6
  obtain ⟨r1, r2, r3, r4⟩ := reachable_inv (fun _ => True) _ mp hinv1 (emits_true _) hr
  rw [hnext] at r2 r3 r4
  have r3b : mp0.stage + 1 ≤ mp.stage := r3
  have r4b : mp.stage ≤ protocolEnd (mp0.stage + 1) := r4
  obtain ⟨a1, a2⟩ := after_ttStage mp0.stage mp.stage htt r3b r4b
  obtain ⟨s1, _, s3, _, s5, _⟩ := picker_step (fun _ => True) sq2 mp r1 (emits_true mp)
  have hfr : Frame mp0 (next_move_traced mp sq2).2.2 :=
    (Frame.trans ⟨_, _, _, _, _, _, rfl⟩ r2).trans s1
  have htm : (next_move_traced mp sq2).2.2.ttMove = mp0.ttMove := hfr.fields.2.1
  rcases s5 with ⟨h, _⟩ | ⟨_, hsite⟩
  · exact absurd h a1
  · have hst : (next_move_traced mp sq2).2.2.stage ≠ QRECAPTURES := by
      intro h
      have h8 : protocolEnd mp.stage ≤ 23 := by
        unfold protocolEnd
        simp only [BAD_CAPTURES, ALL_EVASIONS, PROBCUT_CAPTURES, QCHECKS, QCAPTURES_2,
          QRECAPTURES]
        split_ifs <;> omega
      have h9 : (23 : Nat) ≤ protocolEnd mp.stage := by
        rw [h] at s3
        exact s3
      exact a2 (le_antisymm h8 h9)
    have := site_ne_ttMove _ _ _ _ hsite (by rw [htm]; exact hne) hst
    rw [htm] at this
    exact this

/-- C11: when a constructor accepts the hash move (it is not MOVE_NONE and passes
`pseudo_legal_s<false>`; for the quiescence constructor the position is in check or the
depth is above DEPTH_QS_NO_CHECKS or DEPTH_QS_RECAPTURES, so that the constructor looks
at it; for ProbCut it is also a capture that passes `see_ge(ttm, threshold)`), the first
call of `next_move` returns it and no later call does, whatever the arguments of the
calls. -/
theorem hash_move_returned_once (env : Env) (raw : MovePicker) (p : Position) (ttm : Move)
    (d : Depth) (mh : Nat → Color → Value) (ch : Nat → Square → Piece → Value)
    (cm k0 k1 : Move) (recapSq : Square) (th : Value) (sq sq2 : Bool) (flags : List Bool)
    (hne : ttm ≠ MOVE_NONE) (hpl : p.pseudo_legal_s ttm = true) :
    ((next_move (MovePicker.normal env raw p ttm d mh ch cm k0 k1) sq).1 = ttm
      ∧ (next_move (after (next_move (MovePicker.normal env raw p ttm d mh ch cm k0 k1) sq).2
          flags) sq2).1 ≠ ttm)
    ∧ (p.in_check = true ∨ d > env.DEPTH_QS_NO_CHECKS ∨ d > env.DEPTH_QS_RECAPTURES →
        (next_move (MovePicker.quiescence env raw p ttm d mh recapSq) sq).1 = ttm
        ∧ (next_move (after (next_move (MovePicker.quiescence env raw p ttm d mh recapSq) sq).2
            flags) sq2).1 ≠ ttm)
    ∧ (p.capture ttm = true → p.see_ge ttm th = true →
        (next_move (MovePicker.probcut env raw p ttm th) sq).1 = ttm
        ∧ (next_move (after (next_move (MovePicker.probcut env raw p ttm th) sq).2
            flags) sq2).1 ≠ ttm) := by
  have key : ∀ mp0 : MovePicker, Constructed mp0 → mp0.ttMove = ttm → ttStage mp0.stage →
      (next_move mp0 sq).1 = ttm
      ∧ (next_move (after (next_move mp0 sq).2 flags) sq2).1 ≠ ttm := by
    intro mp0 hc htm htt
    obtain ⟨_, h2, h3⟩ := hash_move_once mp0 sq (constructed_inv _ mp0 hc) htt
    rw [htm] at h2 h3
    exact ⟨h2, h3 _ (reachable_after _ flags _ Reachable.init) sq2⟩
  refine ⟨?_, ?_, ?_⟩
  · have htm : (MovePicker.normal env raw p ttm d mh ch cm k0 k1).ttMove = ttm := by
      rcases normal_ttMove env raw p ttm d mh ch cm k0 k1 with ⟨h, _⟩ | ⟨_, h | h⟩
      · exact h
      · exact absurd h hne
      · rw [hpl] at h
        exact absurd h (by decide)
    apply key _ (Constructed.normal env raw p ttm d mh ch cm k0 k1) htm
    rw [normal_stage, htm, if_neg hne]
    cases p.in_check
    · exact Or.inl rfl
    · exact Or.inr (Or.inl rfl)
  · intro hcond
    obtain ⟨_, _, h⟩ := quiescence_start env raw p ttm d mh recapSq
    rcases h with ⟨h1, _⟩ | ⟨_, hs, h2⟩
    · exact absurd hcond h1
    · have htm : (MovePicker.quiescence env raw p ttm d mh recapSq).ttMove = ttm := by
        rcases h2 with ⟨h, _⟩ | ⟨_, h | h⟩
        · exact h
        · exact absurd h hne
        · rw [hpl] at h
          exact absurd h (by decide)
      apply key _ (Constructed.quiescence env raw p ttm d mh recapSq) htm
      rw [hs, htm, if_neg hne]
      by_cases hc : p.in_check = true
      · rw [if_pos hc]
        exact Or.inr (Or.inl rfl)
      · rw [if_neg hc]
        by_cases hd : d > env.DEPTH_QS_NO_CHECKS
        · rw [if_pos hd]
          exact Or.inr (Or.inr (Or.inl rfl))
        · rw [if_neg hd]
          exact Or.inr (Or.inr (Or.inr (Or.inl rfl)))
  · intro hcap hsee
    rcases (probcut_start env raw p ttm th).2 with ⟨hs, htm, _⟩ | ⟨_, _, h | h | h | h⟩
    · exact key _ (Constructed.probcut env raw p ttm th) htm
        (Or.inr (Or.inr (Or.inr (Or.inr hs))))
    · exact absurd h hne
    · rw [hpl] at h
      exact absurd h (by decide)
    · rw [hcap] at h
      exact absurd h (by decide)
    · rw [hsee] at h
      exact absurd h (by decide)

/-- Witness of C11: the example picker with the quiet move 21 as hash move; the first
call and the third call. -/
theorem hash_move_returned_once_witness :
    (21 : Move) ≠ MOVE_NONE ∧ exPos.pseudo_legal_s 21 = true
    ∧ (next_move (MovePicker.normal exEnv exRaw exPos 21 3 exHistory exContHistory 0 0 0)
        false).1 = 21
    ∧ (next_move (after (next_move
        (MovePicker.normal exEnv exRaw exPos 21 3 exHistory exContHistory 0 0 0) false).2
        [false]) false).1 ≠ 21 :=
  have h := (hash_move_returned_once exEnv exRaw exPos 21 3 exHistory exContHistory 0 0 0 0 0
    false false [false] (by decide) (by decide)).1
  ⟨by decide, by decide, h.1, h.2⟩

/-! ## The quiet phase -/

/-- C12: in a normal-search picker, after any sequence of calls, a move returned by the
`return` statement of QUIET is not the hash move of the picker, not `killers[0]`, not
`killers[1]` and not the counter-move; when the constructor accepted the hash move, the
hash move of the picker is the one supplied. -/
theorem quiet_phase_excludes_special_moves (env : Env) (raw : MovePicker) (p : Position)
    (ttm : Move) (d : Depth) (mh : Nat → Color → Value) (ch : Nat → Square → Piece → Value)
    (cm k0 k1 : Move) (mp : MovePicker) (sq : Bool)
    (hr : Reachable (MovePicker.normal env raw p ttm d mh ch cm k0 k1) mp)
    (hq : (next_move_traced mp sq).1 = .quiet) :
    (next_move mp sq).1 ≠ (MovePicker.normal env raw p ttm d mh ch cm k0 k1).ttMove
    ∧ (next_move mp sq).1 ≠ k0
    ∧ (next_move mp sq).1 ≠ k1
    ∧ (next_move mp sq).1 ≠ cm
    ∧ (ttm ≠ MOVE_NONE → p.pseudo_legal_s ttm = true → (next_move mp sq).1 ≠ ttm)
    ∧ (next_move mp sq).2.stage = QUIET := by
  obtain ⟨⟨_, h1, _, _⟩, h2, _, _, _, h5, _⟩ :=
    constructed_reachable (fun _ => True) _ mp sq
      (Constructed.normal env raw p ttm d mh ch cm k0 k1) (emits_true _) hr
  have hsite : Site (fun _ => True) .quiet (next_move_traced mp sq).2.1
      (next_move_traced mp sq).2.2 := by
    rcases h5 with ⟨_, h⟩ | ⟨_, h⟩
    · rw [h] at hq
      exact ReturnSite.noConfusion hq
    · rw [hq] at h
      exact h
  obtain ⟨_, ha, hs⟩ := hsite
  obtain ⟨_, f2, f3, f4, f5, _⟩ := (h1.trans h2).fields
  unfold MovePicker.quietAccept at ha
  rw [f2, f3, f4, f5] at ha
  simp only [Bool.and_eq_true, bne_iff_ne, ne_eq] at ha
  refine ⟨ha.1.1.1, ha.1.1.2, ha.1.2, ha.2, ?_, hs⟩
  intro hne hpl
  rcases normal_ttMove env raw p ttm d mh ch cm k0 k1 with ⟨h, _⟩ | ⟨_, h | h⟩
  · rw [← h]
    exact ha.1.1.1
  · exact absurd h hne
  · rw [hpl] at h
    exact absurd h (by decide)

/-- Witness of C12: the example picker with the killer 13 after three calls; the fourth
call returns the quiet move 22 from QUIET. -/
theorem quiet_phase_excludes_special_moves_witness :
    Reachable exKillerPicker (after exKillerPicker [false, false, false])
    ∧ (next_move_traced (after exKillerPicker [false, false, false]) false).1 = .quiet
    ∧ (next_move (after exKillerPicker [false, false, false]) false).1 ≠ 13 :=
  have hr : Reachable exKillerPicker (after exKillerPicker [false, false, false]) :=
    reachable_after exKillerPicker [false, false, false] exKillerPicker Reachable.init
  have hq : (next_move_traced (after exKillerPicker [false, false, false]) false).1 = .quiet := by
    decide
  ⟨hr, hq,
    (quiet_phase_excludes_special_moves exEnv exRaw exPos 0 3 exHistory exContHistory 0 13 0
      _ false hr hq).2.1⟩

/-! ## After the sentinel -/

theorem exhausted_call (mp : MovePicker) (sq : Bool) (h : Exhausted mp) :
    next_move_traced mp sq = (.exhausted, MOVE_NONE, mp) := by
  rcases h with ⟨hs, hc⟩ | ⟨hs | hs | hs | hs | hs, hc⟩
  · rw [next_move_traced_BAD_CAPTURES mp sq hs]
    unfold case_BAD_CAPTURES
    rw [if_neg (by omega)]
  · rw [next_move_traced_ALL_EVASIONS mp sq hs]
    exact case_ALL_EVASIONS_done mp hc
  · rw [next_move_traced_PROBCUT_CAPTURES mp sq hs]
    unfold case_PROBCUT_CAPTURES
    rw [pickLoop_done _ _ mp hc]
  · rw [next_move_traced_QCHECKS mp sq hs]
    unfold case_QCHECKS
    rw [scanLoop_done _ _ mp hc]
  · rw [next_move_traced_QCAPTURES_2 mp sq hs]
    unfold case_QCAPTURES
    rw [pickLoop_done _ _ mp hc]
    simp only []
    rw [if_pos hs]
  · rw [next_move_traced_QRECAPTURES mp sq hs]
    unfold case_QRECAPTURES
    rw [pickLoop_done _ _ mp hc]

theorem exhausted_after (mp : MovePicker) (h : Exhausted mp) :
    ∀ flags : List Bool, after mp flags = mp := by
  intro flags
  induction flags with
  | nil => rfl
  | cons sq rest ih =>
    show after (next_move_traced mp sq).2.2 rest = mp
    rw [exhausted_call mp sq h]
    exact ih

theorem site_sentinel (t : ReturnSite) (mp1 : MovePicker)
    (h : Site (fun m => m ≠ MOVE_NONE) t MOVE_NONE mp1) : t = .exhausted ∧ Exhausted mp1 := by
  cases t with
  | ttMove => exact absurd h not_false
  | goodCapture => exact absurd rfl h.1
  | killer =>
    have h1 : mp1.killerAccept MOVE_NONE = true := h.1
    exact absurd rfl (killerAccept_ne_none mp1 _ h1)
  | countermove =>
    have h1 : mp1.countermoveAccept MOVE_NONE = true := h.1
    unfold MovePicker.countermoveAccept at h1
    simp at h1
  | quiet => exact absurd rfl h.1
  | badCapture => exact absurd rfl h.1
  | evasion => exact absurd rfl h.1
  | probcutCapture => exact absurd rfl h.1
  | qCapture => exact absurd rfl h.1
  | qCheck => exact absurd rfl h.1
  | recapture => exact absurd rfl h.1
  | exhausted => exact ⟨rfl, h.2⟩
  | unreachable => exact absurd h not_false

/-- C18: for a picker built by a constructor on a position whose generators never emit
MOVE_NONE, after any sequence of calls: when a call returns MOVE_NONE it is the `return`
at the end of the last stage of the protocol with an empty range, every later call
returns MOVE_NONE too, whatever its argument, and the picker (the stage, the cursors,
the buffer) is after any number of later calls what it was after that call. -/
theorem sentinel_is_absorbing (mp0 mp : MovePicker) (sq sq2 : Bool) (flags : List Bool)
    (hc : Constructed mp0)
    (hgen : ∀ T, MOVE_NONE ∉ mp0.pos.generate mp0.recaptureSquare T)
    (hr : Reachable mp0 mp) (hnone : (next_move mp sq).1 = MOVE_NONE) :
    (next_move_traced mp sq).1 = .exhausted
    ∧ Exhausted (next_move mp sq).2
    ∧ after (next_move mp sq).2 flags = (next_move mp sq).2
    ∧ (next_move (after (next_move mp sq).2 flags) sq2).1 = MOVE_NONE
    ∧ (next_move (after (next_move mp sq).2 flags) sq2).2 = (next_move mp sq).2 := by
  have hemit : Emits (fun m => m ≠ MOVE_NONE) mp0 := by
    intro T m hm h
    rw [h] at hm
    exact hgen T hm
  obtain ⟨⟨⟨_, h1, _⟩, _⟩, _, _, _, _, h5, _⟩ :=
    constructed_reachable (fun m => m ≠ MOVE_NONE) mp0 mp sq hc hemit hr
  have hnone2 : (next_move_traced mp sq).2.1 = MOVE_NONE := hnone
  have hex : (next_move_traced mp sq).1 = .exhausted ∧ Exhausted (next_move_traced mp sq).2.2 := by
    rcases h5 with ⟨h6, h7⟩ | ⟨_, h7⟩
    · rw [h7] at hnone2
      exact absurd hnone2 (h1 h6)
    · rw [hnone2] at h7
      exact site_sentinel _ _ h7
  have hfix := exhausted_after _ hex.2 flags
  have hfix2 : after (next_move mp sq).2 flags = (next_move mp sq).2 := hfix
  refine ⟨hex.1, hex.2, hfix2, ?_, ?_⟩
  · rw [hfix2]
    show (next_move_traced (next_move_traced mp sq).2.2 sq2).2.1 = MOVE_NONE
    rw [exhausted_call _ sq2 hex.2]
  · rw [hfix2]
    show (next_move_traced (next_move_traced mp sq).2.2 sq2).2.2 = _
    rw [exhausted_call _ sq2 hex.2]
    rfl

/-- Witness of C18: the example picker with a killer; the seventh call returns
MOVE_NONE, and so does the call after two more calls. -/
theorem sentinel_is_absorbing_witness :
    Constructed exKillerPicker
    ∧ (next_move (after exKillerPicker [false, false, false, false, false, false]) false).1
        = MOVE_NONE
    ∧ (next_move (after (next_move
        (after exKillerPicker [false, false, false, false, false, false]) false).2
        [true, false]) true).1 = MOVE_NONE :=
  have hc : Constructed exKillerPicker :=
    Constructed.normal exEnv exRaw exPos 0 3 exHistory exContHistory 0 13 0
  have hn : (next_move (after exKillerPicker [false, false, false, false, false, false])
      false).1 = MOVE_NONE := by decide
  ⟨hc, hn,
    (sentinel_is_absorbing exKillerPicker
      (after exKillerPicker [false, false, false, false, false, false]) false true
      [true, false] hc (by intro T; cases T <;> decide)
      (reachable_after exKillerPicker _ exKillerPicker Reachable.init) hn).2.2.2.1⟩

/-! ## Best-selector phases pick in non-increasing order -/

theorem Picked.mono {v w : Value} {m : Move} {mp1 : MovePicker} (h : Picked v m mp1) :
    Picked (max v w) m mp1 :=
  ⟨h.1, h.2.1, h.2.2.1, le_trans h.2.2.2.1 (le_max_left _ _), h.2.2.2.2⟩

theorem goodCapturesLoop_stage :
    ∀ (n : Nat) (mp : MovePicker), (goodCapturesLoop n mp).2.stage = mp.stage := by
  intro n
  induction n with
  | zero => exact fun mp => rfl
  | succ n ih =>
    intro mp
    rw [goodCapturesLoop_succ]
    split
    · split
      · split
        · rfl
        · exact ih _
      · exact ih _
    · rfl

theorem setAsideLog_succ (n : Nat) (mp : MovePicker) :
    setAsideLog (n + 1) mp
      = if mp.cur < mp.endMoves then
          (if (pick_best mp.moves mp.cur mp.endMoves).1 != mp.ttMove then
            (if mp.pos.see_ge (pick_best mp.moves mp.cur mp.endMoves).1 0 then []
            else
              (mp.endBadCaptures, mp.cur + 1, (pick_best mp.moves mp.cur mp.endMoves).1) ::
                setAsideLog n
                  { mp with
                    moves := fun i =>
                      if i = mp.endBadCaptures then
                        { (pick_best mp.moves mp.cur mp.endMoves).2 i with
                          move := (pick_best mp.moves mp.cur mp.endMoves).1 }
                      else (pick_best mp.moves mp.cur mp.endMoves).2 i,
                    cur := mp.cur + 1,
                    endBadCaptures := mp.endBadCaptures + 1 })
          else
            setAsideLog n
              { mp with moves := (pick_best mp.moves mp.cur mp.endMoves).2, cur := mp.cur + 1 })
        else [] := rfl

/-- The loop of GOOD_CAPTURES and its writes: every write goes to a slot below `cur`, at
or above the `endBadCaptures` of the start; after the loop the slots below
`endBadCaptures` hold the moves they held at the start followed by the moves written, in
the order of the writes. -/
theorem goodCapturesLoop_log :
    ∀ (n : Nat) (mp : MovePicker), mp.endBadCaptures ≤ mp.cur →
      (goodCapturesLoop n mp).2.endBadCaptures = mp.endBadCaptures + (setAsideLog n mp).length
      ∧ (goodCapturesLoop n mp).2.endBadCaptures ≤ (goodCapturesLoop n mp).2.cur
      ∧ (∀ x ∈ setAsideLog n mp, mp.endBadCaptures ≤ x.1 ∧ x.1 < x.2.1 ∧ x.2.1 ≤ mp.endMoves)
      ∧ movesOf (slice (goodCapturesLoop n mp).2.moves 0 (goodCapturesLoop n mp).2.endBadCaptures)
          = movesOf (slice mp.moves 0 mp.endBadCaptures)
            ++ (setAsideLog n mp).map (fun x => x.2.2) := by
  intro n
  induction n with
  | zero =>
    intro mp h
    exact ⟨rfl, h, fun x hx => absurd hx (List.not_mem_nil x), by simp [goodCapturesLoop, setAsideLog]⟩
  | succ n ih =>
    intro mp h
    rw [goodCapturesLoop_succ, setAsideLog_succ]
    by_cases hc : mp.cur < mp.endMoves
    · rw [if_pos hc, if_pos hc]
      obtain ⟨_, _, _, hframe⟩ := pick_best_spec mp.moves hc
      generalize pick_best mp.moves mp.cur mp.endMoves = pb at hframe ⊢
      have hsl : slice pb.2 0 mp.endBadCaptures = slice mp.moves 0 mp.endBadCaptures :=
        slice_congr (fun i _ hi => hframe i (Or.inl (by omega)))
      by_cases htt : (pb.1 != mp.ttMove) = true
      · rw [if_pos htt, if_pos htt]
        by_cases hsee : mp.pos.see_ge pb.1 0 = true
        · rw [if_pos hsee, if_pos hsee]
          refine ⟨rfl, ?_, fun x hx => absurd hx (List.not_mem_nil x), ?_⟩
          · show mp.endBadCaptures ≤ mp.cur + 1
            omega
          · show movesOf (slice pb.2 0 mp.endBadCaptures) = _
            rw [hsl]
            simp
        · rw [if_neg hsee, if_neg hsee]
          obtain ⟨h1, h2, h3, h4⟩ := ih
            { mp with
              moves := fun i =>
                if i = mp.endBadCaptures then { pb.2 i with move := pb.1 } else pb.2 i,
              cur := mp.cur + 1, endBadCaptures := mp.endBadCaptures + 1 }
            (by show mp.endBadCaptures + 1 ≤ mp.cur + 1; omega)
          refine ⟨?_, h2, ?_, ?_⟩
          · rw [h1]
            show mp.endBadCaptures + 1 + _ = mp.endBadCaptures + (_ + 1)
            omega
          · intro x hx
            rcases List.mem_cons.1 hx with hx1 | hx1
            · rw [hx1]
              exact ⟨le_refl _, by show mp.endBadCaptures < mp.cur + 1; omega,
                by show mp.cur + 1 ≤ mp.endMoves; omega⟩
            · obtain ⟨a1, a2, a3⟩ := h3 x hx1
              have a1b : mp.endBadCaptures + 1 ≤ x.1 := a1
              exact ⟨by omega, a2, a3⟩
          · rw [h4]
            show movesOf (slice (fun i =>
                if i = mp.endBadCaptures then { pb.2 i with move := pb.1 } else pb.2 i) 0
                (mp.endBadCaptures + 1)) ++ _ = _
            rw [slice_snoc (Nat.zero_le _)]
            have hs2 : slice (fun i =>
                if i = mp.endBadCaptures then { pb.2 i with move := pb.1 } else pb.2 i) 0
                mp.endBadCaptures = slice mp.moves 0 mp.endBadCaptures := by
              rw [← hsl]
              apply slice_congr
              intro i _ hi
              rw [if_neg (by omega)]
            rw [hs2]
            simp [movesOf]
      · rw [if_neg htt, if_neg htt]
        obtain ⟨h1, h2, h3, h4⟩ := ih { mp with moves := pb.2, cur := mp.cur + 1 }
          (by show mp.endBadCaptures ≤ mp.cur + 1; omega)
        refine ⟨h1, h2, ?_, ?_⟩
        · intro x hx
          exact h3 x hx
        · rw [h4]
          show movesOf (slice pb.2 0 mp.endBadCaptures) ++ _ = _
          rw [hsl]
    · rw [if_neg hc, if_neg hc]
      exact ⟨rfl, h, fun x hx => absurd hx (List.not_mem_nil x), by simp⟩

theorem pendingBad_before (mp : MovePicker) (h1 : GOOD_CAPTURES ≤ mp.stage)
    (h2 : mp.stage ≠ BAD_CAPTURES) :
    pendingBad mp = movesOf (slice mp.moves 0 mp.endBadCaptures) := by
  unfold pendingBad
  rw [if_neg (by omega), if_neg h2]

theorem pendingBad_at (mp : MovePicker) (h : mp.stage = BAD_CAPTURES) :
    pendingBad mp = movesOf (slice mp.moves mp.cur mp.endBadCaptures) := by
  unfold pendingBad
  rw [if_neg (by rw [h]; decide), if_pos h]

theorem bad_BAD_CAPTURES (mp : MovePicker) (hs : mp.stage = BAD_CAPTURES) :
    BadRel (pendingBad mp) (case_BAD_CAPTURES mp) := by
  rw [pendingBad_at mp hs]
  unfold case_BAD_CAPTURES
  by_cases hc : mp.cur < mp.endBadCaptures
  · rw [if_pos hc]
    refine ⟨by show KILLER0 ≤ mp.stage; rw [hs]; decide, le_of_eq hs, ?_⟩
    rw [if_pos rfl]
    rw [pendingBad_at _ (show ({ mp with cur := mp.cur + 1 } : MovePicker).stage = BAD_CAPTURES
      from hs)]
    exact movesOf_slice_cons hc
  · rw [if_neg hc]
    refine ⟨by show KILLER0 ≤ mp.stage; rw [hs]; decide, le_of_eq hs, ?_⟩
    rw [if_neg (by simp)]
    exact pendingBad_at mp hs

theorem bad_QUIET (mp : MovePicker) (sq : Bool) (hs : mp.stage = QUIET) :
    BadRel (movesOf (slice mp.moves 0 mp.endBadCaptures)) (case_QUIET mp sq) := by
  have hscan : ∀ (accept : Move → Bool) (n : Nat), ∃ c,
      (scanLoop accept n mp).2 = { mp with cur := c } := fun accept n =>
    (scanLoop_inv accept n mp).1
  have hfall : ∀ c : Nat, BadRel (movesOf (slice mp.moves 0 mp.endBadCaptures))
      (case_BAD_CAPTURES
        { ({ mp with cur := c } : MovePicker) with stage := mp.stage + 1, cur := 0 }) := by
    intro c
    have h := bad_BAD_CAPTURES
      { ({ mp with cur := c } : MovePicker) with stage := mp.stage + 1, cur := 0 }
      (by show mp.stage + 1 = BAD_CAPTURES; rw [hs])
    rw [pendingBad_at _ (by show mp.stage + 1 = BAD_CAPTURES; rw [hs])] at h
    exact h
  unfold case_QUIET
  generalize hr : (if (!sq) = true then scanLoop mp.quietAccept (mp.endMoves - mp.cur) mp
    else (none, mp)) = r
  have hc : ∃ c, r.2 = { mp with cur := c } := by
    rw [← hr]
    split
    · exact hscan _ _
    · exact ⟨mp.cur, rfl⟩
  obtain ⟨o, mp1⟩ := r
  obtain ⟨c, hc⟩ := hc
  simp only at hc
  subst hc
  cases o with
  | some move =>
    refine ⟨by show KILLER0 ≤ mp.stage; rw [hs]; decide,
      by show mp.stage ≤ BAD_CAPTURES; rw [hs]; decide, ?_⟩
    rw [if_neg (by simp)]
    exact pendingBad_before _ (by show GOOD_CAPTURES ≤ mp.stage; rw [hs]; decide)
      (by show mp.stage ≠ BAD_CAPTURES; rw [hs]; decide)
  | none => exact hfall c

theorem bad_QUIET_INIT (mp : MovePicker) (sq : Bool) (hs : mp.stage = QUIET_INIT) :
    BadRel (movesOf (slice mp.moves 0 mp.endBadCaptures)) (case_QUIET_INIT mp sq) := by
  obtain ⟨buf, hb1, _, hb3⟩ := case_QUIET_INIT_eq mp sq
  rw [hb3]
  have h := bad_QUIET
    { mp with
      stage := mp.stage + 1, moves := buf, cur := mp.endBadCaptures,
      endMoves := mp.endBadCaptures + mp.pos.genNON_CAPTURES_PRO_MINUS.length,
      generated := mp.generated ++ [MOVE_GEN_TYPE.NON_CAPTURES_PRO_MINUS] } sq
    (by show mp.stage + 1 = QUIET; rw [hs])
  have he : slice buf 0 mp.endBadCaptures = slice mp.moves 0 mp.endBadCaptures :=
    slice_congr (fun i _ hi => hb1 i hi)
  rw [← he]
  exact h

theorem bad_COUNTERMOVE (mp : MovePicker) (sq : Bool) (hs : mp.stage = COUNTERMOVE) :
    BadRel (movesOf (slice mp.moves 0 mp.endBadCaptures)) (case_COUNTERMOVE mp sq) := by
  unfold case_COUNTERMOVE
  simp only []
  split
  · refine ⟨by show KILLER0 ≤ mp.stage + 1; rw [hs]; decide,
      by show mp.stage + 1 ≤ BAD_CAPTURES; rw [hs]; decide, ?_⟩
    rw [if_neg (by simp)]
    exact pendingBad_before _ (by show GOOD_CAPTURES ≤ mp.stage + 1; rw [hs]; decide)
      (by show mp.stage + 1 ≠ BAD_CAPTURES; rw [hs]; decide)
  · exact bad_QUIET_INIT { mp with stage := mp.stage + 1 } sq
      (by show mp.stage + 1 = QUIET_INIT; rw [hs])

theorem bad_KILLER1 (mp : MovePicker) (sq : Bool) (hs : mp.stage = KILLER1) :
    BadRel (movesOf (slice mp.moves 0 mp.endBadCaptures)) (case_KILLER mp sq) := by
  rw [case_KILLER_stage4 mp sq hs]
  split
  · refine ⟨by show KILLER0 ≤ mp.stage + 1; rw [hs]; decide,
      by show mp.stage + 1 ≤ BAD_CAPTURES; rw [hs]; decide, ?_⟩
    rw [if_neg (by simp)]
    exact pendingBad_before _ (by show GOOD_CAPTURES ≤ mp.stage + 1; rw [hs]; decide)
      (by show mp.stage + 1 ≠ BAD_CAPTURES; rw [hs]; decide)
  · exact bad_COUNTERMOVE { mp with stage := mp.stage + 1 } sq
      (by show mp.stage + 1 = COUNTERMOVE; rw [hs])

theorem bad_KILLER0 (mp : MovePicker) (sq : Bool) (hs : mp.stage = KILLER0) :
    BadRel (movesOf (slice mp.moves 0 mp.endBadCaptures)) (case_KILLER mp sq) := by
  rw [case_KILLER_stage3 mp sq hs]
  split
  · refine ⟨by show KILLER0 ≤ mp.stage + 1; rw [hs]; decide,
      by show mp.stage + 1 ≤ BAD_CAPTURES; rw [hs]; decide, ?_⟩
    rw [if_neg (by simp)]
    exact pendingBad_before _ (by show GOOD_CAPTURES ≤ mp.stage + 1; rw [hs]; decide)
      (by show mp.stage + 1 ≠ BAD_CAPTURES; rw [hs]; decide)
  · split
    · refine ⟨by show KILLER0 ≤ mp.stage + 1 + 1; rw [hs]; decide,
        by show mp.stage + 1 + 1 ≤ BAD_CAPTURES; rw [hs]; decide, ?_⟩
      rw [if_neg (by simp)]
      exact pendingBad_before _ (by show GOOD_CAPTURES ≤ mp.stage + 1 + 1; rw [hs]; decide)
        (by show mp.stage + 1 + 1 ≠ BAD_CAPTURES; rw [hs]; decide)
    · exact bad_COUNTERMOVE { mp with stage := mp.stage + 1 + 1 } sq
        (by show mp.stage + 1 + 1 = COUNTERMOVE; rw [hs])

theorem bad_GOOD_CAPTURES (mp : MovePicker) (sq : Bool) (hs : mp.stage = GOOD_CAPTURES)
    (hbc : mp.endBadCaptures ≤ mp.cur) :
    (case_GOOD_CAPTURES mp sq).2.2.stage ≤ BAD_CAPTURES
    ∧ ((case_GOOD_CAPTURES mp sq).2.2.stage = GOOD_CAPTURES →
        (case_GOOD_CAPTURES mp sq).2.2.endBadCaptures ≤ (case_GOOD_CAPTURES mp sq).2.2.cur)
    ∧ (if (case_GOOD_CAPTURES mp sq).1 = .badCapture then
        movesOf (slice mp.moves 0 mp.endBadCaptures)
            ++ (setAsideLog (mp.endMoves - mp.cur) mp).map (fun x => x.2.2)
          = (case_GOOD_CAPTURES mp sq).2.1 :: pendingBad (case_GOOD_CAPTURES mp sq).2.2
      else
        pendingBad (case_GOOD_CAPTURES mp sq).2.2
          = movesOf (slice mp.moves 0 mp.endBadCaptures)
            ++ (setAsideLog (mp.endMoves - mp.cur) mp).map (fun x => x.2.2)) := by
  obtain ⟨_, k2, _, k4⟩ := goodCapturesLoop_log (mp.endMoves - mp.cur) mp hbc
  have hst := goodCapturesLoop_stage (mp.endMoves - mp.cur) mp
  unfold case_GOOD_CAPTURES
  generalize goodCapturesLoop (mp.endMoves - mp.cur) mp = r at k2 k4 hst ⊢
  obtain ⟨o, mp1⟩ := r
  simp only at k2 k4 hst
  cases o with
  | some move =>
    refine ⟨by show mp1.stage ≤ BAD_CAPTURES; rw [hst, hs]; decide, fun _ => k2, ?_⟩
    rw [if_neg (by simp)]
    show pendingBad mp1 = _
    rw [pendingBad_before mp1 (by rw [hst, hs]) (by rw [hst, hs]; decide)]
    exact k4
  | none =>
    obtain ⟨b1, b2, b3⟩ := bad_KILLER0 { mp1 with stage := mp1.stage + 1 } sq
      (by show mp1.stage + 1 = KILLER0; rw [hst, hs])
    refine ⟨b2, ?_, ?_⟩
    · intro h
      have h2 : KILLER0 ≤ GOOD_CAPTURES := by
        rw [← h]
        exact b1
      exact absurd h2 (by decide)
    · have k5 : movesOf (slice ({ mp1 with stage := mp1.stage + 1 } : MovePicker).moves 0
          ({ mp1 with stage := mp1.stage + 1 } : MovePicker).endBadCaptures)
          = movesOf (slice mp.moves 0 mp.endBadCaptures)
            ++ (setAsideLog (mp.endMoves - mp.cur) mp).map (fun x => x.2.2) := k4
      rw [k5] at b3
      exact b3

/-- One call on a normal-search picker off check: the moves that BAD_CAPTURES has to
return after the call are those it had to return before it followed by the moves that the
call set aside, without the move that the call returned from BAD_CAPTURES, if any. -/
theorem bad_call (mp : MovePicker) (sq : Bool) (hs : mp.stage ≤ BAD_CAPTURES)
    (hbc : mp.stage = GOOD_CAPTURES → mp.endBadCaptures ≤ mp.cur) :
    (next_move_traced mp sq).2.2.stage ≤ BAD_CAPTURES
    ∧ ((next_move_traced mp sq).2.2.stage = GOOD_CAPTURES →
        (next_move_traced mp sq).2.2.endBadCaptures ≤ (next_move_traced mp sq).2.2.cur)
    ∧ (if (next_move_traced mp sq).1 = .badCapture then
        pendingBad mp ++ setAsideCall mp
          = (next_move_traced mp sq).2.1 :: pendingBad (next_move_traced mp sq).2.2
      else pendingBad (next_move_traced mp sq).2.2 = pendingBad mp ++ setAsideCall mp) := by
  have hrel : ∀ r : ReturnSite × Move × MovePicker, mp.stage ≠ CAPTURES_INIT →
      mp.stage ≠ GOOD_CAPTURES → BadRel (pendingBad mp) r →
      r.2.2.stage ≤ BAD_CAPTURES
      ∧ (r.2.2.stage = GOOD_CAPTURES → r.2.2.endBadCaptures ≤ r.2.2.cur)
      ∧ (if r.1 = .badCapture then pendingBad mp ++ setAsideCall mp = r.2.1 :: pendingBad r.2.2
        else pendingBad r.2.2 = pendingBad mp ++ setAsideCall mp) := by
    intro r h1 h2 ⟨b1, b2, b3⟩
    have hsa : setAsideCall mp = [] := by
      unfold setAsideCall
      rw [if_neg h1, if_neg h2]
    rw [hsa, List.append_nil]
    refine ⟨b2, ?_, b3⟩
    intro h
    have h3 : KILLER0 ≤ GOOD_CAPTURES := by
      rw [← h]
      exact b1
    exact absurd h3 (by decide)
  have hcases : mp.stage = 0 ∨ mp.stage = 1 ∨ mp.stage = 2 ∨ mp.stage = 3 ∨ mp.stage = 4
      ∨ mp.stage = 5 ∨ mp.stage = 6 ∨ mp.stage = 7 ∨ mp.stage = 8 := by
    have : mp.stage ≤ 8 := hs
    omega
  rcases hcases with h | h | h | h | h | h | h | h | h
  · rw [next_move_traced_ttStage mp sq (Or.inl h)]
    have hsa : setAsideCall mp = [] := by
      unfold setAsideCall
      rw [if_neg (by rw [h]; decide), if_neg (by rw [h]; decide)]
    have hp : pendingBad mp = [] := by
      unfold pendingBad
      rw [if_pos (by rw [h]; decide)]
    have hp1 : pendingBad ({ mp with stage := mp.stage + 1 } : MovePicker) = [] := by
      unfold pendingBad
      rw [if_pos (by show mp.stage + 1 < GOOD_CAPTURES; rw [h]; decide)]
    refine ⟨by show mp.stage + 1 ≤ BAD_CAPTURES; rw [h]; decide, ?_, ?_⟩
    · intro h2
      have h3 : mp.stage + 1 = GOOD_CAPTURES := h2
      rw [h] at h3
      exact absurd h3 (by decide)
    · rw [if_neg (by simp), hsa, hp, hp1]
      rfl
  · rw [next_move_traced_CAPTURES_INIT mp sq h]
    have hsa : setAsideCall mp
        = (setAsideLog
            (({ (({ mp with endBadCaptures := 0, cur := 0 } : MovePicker).generateMoves
                .CAPTURES_PRO_PLUS 0).score_CAPTURES with stage := mp.stage + 1 }
              : MovePicker).endMoves - 0)
            { (({ mp with endBadCaptures := 0, cur := 0 } : MovePicker).generateMoves
                .CAPTURES_PRO_PLUS 0).score_CAPTURES with stage := mp.stage + 1 }).map
          (fun x => x.2.2) := by
      unfold setAsideCall
      rw [if_pos h]
      rfl
    have hp : pendingBad mp = [] := by
      unfold pendingBad
      rw [if_pos (by rw [h]; decide)]
    obtain ⟨g1, g2, g3⟩ := bad_GOOD_CAPTURES
      { (({ mp with endBadCaptures := 0, cur := 0 } : MovePicker).generateMoves
          .CAPTURES_PRO_PLUS 0).score_CAPTURES with stage := mp.stage + 1 } sq
      (by show mp.stage + 1 = GOOD_CAPTURES; rw [h]) (le_refl 0)
    have hz : ∀ buf : Buffer, movesOf (slice buf 0 0) = [] := fun buf => by
      rw [slice_of_le (le_refl 0)]
      rfl
    rw [hsa, hp, List.nil_append]
    refine ⟨g1, g2, ?_⟩
    have g4 := g3
    simp only [hz, List.nil_append] at g4
    exact g4
  · rw [next_move_traced_GOOD_CAPTURES mp sq h]
    have hsa : setAsideCall mp = (setAsideLog (mp.endMoves - mp.cur) mp).map (fun x => x.2.2) := by
      unfold setAsideCall
      rw [if_neg (by rw [h]; decide), if_pos h]
    rw [hsa, pendingBad_before mp (by rw [h]) (by rw [h]; decide)]
    exact bad_GOOD_CAPTURES mp sq h (hbc h)
  · rw [next_move_traced_KILLER0 mp sq h]
    apply hrel _ (by rw [h]; decide) (by rw [h]; decide)
    rw [pendingBad_before mp (by rw [h]; decide) (by rw [h]; decide)]
    exact bad_KILLER0 mp sq h
  · rw [next_move_traced_KILLER1 mp sq h]
    apply hrel _ (by rw [h]; decide) (by rw [h]; decide)
    rw [pendingBad_before mp (by rw [h]; decide) (by rw [h]; decide)]
    exact bad_KILLER1 mp sq h
  · rw [next_move_traced_COUNTERMOVE mp sq h]
    apply hrel _ (by rw [h]; decide) (by rw [h]; decide)
    rw [pendingBad_before mp (by rw [h]; decide) (by rw [h]; decide)]
    exact bad_COUNTERMOVE mp sq h
  · rw [next_move_traced_QUIET_INIT mp sq h]
    apply hrel _ (by rw [h]; decide) (by rw [h]; decide)
    rw [pendingBad_before mp (by rw [h]; decide) (by rw [h]; decide)]
    exact bad_QUIET_INIT mp sq h
  · rw [next_move_traced_QUIET mp sq h]
    apply hrel _ (by rw [h]; decide) (by rw [h]; decide)
    rw [pendingBad_before mp (by rw [h]; decide) (by rw [h]; decide)]
    exact bad_QUIET mp sq h
  · rw [next_move_traced_BAD_CAPTURES mp sq h]
    apply hrel _ (by rw [h]; decide) (by rw [h]; decide)
    exact bad_BAD_CAPTURES mp h

theorem badMoves_cons (t : ReturnSite) (m : Move) (l : List (ReturnSite × Move)) :
    badMoves ((t, m) :: l) = if t = .badCapture then m :: badMoves l else badMoves l := by
  unfold badMoves
  by_cases h : t = .badCapture
  · rw [if_pos h, List.filter_cons_of_pos (by simpa using h)]
    rfl
  · rw [if_neg h, List.filter_cons_of_neg (by simpa using h)]

/-- Any sequence of calls on a normal-search picker off check: the moves returned by
BAD_CAPTURES, followed by those it has still to return, are the moves it had to return at
the start followed by the moves set aside during the calls, in order. -/
theorem bad_run : ∀ (flags : List Bool) (mp : MovePicker), mp.stage ≤ BAD_CAPTURES →
    (mp.stage = GOOD_CAPTURES → mp.endBadCaptures ≤ mp.cur) →
    badMoves (run mp flags) ++ pendingBad (after mp flags)
      = pendingBad mp ++ setAsideRun mp flags := by
  intro flags
  induction flags with
  | nil =>
    intro mp _ _
    show badMoves [] ++ pendingBad mp = pendingBad mp ++ []
    rw [List.append_nil]
    rfl
  | cons sq rest ih =>
    intro mp hs hbc
    obtain ⟨h1, h2, h3⟩ := bad_call mp sq hs hbc
    have ih2 := ih (next_move mp sq).2 h1 h2
    show badMoves (((next_move_traced mp sq).1, (next_move_traced mp sq).2.1)
        :: run (next_move mp sq).2 rest) ++ pendingBad (after (next_move mp sq).2 rest)
      = pendingBad mp ++ (setAsideCall mp ++ setAsideRun (next_move mp sq).2 rest)
    rw [badMoves_cons, ← List.append_assoc]
    by_cases ht : (next_move_traced mp sq).1 = .badCapture
    · rw [if_pos ht] at h3 ⊢
      rw [h3, List.cons_append, ih2]
      rfl
    · rw [if_neg ht] at h3 ⊢
      rw [ih2]
      have h4 : pendingBad (next_move mp sq).2 = pendingBad mp ++ setAsideCall mp := h3
      rw [h4]

theorem case_BAD_CAPTURES_buffer (mp : MovePicker) :
    (case_BAD_CAPTURES mp).2.2.moves = mp.moves
    ∧ (case_BAD_CAPTURES mp).2.2.endBadCaptures = mp.endBadCaptures := by
  unfold case_BAD_CAPTURES
  split <;> exact ⟨rfl, rfl⟩

theorem case_QUIET_buffer (mp : MovePicker) (sq : Bool) :
    (case_QUIET mp sq).2.2.moves = mp.moves
    ∧ (case_QUIET mp sq).2.2.endBadCaptures = mp.endBadCaptures := by
  have hscan : ∀ (accept : Move → Bool) (n : Nat), ∃ c,
      (scanLoop accept n mp).2 = { mp with cur := c } := fun accept n =>
    (scanLoop_inv accept n mp).1
  unfold case_QUIET
  generalize hr : (if (!sq) = true then scanLoop mp.quietAccept (mp.endMoves - mp.cur) mp
    else (none, mp)) = r
  have hc : ∃ c, r.2 = { mp with cur := c } := by
    rw [← hr]
    split
    · exact hscan _ _
    · exact ⟨mp.cur, rfl⟩
  obtain ⟨o, mp1⟩ := r
  obtain ⟨c, hc⟩ := hc
  simp only at hc
  subst hc
  cases o with
  | some move => exact ⟨rfl, rfl⟩
  | none => exact case_BAD_CAPTURES_buffer _

/-- QUIET_INIT and the phases it falls through to leave the slots below `endBadCaptures`
as they are. -/
theorem case_QUIET_INIT_buffer (mp : MovePicker) (sq : Bool) :
    (case_QUIET_INIT mp sq).2.2.endBadCaptures = mp.endBadCaptures
    ∧ ∀ i, i < mp.endBadCaptures → (case_QUIET_INIT mp sq).2.2.moves i = mp.moves i := by
  obtain ⟨buf, hb1, _, hb3⟩ := case_QUIET_INIT_eq mp sq
  rw [hb3]
  obtain ⟨h1, h2⟩ := case_QUIET_buffer
    { mp with
      stage := mp.stage + 1, moves := buf, cur := mp.endBadCaptures,
      endMoves := mp.endBadCaptures + mp.pos.genNON_CAPTURES_PRO_MINUS.length,
      generated := mp.generated ++ [MOVE_GEN_TYPE.NON_CAPTURES_PRO_MINUS] } sq
  refine ⟨h2, ?_⟩
  intro i hi
  rw [h1]
  exact hb1 i hi

/-! ## A normal-search picker runs out of moves -/

theorem callsLeft_MAIN_SEARCH (mp : MovePicker) (h : mp.stage = MAIN_SEARCH) :
    callsLeft mp
      = 2 * mp.pos.genCAPTURES_PRO_PLUS.length + mp.pos.genNON_CAPTURES_PRO_MINUS.length + 5 := by
  unfold callsLeft
  rw [if_pos h]

theorem callsLeft_CAPTURES_INIT (mp : MovePicker) (h : mp.stage = CAPTURES_INIT) :
    callsLeft mp
      = 2 * mp.pos.genCAPTURES_PRO_PLUS.length + mp.pos.genNON_CAPTURES_PRO_MINUS.length + 4 := by
  unfold callsLeft
  rw [if_neg (by rw [h]; decide), if_pos h]

theorem callsLeft_GOOD_CAPTURES (mp : MovePicker) (h : mp.stage = GOOD_CAPTURES) :
    callsLeft mp
      = (mp.endMoves - mp.cur) + mp.endMoves + mp.pos.genNON_CAPTURES_PRO_MINUS.length + 4 := by
  unfold callsLeft
  rw [if_neg (by rw [h]; decide), if_neg (by rw [h]; decide), if_pos h]

theorem callsLeft_KILLER0 (mp : MovePicker) (h : mp.stage = KILLER0) :
    callsLeft mp = mp.endBadCaptures + mp.pos.genNON_CAPTURES_PRO_MINUS.length + 4 := by
  unfold callsLeft
  rw [if_neg (by rw [h]; decide), if_neg (by rw [h]; decide), if_neg (by rw [h]; decide),
    if_pos h]

theorem callsLeft_KILLER1 (mp : MovePicker) (h : mp.stage = KILLER1) :
    callsLeft mp = mp.endBadCaptures + mp.pos.genNON_CAPTURES_PRO_MINUS.length + 3 := by
  unfold callsLeft
  rw [if_neg (by rw [h]; decide), if_neg (by rw [h]; decide), if_neg (by rw [h]; decide),
    if_neg (by rw [h]; decide), if_pos h]

theorem callsLeft_COUNTERMOVE (mp : MovePicker) (h : mp.stage = COUNTERMOVE) :
    callsLeft mp = mp.endBadCaptures + mp.pos.genNON_CAPTURES_PRO_MINUS.length + 2 := by
  unfold callsLeft
  rw [if_neg (by rw [h]; decide), if_neg (by rw [h]; decide), if_neg (by rw [h]; decide),
    if_neg (by rw [h]; decide), if_neg (by rw [h]; decide), if_pos h]

theorem callsLeft_QUIET_INIT (mp : MovePicker) (h : mp.stage = QUIET_INIT) :
    callsLeft mp = mp.endBadCaptures + mp.pos.genNON_CAPTURES_PRO_MINUS.length + 1 := by
  unfold callsLeft
  rw [if_neg (by rw [h]; decide), if_neg (by rw [h]; decide), if_neg (by rw [h]; decide),
    if_neg (by rw [h]; decide), if_neg (by rw [h]; decide), if_neg (by rw [h]; decide),
    if_pos h]

theorem callsLeft_QUIET (mp : MovePicker) (h : mp.stage = QUIET) :
    callsLeft mp = mp.endBadCaptures + (mp.endMoves - mp.cur) + 1 := by
  unfold callsLeft
  rw [if_neg (by rw [h]; decide), if_neg (by rw [h]; decide), if_neg (by rw [h]; decide),
    if_neg (by rw [h]; decide), if_neg (by rw [h]; decide), if_neg (by rw [h]; decide),
    if_neg (by rw [h]; decide), if_pos h]

theorem callsLeft_BAD_CAPTURES (mp : MovePicker) (h : mp.stage = BAD_CAPTURES) :
    callsLeft mp = mp.endBadCaptures - mp.cur := by
  unfold callsLeft
  rw [if_neg (by rw [h]; decide), if_neg (by rw [h]; decide), if_neg (by rw [h]; decide),
    if_neg (by rw [h]; decide), if_neg (by rw [h]; decide), if_neg (by rw [h]; decide),
    if_neg (by rw [h]; decide), if_neg (by rw [h]; decide)]

theorem cursorsOK_of (mp : MovePicker) (h1 : mp.stage ≤ BAD_CAPTURES)
    (h2 : mp.stage ≠ GOOD_CAPTURES) : CursorsOK mp :=
  ⟨h1, fun h => absurd h h2⟩

theorem progress_mono (mp mp1 : MovePicker) (r : ReturnSite × Move × MovePicker)
    (h : Progress mp1 r) (hp : mp1.pos = mp.pos) (hle : callsLeft mp1 ≤ callsLeft mp) :
    Progress mp r :=
  ⟨h.1.trans hp, h.2.1, h.2.2.imp id (fun h2 => lt_of_lt_of_le h2 hle)⟩

/-- The loop of QUIET and QCHECKS moves `cur` forward, within the range, when it returns
a move. -/
theorem scanLoop_cur (accept : Move → Bool) :
    ∀ (n : Nat) (mp : MovePicker) (m : Move), (scanLoop accept n mp).1 = some m →
      mp.cur < (scanLoop accept n mp).2.cur ∧ (scanLoop accept n mp).2.cur ≤ mp.endMoves := by
  intro n
  induction n with
  | zero =>
    intro mp m h
    exact absurd h (by simp [scanLoop])
  | succ n ih =>
    intro mp m
    unfold scanLoop
    by_cases hc : mp.cur < mp.endMoves
    · rw [if_pos hc]
      by_cases ha : accept (mp.moves mp.cur).move = true
      · simp only [if_pos ha]
        intro _
        exact ⟨Nat.lt_succ_self _, hc⟩
      · simp only [if_neg ha]
        intro h
        obtain ⟨h1, h2⟩ := ih { mp with cur := mp.cur + 1 } m h
        exact ⟨Nat.lt_of_succ_lt h1, h2⟩
    · rw [if_neg hc]
      intro h
      exact absurd h (by simp)

/-- The loop of GOOD_CAPTURES keeps the position, the stage and `endMoves`, keeps
`endBadCaptures ≤ cur ≤ endMoves`, and moves `cur` forward when it returns a move. -/
theorem goodCapturesLoop_cur :
    ∀ (n : Nat) (mp : MovePicker), mp.endBadCaptures ≤ mp.cur → mp.cur ≤ mp.endMoves →
      (goodCapturesLoop n mp).2.pos = mp.pos
      ∧ (goodCapturesLoop n mp).2.stage = mp.stage
      ∧ (goodCapturesLoop n mp).2.endMoves = mp.endMoves
      ∧ (goodCapturesLoop n mp).2.endBadCaptures ≤ (goodCapturesLoop n mp).2.cur
      ∧ (goodCapturesLoop n mp).2.cur ≤ mp.endMoves
      ∧ (∀ m, (goodCapturesLoop n mp).1 = some m → mp.cur < (goodCapturesLoop n mp).2.cur) := by
  intro n
  induction n with
  | zero =>
    intro mp h1 h2
    exact ⟨rfl, rfl, rfl, h1, h2, fun m h => absurd h (by simp [goodCapturesLoop])⟩
  | succ n ih =>
    intro mp h1 h2
    rw [goodCapturesLoop_succ]
    by_cases hc : mp.cur < mp.endMoves
    · rw [if_pos hc]
      by_cases htt : ((pick_best mp.moves mp.cur mp.endMoves).1 != mp.ttMove) = true
      · rw [if_pos htt]
        by_cases hsee : mp.pos.see_ge (pick_best mp.moves mp.cur mp.endMoves).1 0 = true
        · rw [if_pos hsee]
          exact ⟨rfl, rfl, rfl, Nat.le_succ_of_le h1, hc, fun _ _ => Nat.lt_succ_self _⟩
        · rw [if_neg hsee]
          obtain ⟨k1, k2, k3, k4, k5, k6⟩ := ih
            { mp with
              moves := fun i =>
                if i = mp.endBadCaptures then
                  { (pick_best mp.moves mp.cur mp.endMoves).2 i with
                    move := (pick_best mp.moves mp.cur mp.endMoves).1 }
                else (pick_best mp.moves mp.cur mp.endMoves).2 i,
              cur := mp.cur + 1,
              endBadCaptures := mp.endBadCaptures + 1 }
            (Nat.succ_le_succ h1) hc
          exact ⟨k1, k2, k3, k4, k5, fun m hm => Nat.lt_of_succ_lt (k6 m hm)⟩
      · rw [if_neg htt]
        obtain ⟨k1, k2, k3, k4, k5, k6⟩ := ih
          { mp with moves := (pick_best mp.moves mp.cur mp.endMoves).2, cur := mp.cur + 1 }
          (Nat.le_succ_of_le h1) hc
        exact ⟨k1, k2, k3, k4, k5, fun m hm => Nat.lt_of_succ_lt (k6 m hm)⟩
    · rw [if_neg hc]
      exact ⟨rfl, rfl, rfl, h1, h2, fun m h => absurd h (by simp)⟩

theorem progress_BAD_CAPTURES (mp : MovePicker) (hs : mp.stage = BAD_CAPTURES) :
    Progress mp (case_BAD_CAPTURES mp) := by
  have hinv : ∀ c, CursorsOK ({ mp with cur := c } : MovePicker) := fun c =>
    cursorsOK_of _ (le_of_eq hs) (by show mp.stage ≠ GOOD_CAPTURES; rw [hs]; decide)
  unfold case_BAD_CAPTURES
  by_cases hc : mp.cur < mp.endBadCaptures
  · rw [if_pos hc]
    refine ⟨rfl, hinv _, Or.inr ?_⟩
    rw [callsLeft_BAD_CAPTURES _
      (show ({ mp with cur := mp.cur + 1 } : MovePicker).stage = BAD_CAPTURES from hs),
      callsLeft_BAD_CAPTURES mp hs]
    show mp.endBadCaptures - (mp.cur + 1) < mp.endBadCaptures - mp.cur
    omega
  · rw [if_neg hc]
    exact ⟨rfl, cursorsOK_of _ (le_of_eq hs) (by rw [hs]; decide),
      Or.inl (Or.inl ⟨hs, Nat.le_of_not_lt hc⟩)⟩

theorem progress_QUIET (mp : MovePicker) (sq : Bool) (hs : mp.stage = QUIET) :
    Progress mp (case_QUIET mp sq) := by
  have hfall : ∀ c : Nat, Progress mp (case_BAD_CAPTURES
      { ({ mp with cur := c } : MovePicker) with stage := mp.stage + 1, cur := 0 }) := by
    intro c
    refine progress_mono mp _ _ (progress_BAD_CAPTURES _
      (by show mp.stage + 1 = BAD_CAPTURES; rw [hs])) rfl ?_
    rw [callsLeft_BAD_CAPTURES _ (by show mp.stage + 1 = BAD_CAPTURES; rw [hs]),
      callsLeft_QUIET mp hs]
    show mp.endBadCaptures - 0 ≤ _
    omega
  have hcur := scanLoop_cur mp.quietAccept (mp.endMoves - mp.cur) mp
  unfold case_QUIET
  generalize hr : (if (!sq) = true then scanLoop mp.quietAccept (mp.endMoves - mp.cur) mp
    else (none, mp)) = r
  have hc : ∃ c, r.2 = { mp with cur := c }
      ∧ (∀ m, r.1 = some m → mp.cur < c ∧ c ≤ mp.endMoves) := by
    rw [← hr]
    split
    · obtain ⟨c, hc⟩ := (scanLoop_inv mp.quietAccept (mp.endMoves - mp.cur) mp).1
      refine ⟨c, hc, ?_⟩
      intro m hm
      have h := hcur m hm
      rw [hc] at h
      exact h
    · exact ⟨mp.cur, rfl, fun m hm => absurd hm (by simp)⟩
  obtain ⟨o, mp1⟩ := r
  obtain ⟨c, hc, hlt⟩ := hc
  simp only at hc hlt
  subst hc
  cases o with
  | some move =>
    obtain ⟨h1, h2⟩ := hlt move rfl
    refine ⟨rfl, cursorsOK_of _ (by show mp.stage ≤ BAD_CAPTURES; rw [hs]; decide)
      (by show mp.stage ≠ GOOD_CAPTURES; rw [hs]; decide), Or.inr ?_⟩
    rw [callsLeft_QUIET _ (show ({ mp with cur := c } : MovePicker).stage = QUIET from hs),
      callsLeft_QUIET mp hs]
    show mp.endBadCaptures + (mp.endMoves - c) + 1
      < mp.endBadCaptures + (mp.endMoves - mp.cur) + 1
    omega
  | none => exact hfall c

theorem progress_QUIET_INIT (mp : MovePicker) (sq : Bool) (hs : mp.stage = QUIET_INIT) :
    Progress mp (case_QUIET_INIT mp sq) := by
  obtain ⟨buf, _, _, hb3⟩ := case_QUIET_INIT_eq mp sq
  rw [hb3]
  refine progress_mono mp _ _ (progress_QUIET _ sq
    (by show mp.stage + 1 = QUIET; rw [hs])) rfl ?_
  rw [callsLeft_QUIET _ (by show mp.stage + 1 = QUIET; rw [hs]), callsLeft_QUIET_INIT mp hs]
  show mp.endBadCaptures
      + (mp.endBadCaptures + mp.pos.genNON_CAPTURES_PRO_MINUS.length - mp.endBadCaptures) + 1
    ≤ mp.endBadCaptures + mp.pos.genNON_CAPTURES_PRO_MINUS.length + 1
  omega

theorem progress_COUNTERMOVE (mp : MovePicker) (sq : Bool) (hs : mp.stage = COUNTERMOVE) :
    Progress mp (case_COUNTERMOVE mp sq) := by
  have hle : callsLeft ({ mp with stage := mp.stage + 1 } : MovePicker) < callsLeft mp := by
    rw [callsLeft_QUIET_INIT _ (by show mp.stage + 1 = QUIET_INIT; rw [hs]),
      callsLeft_COUNTERMOVE mp hs]
    show mp.endBadCaptures + mp.pos.genNON_CAPTURES_PRO_MINUS.length + 1
      < mp.endBadCaptures + mp.pos.genNON_CAPTURES_PRO_MINUS.length + 2
    omega
  unfold case_COUNTERMOVE
  simp only []
  split
  · exact ⟨rfl, cursorsOK_of _ (by show mp.stage + 1 ≤ BAD_CAPTURES; rw [hs]; decide)
      (by show mp.stage + 1 ≠ GOOD_CAPTURES; rw [hs]; decide), Or.inr hle⟩
  · exact progress_mono mp _ _ (progress_QUIET_INIT { mp with stage := mp.stage + 1 } sq
      (by show mp.stage + 1 = QUIET_INIT; rw [hs])) rfl (le_of_lt hle)

theorem progress_KILLER1 (mp : MovePicker) (sq : Bool) (hs : mp.stage = KILLER1) :
    Progress mp (case_KILLER mp sq) := by
  have hle : callsLeft ({ mp with stage := mp.stage + 1 } : MovePicker) < callsLeft mp := by
    rw [callsLeft_COUNTERMOVE _ (by show mp.stage + 1 = COUNTERMOVE; rw [hs]),
      callsLeft_KILLER1 mp hs]
    show mp.endBadCaptures + mp.pos.genNON_CAPTURES_PRO_MINUS.length + 2
      < mp.endBadCaptures + mp.pos.genNON_CAPTURES_PRO_MINUS.length + 3
    omega
  rw [case_KILLER_stage4 mp sq hs]
  split
  · exact ⟨rfl, cursorsOK_of _ (by show mp.stage + 1 ≤ BAD_CAPTURES; rw [hs]; decide)
      (by show mp.stage + 1 ≠ GOOD_CAPTURES; rw [hs]; decide), Or.inr hle⟩
  · exact progress_mono mp _ _ (progress_COUNTERMOVE { mp with stage := mp.stage + 1 } sq
      (by show mp.stage + 1 = COUNTERMOVE; rw [hs])) rfl (le_of_lt hle)

theorem progress_KILLER0 (mp : MovePicker) (sq : Bool) (hs : mp.stage = KILLER0) :
    Progress mp (case_KILLER mp sq) := by
  have hle1 : callsLeft ({ mp with stage := mp.stage + 1 } : MovePicker) < callsLeft mp := by
    rw [callsLeft_KILLER1 _ (by show mp.stage + 1 = KILLER1; rw [hs]),
      callsLeft_KILLER0 mp hs]
    show mp.endBadCaptures + mp.pos.genNON_CAPTURES_PRO_MINUS.length + 3
      < mp.endBadCaptures + mp.pos.genNON_CAPTURES_PRO_MINUS.length + 4
    omega
  have hle2 : callsLeft ({ mp with stage := mp.stage + 1 + 1 } : MovePicker)
      < callsLeft mp := by
    rw [callsLeft_COUNTERMOVE _ (by show mp.stage + 1 + 1 = COUNTERMOVE; rw [hs]),
      callsLeft_KILLER0 mp hs]
    show mp.endBadCaptures + mp.pos.genNON_CAPTURES_PRO_MINUS.length + 2
      < mp.endBadCaptures + mp.pos.genNON_CAPTURES_PRO_MINUS.length + 4
    omega
  rw [case_KILLER_stage3 mp sq hs]
  split
  · exact ⟨rfl, cursorsOK_of _ (by show mp.stage + 1 ≤ BAD_CAPTURES; rw [hs]; decide)
      (by show mp.stage + 1 ≠ GOOD_CAPTURES; rw [hs]; decide), Or.inr hle1⟩
  · split
    · exact ⟨rfl, cursorsOK_of _ (by show mp.stage + 1 + 1 ≤ BAD_CAPTURES; rw [hs]; decide)
        (by show mp.stage + 1 + 1 ≠ GOOD_CAPTURES; rw [hs]; decide), Or.inr hle2⟩
    · exact progress_mono mp _ _
        (progress_COUNTERMOVE { mp with stage := mp.stage + 1 + 1 } sq
          (by show mp.stage + 1 + 1 = COUNTERMOVE; rw [hs])) rfl (le_of_lt hle2)

theorem progress_GOOD_CAPTURES (mp : MovePicker) (sq : Bool) (hs : mp.stage = GOOD_CAPTURES)
    (h1 : mp.endBadCaptures ≤ mp.cur) (h2 : mp.cur ≤ mp.endMoves) :
    Progress mp (case_GOOD_CAPTURES mp sq) := by
  have key := goodCapturesLoop_cur (mp.endMoves - mp.cur) mp h1 h2
  unfold case_GOOD_CAPTURES
  generalize goodCapturesLoop (mp.endMoves - mp.cur) mp = r at key ⊢
  obtain ⟨o, mp1⟩ := r
  obtain ⟨k1, k2, k3, k4, k5, k6⟩ := key
  simp only at k1 k2 k3 k4 k5 k6
  have hs1 : mp1.stage = GOOD_CAPTURES := by rw [k2, hs]
  cases o with
  | some move =>
    have hlt := k6 move rfl
    refine ⟨k1, ⟨by show mp1.stage ≤ BAD_CAPTURES; rw [hs1]; decide,
      fun _ => ⟨k4, by rw [k3]; exact k5⟩⟩, Or.inr ?_⟩
    show callsLeft mp1 < callsLeft mp
    rw [callsLeft_GOOD_CAPTURES mp1 hs1, callsLeft_GOOD_CAPTURES mp hs, k1, k3]
    omega
  | none =>
    refine progress_mono mp _ _ (progress_KILLER0 { mp1 with stage := mp1.stage + 1 } sq
      (by show mp1.stage + 1 = KILLER0; rw [hs1])) k1 ?_
    rw [callsLeft_KILLER0 _ (by show mp1.stage + 1 = KILLER0; rw [hs1]),
      callsLeft_GOOD_CAPTURES mp hs]
    show mp1.endBadCaptures + mp1.pos.genNON_CAPTURES_PRO_MINUS.length + 4 ≤ _
    rw [k1]
    omega

theorem progress_CAPTURES_INIT (mp : MovePicker) (sq : Bool) (hs : mp.stage = CAPTURES_INIT) :
    Progress mp (case_CAPTURES_INIT mp sq) := by
  have h : case_CAPTURES_INIT mp sq
      = case_GOOD_CAPTURES
          { (({ mp with endBadCaptures := 0, cur := 0 } : MovePicker).generateMoves
              .CAPTURES_PRO_PLUS 0).score_CAPTURES with stage := mp.stage + 1 } sq := rfl
  rw [h]
  refine progress_mono mp _ _ (progress_GOOD_CAPTURES _ sq
    (by show mp.stage + 1 = GOOD_CAPTURES; rw [hs]) (le_refl 0) (Nat.zero_le _)) rfl ?_
  rw [callsLeft_GOOD_CAPTURES _ (by show mp.stage + 1 = GOOD_CAPTURES; rw [hs]),
    callsLeft_CAPTURES_INIT mp hs]
  show (0 + mp.pos.genCAPTURES_PRO_PLUS.length - 0) + (0 + mp.pos.genCAPTURES_PRO_PLUS.length)
      + mp.pos.genNON_CAPTURES_PRO_MINUS.length + 4
    ≤ 2 * mp.pos.genCAPTURES_PRO_PLUS.length + mp.pos.genNON_CAPTURES_PRO_MINUS.length + 4
  omega

/-- One call on a normal-search picker off check, whatever its argument: the picker is
exhausted after it, or the bound `callsLeft` on the calls that still return a move is
smaller than before. -/
theorem progress_call (mp : MovePicker) (sq : Bool) (hinv : CursorsOK mp) :
    Progress mp (next_move_traced mp sq) := by
  obtain ⟨hle, hgood⟩ := hinv
  have hcases : mp.stage = 0 ∨ mp.stage = 1 ∨ mp.stage = 2 ∨ mp.stage = 3 ∨ mp.stage = 4
      ∨ mp.stage = 5 ∨ mp.stage = 6 ∨ mp.stage = 7 ∨ mp.stage = 8 := by
    have : mp.stage ≤ 8 := hle
    omega
  rcases hcases with h | h | h | h | h | h | h | h | h
  · rw [next_move_traced_ttStage mp sq (Or.inl h)]
    refine ⟨rfl, cursorsOK_of _ (by show mp.stage + 1 ≤ BAD_CAPTURES; rw [h]; decide)
      (by show mp.stage + 1 ≠ GOOD_CAPTURES; rw [h]; decide), Or.inr ?_⟩
    rw [callsLeft_CAPTURES_INIT _ (by show mp.stage + 1 = CAPTURES_INIT; rw [h]),
      callsLeft_MAIN_SEARCH mp h]
    show 2 * mp.pos.genCAPTURES_PRO_PLUS.length + mp.pos.genNON_CAPTURES_PRO_MINUS.length + 4
      < 2 * mp.pos.genCAPTURES_PRO_PLUS.length + mp.pos.genNON_CAPTURES_PRO_MINUS.length + 5
    omega
  · rw [next_move_traced_CAPTURES_INIT mp sq h]
    exact progress_CAPTURES_INIT mp sq h
  · rw [next_move_traced_GOOD_CAPTURES mp sq h]
    exact progress_GOOD_CAPTURES mp sq h (hgood h).1 (hgood h).2
  · rw [next_move_traced_KILLER0 mp sq h]
    exact progress_KILLER0 mp sq h
  · rw [next_move_traced_KILLER1 mp sq h]
    exact progress_KILLER1 mp sq h
  · rw [next_move_traced_COUNTERMOVE mp sq h]
    exact progress_COUNTERMOVE mp sq h
  · rw [next_move_traced_QUIET_INIT mp sq h]
    exact progress_QUIET_INIT mp sq h
  · rw [next_move_traced_QUIET mp sq h]
    exact progress_QUIET mp sq h
  · rw [next_move_traced_BAD_CAPTURES mp sq h]
    exact progress_BAD_CAPTURES mp h

/-- A picker with no call left is exhausted. -/
theorem callsLeft_zero (mp : MovePicker) (hinv : CursorsOK mp) (h : callsLeft mp = 0) :
    Exhausted mp := by
  have hcases : mp.stage = 0 ∨ mp.stage = 1 ∨ mp.stage = 2 ∨ mp.stage = 3 ∨ mp.stage = 4
      ∨ mp.stage = 5 ∨ mp.stage = 6 ∨ mp.stage = 7 ∨ mp.stage = 8 := by
    have : mp.stage ≤ 8 := hinv.1
    omega
  rcases hcases with hs | hs | hs | hs | hs | hs | hs | hs | hs
  · rw [callsLeft_MAIN_SEARCH mp hs] at h
    omega
  · rw [callsLeft_CAPTURES_INIT mp hs] at h
    omega
  · rw [callsLeft_GOOD_CAPTURES mp hs] at h
    omega
  · rw [callsLeft_KILLER0 mp hs] at h
    omega
  · rw [callsLeft_KILLER1 mp hs] at h
    omega
  · rw [callsLeft_COUNTERMOVE mp hs] at h
    omega
  · rw [callsLeft_QUIET_INIT mp hs] at h
    omega
  · rw [callsLeft_QUIET mp hs] at h
    omega
  · rw [callsLeft_BAD_CAPTURES mp hs] at h
    exact Or.inl ⟨hs, by omega⟩

/-- After at least `callsLeft mp` calls, whatever their arguments, a normal-search picker
off check is exhausted. -/
theorem progress_run : ∀ (flags : List Bool) (mp : MovePicker), CursorsOK mp →
    callsLeft mp ≤ flags.length → Exhausted (after mp flags) := by
  intro flags
  induction flags with
  | nil =>
    intro mp hinv h
    exact callsLeft_zero mp hinv (Nat.le_zero.mp h)
  | cons sq rest ih =>
    intro mp hinv h
    obtain ⟨_, h2, h3⟩ := progress_call mp sq hinv
    show Exhausted (after (next_move_traced mp sq).2.2 rest)
    rcases h3 with h3 | h3
    · rw [exhausted_after _ h3 rest]
      exact h3
    · have h4 : callsLeft mp ≤ rest.length + 1 := h
      exact ih _ h2 (by omega)

theorem after_snoc : ∀ (flags : List Bool) (mp : MovePicker) (sq : Bool),
    after mp (flags ++ [sq]) = (next_move (after mp flags) sq).2 := by
  intro flags
  induction flags with
  | nil => exact fun mp sq => rfl
  | cons b rest ih => exact fun mp sq => ih (next_move mp b).2 sq

/-! ## BAD_CAPTURES returns the captures set aside -/

/-- C17: in a normal-search picker off check, after any sequence of calls,
`endBadCaptures ≤ cur` holds at GOOD_CAPTURES. From a state in which it holds, every
write of the loop of GOOD_CAPTURES that sets a capture aside goes to a slot below `cur`,
so not to a slot of the captures still to be picked, `endBadCaptures ≤ cur` holds after
the loop, and the slots below `endBadCaptures` then hold what they held followed by the
moves set aside, in the order of the writes. QUIET_INIT, with the phases it falls through
to, leaves `endBadCaptures` and every slot below it as they are, whatever the quiet batch
is. So for every sequence of calls the moves returned by BAD_CAPTURES followed by the
moves it has still to return are the moves set aside by these calls, in the order in
which they were set aside; once the picker is exhausted the moves returned by
BAD_CAPTURES are exactly the moves set aside. The picker does get exhausted: when a call
takes the `return MOVE_NONE` that ends `next_move`, the moves that BAD_CAPTURES returned
up to this call are exactly the moves set aside; and after any sequence of at least
2 * (size of the capture batch) + (size of the quiet batch) + 5 calls, whatever their
arguments and whatever the batches hold, the picker is exhausted, the next call returns
MOVE_NONE, and the moves that BAD_CAPTURES returned are exactly the moves set aside, in
the order in which they were set aside. -/
theorem bad_captures_not_overwritten (env : Env) (raw : MovePicker) (p : Position)
    (ttm : Move) (d : Depth) (mh : Nat → Color → Value) (ch : Nat → Square → Piece → Value)
    (cm k0 k1 : Move) (mp mp2 : MovePicker) (sq : Bool) (flags : List Bool) (n : Nat)
    (hc : p.in_check = false)
    (hr : Reachable (MovePicker.normal env raw p ttm d mh ch cm k0 k1) mp) :
    (mp.stage = GOOD_CAPTURES → mp.endBadCaptures ≤ mp.cur)
    ∧ (mp2.endBadCaptures ≤ mp2.cur →
        (∀ x ∈ setAsideLog n mp2,
          mp2.endBadCaptures ≤ x.1 ∧ x.1 < x.2.1 ∧ x.2.1 ≤ mp2.endMoves)
        ∧ (goodCapturesLoop n mp2).2.endBadCaptures
            = mp2.endBadCaptures + (setAsideLog n mp2).length
        ∧ (goodCapturesLoop n mp2).2.endBadCaptures ≤ (goodCapturesLoop n mp2).2.cur
        ∧ movesOf (slice (goodCapturesLoop n mp2).2.moves 0
              (goodCapturesLoop n mp2).2.endBadCaptures)
            = movesOf (slice mp2.moves 0 mp2.endBadCaptures)
              ++ (setAsideLog n mp2).map (fun x => x.2.2))
    ∧ ((case_QUIET_INIT mp2 sq).2.2.endBadCaptures = mp2.endBadCaptures
        ∧ ∀ i, i < mp2.endBadCaptures → (case_QUIET_INIT mp2 sq).2.2.moves i = mp2.moves i)
    ∧ badMoves (run (MovePicker.normal env raw p ttm d mh ch cm k0 k1) flags)
          ++ pendingBad (after (MovePicker.normal env raw p ttm d mh ch cm k0 k1) flags)
        = setAsideRun (MovePicker.normal env raw p ttm d mh ch cm k0 k1) flags
    ∧ (Exhausted (after (MovePicker.normal env raw p ttm d mh ch cm k0 k1) flags) →
        badMoves (run (MovePicker.normal env raw p ttm d mh ch cm k0 k1) flags)
          = setAsideRun (MovePicker.normal env raw p ttm d mh ch cm k0 k1) flags)
    ∧ ((next_move_traced (after (MovePicker.normal env raw p ttm d mh ch cm k0 k1) flags)
          sq).1 = .exhausted →
        badMoves (run (MovePicker.normal env raw p ttm d mh ch cm k0 k1) (flags ++ [sq]))
          = setAsideRun (MovePicker.normal env raw p ttm d mh ch cm k0 k1) (flags ++ [sq]))
    ∧ (2 * p.genCAPTURES_PRO_PLUS.length + p.genNON_CAPTURES_PRO_MINUS.length + 5
          ≤ flags.length →
        Exhausted (after (MovePicker.normal env raw p ttm d mh ch cm k0 k1) flags)
        ∧ (next_move_traced (after (MovePicker.normal env raw p ttm d mh ch cm k0 k1) flags)
            sq).1 = .exhausted
        ∧ (next_move (after (MovePicker.normal env raw p ttm d mh ch cm k0 k1) flags) sq).1
            = MOVE_NONE
        ∧ badMoves (run (MovePicker.normal env raw p ttm d mh ch cm k0 k1) flags)
            = setAsideRun (MovePicker.normal env raw p ttm d mh ch cm k0 k1) flags) := by
  have hstart := (normal_start env raw p ttm d mh ch cm k0 k1).1 hc
  have hs0 : (MovePicker.normal env raw p ttm d mh ch cm k0 k1).stage = 0
      ∨ (MovePicker.normal env raw p ttm d mh ch cm k0 k1).stage = 1 := by
    rcases hstart with ⟨h, _⟩ | ⟨h, _⟩
    · exact Or.inl h
    · exact Or.inr h
  have hp0 : pendingBad (MovePicker.normal env raw p ttm d mh ch cm k0 k1) = [] := by
    unfold pendingBad
    rw [if_pos (by rcases hs0 with h | h <;> rw [h] <;> decide)]
  have hrun : ∀ fl : List Bool,
      badMoves (run (MovePicker.normal env raw p ttm d mh ch cm k0 k1) fl)
          ++ pendingBad (after (MovePicker.normal env raw p ttm d mh ch cm k0 k1) fl)
        = setAsideRun (MovePicker.normal env raw p ttm d mh ch cm k0 k1) fl := by
    intro fl
    have h := bad_run fl (MovePicker.normal env raw p ttm d mh ch cm k0 k1)
      (by rcases hs0 with h | h <;> rw [h] <;> decide)
      (by
        intro h
        rcases hs0 with h2 | h2 <;> rw [h2] at h <;> exact absurd h (by decide))
    rw [hp0, List.nil_append] at h
    exact h
  have hexh : ∀ fl : List Bool,
      Exhausted (after (MovePicker.normal env raw p ttm d mh ch cm k0 k1) fl) →
      badMoves (run (MovePicker.normal env raw p ttm d mh ch cm k0 k1) fl)
        = setAsideRun (MovePicker.normal env raw p ttm d mh ch cm k0 k1) fl := by
    intro fl hex
    have hin := (in_protocol _ (after (MovePicker.normal env raw p ttm d mh ch cm k0 k1) fl)
      sq (Constructed.normal env raw p ttm d mh ch cm k0 k1)
      (reachable_after _ fl _ Reachable.init)).2.1
    have hle : (after (MovePicker.normal env raw p ttm d mh ch cm k0 k1) fl).stage ≤ 8 := by
      rcases hs0 with h | h <;> rw [h] at hin <;> exact hin
    have hpe : pendingBad (after (MovePicker.normal env raw p ttm d mh ch cm k0 k1) fl)
        = [] := by
      rcases hex with ⟨h1, h2⟩ | ⟨h1, _⟩
      · rw [pendingBad_at _ h1, slice_of_le h2]
        rfl
      · exfalso
        rcases h1 with h | h | h | h | h <;> rw [h] at hle <;> exact absurd hle (by decide)
    have h := hrun fl
    rw [hpe, List.append_nil] at h
    exact h
  obtain ⟨⟨⟨_, _, _, _, hb3, _⟩, _⟩, _⟩ := constructed_reachable (fun _ => True) _ mp sq
    (Constructed.normal env raw p ttm d mh ch cm k0 k1) (emits_true _) hr
  refine ⟨hb3, ?_, case_QUIET_INIT_buffer mp2 sq, hrun flags, hexh flags, ?_, ?_⟩
  · intro h
    obtain ⟨h1, h2, h3, h4⟩ := goodCapturesLoop_log n mp2 h
    exact ⟨h3, h1, h2, h4⟩
  · intro hsite
    apply hexh
    rw [after_snoc]
    obtain ⟨_, _, _, _, _, h5, _⟩ := constructed_reachable (fun _ => True) _
      (after (MovePicker.normal env raw p ttm d mh ch cm k0 k1) flags) sq
      (Constructed.normal env raw p ttm d mh ch cm k0 k1) (emits_true _)
      (reachable_after _ flags _ Reachable.init)
    rcases h5 with ⟨_, h7⟩ | ⟨_, h7⟩
    · rw [h7] at hsite
      exact absurd hsite (by simp)
    · rw [hsite] at h7
      exact h7.2
  · intro hlen
    have hinv0 : CursorsOK (MovePicker.normal env raw p ttm d mh ch cm k0 k1) :=
      cursorsOK_of _ (by rcases hs0 with h | h <;> rw [h] <;> decide)
        (by rcases hs0 with h | h <;> rw [h] <;> decide)
    have hcl : callsLeft (MovePicker.normal env raw p ttm d mh ch cm k0 k1)
        ≤ 2 * p.genCAPTURES_PRO_PLUS.length + p.genNON_CAPTURES_PRO_MINUS.length + 5 := by
      rcases hs0 with h | h
      · rw [callsLeft_MAIN_SEARCH _ h]
        exact le_refl _
      · rw [callsLeft_CAPTURES_INIT _ h]
        exact Nat.le_succ _
    have hex := progress_run flags _ hinv0 (le_trans hcl hlen)
    refine ⟨hex, ?_, ?_, hexh flags hex⟩
    · rw [exhausted_call _ sq hex]
    · show (next_move_traced _ sq).2.1 = MOVE_NONE
      rw [exhausted_call _ sq hex]

/-- Witness of C17: the example picker with a killer; after its first call it is at
GOOD_CAPTURES, its second call sets the capture 12 aside, its sixth call returns 12 from
BAD_CAPTURES, and after thirteen calls it is exhausted. -/
theorem bad_captures_not_overwritten_witness :
    exPos.in_check = false
    ∧ Reachable exKillerPicker (after exKillerPicker [false])
    ∧ (after exKillerPicker [false]).endBadCaptures ≤ (after exKillerPicker [false]).cur
    ∧ setAsideCall (after exKillerPicker [false]) = [12]
    ∧ next_move_traced (after exKillerPicker [false, false, false, false, false]) false
        = (.badCapture, 12, after exKillerPicker [false, false, false, false, false, false])
    ∧ 2 * exPos.genCAPTURES_PRO_PLUS.length + exPos.genNON_CAPTURES_PRO_MINUS.length + 5
        ≤ (List.replicate 13 false).length
    ∧ Exhausted (after exKillerPicker (List.replicate 13 false))
    ∧ (next_move (after exKillerPicker (List.replicate 13 false)) false).1 = MOVE_NONE
    ∧ badMoves (run exKillerPicker (List.replicate 13 false))
        = setAsideRun exKillerPicker (List.replicate 13 false) :=
  have hr : Reachable exKillerPicker (after exKillerPicker [false]) :=
    reachable_after exKillerPicker [false] exKillerPicker Reachable.init
  have h := bad_captures_not_overwritten exEnv exRaw exPos 0 3 exHistory exContHistory 0 13 0
    (after exKillerPicker [false]) exRaw false (List.replicate 13 false) 0 rfl hr
  have h7 := h.2.2.2.2.2.2 (by decide)
  ⟨rfl, hr, h.1 (by decide), by decide, rfl, by decide, h7.1, h7.2.2.1, h7.2.2.2⟩

/-! ## The first call -/

/-- The call at QRECAPTURES on a range that holds a whole batch `L`: it returns a move of
the batch, or, when the batch is empty, MOVE_NONE from the end of the protocol. -/
theorem case_QRECAPTURES_first (mp : MovePicker) (L : List Move)
    (hr : ∀ i, mp.cur ≤ i → i < mp.endMoves → (mp.moves i).move ∈ L)
    (hend : mp.endMoves = mp.cur + L.length) :
    ((case_QRECAPTURES mp).1 = .recapture ∧ (case_QRECAPTURES mp).2.1 ∈ L)
    ∨ ((case_QRECAPTURES mp).1 = .exhausted ∧ (case_QRECAPTURES mp).2.1 = MOVE_NONE
        ∧ L = []) := by
  unfold case_QRECAPTURES
  by_cases hb : L = []
  · right
    rw [pickLoop_done _ _ mp (by rw [hend, hb]; exact le_refl _)]
    exact ⟨rfl, rfl, hb⟩
  · left
    have hlt : mp.cur < mp.endMoves := by
      have := List.length_pos.mpr hb
      omega
    rw [pickLoop_unroll _ mp hlt, if_pos rfl]
    refine ⟨rfl, ?_⟩
    show (pick_best mp.moves mp.cur mp.endMoves).1 ∈ _
    rw [(pick_best_spec mp.moves hlt).1]
    exact pick_best_range mp.moves mp.cur mp.endMoves _ hr mp.cur (le_refl _) hlt

/-- The call that starts at QSEARCH_RECAPTURES returns, from QRECAPTURES, a move of the
RECAPTURES batch for `recaptureSquare`, or, when that batch is empty, MOVE_NONE from the
end of the protocol. The hash move is not read. -/
theorem case_QSEARCH_RECAPTURES_first (mp : MovePicker) :
    ((case_QSEARCH_RECAPTURES mp).1 = .recapture
        ∧ (case_QSEARCH_RECAPTURES mp).2.1 ∈ mp.pos.genRECAPTURES mp.recaptureSquare)
    ∨ ((case_QSEARCH_RECAPTURES mp).1 = .exhausted
        ∧ (case_QSEARCH_RECAPTURES mp).2.1 = MOVE_NONE
        ∧ mp.pos.genRECAPTURES mp.recaptureSquare = []) := by
  have h : case_QSEARCH_RECAPTURES mp
      = case_QRECAPTURES { (({ mp with cur := 0 } : MovePicker).generateMoves
          .RECAPTURES 0).score_CAPTURES with stage := mp.stage + 1 } := rfl
  rw [h]
  apply case_QRECAPTURES_first
  · intro i _ hi2
    show (((({ mp with cur := 0 } : MovePicker).generateMoves
      .RECAPTURES 0).scoreWith _).moves i).move ∈ _
    rw [scoreWith_move]
    exact generateMoves_range ({ mp with cur := 0 } : MovePicker) .RECAPTURES 0 i
      (Nat.zero_le _) hi2
  · rfl

/-- C1, as amended: a hash move that is not MOVE_NONE and passes
`pseudo_legal_s<false>` is what the first call of `next_move` returns for the
normal-search picker, for the quiescence picker when the position is in check or
the depth is above DEPTH_QS_RECAPTURES, and, when it is also a capture with
`see_ge(ttm, threshold)`, for the ProbCut picker. In recapture-only mode (position not in
check, depth at or below DEPTH_QS_NO_CHECKS and DEPTH_QS_RECAPTURES) the quiescence
picker is the one built with MOVE_NONE, and its first call returns, from QRECAPTURES, a
move of the RECAPTURES batch for the recapture square, or, when that batch is empty,
MOVE_NONE from the end of the protocol. -/
theorem hash_move_returned_first (env : Env) (raw : MovePicker) (p : Position) (ttm : Move)
    (d : Depth) (mh : Nat → Color → Value) (ch : Nat → Square → Piece → Value)
    (cm k0 k1 : Move) (recapSq : Square) (th : Value) (skipQuiets : Bool)
    (hne : ttm ≠ MOVE_NONE) (hpl : p.pseudo_legal_s ttm = true) :
    (next_move (MovePicker.normal env raw p ttm d mh ch cm k0 k1) skipQuiets).1 = ttm
    ∧ (p.in_check = true ∨ d > env.DEPTH_QS_RECAPTURES →
        (next_move (MovePicker.quiescence env raw p ttm d mh recapSq) skipQuiets).1 = ttm)
    ∧ (p.capture ttm = true → p.see_ge ttm th = true →
        (next_move (MovePicker.probcut env raw p ttm th) skipQuiets).1 = ttm)
    ∧ (p.in_check = false → d ≤ env.DEPTH_QS_NO_CHECKS → d ≤ env.DEPTH_QS_RECAPTURES →
        MovePicker.quiescence env raw p ttm d mh recapSq
          = MovePicker.quiescence env raw p MOVE_NONE d mh recapSq
        ∧ (((next_move_traced (MovePicker.quiescence env raw p ttm d mh recapSq)
                skipQuiets).1 = .recapture
            ∧ (next_move (MovePicker.quiescence env raw p ttm d mh recapSq) skipQuiets).1
                ∈ p.genRECAPTURES recapSq)
          ∨ ((next_move_traced (MovePicker.quiescence env raw p ttm d mh recapSq)
                skipQuiets).1 = .exhausted
            ∧ (next_move (MovePicker.quiescence env raw p ttm d mh recapSq) skipQuiets).1
                = MOVE_NONE
            ∧ p.genRECAPTURES recapSq = []))) := by
  refine ⟨?_, ?_, ?_, ?_⟩
  rotate_left 3
  · intro hc hd1 hd
    have h1 : ¬ d > env.DEPTH_QS_NO_CHECKS := not_lt.mpr hd1
    have h2 : ¬ d > env.DEPTH_QS_RECAPTURES := not_lt.mpr hd
    have hmode : ¬ (p.in_check = true ∨ d > env.DEPTH_QS_NO_CHECKS
        ∨ d > env.DEPTH_QS_RECAPTURES) := by
      rintro (h | h | h)
      · rw [hc] at h
        exact absurd h (by decide)
      · exact h1 h
      · exact h2 h
    have hq : ∀ t, MovePicker.quiescence env raw p t d mh recapSq
        = { ({ raw with env := env, pos := p, mainHistory := mh, generated := [] }
              : MovePicker) with
            stage := QSEARCH_RECAPTURES, recaptureSquare := recapSq } := by
      intro t
      rw [quiescence_eq, if_neg hmode]
    refine ⟨by rw [hq ttm, hq MOVE_NONE], ?_⟩
    rw [hq ttm]
    show ((next_move_traced _ skipQuiets).1 = .recapture
        ∧ (next_move_traced _ skipQuiets).2.1 ∈ _)
      ∨ ((next_move_traced _ skipQuiets).1 = .exhausted
        ∧ (next_move_traced _ skipQuiets).2.1 = MOVE_NONE ∧ _)
    rw [next_move_traced_QSEARCH_RECAPTURES _ skipQuiets rfl]
    exact case_QSEARCH_RECAPTURES_first
      { ({ raw with env := env, pos := p, mainHistory := mh, generated := [] }
          : MovePicker) with
        stage := QSEARCH_RECAPTURES, recaptureSquare := recapSq }
  · unfold next_move
    rw [next_move_traced_ttStage]
    · simp [MovePicker.normal, hne, hpl]
    · cases hc : p.in_check <;> simp [MovePicker.normal, hne, hpl, hc]
  · intro hmode
    unfold next_move
    rw [next_move_traced_ttStage]
    · unfold MovePicker.quiescence
      by_cases hc : p.in_check = true
      · simp [hc, MovePicker.withHashMove, hne, hpl]
      · by_cases h1 : d > env.DEPTH_QS_NO_CHECKS
        · simp [hc, h1, MovePicker.withHashMove, hne, hpl]
        · have h2 : d > env.DEPTH_QS_RECAPTURES := by
            rcases hmode with h | h
            · exact absurd h hc
            · exact h
          simp [hc, h1, h2, MovePicker.withHashMove, hne, hpl]
    · unfold MovePicker.quiescence
      by_cases hc : p.in_check = true
      · simp [hc, MovePicker.withHashMove, hne, hpl]
      · by_cases h1 : d > env.DEPTH_QS_NO_CHECKS
        · simp [hc, h1, MovePicker.withHashMove, hne, hpl]
        · have h2 : d > env.DEPTH_QS_RECAPTURES := by
            rcases hmode with h | h
            · exact absurd h hc
            · exact h
          simp [hc, h1, h2, MovePicker.withHashMove, hne, hpl]
  · intro hcap hsee
    unfold next_move
    rw [next_move_traced_ttStage]
    · simp [MovePicker.probcut, hne, hpl, hcap, hsee]
    · simp [MovePicker.probcut, hne, hpl, hcap, hsee]

/-- Witness of C1: hash move 21 on the example position, quiescence depth -2; at
quiescence depth -6, in recapture-only mode, the first call returns the recapture 11
from QRECAPTURES. -/
theorem hash_move_returned_first_witness :
    (21 : Move) ≠ MOVE_NONE ∧ exPos.pseudo_legal_s 21 = true
    ∧ (next_move (MovePicker.normal exEnv exRaw exPos 21 3 exHistory exContHistory 0 0 0)
        false).1 = 21
    ∧ (next_move (MovePicker.quiescence exEnv exRaw exPos 21 (-2) exHistory 0) false).1 = 21
    ∧ (MovePicker.quiescence exEnv exRaw exPos 21 (-6) exHistory 0
          = MovePicker.quiescence exEnv exRaw exPos MOVE_NONE (-6) exHistory 0
        ∧ (((next_move_traced (MovePicker.quiescence exEnv exRaw exPos 21 (-6) exHistory 0)
                false).1 = .recapture
            ∧ (next_move (MovePicker.quiescence exEnv exRaw exPos 21 (-6) exHistory 0) false).1
                ∈ exPos.genRECAPTURES 0)
          ∨ ((next_move_traced (MovePicker.quiescence exEnv exRaw exPos 21 (-6) exHistory 0)
                false).1 = .exhausted
            ∧ (next_move (MovePicker.quiescence exEnv exRaw exPos 21 (-6) exHistory 0) false).1
                = MOVE_NONE
            ∧ exPos.genRECAPTURES 0 = [])))
    ∧ next_move_traced (MovePicker.quiescence exEnv exRaw exPos 21 (-6) exHistory 0) false
        = (.recapture, 11,
            after (MovePicker.quiescence exEnv exRaw exPos 21 (-6) exHistory 0) [false]) :=
  have h := hash_move_returned_first exEnv exRaw exPos 21 (-2) exHistory exContHistory
    0 0 0 0 0 false (by decide) (by decide)
  ⟨by decide, by decide,
    (hash_move_returned_first exEnv exRaw exPos 21 3 exHistory exContHistory
      0 0 0 0 0 false (by decide) (by decide)).1,
    h.2.1 (Or.inr (by decide)),
    (hash_move_returned_first exEnv exRaw exPos 21 (-6) exHistory exContHistory
      0 0 0 0 0 false (by decide) (by decide)).2.2.2 (by decide) (by decide) (by decide),
    rfl⟩

/-- Counterexample to C1 as stated: in recapture-only mode (depth -6, at or below
DEPTH_QS_RECAPTURES = -5, position not in check) the pseudo-legal hash move 21 is not
what the first call returns; the call returns the recapture 11. -/
theorem hash_move_ignored_in_recapture_mode :
    (21 : Move) ≠ MOVE_NONE ∧ exPos.pseudo_legal_s 21 = true
    ∧ (next_move (MovePicker.quiescence exEnv exRaw exPos 21 (-6) exHistory 0) false).1 = 11 := by
  decide

end MovePick
